import Mathlib

/-!
LibPlayer HTTP client (`amffmpeg/libavformat/http.c`)

A shallow embedding of the HTTP protocol handler: the session record
`HTTPContext`, the transport it talks to (`World`), and the functions
`http_getc`, `http_get_line`, `process_line`, `http_connect`,
`http_close_and_keep`, `http_open_cnx`, `http_reopen_cnx`, `http_open`,
`http_read` and `http_seek`.

Conventions.
* C strings are lists of byte values (`Str`); a function that treats its
  argument as a NUL-terminated string first cuts it at the first 0 (`cstr`).
* `int` and `long` are 32 bits wide, `int64_t` 64 bits (the ARM Android
  target); values are `Int`, wrapped with `wrap32` / `wrap64` where the code
  narrows a value or adds caller-supplied offsets.
* The read buffer `buffer / buf_ptr / buf_end` is the list `buf` of bytes that
  are buffered and not yet consumed.
* Loops (`goto redo`, `goto retry`, `for(;;)`, `do .. while`) are recursive
  functions over a counter of iterations left; `none` means it ran out. A
  function takes one `fuel` argument and gives it to every loop below it.
* Logging (`av_log`) and the bandwidth meter calls have no effect on the
  session and are left out.
-/

namespace LibPlayer

/-- C string: the byte values of its characters. -/
abbrev Str := List Nat

/-! ## Constants -/

def BUFFER_SIZE : Nat := 1024 * 4
def MAX_REDIRECTS : Int := 8
def OPEN_RETRY_MAX : Int := 2
def READ_RETRY_MAX : Int := 3
def MAX_CONNECT_LINKS : Int := 1
def READ_SEEK_TIMES : Int := 10

/-- Size of URL buffers, `MAX_URL_SIZE` of `internal.h` (not among the sources). -/
def MAX_URL_SIZE : Nat := 4096

/-- Errno values of `<errno.h>` (Linux). -/
def EIO : Int := 5
def EAGAIN : Int := 11
def ETIMEDOUT : Int := 110

/-- The `AVERROR` of libavutil: the negated errno. -/
def AVERROR (e : Int) : Int := -e

/-- Flags of `avio.h`. -/
def AVIO_FLAG_READ : Nat := 1
def AVIO_FLAG_WRITE : Nat := 2
def AVIO_FLAG_READ_WRITE : Nat := 3
/-- Vendor flag of `avio.h` asking the tcp layer for short waits. -/
def URL_LESS_WAIT : Nat := 0x20

/-- Values of `whence`. -/
def SEEK_SET : Int := 0
def SEEK_CUR : Int := 1
def SEEK_END : Int := 2
def AVSEEK_SIZE : Int := 0x10000

/-- The auth type `HTTP_AUTH_NONE` of `httpauth.h`. -/
def HTTP_AUTH_NONE : Int := 0

/-! ## Machine integers -/

/-- Value of a 32-bit two's complement integer holding `x`. -/
def wrap32 (x : Int) : Int := (x + 2 ^ 31) % 2 ^ 32 - 2 ^ 31

/-- Value of a 64-bit two's complement integer holding `x`. -/
def wrap64 (x : Int) : Int := (x + 2 ^ 63) % 2 ^ 64 - 2 ^ 63

/-- Saturation to the range of a `w`-bit signed integer (strtol, strtoll). -/
def clamp (w : Nat) (x : Int) : Int :=
  if x < -(2 ^ (w - 1)) then -(2 ^ (w - 1))
  else if x > 2 ^ (w - 1) - 1 then 2 ^ (w - 1) - 1 else x

/-! ## C string functions -/

/-- The string a `char *` denotes: the bytes before the first NUL. -/
def cstr (l : Str) : Str := l.takeWhile (fun c => c != 0)

def isspace (c : Nat) : Bool := c == 32 || (9 ≤ c && c ≤ 13)

def isdigit (c : Nat) : Bool := 48 ≤ c && c ≤ 57

def tolower (c : Nat) : Nat := if 65 ≤ c ∧ c ≤ 90 then c + 32 else c

/-- Test `strcmp(a, b) == 0`. -/
def strcmp_eq (a b : Str) : Bool := cstr a == cstr b

/-- Test `strcasecmp(a, b) == 0`. -/
def strcasecmp_eq (a b : Str) : Bool := (cstr a).map tolower == (cstr b).map tolower

/-- Test `strncmp(a, b, n) == 0`. -/
def strncmp_eq (a b : Str) (n : Nat) : Bool := (cstr a).take n == (cstr b).take n

/-- Test `strncasecmp(a, b, n) == 0`. -/
def strncasecmp_eq (a b : Str) (n : Nat) : Bool :=
  ((cstr a).take n).map tolower == ((cstr b).take n).map tolower

/-- Substring search on NUL-free lists. -/
def isInfix : Str → Str → Bool
  | needle, [] => needle.isEmpty
  | needle, c :: hay => needle.isPrefixOf (c :: hay) || isInfix needle hay

/-- Test `strstr(hay, needle) != NULL`. -/
def strstr (hay needle : Str) : Bool := isInfix (cstr needle) (cstr hay)

/-- Test `av_stristart(str, pfx, NULL)`: `pfx` is a prefix of `str`, ignoring case. -/
def av_stristart (str pfx : Str) : Bool :=
  ((cstr pfx).map tolower).isPrefixOf ((cstr str).map tolower)

/-- Test `av_stristr(s1, s2) != NULL`: `s2` occurs in `s1`, ignoring case. -/
def av_stristr (s1 s2 : Str) : Bool :=
  isInfix ((cstr s2).map tolower) ((cstr s1).map tolower)

/-- Value of a digit character in bases up to 16, when it is one. -/
def digitVal (c : Nat) : Option Nat :=
  if 48 ≤ c ∧ c ≤ 57 then some (c - 48)
  else if 97 ≤ c ∧ c ≤ 102 then some (c - 87)
  else if 65 ≤ c ∧ c ≤ 70 then some (c - 55)
  else none

/-- Accumulate the leading digits of `p` in base `b`. -/
def parseDigits (b : Nat) : Str → Nat → Nat
  | [], acc => acc
  | c :: p, acc =>
    match digitVal c with
    | some d => if d < b then parseDigits b p (acc * b + d) else acc
    | none => acc

/-- Optional sign in front of a number: whether it is negative, and the rest. -/
def parseSign : Str → Bool × Str
  | 45 :: p => (true, p)
  | 43 :: p => (false, p)
  | p => (false, p)

/-- The unclamped value `strtol(p, _, 10)` parses: blanks, a sign, decimal digits. -/
def strtol10 (p : Str) : Int :=
  let q := parseSign ((cstr p).dropWhile isspace)
  let n : Int := parseDigits 10 q.2 0
  if q.1 then -n else n

/-- Skip a `0x` / `0X` prefix that is followed by a hexadecimal digit. -/
def skipHexPrefix : Str → Str
  | 48 :: x :: d :: p =>
    if (x = 120 ∨ x = 88) ∧ (digitVal d).isSome then d :: p else 48 :: x :: d :: p
  | p => p

/-- The unclamped value `strtoll(p, NULL, 16)` parses. -/
def strtoll16_raw (p : Str) : Int :=
  let q := parseSign ((cstr p).dropWhile isspace)
  let n : Int := parseDigits 16 (skipHexPrefix q.2) 0
  if q.1 then -n else n

/-- `strtol(p, &end, 10)` with a 32-bit `long`. -/
def strtol (p : Str) : Int := clamp 32 (strtol10 p)

/-- `atoll(p)`. -/
def atoll (p : Str) : Int := clamp 64 (strtol10 p)

/-- `strtoll(p, NULL, 16)`. -/
def strtoll16 (p : Str) : Int := clamp 64 (strtoll16_raw p)

/-! ## Header names and values -/

/-- The text `HTTP`. -/
def str_HTTP : Str := [72, 84, 84, 80]
/-- The text `http`. -/
def str_http : Str := [104, 116, 116, 112]
/-- The text `http://`. -/
def str_http_slashes : Str := [104, 116, 116, 112, 58, 47, 47]
/-- The text `Location`. -/
def str_Location : Str := [76, 111, 99, 97, 116, 105, 111, 110]
/-- The text `Content-Length`. -/
def str_Content_Length : Str := [67, 111, 110, 116, 101, 110, 116, 45, 76, 101, 110, 103, 116, 104]
/-- The text `Content-Range`. -/
def str_Content_Range : Str := [67, 111, 110, 116, 101, 110, 116, 45, 82, 97, 110, 103, 101]
/-- The text `bytes `. -/
def str_bytes_sp : Str := [98, 121, 116, 101, 115, 32]
/-- The text `Content-Encoding`. -/
def str_Content_Encoding : Str :=
  [67, 111, 110, 116, 101, 110, 116, 45, 69, 110, 99, 111, 100, 105, 110, 103]
/-- The text `identity`. -/
def str_identity : Str := [105, 100, 101, 110, 116, 105, 116, 121]
/-- The text `gzip`. -/
def str_gzip : Str := [103, 122, 105, 112]
/-- The text `deflate`. -/
def str_deflate : Str := [100, 101, 102, 108, 97, 116, 101]
/-- The text `Transfer-Encoding`. -/
def str_Transfer_Encoding : Str :=
  [84, 114, 97, 110, 115, 102, 101, 114, 45, 69, 110, 99, 111, 100, 105, 110, 103]
/-- The text `chunked`. -/
def str_chunked : Str := [99, 104, 117, 110, 107, 101, 100]
/-- The text `WWW-Authenticate`. -/
def str_WWW_Authenticate : Str :=
  [87, 87, 87, 45, 65, 117, 116, 104, 101, 110, 116, 105, 99, 97, 116, 101]
/-- The text `Authentication-Info`. -/
def str_Authentication_Info : Str :=
  [65, 117, 116, 104, 101, 110, 116, 105, 99, 97, 116, 105, 111, 110, 45, 73, 110, 102, 111]
/-- The text `Connection`. -/
def str_Connection : Str := [67, 111, 110, 110, 101, 99, 116, 105, 111, 110]
/-- The text `close`. -/
def str_close : Str := [99, 108, 111, 115, 101]
/-- The text `Keep-Alive`. -/
def str_Keep_Alive : Str := [75, 101, 101, 112, 45, 65, 108, 105, 118, 101]
/-- The text `Server`. -/
def str_Server : Str := [83, 101, 114, 118, 101, 114]
/-- The text `Octoshape-Ondemand`. -/
def str_Octoshape : Str :=
  [79, 99, 116, 111, 115, 104, 97, 112, 101, 45, 79, 110, 100, 101, 109, 97, 110, 100]
/-- The text `Pragma`. -/
def str_Pragma : Str := [80, 114, 97, 103, 109, 97]
/-- The text `features`. -/
def str_features : Str := [102, 101, 97, 116, 117, 114, 101, 115]
/-- The text `broadcast`. -/
def str_broadcast : Str := [98, 114, 111, 97, 100, 99, 97, 115, 116]
/-- The text `seekable`. -/
def str_seekable : Str := [115, 101, 101, 107, 97, 98, 108, 101]

/-! ## The transport -/

/-- What one read on a connection yields: bytes that arrived, or a failure
with errno `e + 1` (`fail 10` is `AVERROR(EAGAIN)`). A connection whose events
are used up is at end of stream: every further read returns 0. -/
inductive RdEv where
  | data (bs : Str)
  | fail (e : Nat)
deriving DecidableEq

/-- One tcp connection: the key it is pooled under (address and flags), what
the peer will deliver, whether writes on it fail, and whether it is idle in
the pool or closed. -/
structure Link where
  addr : Str
  flags : Nat
  rd : List RdEv
  wfail : Bool
  idle : Bool
  closed : Bool
deriving DecidableEq

/-- What the peer answers to a connection attempt: the events the connection
will deliver and whether writes on it fail. -/
structure Script where
  rd : List RdEv
  wfail : Bool
deriving DecidableEq

/-- Transport operations, in the order they happened. -/
inductive Ev where
  | opened (id : Nat)
  | open_failed
  | acquired (id : Nat)
  | released (id : Nat)
  | closed (id : Nat)
  | wrote (id : Nat) (bytes : Str)
deriving DecidableEq

/-- Everything outside the session: the peer (`peer n addr` answers the n-th
connection attempt, `none` refusing it), the connections made so far, the log
of transport operations, the cancellation signal (`intr n` is what the n-th
poll of `url_interrupt_cb` returns) and the clocks (`clock n` is the n-th
reading of `av_gettime`, in microseconds; `mono n` the n-th reading of
`clock_gettime(CLOCK_MONOTONIC)`, seconds and nanoseconds). -/
structure World where
  peer : Nat → Str → Option Script
  nopen : Nat
  links : List Link
  log : List Ev
  intr : Nat → Bool
  polls : Nat
  clock : Nat → Int
  ticks : Nat
  mono : Nat → Int × Int
  mticks : Nat

/-- The callback `url_interrupt_cb()`. -/
def url_interrupt_cb (w : World) : Bool × World :=
  (w.intr w.polls, { w with polls := w.polls + 1 })

/-- The clock `av_gettime()`. -/
def av_gettime (w : World) : Int × World :=
  (w.clock w.ticks, { w with ticks := w.ticks + 1 })

/-- The clock `clock_gettime(CLOCK_MONOTONIC, &new_time)`: `(tv_sec, tv_nsec)`. -/
def clock_gettime (w : World) : (Int × Int) × World :=
  (w.mono w.mticks, { w with mticks := w.mticks + 1 })

/-- Replace connection `id`. -/
def setLink (w : World) (id : Nat) (l : Link) : World :=
  { w with links := w.links.set id l }

/-- The call `ffurl_open(&hd, buf, flags)`: the new connection, or `none` when it fails. -/
def ffurl_open (w : World) (addr : Str) (flags : Nat) : Option Nat × World :=
  match w.peer w.nopen addr with
  | none => (none, { w with nopen := w.nopen + 1, log := w.log ++ [Ev.open_failed] })
  | some sc =>
    let id := w.links.length
    (some id, { w with
      nopen := w.nopen + 1,
      links := w.links ++ [{ addr := addr, flags := flags, rd := sc.rd, wfail := sc.wfail,
                             idle := false, closed := false }],
      log := w.log ++ [Ev.opened id] })

/-- Index of the first idle, open connection pooled under `(addr, flags)`, from index `i` on. -/
def findIdle (addr : Str) (flags : Nat) : List Link → Nat → Option Nat
  | [], _ => none
  | l :: ls, i =>
    if l.idle ∧ ¬ l.closed ∧ l.addr = addr ∧ l.flags = flags then some i
    else findIdle addr flags ls (i + 1)

/-- Modelled from the spec: `tcppool_find_free_tcplink` of `tcp_pool.c`, the
pool's acquire (section 4.5): an idle connection with exactly this address and
flags is handed over and leaves the idle set; `none` when there is none. -/
def tcppool_find_free_tcplink (w : World) (addr : Str) (flags : Nat) : Option Nat × World :=
  match findIdle addr flags w.links 0 with
  | none => (none, w)
  | some id =>
    match w.links.get? id with
    | none => (none, w)
    | some l => (some id, { setLink w id { l with idle := false } with
                            log := w.log ++ [Ev.acquired id] })

/-- Modelled from the spec: `tcppool_release_tcplink` of `tcp_pool.c`, the
pool's release (section 4.5): the connection returns to the idle set. -/
def tcppool_release_tcplink (w : World) (id : Nat) : World :=
  match w.links.get? id with
  | none => { w with log := w.log ++ [Ev.released id] }
  | some l => { setLink w id { l with idle := true } with log := w.log ++ [Ev.released id] }

/-- Modelled from the spec: `tcppool_close_tcplink` of `tcp_pool.c`, the
pool's discard (section 4.5): the transport is closed and never pooled again. -/
def tcppool_close_tcplink (w : World) (id : Nat) : World :=
  match w.links.get? id with
  | none => { w with log := w.log ++ [Ev.closed id] }
  | some l => { setLink w id { l with idle := false, closed := true } with
                log := w.log ++ [Ev.closed id] }

/-- The call `ffurl_write(hd, buf, size)`: the byte count, or a negative error. -/
def ffurl_write (w : World) (id : Nat) (bytes : Str) : Int × World :=
  match w.links.get? id with
  | none => (AVERROR EIO, w)
  | some l =>
    if l.wfail then (AVERROR EIO, w)
    else (bytes.length, { w with log := w.log ++ [Ev.wrote id bytes] })

/-- One read of at most `size` bytes on a connection: the count or negative
error the read returns, the bytes stored, and the connection afterwards. -/
def linkRead (l : Link) (size : Int) : Int × Str × Link :=
  match l.rd with
  | [] => (0, [], l)
  | RdEv.fail e :: r => (-(e + 1 : Nat), [], { l with rd := r })
  | RdEv.data bs :: r =>
    let n := min size.toNat bs.length
    (n, bs.take n, { l with rd := if bs.drop n = [] then r else RdEv.data (bs.drop n) :: r })

/-- The calls `hd->prot->url_read(hd, buf, size)` and `ffurl_read(hd, buf, size)`. -/
def ffurl_read (w : World) (id : Nat) (size : Int) : Int × Str × World :=
  match w.links.get? id with
  | none => (AVERROR EIO, [], w)
  | some l =>
    let r := linkRead l size
    (r.1, r.2.1, setLink w id r.2.2)

/-! ## The session -/

/-- The part of `HTTPAuthState` (`httpauth.h`) the client reads: the selected
scheme; the rest of the record is `data`. -/
structure HTTPAuthState where
  auth_type : Int
  data : Str
deriving DecidableEq

/-- The record `HTTPContext`, with the fields of the `URLContext` the handler
uses (`h_` prefix). -/
structure HTTPContext where
  hd : Option Nat
  buf : Str
  line_count : Int
  http_code : Int
  chunksize : Int
  off : Int
  filesize : Int
  do_readseek_size : Int
  location : Str
  auth_state : HTTPAuthState
  headers : Str
  willclose : Int
  is_seek : Int
  canseek : Int
  max_connects : Int
  latest_get_time_ms : Int
  is_broadcast : Int
  read_seek_count : Int
  is_livemode : Int
  b_compressed : Int
  hosname : Str
  keep_alive : Int
  flags : Nat
  h_is_streamed : Int
  h_http_code : Int
  h_location_is_session : Bool
  h_headers : Option Str
  h_is_segment_media : Int
  h_flags : Nat
  h_is_slowmedia : Int
deriving DecidableEq

/-- Result of `av_url_split`. -/
structure UrlParts where
  auth : Str
  hostname : Str
  port : Int
  path : Str
deriving DecidableEq

/-- Process-wide settings and the library functions the handler calls whose
code is not among the sources: the four settings `init_def_settings` reads,
the proxy environment variables, and `av_url_split`, `ff_url_join`,
`ff_http_auth_handle_header` and `ff_http_auth_create_response`. -/
structure Env where
  fastnetworkmode : Int
  config_rettry : Int
  config_read_wait_time_max_ms : Int
  enable_http_keepalive : Int
  http_proxy : Option Str
  no_proxy : Bool
  av_url_split : Str → UrlParts
  ff_url_join : Option Str → Str → Int → Str
  ff_http_auth_handle_header : HTTPAuthState → Str → Str → HTTPAuthState
  ff_http_auth_create_response : HTTPAuthState → Str → Str → Str → Option Str

/-- Test `flags & bit` for a single-bit mask `bit`. -/
def hasFlag (flags bit : Nat) : Bool := (flags / bit) % 2 == 1

/-! ## Reading the response head -/

/-- The refill loop of `http_getc` (`do .. while (len == AVERROR(EAGAIN))`):
`some r` in the first component is the value an early `return` gives, `none`
means the buffer was filled. -/
def http_getc_fill : Nat → HTTPContext → World → Nat → Int →
    Option (Option Int × HTTPContext × World)
  | 0, _, _, _, _ => none
  | fuel + 1, s, w, id, lastgetdatatime =>
    let timeout_us : Int := 1000 * 10000
    let r := ffurl_read w id BUFFER_SIZE
    let len := r.1
    let w := r.2.2
    if len < 0 ∧ len ≠ AVERROR EAGAIN then some (some (AVERROR EIO), s, w)
    else if len = 0 then some (some (-1), s, w)
    else
      let s1 := if len > 0 then { s with buf := r.2.1 } else s
      let t1 := if len > 0 then (av_gettime w).1 else lastgetdatatime
      let w1 := if len > 0 then (av_gettime w).2 else w
      let now := av_gettime w1
      if now.1 > t1 + timeout_us then some (some (AVERROR ETIMEDOUT), s1, now.2)
      else if len = AVERROR EAGAIN then http_getc_fill fuel s1 now.2 id t1
      else some (none, s1, now.2)

/-- The function `http_getc`: the next byte of the response, or a negative error. -/
def http_getc (fuel : Nat) (s : HTTPContext) (w : World) : Option (Int × HTTPContext × World) :=
  let t0 := av_gettime w
  match s.hd with
  | none => some (AVERROR EIO, s, t0.2)
  | some id =>
    match s.buf with
    | c :: rest => some (c, { s with buf := rest }, t0.2)
    | [] =>
      match http_getc_fill fuel s t0.2 id t0.1 with
      | none => none
      | some (some r, s1, w1) => some (r, s1, w1)
      | some (none, s1, w1) =>
        match s1.buf with
        | c :: rest => some (c, { s1 with buf := rest }, w1)
        | [] => some (0, s1, w1)

/-- The loop of `http_get_line`; `q` is the part of the line stored so far.
Returns the result code and the line. -/
def http_get_line_loop : Nat → Nat → HTTPContext → World → Nat → Str →
    Option (Int × Str × HTTPContext × World)
  | 0, _, _, _, _, _ => none
  | n + 1, fuel, s, w, line_size, q =>
    match http_getc fuel s w with
    | none => none
    | some (ch, s1, w1) =>
      if ch < 0 then some (AVERROR EIO, q, s1, w1)
      else if ch = 10 then
        some (0, (if q.getLast? = some 13 then q.dropLast else q), s1, w1)
      else
        http_get_line_loop n fuel s1 w1 line_size
          (if q.length + 1 < line_size then q ++ [ch.toNat] else q)

/-- The function `http_get_line`. -/
def http_get_line (fuel : Nat) (s : HTTPContext) (w : World) (line_size : Nat) :
    Option (Int × Str × HTTPContext × World) :=
  http_get_line_loop fuel fuel s w line_size []

/-- The `Location` branch of `process_line`: the new value of `s->location`. -/
def new_location_value (s : HTTPContext) (p : Str) : Str :=
  if strncmp_eq p str_http 4 then p
  else (str_http_slashes ++ cstr s.hosname ++ p).take (MAX_URL_SIZE - 1)

/-- The `Content-Range` branch of `process_line`. -/
def process_content_range (s : HTTPContext) (p : Str) : HTTPContext :=
  let s1 :=
    if strncmp_eq p str_bytes_sp 5 then
      let p1 := (p.drop 5).dropWhile (fun c => c == 32)
      let s2 := { s with off := atoll p1 }
      match p1.dropWhile (fun c => c != 47) with
      | [] => s2
      | _ :: after => { s2 with filesize := atoll after }
    else s
  if s1.filesize > 0 then { s1 with h_is_streamed := 0 } else s1

/-- The header branch of `process_line` (`line_count != 0`) once the line is
split at the colon into `tag` and the value `p`. -/
def process_header (e : Env) (s : HTTPContext) (tag p : Str) (new_location : Int) :
    HTTPContext × Int :=
  if strcasecmp_eq tag str_Location then
    ({ s with location := new_location_value s p }, 1)
  else if strcasecmp_eq tag str_Content_Length ∧ s.filesize = -1 then
    ({ s with filesize := atoll p }, new_location)
  else if strcasecmp_eq tag str_Content_Range then
    (process_content_range s p, new_location)
  else if strcasecmp_eq tag str_Content_Encoding then
    if strcasecmp_eq p str_identity then (s, new_location)
    else if strcasecmp_eq p str_gzip ∨ strcasecmp_eq p str_deflate then
      ({ s with b_compressed := 1 }, new_location)
    else (s, new_location)
  else if strcasecmp_eq tag str_Transfer_Encoding ∧ strncasecmp_eq p str_chunked 7 then
    ({ s with filesize := -1, chunksize := 0 }, new_location)
  else if strcasecmp_eq tag str_WWW_Authenticate then
    ({ s with auth_state := e.ff_http_auth_handle_header s.auth_state tag p }, new_location)
  else if strcasecmp_eq tag str_Authentication_Info then
    ({ s with auth_state := e.ff_http_auth_handle_header s.auth_state tag p }, new_location)
  else if strcasecmp_eq tag str_Connection then
    if strcmp_eq p str_close then ({ s with willclose := 1 }, new_location)
    else if strcasecmp_eq p str_Keep_Alive then ({ s with willclose := 0 }, new_location)
    else ({ s with willclose := 1 }, new_location)
  else if strcasecmp_eq tag str_Server then
    if strncmp_eq p str_Octoshape str_Octoshape.length then
      ({ s with h_is_streamed := 0 }, new_location)
    else (s, new_location)
  else if strcasecmp_eq tag str_Pragma then
    if strstr p str_features then
      if strstr p str_broadcast then ({ s with is_broadcast := 1 }, new_location)
      else ({ s with is_broadcast := 0 }, new_location)
    else (s, new_location)
  else (s, new_location)

/-- The function `process_line`: the result code (0 end of header, 1 go on,
negative error), the session and `*new_location`. -/
def process_line (e : Env) (s : HTTPContext) (line0 : Str) (line_count : Int)
    (new_location : Int) : Int × HTTPContext × Int :=
  let line := cstr line0
  if line = [] then (0, s, new_location)
  else if line_count = 0 then
    if ¬ strstr line str_HTTP then (-1, s, new_location)
    else
      let p := (line.dropWhile (fun c => !isspace c)).dropWhile isspace
      let code := strtol p
      let s1 := { s with http_code := code, h_http_code := code }
      if code ≥ 400 ∧ code < 600 ∧ code ≠ 401 then (-1, s1, new_location)
      else (1, s1, new_location)
  else
    match line.dropWhile (fun c => c != 58) with
    | [] => (1, s, new_location)
    | _ :: rest =>
      let r := process_header e s (line.takeWhile (fun c => c != 58))
        (rest.dropWhile isspace) new_location
      (1, r.1, r.2)

/-! ## Request text -/

/-- The text `AppleCoreMedia/1.0.0.9A405 (iPad; U; CPU OS 5_0_1 like Mac OS X; zh_cn)`. -/
def IPAD_IDENT : Str :=
  [65, 112, 112, 108, 101, 67, 111, 114, 101, 77, 101, 100, 105, 97, 47, 49, 46, 48, 46, 48, 46,
   57, 65, 52, 48, 53, 32, 40, 105, 80, 97, 100, 59, 32, 85, 59, 32, 67, 80, 85, 32, 79, 83, 32,
   53, 95, 48, 95, 49, 32, 108, 105, 107, 101, 32, 77, 97, 99, 32, 79, 83, 32, 88, 59, 32, 122,
   104, 95, 99, 110, 41]
/-- The text `\r\n`. -/
def str_crlf : Str := [13, 10]
/-- The text `\r\nUser-Agent: `. -/
def hdr_User_Agent : Str := [13, 10, 85, 115, 101, 114, 45, 65, 103, 101, 110, 116, 58, 32]
/-- The text `\r\nAccept: `. -/
def hdr_Accept : Str := [13, 10, 65, 99, 99, 101, 112, 116, 58, 32]
/-- The text `\r\nRange: `. -/
def hdr_Range : Str := [13, 10, 82, 97, 110, 103, 101, 58, 32]
/-- The text `\r\nConnection: `. -/
def hdr_Connection : Str := [13, 10, 67, 111, 110, 110, 101, 99, 116, 105, 111, 110, 58, 32]
/-- The text `\r\nHost: `. -/
def hdr_Host : Str := [13, 10, 72, 111, 115, 116, 58, 32]
/-- The text `Accept: [star]/[star]\r\n`, the stars being asterisks. -/
def str_Accept_line : Str := [65, 99, 99, 101, 112, 116, 58, 32, 42, 47, 42, 13, 10]
/-- The text `Range: bytes=`. -/
def str_Range_bytes : Str := [82, 97, 110, 103, 101, 58, 32, 98, 121, 116, 101, 115, 61]
/-- The text `-\r\n`. -/
def str_dash_crlf : Str := [45, 13, 10]
/-- The text `Connection: keep-alive\r\n`. -/
def str_Conn_keep_alive_line : Str :=
  [67, 111, 110, 110, 101, 99, 116, 105, 111, 110, 58, 32, 107, 101, 101, 112, 45, 97, 108, 105,
   118, 101, 13, 10]
/-- The text `Connection: close\r\n`. -/
def str_Conn_close_line : Str :=
  [67, 111, 110, 110, 101, 99, 116, 105, 111, 110, 58, 32, 99, 108, 111, 115, 101, 13, 10]
/-- The text `POST`. -/
def str_POST : Str := [80, 79, 83, 84]
/-- The text `GET`. -/
def str_GET : Str := [71, 69, 84]
/-- The text ` HTTP/1.1\r\n`. -/
def str_HTTP11_crlf : Str := [32, 72, 84, 84, 80, 47, 49, 46, 49, 13, 10]
/-- The text `Transfer-Encoding: chunked\r\n`. -/
def str_TE_chunked_line : Str :=
  [84, 114, 97, 110, 115, 102, 101, 114, 45, 69, 110, 99, 111, 100, 105, 110, 103, 58, 32, 99,
   104, 117, 110, 107, 101, 100, 13, 10]
/-- The text `0\r\n\r\n`. -/
def str_footer : Str := [48, 13, 10, 13, 10]
/-- The text `/`. -/
def str_slash : Str := [47]
/-- The text `tcp`. -/
def str_tcp : Str := [116, 99, 112]
/-- The text `livemode=1`. -/
def str_livemode : Str := [108, 105, 118, 101, 109, 111, 100, 101, 61, 49]

/-- Decimal digits of a natural number. -/
def natDigits (n : Nat) : Str := (Nat.toDigits 10 n).map Char.toNat

/-- What `printf` writes for `%lld`. -/
def fmtInt (x : Int) : Str :=
  if x < 0 then 45 :: natDigits (-x).toNat else natDigits x.toNat

/-- The function `has_header`. -/
def has_header (str header : Str) : Bool :=
  av_stristart str (header.drop 2) || av_stristr str header

/-- The calls `len += av_strlcatf(headers + len, sizeof(headers) - len, ..)`
and `len += av_strlcpy(headers + len, .., sizeof(headers) - len)` of
`http_connect` on its local `char headers[1024*4]`: `st` is the header block so
far with the value of `len`, `p` the text to add. The text is appended as far
as the array has room and `len` grows by the whole length of `p`. Once `len`
has passed the end of the array the call writes outside it; the block is then
left as it is. -/
def headers_append (st : Str × Int) (p : Str) : Str × Int :=
  if st.2 < 1024 * 4 then ((st.1 ++ p).take (1024 * 4 - 1), st.2 + p.length)
  else (st.1, st.2 + p.length)

/-- The header block `http_connect` accumulates in its local `headers`, the
custom headers of the session appended. -/
def http_request_headers (s : HTTPContext) (hoststr : Str) : Str :=
  let h0 : Str × Int := ([], 0)
  let h1 : Str × Int := if !has_header s.headers hdr_User_Agent
    then headers_append h0
      ([85, 115, 101, 114, 45, 65, 103, 101, 110, 116, 58, 32] ++ IPAD_IDENT ++ str_crlf)
    else h0
  let h2 : Str × Int := match s.h_headers with
    | some hh => headers_append h1 (cstr hh)
    | none => h1
  let h3 : Str × Int :=
    if !has_header s.headers hdr_Accept then headers_append h2 str_Accept_line else h2
  let h4 : Str × Int :=
    if !has_header s.headers hdr_Range ∧ (s.off > 0 ∨ s.is_seek ≠ 0)
        ∧ !has_header h3.1 hdr_Range ∧ s.h_is_segment_media = 0
    then headers_append h3 (str_Range_bytes ++ fmtInt s.off ++ str_dash_crlf) else h3
  let h5 : Str × Int :=
    if !has_header s.headers hdr_Connection ∧ !has_header h4.1 hdr_Connection then
      (if s.keep_alive ≠ 0 then headers_append h4 str_Conn_keep_alive_line
       else headers_append h4 str_Conn_close_line)
    else h4
  let h6 : Str × Int := if !has_header s.headers hdr_Host
    then headers_append h5 ([72, 111, 115, 116, 58, 32] ++ cstr hoststr ++ str_crlf) else h5
  (headers_append h6 (cstr s.headers)).1

/-- The request `http_connect` formats into `s->buffer` and sends. -/
def http_request (e : Env) (s : HTTPContext) (path hoststr auth : Str) : Str :=
  let post := hasFlag s.h_flags AVIO_FLAG_WRITE
  let method := if post then str_POST else str_GET
  let authstr := e.ff_http_auth_create_response s.auth_state auth path method
  (method ++ [32] ++ cstr path ++ str_HTTP11_crlf
    ++ (if post ∧ s.chunksize ≥ 0 then str_TE_chunked_line else [])
    ++ http_request_headers s hoststr
    ++ (match authstr with | some a => cstr a | none => [])
    ++ str_crlf).take (BUFFER_SIZE - 1)

/-! ## Connecting -/

/-- The loop `for(;;)` of `http_connect` that waits for the header: `some r`
in the first component is the value a `return` inside the loop gives, `none`
means the loop was left by `break`. The last component is `*new_location`. -/
def http_connect_header : Nat → Nat → Env → HTTPContext → World → Int →
    Option (Option Int × HTTPContext × World × Int)
  | 0, _, _, _, _, _ => none
  | n + 1, fuel, e, s, w, new_location =>
    match http_get_line fuel s w MAX_URL_SIZE with
    | none => none
    | some (r, line, s1, w1) =>
      if r < 0 then some (some (AVERROR EIO), s1, w1, new_location)
      else
        let pl := process_line e s1 line s1.line_count new_location
        if pl.1 < 0 then
          if pl.2.1.http_code = -1 ∨ pl.2.1.line_count = 0 then some (some (-101), pl.2.1, w1, pl.2.2)
          else some (some pl.1, pl.2.1, w1, pl.2.2)
        else if pl.1 = 0 then
          if pl.2.1.http_code = -1 ∨ pl.2.1.line_count = 0 then some (some (-101), pl.2.1, w1, pl.2.2)
          else some (none, pl.2.1, w1, pl.2.2)
        else
          http_connect_header n fuel e { pl.2.1 with line_count := pl.2.1.line_count + 1 } w1
            pl.2.2

/-- The end of `http_connect`: the read-seek fallback and the result, `off`
being the session offset at entry. -/
def http_connect_finish (s : HTTPContext) (off : Int) : Int × HTTPContext :=
  let s1 :=
    if s.off ≥ 0 ∧ off > s.off then
      { s with
        do_readseek_size := off - s.off,
        off := off,
        read_seek_count :=
          if off - s.off ≥ s.filesize - 1024 then s.read_seek_count + 1 else s.read_seek_count }
    else s
  (if off = s1.off then 0 else -1, s1)

/-- The fields `http_connect` resets once the request is sent (`/* init input buffer */`). -/
def http_connect_reset (s : HTTPContext) : HTTPContext :=
  { s with buf := [], line_count := 0, off := 0, filesize := -1, willclose := 1,
           do_readseek_size := 0, http_code := -1 }

/-- The function `http_connect`: result code, session, world and
`*new_location`. A session without connection is treated as a failed write
(`http_open_cnx` never calls it so). The code formats the request into
`s->buffer`, the array the unread bytes lie in, and resets `buf_ptr` and
`buf_end` only after the write; the session records the unread bytes, not
where they lie, so after a failed write `buf` is left as it was, while in the
code the unread region then holds bytes of the request. -/
def http_connect (e : Env) (fuel : Nat) (s : HTTPContext) (w : World)
    (path hoststr auth : Str) (new_location : Int) :
    Option (Int × HTTPContext × World × Int) :=
  let off := s.off
  let post := hasFlag s.h_flags AVIO_FLAG_WRITE
  match s.hd with
  | none => some (AVERROR EIO, s, w, new_location)
  | some id =>
    let wr := ffurl_write w id (cstr (http_request e s path hoststr auth))
    if wr.1 < 0 then some (AVERROR EIO, s, wr.2, new_location)
    else
      if post then some (0, { http_connect_reset s with http_code := 200 }, wr.2, new_location)
      else
        match http_connect_header fuel fuel e { http_connect_reset s with chunksize := -1 } wr.2
            new_location with
        | none => none
        | some (some r, s2, w2, nl) => some (r, s2, w2, nl)
        | some (none, s2, w2, nl) =>
          some ((http_connect_finish s2 off).1, (http_connect_finish s2 off).2, w2, nl)

/-- The function `http_close_and_keep`. -/
def http_close_and_keep (s : HTTPContext) (w : World) (close : Int) : Int × HTTPContext × World :=
  match s.hd with
  | none => (0, s, w)
  | some id =>
    if close ≠ 0 ∨ s.willclose ≠ 0 ∨ s.keep_alive = 0 then
      let w1 := if hasFlag s.flags AVIO_FLAG_WRITE ∧ s.chunksize ≠ -1
        then (ffurl_write w id str_footer).2 else w
      (0, { s with hd := none }, tcppool_close_tcplink w1 id)
    else
      (0, { s with hd := none }, tcppool_release_tcplink w id)

/-- The three `goto redo` of `http_open_cnx`: after a link error (`-101`),
after a 401 whose challenge selected an auth scheme, after a redirect. -/
inductive Redo where
  | link
  | auth
  | moved
deriving DecidableEq

/-- How one pass through the body of `http_open_cnx` (from the label `redo`)
ends: with a `return`, or with `goto redo`, carrying the locals
`location_changed` and `redirects`. -/
inductive PassOut where
  | done (ret : Int) (s : HTTPContext) (w : World)
  | redo (why : Redo) (s : HTTPContext) (w : World) (location_changed redirects : Int)

/-- The label `fail` of `http_open_cnx`. -/
def http_open_cnx_fail (s : HTTPContext) (w : World) : PassOut :=
  let c := if s.hd.isSome then http_close_and_keep s w 1 else (0, s, w)
  let s1 := c.2.1
  let s2 := if s1.is_seek ≠ 0 ∧ s1.canseek ≠ 0 then { s1 with canseek := 0 } else s1
  PassOut.done (AVERROR EIO) { s2 with hd := none } c.2.2

/-- The address of the tcp connection `http_open_cnx` computes from the
session location, with host string, auth and path of the request:
`(buf, hostname, hoststr, auth, path)`. -/
def http_open_cnx_target (e : Env) (s : HTTPContext) : Str × Str × Str × Str × Str :=
  let u := e.av_url_split s.location
  let hoststr := e.ff_url_join none u.hostname u.port
  let use_proxy := match e.http_proxy with
    | some pp => !e.no_proxy && (str_http_slashes.isPrefixOf (cstr pp))
    | none => false
  let pu := match e.http_proxy with
    | some pp => if use_proxy then e.av_url_split pp else u
    | none => u
  let path := if use_proxy then s.location else if cstr u.path = [] then str_slash else u.path
  let port := if pu.port < 0 then 80 else pu.port
  (e.ff_url_join (some str_tcp) pu.hostname port, pu.hostname, hoststr, pu.auth, path)

/-- The flags `http_open_cnx` opens its tcp connection with. -/
def http_open_cnx_flags (e : Env) : Nat :=
  AVIO_FLAG_READ_WRITE + (if e.fastnetworkmode ≠ 0 then URL_LESS_WAIT else 0)

/-- What follows `http_connect` in `http_open_cnx`: `ret` is its result,
`cur_auth_type` the auth type before the request. -/
def http_open_cnx_decide (s : HTTPContext) (w : World) (ret cur_auth_type : Int)
    (location_changed redirects : Int) : PassOut :=
  if ret < 0 then
    if ret = -101 then
      let c := http_close_and_keep s w 1
      PassOut.redo Redo.link c.2.1 c.2.2 location_changed redirects
    else http_open_cnx_fail s w
  else if s.http_code = 401 then
    if cur_auth_type = HTTP_AUTH_NONE ∧ s.auth_state.auth_type ≠ HTTP_AUTH_NONE then
      let c := http_close_and_keep s w 0
      PassOut.redo Redo.auth c.2.1 c.2.2 location_changed redirects
    else http_open_cnx_fail s w
  else if (s.http_code = 301 ∨ s.http_code = 302 ∨ s.http_code = 303 ∨ s.http_code = 307)
      ∧ location_changed = 1 then
    let c := http_close_and_keep s w 0
    if redirects ≥ MAX_REDIRECTS then PassOut.done (AVERROR EIO) c.2.1 c.2.2
    else PassOut.redo Redo.moved { c.2.1 with h_location_is_session := true } c.2.2 0
      (redirects + 1)
  else PassOut.done 0 s w

/-- The part of a pass of `http_open_cnx` before `http_connect`: the
cancellation check and getting a connection, pooled or new. `none` in the
first component when the pass goes on to `http_connect`. -/
def http_open_cnx_link (e : Env) (s : HTTPContext) (w : World) :
    Option PassOut × HTTPContext × World :=
  let ic := url_interrupt_cb w
  if ic.1 then (some (PassOut.done (AVERROR EIO) s ic.2), s, ic.2)
  else
    let t := http_open_cnx_target e s
    let s1 := { s with hosname := t.2.1 }
    let f := tcppool_find_free_tcplink ic.2 t.1 (http_open_cnx_flags e)
    let s2 := match f.1 with
      | some id => { s1 with hd := some id }
      | none => s1
    match s2.hd with
    | some _ => (none, s2, f.2)
    | none =>
      let o := ffurl_open f.2 t.1 (http_open_cnx_flags e)
      match o.1 with
      | none => (some (http_open_cnx_fail s2 o.2), s2, o.2)
      | some id => (none, { s2 with hd := some id }, o.2)

/-- One pass through the body of `http_open_cnx`, from the label `redo`. -/
def http_open_cnx_pass (e : Env) (fuel : Nat) (s : HTTPContext) (w : World)
    (location_changed redirects : Int) : Option PassOut :=
  match http_open_cnx_link e s w with
  | (some out, _, _) => some out
  | (none, s1, w1) =>
    let t := http_open_cnx_target e s
    match http_connect e fuel s1 w1 t.2.2.2.2 t.2.2.1 t.2.2.2.1 location_changed with
    | none => none
    | some (ret, s2, w2, lc) =>
      some (http_open_cnx_decide s2 w2 ret s1.auth_state.auth_type lc redirects)

/-- The passes of `http_open_cnx`, one after the other while they end in `goto redo`. -/
def http_open_cnx_loop : Nat → Env → Nat → HTTPContext → World → Int → Int →
    Option (Int × HTTPContext × World)
  | 0, _, _, _, _, _, _ => none
  | n + 1, e, fuel, s, w, location_changed, redirects =>
    match http_open_cnx_pass e fuel s w location_changed redirects with
    | none => none
    | some (PassOut.done ret s1 w1) => some (ret, s1, w1)
    | some (PassOut.redo _ s1 w1 lc rd) => http_open_cnx_loop n e fuel s1 w1 lc rd

/-- The function `http_open_cnx`. -/
def http_open_cnx (e : Env) (fuel : Nat) (s : HTTPContext) (w : World) :
    Option (Int × HTTPContext × World) :=
  http_open_cnx_loop fuel e fuel { s with latest_get_time_ms := 0 } w 0 0

/-- The function `http_reopen_cnx`; its result is an `int`, so the offset it
returns on success is narrowed to 32 bits. -/
def http_reopen_cnx (e : Env) (fuel : Nat) (s : HTTPContext) (w : World) (off : Int) :
    Option (Int × HTTPContext × World) :=
  let old_off := s.off
  let old_chunksize := s.chunksize
  let keep : Bool := s.max_connects > 1 ∧ s.hd.isSome
  let old_buf : Str := if keep then s.buf else []
  let old_hd : Option Nat := if keep then s.hd else none
  let w0 := if keep then w else
    match s.hd with
    | some id => tcppool_close_tcplink w id
    | none => w
  let s0 := { s with off := if off ≥ 0 then off else s.off, hd := none, chunksize := -1 }
  match http_open_cnx e fuel s0 w0 with
  | none => none
  | some (r, s1, w1) =>
    if r < 0 then
      if s1.max_connects > 1 ∧ old_hd.isSome then
        some (-1, { s1 with chunksize := old_chunksize, hd := old_hd, off := old_off,
                            buf := old_buf, max_connects := 1 }, w1)
      else
        some (-1, { s1 with buf := [], chunksize := -1, hd := none, off := old_off }, w1)
    else
      let w2 := if s1.max_connects > 1 ∧ old_hd ≠ s1.hd then
          (match old_hd with
           | some id => tcppool_close_tcplink w1 id
           | none => w1)
        else w1
      some (wrap32 off, s1, w2)

/-- The retry loop of `http_open`:
`while (ret<0 && ++open_retry<retry_times && !url_interrupt_cb() && (..)) {..}`,
entered with the result `ret` of the attempt before. -/
def http_open_retry : Nat → Env → Nat → HTTPContext → World → Int → Int →
    Option (Int × HTTPContext × World)
  | 0, _, _, _, _, _, _ => none
  | n + 1, e, fuel, s, w, ret, open_retry =>
    if ret < 0 then
      if open_retry + 1 < e.config_rettry then
        let ic := url_interrupt_cb w
        if !ic.1 ∧ (s.http_code ≠ 404 ∨ s.http_code ≠ 503 ∨ s.http_code ≠ 500) then
          match http_open_cnx e fuel { s with is_seek := 0, canseek := 0 } ic.2 with
          | none => none
          | some (r, s1, w1) => http_open_retry n e fuel s1 w1 r (open_retry + 1)
        else some (ret, s, ic.2)
      else some (ret, s, w)
    else some (ret, s, w)

/-- The fields `http_open` sets before the first connection attempt. -/
def http_open_init (e : Env) (s : HTTPContext) (uri : Str) (flags : Nat) : HTTPContext :=
  { s with
    h_is_streamed := 1,
    hd := none,
    is_livemode := if strstr uri str_livemode then 1 else 0,
    filesize := -1,
    is_seek := 1,
    canseek := 1,
    is_broadcast := 0,
    read_seek_count := 0,
    keep_alive := e.enable_http_keepalive,
    flags := flags,
    location := (cstr uri).take (MAX_URL_SIZE - 1),
    max_connects := MAX_CONNECT_LINKS,
    b_compressed := 0 }

/-- The function `http_open`. -/
def http_open (e : Env) (fuel : Nat) (s : HTTPContext) (w : World) (uri : Str) (flags : Nat) :
    Option (Int × HTTPContext × World) :=
  let t := av_gettime w
  match http_open_cnx e fuel (http_open_init e s uri flags) t.2 with
  | none => none
  | some (r, s1, w1) =>
    match http_open_retry fuel e fuel s1 w1 r 0 with
    | none => none
    | some (ret, s2, w2) => some (ret, { s2 with is_seek := 0 }, (av_gettime w2).2)

/-! ## Reading -/

/-- The loop `do .. while (!*line)` of `http_read` that reads the chunk-size line. -/
def http_read_chunk_line : Nat → Nat → HTTPContext → World →
    Option (Int × Str × HTTPContext × World)
  | 0, _, _, _ => none
  | n + 1, fuel, s, w =>
    match http_get_line fuel s w 32 with
    | none => none
    | some (r, line, s1, w1) =>
      if r < 0 then some (r, line, s1, w1)
      else if cstr line = [] then http_read_chunk_line n fuel s1 w1
      else some (0, line, s1, w1)

/-- The chunked-encoding part of `http_read` (`if (s->chunksize >= 0) {..}`):
`some r` in the first component is the value it returns with, `none` means
the read goes on; the last component is `size`. -/
def http_read_chunk (fuel : Nat) (s : HTTPContext) (w : World) (size : Int) :
    Option (Option Int × HTTPContext × World × Int) :=
  if s.chunksize ≥ 0 then
    if s.chunksize = 0 then
      match http_read_chunk_line fuel fuel s w with
      | none => none
      | some (r, line, s1, w1) =>
        if r < 0 then some (some (AVERROR EIO), s1, w1, size)
        else
          let s2 := { s1 with chunksize := strtoll16 line }
          if s2.chunksize = 0 then some (some 0, s2, w1, size)
          else some (none, s2, w1, wrap32 (min size s2.chunksize))
    else some (none, s, w, wrap32 (min size s.chunksize))
  else some (none, s, w, size)

/-- Where the bytes of a read come from (`/* read bytes from input buffer first */`). -/
inductive Fetch where
  | eof
  | nohd
  | got (len : Int) (bytes : Str) (s : HTTPContext) (w : World)

/-- The part of `http_read` that takes bytes from the buffer or the
connection: `eof` is its `return 0`, `nohd` its `goto errors` with
`len = -1000`. With bytes in the buffer and a negative `size` the code calls
`memcpy(buf, s->buf_ptr, len)` with a negative `len`, which is undefined; here
that `len` is handed on with no bytes taken. -/
def http_read_fetch (s : HTTPContext) (w : World) (size : Int) : Fetch :=
  if s.buf.length > 0 then
    let len : Int := min (s.buf.length : Int) size
    Fetch.got len (s.buf.take len.toNat) { s with buf := s.buf.drop len.toNat } w
  else if s.filesize ≥ 0 ∧ s.off ≥ s.filesize then Fetch.eof
  else
    match s.hd with
    | some id =>
      let r := ffurl_read w id size
      Fetch.got r.1 r.2.1 s r.2.2
    | none => Fetch.nohd

/-- The part of `http_read` between the fetch and the label `errors`: the
offset and chunk accounting, the stall clock, and the end of stream that comes
too early. Returns the new `len`. -/
def http_read_account (e : Env) (s : HTTPContext) (w : World) (len : Int) :
    Int × HTTPContext × World :=
  let s1 := if len > 0 then
      { s with off := if s.do_readseek_size ≤ 0 then s.off + len else s.off,
               chunksize := if s.chunksize > 0 then s.chunksize - len else s.chunksize }
    else s
  let ct := clock_gettime w
  let max_wait_time : Int :=
    if s1.canseek = 0 then wrap32 (e.config_read_wait_time_max_ms * 2)
    else e.config_read_wait_time_max_ms
  let new_time_mseconds : Int := wrap32 (ct.1.2 / 1000000 + ct.1.1 * 1000)
  let s2 := if len = AVERROR EAGAIN then
      (if s1.latest_get_time_ms ≤ 0 then { s1 with latest_get_time_ms := new_time_mseconds }
       else s1)
    else { s1 with latest_get_time_ms := 0 }
  let w2 := if len = AVERROR EAGAIN then ct.2 else w
  let len2 : Int :=
    if len = AVERROR EAGAIN ∧ wrap32 (new_time_mseconds - s2.latest_get_time_ms) > max_wait_time
    then -1 else len
  let len3 : Int :=
    if len2 = 0 ∧ s2.off < s2.filesize - 10 ∧ s2.read_seek_count < READ_SEEK_TIMES then
      (if s2.is_livemode = 1 then 0 else -1000)
    else len2
  (len3, s2, w2)

/-- The body of `http_read` from the label `retry`: the count or error it
returns, the bytes it leaves in the caller's buffer, the session and the world. -/
def http_read_loop : Nat → Env → Nat → HTTPContext → World → Int → Int →
    Option (Int × Str × HTTPContext × World)
  | 0, _, _, _, _, _, _ => none
  | n + 1, e, fuel, s, w, size, err_retry =>
    let ic := url_interrupt_cb w
    if ic.1 then some (AVERROR EIO, [], s, ic.2)
    else
      match http_read_chunk fuel s ic.2 size with
      | none => none
      | some (some r, s1, w1, _) => some (r, [], s1, w1)
      | some (none, s1, w1, size1) =>
        match http_read_fetch s1 w1 size1 with
        | Fetch.eof => some (0, [], s1, w1)
        | f =>
          let a : Int × Str × HTTPContext × World := match f with
            | Fetch.got len bytes s2 w2 =>
              ((http_read_account e s2 w2 len).1, bytes,
               (http_read_account e s2 w2 len).2.1, (http_read_account e s2 w2 len).2.2)
            | _ => (-1000, [], s1, w1)
          let len := a.1
          let s3 := a.2.2.1
          let w3 := a.2.2.2
          if len < 0 ∧ s3.filesize > 0 ∧ s3.off = s3.filesize then some (0, [], s3, w3)
          else if len < 0 ∧ len ≠ AVERROR EAGAIN then
            if err_retry > 0 then
              match http_reopen_cnx e fuel s3 w3 (-1) with
              | none => none
              | some (_, s4, w4) => http_read_loop n e fuel s4 w4 size1 (err_retry - 1)
            else some (len, [], s3, w3)
          else if s3.do_readseek_size > 0 ∧ len > 0 then
            if len > s3.do_readseek_size then
              some (len - s3.do_readseek_size, a.2.1.drop s3.do_readseek_size.toNat,
                    { s3 with do_readseek_size := 0 }, w3)
            else
              http_read_loop n e fuel { s3 with do_readseek_size := s3.do_readseek_size - len }
                w3 size1 err_retry
          else some (len, (if len > 0 then a.2.1 else []), s3, w3)

/-- The function `http_read`: the count or error it returns and the bytes it
leaves in the caller's buffer. -/
def http_read (e : Env) (fuel : Nat) (s : HTTPContext) (w : World) (size : Int) :
    Option (Int × Str × HTTPContext × World) :=
  if s.filesize > 0 ∧ s.off = s.filesize then some (0, [], s, w)
  else http_read_loop fuel e fuel s w size e.config_rettry

/-! ## Seeking -/

/-- The retry loop of `http_seek`:
`while (ret<0 && open_retry++<READ_RETRY_MAX && !url_interrupt_cb()) {..}`. -/
def http_seek_retry : Nat → Env → Nat → HTTPContext → World → Int → Int → Int →
    Option (Int × HTTPContext × World)
  | 0, _, _, _, _, _, _, _ => none
  | n + 1, e, fuel, s, w, off, ret, open_retry =>
    if ret < 0 then
      if open_retry < READ_RETRY_MAX then
        let ic := url_interrupt_cb w
        if !ic.1 then
          if off < 0 ∨ (s.filesize > 0 ∧ off ≥ s.filesize) then some (ret, s, ic.2)
          else
            match http_reopen_cnx e fuel s ic.2 off with
            | none => none
            | some (r, s1, w1) => http_seek_retry n e fuel s1 w1 off r (open_retry + 1)
        else some (ret, s, ic.2)
      else some (ret, s, w)
    else some (ret, s, w)

/-- The absolute offset `http_seek` computes from `off` and `whence`
(`off += s->off` for `SEEK_CUR`, `off += s->filesize` for `SEEK_END`, in
64-bit arithmetic). -/
def seek_target (s : HTTPContext) (off whence : Int) : Int :=
  if whence = SEEK_CUR then wrap64 (off + s.off)
  else if whence = SEEK_END then wrap64 (off + s.filesize)
  else off

/-- The function `http_seek`. -/
def http_seek (e : Env) (fuel : Nat) (s : HTTPContext) (w : World) (off whence : Int) :
    Option (Int × HTTPContext × World) :=
  if whence = AVSEEK_SIZE then some (s.filesize, s, w)
  else if (s.filesize = -1 ∧ whence = SEEK_END) ∨ s.h_is_streamed ≠ 0 then some (-1, s, w)
  else if whence = SEEK_CUR ∧ off = 0 then some (s.off, s, w)
  else
    let off1 : Int := seek_target s off whence
    if off1 ≥ s.filesize ∧ s.filesize > 0 then some (-2, s, w)
    else
      match http_reopen_cnx e fuel { s with is_seek := 1 } w off1 with
      | none => none
      | some (r, s1, w1) =>
        match http_seek_retry fuel e fuel s1 w1 off1 r 0 with
        | none => none
        | some (_, s2, w2) => some (off1, { s2 with is_seek := 0 }, w2)

/-! ## Writing -/

/-- Hexadecimal digits of a natural number, in lower case. -/
def hexDigits (n : Nat) : Str := (Nat.toDigits 16 n).map Char.toNat

/-- What `snprintf(temp, sizeof(temp), "%x\r\n", size)` leaves in the 11-byte
array `temp`: `size` printed as an unsigned 32-bit number, cut after 10 bytes. -/
def chunk_size_line (size : Int) : Str :=
  (hexDigits (size % 2 ^ 32).toNat ++ str_crlf).take 10

/-- The function `http_write`: the value it returns and the world; the bytes
sent are the first `size` of `buf`. A session without connection is treated as
a failed write. -/
def http_write (s : HTTPContext) (w : World) (buf : Str) (size : Int) : Int × World :=
  match s.hd with
  | none => (AVERROR EIO, w)
  | some id =>
    if s.chunksize = -1 then ffurl_write w id (buf.take size.toNat)
    else if size > 0 then
      let r1 := ffurl_write w id (cstr (chunk_size_line size))
      if r1.1 < 0 then r1
      else
        let r2 := ffurl_write r1.2 id (buf.take size.toNat)
        if r2.1 < 0 then r2
        else
          let r3 := ffurl_write r2.2 id str_crlf
          if r3.1 < 0 then r3 else (size, r3.2)
    else (size, w)

/-! ## The other entry points -/

/-- The retry loop of `shttp_open`:
`while(ret<0 && ++open_retry<retry_times && !url_interrupt_cb()) {..}`. -/
def shttp_open_retry : Nat → Env → Nat → HTTPContext → World → Int → Int →
    Option (Int × HTTPContext × World)
  | 0, _, _, _, _, _, _ => none
  | n + 1, e, fuel, s, w, ret, open_retry =>
    if ret < 0 then
      if open_retry + 1 < e.config_rettry then
        let ic := url_interrupt_cb w
        if !ic.1 then
          match http_open_cnx e fuel { s with is_seek := 0, canseek := 0 } ic.2 with
          | none => none
          | some (r, s1, w1) => shttp_open_retry n e fuel s1 w1 r (open_retry + 1)
        else some (ret, s, ic.2)
      else some (ret, s, w)
    else some (ret, s, w)

/-- The function `shttp_open`: as `http_open`, the location being `uri + 1`;
it marks the stream as slow media at the end. -/
def shttp_open (e : Env) (fuel : Nat) (s : HTTPContext) (w : World) (uri : Str) (flags : Nat) :
    Option (Int × HTTPContext × World) :=
  let t := av_gettime w
  match http_open_cnx e fuel
      { http_open_init e s uri flags with
        location := ((cstr uri).drop 1).take (MAX_URL_SIZE - 1) } t.2 with
  | none => none
  | some (r, s1, w1) =>
    match shttp_open_retry fuel e fuel s1 w1 r 0 with
    | none => none
    | some (ret, s2, w2) =>
      some (ret, { s2 with is_seek := 0, h_is_slowmedia := 1 }, (av_gettime w2).2)

/-- The retry loop of `ff_http_do_new_request`:
`while(ret<0 && open_retry++<OPEN_RETRY_MAX && !url_interrupt_cb() && (..)) {..}`. -/
def ff_http_do_new_request_retry : Nat → Env → Nat → HTTPContext → World → Int → Int →
    Option (Int × HTTPContext × World)
  | 0, _, _, _, _, _, _ => none
  | n + 1, e, fuel, s, w, ret, open_retry =>
    if ret < 0 then
      if open_retry < OPEN_RETRY_MAX then
        let ic := url_interrupt_cb w
        if !ic.1 ∧ (s.http_code ≠ 404 ∨ s.http_code ≠ 503 ∨ s.http_code ≠ 500) then
          match http_open_cnx e fuel { s with is_seek := 0, canseek := 0 } ic.2 with
          | none => none
          | some (r, s1, w1) => ff_http_do_new_request_retry n e fuel s1 w1 r (open_retry + 1)
        else some (ret, s, ic.2)
      else some (ret, s, w)
    else some (ret, s, w)

/-- The function `ff_http_do_new_request`, for a stream and a session that
exist; `uri` is `none` for a null pointer. -/
def ff_http_do_new_request (e : Env) (fuel : Nat) (s : HTTPContext) (w : World)
    (uri : Option Str) : Option (Int × HTTPContext × World) :=
  let s0 := { s with
    off := 0,
    location := (match uri with
      | some u => (cstr u).take (MAX_URL_SIZE - 1)
      | none => s.location),
    is_seek := 1,
    canseek := 1 }
  match http_open_cnx e fuel s0 w with
  | none => none
  | some (r, s1, w1) =>
    match ff_http_do_new_request_retry fuel e fuel s1 w1 r 0 with
    | none => none
    | some (ret, s2, w2) => some (ret, { s2 with is_seek := 0 }, w2)

/-- The function `http_close`. -/
def http_close (s : HTTPContext) (w : World) : Int × HTTPContext × World :=
  (0, (http_close_and_keep s w 0).2.1, (http_close_and_keep s w 0).2.2)

/-- The function `ff_http_set_headers`: what it stores in `s->headers`. -/
def ff_http_set_headers (s : HTTPContext) (headers : Str) : HTTPContext :=
  { s with headers := (cstr headers).take (BUFFER_SIZE - 1) }

/-- The function `ff_http_set_chunked_transfer_encoding`. -/
def ff_http_set_chunked_transfer_encoding (s : HTTPContext) (is_chunked : Int) : HTTPContext :=
  { s with chunksize := if is_chunked ≠ 0 then 0 else -1 }

/-- The function `ff_http_init_auth_state`, `dest` receiving the auth state of `src`. -/
def ff_http_init_auth_state (dest src : HTTPContext) : HTTPContext :=
  { dest with auth_state := src.auth_state }

/-! ## A concrete environment for the examples -/

/-- A simple `av_url_split`: the host is what stands between `://` and the
next slash, the path the rest; no port and no credentials. -/
def demo_url_split (url : Str) : UrlParts :=
  let afterScheme : Str := match (cstr url).dropWhile (fun c => c != 58) with
    | 58 :: 47 :: 47 :: r => r
    | _ => cstr url
  { auth := [], hostname := afterScheme.takeWhile (fun c => c != 47), port := -1,
    path := afterScheme.dropWhile (fun c => c != 47) }

/-- A simple `ff_url_join`: `proto://host:port`, protocol and port when present. -/
def demo_url_join (proto : Option Str) (host : Str) (port : Int) : Str :=
  (match proto with | some p => p ++ [58, 47, 47] | none => []) ++ host
    ++ (if port ≥ 0 then 58 :: fmtInt port else [])

/-- A simple `ff_http_auth_handle_header`: a challenge whose value starts
with `Basic ` selects scheme 1 when none was selected. -/
def demo_auth_handle_header (st : HTTPAuthState) (_tag value : Str) : HTTPAuthState :=
  if st.auth_type = HTTP_AUTH_NONE ∧ ([66, 97, 115, 105, 99, 32] : Str).isPrefixOf value
  then { st with auth_type := 1 } else st

/-- The environment of the examples: default settings, no proxy. -/
def demoEnv : Env :=
  { fastnetworkmode := 1, config_rettry := 2, config_read_wait_time_max_ms := 120000,
    enable_http_keepalive := 1, http_proxy := none, no_proxy := false,
    av_url_split := demo_url_split, ff_url_join := demo_url_join,
    ff_http_auth_handle_header := demo_auth_handle_header,
    ff_http_auth_create_response := fun _ _ _ _ => none }

/-- The session record as allocated: all fields zero, `chunksize` at its option default 0. -/
def zeroContext : HTTPContext :=
  { hd := none, buf := [], line_count := 0, http_code := 0, chunksize := 0, off := 0,
    filesize := 0, do_readseek_size := 0, location := [],
    auth_state := { auth_type := HTTP_AUTH_NONE, data := [] }, headers := [], willclose := 0,
    is_seek := 0, canseek := 0, max_connects := 0, latest_get_time_ms := 0, is_broadcast := 0,
    read_seek_count := 0, is_livemode := 0, b_compressed := 0, hosname := [], keep_alive := 0,
    flags := 0, h_is_streamed := 0, h_http_code := 0, h_location_is_session := false,
    h_headers := none, h_is_segment_media := 0, h_flags := AVIO_FLAG_READ,
    h_is_slowmedia := 0 }

/-- A world with no connection yet, a clock that stands still and no
cancellation, whose peer answers the n-th connection attempt with `peer n`. -/
def freshWorld (peer : Nat → Option Script) : World :=
  { peer := fun n _ => peer n, nopen := 0, links := [], log := [], intr := fun _ => false,
    polls := 0, clock := fun _ => 0, ticks := 0, mono := fun _ => (0, 0), mticks := 0 }

/-- A script that delivers `bytes` in one piece and then ends the stream. -/
def respond (bytes : Str) : Option Script := some { rd := [RdEv.data bytes], wfail := false }

/-! ## Notions used in the statements -/

/-- The session `s2` differs from `s1` in the read buffer at most. -/
def BufOnly (s1 s2 : HTTPContext) : Prop := s2 = { s1 with buf := s2.buf }

/-- The auth-header handler never resets a selected scheme to none. -/
def AuthSticky (e : Env) : Prop :=
  ∀ (st : HTTPAuthState) (tag value : Str), st.auth_type ≠ HTTP_AUTH_NONE →
    (e.ff_http_auth_handle_header st tag value).auth_type ≠ HTTP_AUTH_NONE

/-- What reading response headers keeps of a session (`s`, with `*new_location = nl`,
becoming `s2`, with `*new_location = nl2`). -/
structure HdrKeeps (e : Env) (s : HTTPContext) (nl : Int) (s2 : HTTPContext) (nl2 : Int) :
    Prop where
  skip : s2.do_readseek_size = s.do_readseek_size
  hd : s2.hd = s.hd
  auth : AuthSticky e → s.auth_state.auth_type ≠ HTTP_AUTH_NONE →
    s2.auth_state.auth_type ≠ HTTP_AUTH_NONE
  loc : (nl2 = nl ∧ s2.location = s.location) ∨ nl2 = 1
  keep_alive : s2.keep_alive = s.keep_alive
  flags : s2.flags = s.flags
  max_connects : s2.max_connects = s.max_connects
  is_seek : s2.is_seek = s.is_seek
  canseek : s2.canseek = s.canseek

/-- The status codes of a redirect `http_open_cnx` follows. -/
def isRedirectCode (c : Int) : Prop := c = 301 ∨ c = 302 ∨ c = 303 ∨ c = 307

instance (c : Int) : Decidable (isRedirectCode c) := by
  unfold isRedirectCode; infer_instance

/-- What reading a response keeps of a session, from the request to the
end of `http_connect`. -/
structure ConnKeeps (e : Env) (s : HTTPContext) (nl : Int) (s2 : HTTPContext) (nl2 : Int) :
    Prop where
  hd : s2.hd = s.hd
  auth : AuthSticky e → s.auth_state.auth_type ≠ HTTP_AUTH_NONE →
    s2.auth_state.auth_type ≠ HTTP_AUTH_NONE
  loc : (nl2 = nl ∧ s2.location = s.location) ∨ nl2 = 1
  keep_alive : s2.keep_alive = s.keep_alive
  flags : s2.flags = s.flags
  max_connects : s2.max_connects = s.max_connects
  is_seek : s2.is_seek = s.is_seek
  canseek : s2.canseek = s.canseek

/-- The reply to the request of one pass of `http_open_cnx`: what
`http_connect` returns in the pass that starts from `s` and `w` with
`location_changed = lc`; `none` when the pass ends before `http_connect`
returns. -/
def http_open_cnx_reply (e : Env) (fuel : Nat) (s : HTTPContext) (w : World) (lc : Int) :
    Option (Int × HTTPContext × World × Int) :=
  match http_open_cnx_link e s w with
  | (some _, _, _) => none
  | (none, s1, w1) =>
    http_connect e fuel s1 w1 (http_open_cnx_target e s).2.2.2.2
      (http_open_cnx_target e s).2.2.1 (http_open_cnx_target e s).2.2.2.1 lc

/-- The session and world after `http_connect` when the reply to the request
of a pass is a redirect: `http_connect` succeeds, the status is 301, 302, 303
or 307 and a `Location` header was read. -/
def redirect_reply (e : Env) (fuel : Nat) (s : HTTPContext) (w : World) :
    Option (HTTPContext × World) :=
  match http_open_cnx_reply e fuel s w 0 with
  | some (ret, s2, w2, lc) =>
    if 0 ≤ ret ∧ lc = 1 ∧ isRedirectCode s2.http_code then some (s2, w2) else none
  | none => none

/-- The session and world with which `http_open_cnx` starts the next pass
when it follows a redirect. -/
def follow_redirect (s : HTTPContext) (w : World) : HTTPContext × World :=
  ({ (http_close_and_keep s w 0).2.1 with h_location_is_session := true },
   (http_close_and_keep s w 0).2.2)

/-- The session and world after `k` replies in a row that are redirects, each followed. -/
def follow_redirects (e : Env) (fuel : Nat) : Nat → HTTPContext → World →
    Option (HTTPContext × World)
  | 0, s, w => some (s, w)
  | k + 1, s, w =>
    match redirect_reply e fuel s w with
    | some (s2, w2) => follow_redirects e fuel k (follow_redirect s2 w2).1 (follow_redirect s2 w2).2
    | none => none

/-- The number of passes of `http_open_cnx`, among the first `n`, that end
in the `goto redo` of the 401 branch. -/
def http_open_cnx_auth_retries : Nat → Env → Nat → HTTPContext → World → Int → Int → Nat
  | 0, _, _, _, _, _, _ => 0
  | n + 1, e, fuel, s, w, location_changed, redirects =>
    match http_open_cnx_pass e fuel s w location_changed redirects with
    | some (PassOut.redo why s1 w1 lc rd) =>
      (if why = Redo.auth then 1 else 0) + http_open_cnx_auth_retries n e fuel s1 w1 lc rd
    | _ => 0

/-- The number of requests written to connections so far. -/
def requestsSent (w : World) : Nat :=
  (w.log.filter (fun ev => match ev with
    | Ev.wrote _ _ => true
    | _ => false)).length

/-- The connections released to the pool so far. -/
def releasedLinks (w : World) : List Nat :=
  w.log.filterMap (fun ev => match ev with
    | Ev.released id => some id
    | _ => none)

/-- The connections opened so far, in order. -/
def openedLinks (w : World) : List Nat :=
  w.log.filterMap (fun ev => match ev with
    | Ev.opened id => some id
    | _ => none)

/-- The connections closed so far, in order. -/
def closedLinks (w : World) : List Nat :=
  w.log.filterMap (fun ev => match ev with
    | Ev.closed id => some id
    | _ => none)

/-- A world in which no response can yield a status line because no byte
ever arrives: the cancellation signal is never set, every connection attempt
is refused or gives a connection whose stream the peer has closed, and the
pool holds no idle connection. -/
structure DeadPeer (w : World) : Prop where
  intr : ∀ n : Nat, w.intr n = false
  peer : ∀ (n : Nat) (addr : Str), w.peer n addr = none ∨
    ∃ b : Bool, w.peer n addr = some { rd := [], wfail := b }
  idle : ∀ l ∈ w.links, l.idle = false

/-- A session without connection that is opened for reading only (its requests are GETs). -/
structure ReadSession (s : HTTPContext) : Prop where
  hd : s.hd = none
  h_flags : hasFlag s.h_flags AVIO_FLAG_WRITE = false
  flags : hasFlag s.flags AVIO_FLAG_WRITE = false

/-- What `k` failed connection attempts leave of the world `w` in `w2`: `k`
more attempts counted, nothing released to the pool, and every connection
opened in between closed again. -/
structure FailedAttempts (k : Nat) (w w2 : World) : Prop where
  nopen : w2.nopen = w.nopen + k
  released : releasedLinks w2 = releasedLinks w
  closed : ∃ ids : List Nat, openedLinks w2 = openedLinks w ++ ids ∧
    closedLinks w2 = closedLinks w ++ ids

/-- The world `w2` differs from `w` in clock readings, polls and
requests written at most: same connections, same peer, same cancellation
signal, same count of connection attempts, and nothing opened, closed or
released in between. -/
structure Quiet (w w2 : World) : Prop where
  links : w2.links = w.links
  peer : w2.peer = w.peer
  intr : w2.intr = w.intr
  nopen : w2.nopen = w.nopen
  released : releasedLinks w2 = releasedLinks w
  opened : openedLinks w2 = openedLinks w
  closed : closedLinks w2 = closedLinks w

/-- The header line `Content-Range: bytes S-E/T`, the three numbers in decimal. -/
def content_range_line (S E T : Nat) : Str :=
  ([67, 111, 110, 116, 101, 110, 116, 45, 82, 97, 110, 103, 101, 58, 32, 98, 121, 116, 101, 
    115, 32] : Str) ++ (natDigits S ++ (45 :: (natDigits E ++ (47 :: natDigits T))))

/-- The header line `Content-Length: v`. -/
def content_length_line (v : Str) : Str := ([67, 111, 110, 116, 101, 110, 116, 45, 76, 101, 110, 103, 116, 104, 58, 32] : Str) ++ v

/-- The lines the header loop of `http_connect` reads and hands to
`process_line`, in order: the status line first, the empty line that ends the
header last (when the loop gets that far). -/
def http_connect_lines : Nat → Nat → Env → HTTPContext → World → Int → List Str
  | 0, _, _, _, _, _ => []
  | n + 1, fuel, e, s, w, new_location =>
    match http_get_line fuel s w MAX_URL_SIZE with
    | none => []
    | some (r, line, s1, w1) =>
      if r < 0 then []
      else
        let pl := process_line e s1 line s1.line_count new_location
        if pl.1 < 0 ∨ pl.1 = 0 then [line]
        else line :: http_connect_lines n fuel e
          { pl.2.1 with line_count := pl.2.1.line_count + 1 } w1 pl.2.2

/-- The value of a header line named `Connection` (in any case): what
follows the colon and the blanks after it; `none` for every other line. -/
def connection_value (line : Str) : Option Str :=
  match (cstr line).dropWhile (fun c => c != 58) with
  | [] => none
  | _ :: rest =>
    if strcasecmp_eq ((cstr line).takeWhile (fun c => c != 58)) str_Connection
    then some (rest.dropWhile isspace) else none

/-- The will-close mark a list of header lines asks for when the mark was
`before`: 0 when the value of the last `Connection` header equals `Keep-Alive`
ignoring case, 1 when it is anything else, `before` when there is no
`Connection` header. -/
def willclose_after (before : Int) (headers : List Str) : Int :=
  match (headers.filterMap connection_value).getLast? with
  | some v => if strcasecmp_eq v str_Keep_Alive then 0 else 1
  | none => before

/-- The session `s2` differs from `s1` at most in the fields a response
head sets: status, sizes and offset, location, auth state, will-close mark,
compression, broadcast and streamed marks. -/
def HeadOnly (s1 s2 : HTTPContext) : Prop :=
  s2 = { s1 with http_code := s2.http_code, h_http_code := s2.h_http_code,
                 chunksize := s2.chunksize, off := s2.off, filesize := s2.filesize,
                 location := s2.location, auth_state := s2.auth_state,
                 willclose := s2.willclose, is_broadcast := s2.is_broadcast,
                 b_compressed := s2.b_compressed, h_is_streamed := s2.h_is_streamed }

/-- The header lines of the response `http_connect` reads after its request:
the lines its header loop reads, the status line left out. -/
def response_header_lines (e : Env) (fuel : Nat) (s : HTTPContext) (w : World)
    (path hoststr auth : Str) (nl : Int) : List Str :=
  match s.hd with
  | none => []
  | some id =>
    (http_connect_lines fuel fuel e { http_connect_reset s with chunksize := -1 }
      (ffurl_write w id (cstr (http_request e s path hoststr auth))).2 nl).tail

/-- Number of places in `hay` at which `needle` starts. -/
def occurrences (needle : Str) : Str → Nat
  | [] => if needle.isEmpty then 1 else 0
  | c :: hay => (if needle.isPrefixOf (c :: hay) then 1 else 0) + occurrences needle hay

/-- Number of header lines of a header block that start with a header name,
ignoring case. The name `hdr` has the form `has_header` takes it in,
`\r\nName: `; counted are the places where it starts in the block with a CRLF
put in front (the end of the line before the block). -/
def header_count (hdr block : Str) : Nat :=
  occurrences ((cstr hdr).map tolower) (13 :: 10 :: (cstr block).map tolower)

/-- A header name in the form `has_header` takes it in: CRLF, then a name
that is not empty and holds no CR. -/
def IsHeaderName (hdr : Str) : Prop :=
  (cstr hdr).map tolower = 13 :: 10 :: (cstr (hdr.drop 2)).map tolower ∧
  13 ∉ (cstr (hdr.drop 2)).map tolower ∧ (cstr (hdr.drop 2)).map tolower ≠ []

/-- A header block made of whole lines: empty, or ending in CRLF. -/
def WholeLines (block : Str) : Prop := block = [] ∨ ∃ P : Str, block = P ++ [13, 10]

/-- The headers of the `URLContext` (`h->headers`) as the C string
`http_connect` copies into its header block; empty when there are none. -/
def url_headers (s : HTTPContext) : Str :=
  match s.h_headers with
  | some hh => cstr hh
  | none => []

/-- The `User-Agent` line `http_connect` puts first, when the custom headers have none. -/
def request_user_agent (s : HTTPContext) : Str :=
  if !has_header s.headers hdr_User_Agent
  then [85, 115, 101, 114, 45, 65, 103, 101, 110, 116, 58, 32] ++ IPAD_IDENT ++ str_crlf
  else []

/-- The `Accept` line `http_connect` adds, when the custom headers have none. -/
def request_accept (s : HTTPContext) : Str :=
  if !has_header s.headers hdr_Accept then str_Accept_line else []

/-- The `Range` line `http_connect` adds, when it adds one. -/
def request_range (s : HTTPContext) : Str :=
  if !has_header s.headers hdr_Range ∧ (s.off > 0 ∨ s.is_seek ≠ 0)
      ∧ !has_header (request_user_agent s ++ url_headers s ++ request_accept s) hdr_Range
      ∧ s.h_is_segment_media = 0
  then str_Range_bytes ++ fmtInt s.off ++ str_dash_crlf else []

/-- The `Connection` line `http_connect` adds, when it adds one. -/
def request_connection (s : HTTPContext) : Str :=
  if !has_header s.headers hdr_Connection
      ∧ !has_header (request_user_agent s ++ url_headers s ++ request_accept s
          ++ request_range s) hdr_Connection
  then (if s.keep_alive ≠ 0 then str_Conn_keep_alive_line else str_Conn_close_line)
  else []

/-- The `Host` line `http_connect` adds, when the custom headers have none. -/
def request_host (s : HTTPContext) (hoststr : Str) : Str :=
  if !has_header s.headers hdr_Host
  then [72, 111, 115, 116, 58, 32] ++ cstr hoststr ++ str_crlf else []

/-- The log of `w2` goes on from the log of `w`: nothing that happened is forgotten. -/
def LogExt (w w2 : World) : Prop := ∃ l : List Ev, w2.log = w.log ++ l

/-- The requests and other data written to connections so far, in order. -/
def requestsWritten (w : World) : List Str :=
  w.log.filterMap (fun ev => match ev with
    | Ev.wrote _ b => some b
    | _ => none)

/-- The world a pass of `http_open_cnx` ends with. -/
def passWorld : PassOut → World
  | PassOut.done _ _ w => w
  | PassOut.redo _ _ w _ _ => w

/-- The request `http_open` has `http_connect` format in its first
connection attempt: for the session as `http_open` sets it up, with path, host
string and credentials taken from the location. -/
def http_open_request (e : Env) (s : HTTPContext) (uri : Str) (flags : Nat) : Str :=
  http_request e (http_open_init e s uri flags)
    (http_open_cnx_target e (http_open_init e s uri flags)).2.2.2.2
    (http_open_cnx_target e (http_open_init e s uri flags)).2.2.1
    (http_open_cnx_target e (http_open_init e s uri flags)).2.2.2.1

/-- What a read keeps of a session while it sends no request: offset,
total size and bytes still to skip; and the session stays out of chunked mode. -/
structure ReadKeeps (s s2 : HTTPContext) : Prop where
  off : s2.off = s.off
  filesize : s2.filesize = s.filesize
  skip : s2.do_readseek_size = s.do_readseek_size
  chunk : s.chunksize < 0 → s2.chunksize < 0

/-- The bytes the events of a connection deliver, in order. -/
def pendingBytes : List RdEv → Str
  | [] => []
  | RdEv.data bs :: r => bs ++ pendingBytes r
  | RdEv.fail _ :: r => pendingBytes r

/-- Every event of the connection delivers at least one byte. -/
def AllData (rd : List RdEv) : Prop := ∀ ev ∈ rd, ∃ bs : Str, ev = RdEv.data bs ∧ bs ≠ []

/-- The session holds a connection, and what is left in its read buffer
followed by what the connection still delivers, in pieces split in any way, is
`rest`; after that the connection is at end of stream. -/
def Feeds (s : HTTPContext) (w : World) (rest : Str) : Prop :=
  ∃ (id : Nat) (l : Link), s.hd = some id ∧ w.links.get? id = some l ∧ AllData l.rd ∧
    s.buf ++ pendingBytes l.rd = rest

/-- Call `http_write` on each block in turn, whole: the world afterwards. -/
def http_write_blocks (s : HTTPContext) (w : World) : List Str → World
  | [] => w
  | b :: bs => http_write_blocks s (http_write s w b b.length).2 bs

/-- The bytes sent while the blocks are written with `http_write`, one call
for each, and the session is then closed with `http_close_and_keep(s, 1)`. -/
def chunked_upload (s : HTTPContext) (w : World) (blocks : List Str) : Str :=
  ((requestsWritten (http_close_and_keep s (http_write_blocks s w blocks) 1).2.2).drop
    (requestsWritten w).length).flatten

/-- Call `http_read` again and again, the k-th call with size `size k`, as
long as it returns a positive count: the value the last call returns, the
bytes delivered by all calls, the session and the world. -/
def http_read_all : Nat → Env → Nat → HTTPContext → World → (Nat → Int) →
    Option (Int × Str × HTTPContext × World)
  | 0, _, _, _, _, _ => none
  | n + 1, e, fuel, s, w, size =>
    match http_read e fuel s w (size 0) with
    | none => none
    | some (r, bytes, s1, w1) =>
      if r > 0 then
        match http_read_all n e fuel s1 w1 (fun k => size (k + 1)) with
        | none => none
        | some (r2, bytes2, s2, w2) => some (r2, bytes ++ bytes2, s2, w2)
      else some (r, [], s1, w1)

/-- The chunked encoding of a list of blocks: for each block its length in
hexadecimal, CR LF, the block, CR LF; then `0`, CR LF, CR LF. -/
def chunk_stream : List Str → Str
  | [] => str_footer
  | b :: bs => hexDigits b.length ++ str_crlf ++ b ++ str_crlf ++ chunk_stream bs
/-- The cancellation signal is never set, and two readings of the clock
`av_gettime` in a row are at most ten seconds apart. -/
def Calm (w : World) : Prop :=
  (∀ k : Nat, w.intr k = false) ∧ ∀ k : Nat, w.clock (k + 1) ≤ w.clock k + 10000000
/-- A session in the middle of a chunked body: `d` is what is left of the
current chunk, `bs` are the blocks still to come; no total size is known, no
bytes are to be skipped, and what the session receives is `d`, then (at the
start of the body) nothing or else the CR LF that ends a chunk, then the
encoding of `bs`. -/
structure Decoding (s : HTTPContext) (w : World) (d : Str) (bs : List Str) : Prop where
  chunk : s.chunksize = d.length
  nosize : s.filesize < 0
  skip : s.do_readseek_size ≤ 0
  calm : Calm w
  short : d.length < 2 ^ 31
  blocks : ∀ b ∈ bs, b ≠ [] ∧ b.length < 2 ^ 31
  feeds : ∃ pre : Str, (pre = [] ∨ pre = str_crlf) ∧ Feeds s w (d ++ (pre ++ chunk_stream bs))

/-- The session a pass of `http_open_cnx` ends with. -/
def passSession : PassOut → HTTPContext
  | PassOut.done _ s _ => s
  | PassOut.redo _ s _ _ _ => s

/-- The session `http_reopen_cnx` calls `http_open_cnx` with: at the offset
asked for (the old one when `off` is negative), without connection, not in
chunked mode. -/
def http_reopen_cnx_session (s : HTTPContext) (off : Int) : HTTPContext :=
  { s with off := if off ≥ 0 then off else s.off, hd := none, chunksize := -1 }

/-- The world `http_reopen_cnx` calls `http_open_cnx` in: the previous
connection is closed, unless it is retained as a fallback
(`s->max_connects>1 && old_hd`). -/
def http_reopen_cnx_world (s : HTTPContext) (w : World) : World :=
  if s.max_connects > 1 ∧ s.hd.isSome then w
  else
    match s.hd with
    | some id => tcppool_close_tcplink w id
    | none => w

/-- The sessions `http_open_cnx` is called with in the retry loop of
`http_open`, in order; the loop is entered with the result `ret` of the
attempt before. -/
def http_open_retry_calls : Nat → Env → Nat → HTTPContext → World → Int → Int →
    List HTTPContext
  | 0, _, _, _, _, _, _ => []
  | n + 1, e, fuel, s, w, ret, open_retry =>
    if ret < 0 then
      if open_retry + 1 < e.config_rettry then
        let ic := url_interrupt_cb w
        if !ic.1 ∧ (s.http_code ≠ 404 ∨ s.http_code ≠ 503 ∨ s.http_code ≠ 500) then
          { s with is_seek := 0, canseek := 0 } ::
            (match http_open_cnx e fuel { s with is_seek := 0, canseek := 0 } ic.2 with
             | none => []
             | some (r, s1, w1) => http_open_retry_calls n e fuel s1 w1 r (open_retry + 1))
        else []
      else []
    else []

/-- The sessions `http_open_cnx` is called with by `http_open`, in order. -/
def http_open_calls (e : Env) (fuel : Nat) (s : HTTPContext) (w : World) (uri : Str)
    (flags : Nat) : List HTTPContext :=
  http_open_init e s uri flags ::
    (match http_open_cnx e fuel (http_open_init e s uri flags) (av_gettime w).2 with
     | none => []
     | some (r, s1, w1) => http_open_retry_calls fuel e fuel s1 w1 r 0)

/-- How one pass through the body of `http_read` (from the label `retry`)
ends: with a `return`; with `http_reopen_cnx(h,-1); goto retry` on the session
and world given, `size` being the local as the chunk size limited it; or with
the `goto retry` that follows a block of skipped bytes. `stuck` stands for a
pass that does not finish reading its chunk-size line. -/
inductive ReadStep where
  | stuck
  | ret (r : Int) (bytes : Str) (s : HTTPContext) (w : World)
  | reopen (s : HTTPContext) (w : World) (size : Int)
  | skip (s : HTTPContext) (w : World) (size : Int)

/-- One pass through the body of `http_read`, from the label `retry` to a
`return` or a `goto retry`. -/
def http_read_pass (e : Env) (fuel : Nat) (s : HTTPContext) (w : World)
    (size err_retry : Int) : ReadStep :=
  let ic := url_interrupt_cb w
  if ic.1 then ReadStep.ret (AVERROR EIO) [] s ic.2
  else
    match http_read_chunk fuel s ic.2 size with
    | none => ReadStep.stuck
    | some (some r, s1, w1, _) => ReadStep.ret r [] s1 w1
    | some (none, s1, w1, size1) =>
      match http_read_fetch s1 w1 size1 with
      | Fetch.eof => ReadStep.ret 0 [] s1 w1
      | f =>
        let a : Int × Str × HTTPContext × World := match f with
          | Fetch.got len bytes s2 w2 =>
            ((http_read_account e s2 w2 len).1, bytes,
             (http_read_account e s2 w2 len).2.1, (http_read_account e s2 w2 len).2.2)
          | _ => (-1000, [], s1, w1)
        let len := a.1
        let s3 := a.2.2.1
        let w3 := a.2.2.2
        if len < 0 ∧ s3.filesize > 0 ∧ s3.off = s3.filesize then ReadStep.ret 0 [] s3 w3
        else if len < 0 ∧ len ≠ AVERROR EAGAIN then
          if err_retry > 0 then ReadStep.reopen s3 w3 size1
          else ReadStep.ret len [] s3 w3
        else if s3.do_readseek_size > 0 ∧ len > 0 then
          if len > s3.do_readseek_size then
            ReadStep.ret (len - s3.do_readseek_size) (a.2.1.drop s3.do_readseek_size.toNat)
              { s3 with do_readseek_size := 0 } w3
          else ReadStep.skip { s3 with do_readseek_size := s3.do_readseek_size - len } w3 size1
        else ReadStep.ret len (if len > 0 then a.2.1 else []) s3 w3

/-- What follows a pass of `http_read`: the value returned, or the next
pass, `loop` standing for the rest of the passes and `err_retry` for the
retries left before the pass. -/
def http_read_next (e : Env) (fuel : Nat) (err_retry : Int)
    (loop : HTTPContext → World → Int → Int → Option (Int × Str × HTTPContext × World)) :
    ReadStep → Option (Int × Str × HTTPContext × World)
  | ReadStep.stuck => none
  | ReadStep.ret r bytes s w => some (r, bytes, s, w)
  | ReadStep.reopen s w size =>
    match http_reopen_cnx e fuel s w (-1) with
    | none => none
    | some (_, s4, w4) => loop s4 w4 size (err_retry - 1)
  | ReadStep.skip s w size => loop s w size err_retry

/-- The sessions and worlds `http_reopen_cnx` is called with in the passes
of `http_read`, in order. -/
def http_read_reopens : Nat → Env → Nat → HTTPContext → World → Int → Int →
    List (HTTPContext × World)
  | 0, _, _, _, _, _, _ => []
  | n + 1, e, fuel, s, w, size, err_retry =>
    match http_read_pass e fuel s w size err_retry with
    | ReadStep.reopen s3 w3 size1 =>
      (s3, w3) ::
        (match http_reopen_cnx e fuel s3 w3 (-1) with
         | none => []
         | some (_, s4, w4) => http_read_reopens n e fuel s4 w4 size1 (err_retry - 1))
    | ReadStep.skip s3 w3 size1 => http_read_reopens n e fuel s3 w3 size1 err_retry
    | _ => []

/-- The sessions and worlds `http_reopen_cnx` is called with by `http_read`, in order. -/
def http_read_reopen_calls (e : Env) (fuel : Nat) (s : HTTPContext) (w : World) (size : Int) :
    List (HTTPContext × World) :=
  if s.filesize > 0 ∧ s.off = s.filesize then []
  else http_read_reopens fuel e fuel s w size e.config_rettry

/-- The sessions and worlds `http_reopen_cnx` is called with in the retry
loop of `http_seek`, in order. -/
def http_seek_retry_calls : Nat → Env → Nat → HTTPContext → World → Int → Int → Int →
    List (HTTPContext × World)
  | 0, _, _, _, _, _, _, _ => []
  | n + 1, e, fuel, s, w, off, ret, open_retry =>
    if ret < 0 then
      if open_retry < READ_RETRY_MAX then
        let ic := url_interrupt_cb w
        if !ic.1 then
          if off < 0 ∨ (s.filesize > 0 ∧ off ≥ s.filesize) then []
          else
            (s, ic.2) ::
              (match http_reopen_cnx e fuel s ic.2 off with
               | none => []
               | some (r, s1, w1) => http_seek_retry_calls n e fuel s1 w1 off r (open_retry + 1))
        else []
      else []
    else []

/-- The sessions and worlds `http_reopen_cnx` is called with by `http_seek`, in order. -/
def http_seek_reopen_calls (e : Env) (fuel : Nat) (s : HTTPContext) (w : World)
    (off whence : Int) : List (HTTPContext × World) :=
  if whence = AVSEEK_SIZE then []
  else if (s.filesize = -1 ∧ whence = SEEK_END) ∨ s.h_is_streamed ≠ 0 then []
  else if whence = SEEK_CUR ∧ off = 0 then []
  else
    if seek_target s off whence ≥ s.filesize ∧ s.filesize > 0 then []
    else
      ({ s with is_seek := 1 }, w) ::
        (match http_reopen_cnx e fuel { s with is_seek := 1 } w (seek_target s off whence) with
         | none => []
         | some (r, s1, w1) =>
           http_seek_retry_calls fuel e fuel s1 w1 (seek_target s off whence) r 0)

/-- The session states the handler can be in: what `http_open` or
`shttp_open` leaves, and what the other entry points of the handler
(`http_read`, `http_seek`, `http_close`, `ff_http_do_new_request`,
`ff_http_set_headers`, `ff_http_set_chunked_transfer_encoding`,
`ff_http_init_auth_state`) make of such a state, in whatever world they run. -/
inductive Reachable (e : Env) : HTTPContext → Prop
  | opened (fuel : Nat) (s : HTTPContext) (w : World) (uri : Str) (flags : Nat) (r : Int)
      (s2 : HTTPContext) (w2 : World)
      (h : http_open e fuel s w uri flags = some (r, s2, w2)) : Reachable e s2
  | sopened (fuel : Nat) (s : HTTPContext) (w : World) (uri : Str) (flags : Nat) (r : Int)
      (s2 : HTTPContext) (w2 : World)
      (h : shttp_open e fuel s w uri flags = some (r, s2, w2)) : Reachable e s2
  | read (fuel : Nat) (s : HTTPContext) (w : World) (size r : Int) (bytes : Str)
      (s2 : HTTPContext) (w2 : World) (hs : Reachable e s)
      (h : http_read e fuel s w size = some (r, bytes, s2, w2)) : Reachable e s2
  | seek (fuel : Nat) (s : HTTPContext) (w : World) (off whence r : Int)
      (s2 : HTTPContext) (w2 : World) (hs : Reachable e s)
      (h : http_seek e fuel s w off whence = some (r, s2, w2)) : Reachable e s2
  | closed (s : HTTPContext) (w : World) (hs : Reachable e s) :
      Reachable e (http_close s w).2.1
  | requested (fuel : Nat) (s : HTTPContext) (w : World) (uri : Option Str) (r : Int)
      (s2 : HTTPContext) (w2 : World) (hs : Reachable e s)
      (h : ff_http_do_new_request e fuel s w uri = some (r, s2, w2)) : Reachable e s2
  | headers (s : HTTPContext) (hdrs : Str) (hs : Reachable e s) :
      Reachable e (ff_http_set_headers s hdrs)
  | chunked (s : HTTPContext) (is_chunked : Int) (hs : Reachable e s) :
      Reachable e (ff_http_set_chunked_transfer_encoding s is_chunked)
  | auth (s src : HTTPContext) (hs : Reachable e s) :
      Reachable e (ff_http_init_auth_state s src)

/-- The session a pass of `http_read` ends with has `max_connects = m`. -/
def ReadStepMax (m : Int) : ReadStep → Prop
  | ReadStep.stuck => True
  | ReadStep.ret _ _ s _ => s.max_connects = m
  | ReadStep.reopen s _ _ => s.max_connects = m
  | ReadStep.skip s _ _ => s.max_connects = m

/-- The session a pass of `http_read` ends with (`none` when the pass does
not finish reading its chunk-size line). -/
def stepSession : ReadStep → Option HTTPContext
  | ReadStep.stuck => none
  | ReadStep.ret _ _ s _ => some s
  | ReadStep.reopen s _ _ => some s
  | ReadStep.skip s _ _ => some s

/-- The number of bytes a fetch takes from the read buffer or the
connection: the count it returns when that is positive, else none. -/
def fetchTaken : Fetch → Int
  | Fetch.got len _ _ _ => max 0 len
  | Fetch.eof => 0
  | Fetch.nohd => 0

/-- The offset a header line named `Content-Range` (in any case) reports:
the number that follows `bytes` and the blanks after it in the value of the
line; `none` for every other line, and for a `Content-Range` line whose value
does not begin with `bytes`. -/
def content_range_start (line : Str) : Option Int :=
  match (cstr line).dropWhile (fun c => c != 58) with
  | [] => none
  | _ :: rest =>
    if strcasecmp_eq ((cstr line).takeWhile (fun c => c != 58)) str_Content_Range
        ∧ strncmp_eq (rest.dropWhile isspace) str_bytes_sp 5
    then some (atoll (((rest.dropWhile isspace).drop 5).dropWhile (fun c => c == 32)))
    else none

/-- The offset a list of header lines reports when the offset was `before`:
the start the last `Content-Range` header gives, `before` when there is none. -/
def offset_after (before : Int) (headers : List Str) : Int :=
  match (headers.filterMap content_range_start).getLast? with
  | some v => v
  | none => before

/-- The offset a response reports: the start of its (last) `Content-Range`
header, 0 when it has none. -/
def reported_offset (headers : List Str) : Int := offset_after 0 headers

/-- The header block of a request when the array `headers` of `http_connect`
cuts nothing off: the `User-Agent` line, the headers of the `URLContext`, the
`Accept`, `Range`, `Connection` and `Host` lines and the custom headers, each
line present or not. -/
def request_block (s : HTTPContext) (hoststr : Str) : Str :=
  request_user_agent s ++ (url_headers s ++ (request_accept s ++ (request_range s
    ++ (request_connection s ++ (request_host s hoststr ++ cstr s.headers)))))

/-- The cut block `a`, with its value of `len`, agrees with the uncut block
`h`: `a` holds the first 4095 bytes of `h`, and `len` is the length of `h`, or
past the end of the array when `h` does not fit. -/
def BlockCut (h : Str) (a : Str × Int) : Prop :=
  a.1 = h.take (1024 * 4 - 1) ∧ (h.length ≤ 1024 * 4 - 1 → a.2 = h.length) ∧
    (1024 * 4 - 1 < h.length → 1024 * 4 - 1 < a.2)

/-- The request line `http_connect` formats: the method, the path and ` HTTP/1.1`. -/
def request_line (s : HTTPContext) (path : Str) : Str :=
  (if hasFlag s.h_flags AVIO_FLAG_WRITE then str_POST else str_GET) ++ [32] ++ cstr path
    ++ str_HTTP11_crlf

/-- The line `Transfer-Encoding: chunked` of a request, when it has one. -/
def request_chunked (s : HTTPContext) : Str :=
  if hasFlag s.h_flags AVIO_FLAG_WRITE ∧ s.chunksize ≥ 0 then str_TE_chunked_line else []

/-- The authorization text `ff_http_auth_create_response` gives for the
request; empty when it gives none. -/
def request_auth (e : Env) (s : HTTPContext) (path auth : Str) : Str :=
  match e.ff_http_auth_create_response s.auth_state auth path
      (if hasFlag s.h_flags AVIO_FLAG_WRITE then str_POST else str_GET) with
  | some a => cstr a
  | none => []

/-- The texts `http_connect` puts a request together from are well formed:
path and host string hold no CR, and the headers of the `URLContext` and the
custom headers are whole lines (empty, or ending in CRLF). -/
structure RequestTexts (e : Env) (s : HTTPContext) (path hoststr auth : Str) : Prop where
  path_cr : 13 ∉ cstr path
  host_cr : 13 ∉ cstr hoststr
  url_lines : WholeLines (url_headers s)
  custom_lines : WholeLines (cstr s.headers)

/-- What a connection still has to deliver, as a number: one for every read
event and one for every byte. -/
def rdCost : List RdEv → Nat
  | [] => 0
  | RdEv.data bs :: r => bs.length + 1 + rdCost r
  | RdEv.fail _ :: r => 1 + rdCost r

/-- The connection ends before it has delivered a line feed: up to the end
of its stream, its first empty read or its first failed read other than
would-block (`fail 10`), whichever comes first, no byte it delivers is a line
feed. -/
def EndsBeforeLine : List RdEv → Prop
  | [] => True
  | RdEv.fail e :: r => e = 10 → EndsBeforeLine r
  | RdEv.data bs :: r => bs ≠ [] → 10 ∉ bs ∧ EndsBeforeLine r

/-- A world in which no response yields a first line: the cancellation
signal is never set, and every connection, whether the peer accepts it from
now on or it lies idle and open in the pool, ends before it has delivered a
line feed (the peer closes the stream or a read fails); `B` bounds the bytes
and read events of a connection. Connection attempts may also be refused, and
writes may fail. -/
structure NoFirstLine (B : Nat) (w : World) : Prop where
  intr : ∀ n : Nat, w.intr n = false
  peer : ∀ (n : Nat) (addr : Str) (sc : Script), w.peer n addr = some sc →
    EndsBeforeLine sc.rd ∧ rdCost sc.rd ≤ B
  idle : ∀ l ∈ w.links, l.idle = true → l.closed = false → EndsBeforeLine l.rd ∧ rdCost l.rd ≤ B

/-- An attempt to get a connection: one opened, one refused, or one taken from the pool. -/
def isTry : Ev → Bool
  | Ev.opened _ => true
  | Ev.open_failed => true
  | Ev.acquired _ => true
  | _ => false

/-- A call of `ffurl_open`: a connection opened or refused. -/
def isConnect : Ev → Bool
  | Ev.opened _ => true
  | Ev.open_failed => true
  | _ => false

/-- The connections opened or taken from the pool in a run of transport operations, in order. -/
def linksUsed (evs : List Ev) : List Nat :=
  evs.filterMap (fun ev => match ev with
    | Ev.opened id => some id
    | Ev.acquired id => some id
    | _ => none)

/-- The connections opened in a run of transport operations, in order. -/
def linksOpened (evs : List Ev) : List Nat :=
  evs.filterMap (fun ev => match ev with
    | Ev.opened id => some id
    | _ => none)

/-- The connections closed in a run of transport operations, in order. -/
def linksClosed (evs : List Ev) : List Nat :=
  evs.filterMap (fun ev => match ev with
    | Ev.closed id => some id
    | _ => none)

/-- The connections released to the pool in a run of transport operations. -/
def linksReleased (evs : List Ev) : List Nat :=
  evs.filterMap (fun ev => match ev with
    | Ev.released id => some id
    | _ => none)

/-- What `k` failed attempts leave of the world `w` in `w2`, `evs` being the
transport operations in between: `k` of them got or tried to get a
connection, each call of `ffurl_open` among them is counted in `nopen`,
nothing was released to the pool, the connections closed are exactly those
opened or taken from the pool, every connection taken from the pool was idle
in `w`, and a connection idle in `w2` was so in `w`, unchanged. -/
structure FailedTries (k : Nat) (w w2 : World) (evs : List Ev) : Prop where
  log : w2.log = w.log ++ evs
  tries : (evs.filter isTry).length = k
  nopen : w2.nopen = w.nopen + (evs.filter isConnect).length
  released : linksReleased evs = []
  closed : linksClosed evs = linksUsed evs
  acquired : ∀ id : Nat, Ev.acquired id ∈ evs → ∃ l : Link, w.links.get? id = some l ∧ l.idle = true
  idle : ∀ (j : Nat) (l : Link), w2.links.get? j = some l → l.idle = true →
    w.links.get? j = some l

/-- The world `w2` differs from `w` by reads on connection `id` and clock
readings at most. -/
structure ReadsOn (id : Nat) (w w2 : World) : Prop where
  peer : w2.peer = w.peer
  intr : w2.intr = w.intr
  nopen : w2.nopen = w.nopen
  log : w2.log = w.log
  others : ∀ j : Nat, j ≠ id → w2.links.get? j = w.links.get? j

/-! ## Example data -/

/-- The location `http://host/video.ts`. -/
def demoUri : Str := ([104, 116, 116, 112, 58, 47, 47, 104, 111, 115, 116, 47, 118, 105, 100, 101, 111, 46, 
    116, 115] : Str)

/-- A world in which no connection can be made. -/
def deadWorld : World := freshWorld (fun _ => none)

/-- A session of known size 1000 that is not streamed, at offset 0. -/
def sized1000 : HTTPContext :=
  { zeroContext with filesize := 1000, max_connects := 1, location := demoUri }

/-- A streamed session at offset 5. -/
def streamedAt5 : HTTPContext := { zeroContext with h_is_streamed := 1, off := 5 }

/-- A world with one open connection, number 0, on which the peer delivers `bytes`. -/
def connectedWorld (bytes : Str) : World :=
  (ffurl_open (freshWorld (fun _ => respond bytes)) ([116, 99, 112, 58, 47, 47, 104, 111, 115, 116, 58, 56, 48] : Str) 3).2

/-- A session on connection 0 that wants to continue at offset 100. -/
def sessAt100 : HTTPContext := { zeroContext with hd := some 0, off := 100 }

/-- A response that ignores the requested range:
`HTTP/1.1 200 OK`, `Content-Length: 1000`, end of header. -/
def respIgnoresRange : Str := ([72, 84, 84, 80, 47, 49, 46, 49, 32, 50, 48, 48, 32, 79, 75, 13, 10, 67, 111, 110, 116, 
    101, 110, 116, 45, 76, 101, 110, 103, 116, 104, 58, 32, 49, 48, 48, 48, 13, 10, 13, 10] : Str)

/-- A response that honours the range from 100:
`HTTP/1.1 206 Partial Content`, `Content-Range: bytes 100-999/1000`, end of header. -/
def respRange100 : Str :=
  ([72, 84, 84, 80, 47, 49, 46, 49, 32, 50, 48, 54, 32, 80, 97, 114, 116, 105, 97, 108, 32, 
    67, 111, 110, 116, 101, 110, 116, 13, 10, 67, 111, 110, 116, 101, 110, 116, 45, 82, 
    97, 110, 103, 101, 58, 32, 98, 121, 116, 101, 115, 32, 49, 48, 48, 45, 57, 57, 57, 
    47, 49, 48, 48, 48, 13, 10, 13, 10] : Str)

/-- A redirect: `HTTP/1.1 302 Found`, `Location: http://b/x`, end of header. -/
def respRedirect : Str := ([72, 84, 84, 80, 47, 49, 46, 49, 32, 51, 48, 50, 32, 70, 111, 117, 110, 100, 13, 10, 76, 
    111, 99, 97, 116, 105, 111, 110, 58, 32, 104, 116, 116, 112, 58, 47, 47, 98, 47, 120, 
    13, 10, 13, 10] : Str)

/-- A plain success: `HTTP/1.1 200 OK`, `Content-Length: 5`, end of header, `hello`. -/
def respOk : Str := ([72, 84, 84, 80, 47, 49, 46, 49, 32, 50, 48, 48, 32, 79, 75, 13, 10, 67, 111, 110, 116, 
    101, 110, 116, 45, 76, 101, 110, 103, 116, 104, 58, 32, 53, 13, 10, 13, 10, 104, 101, 
    108, 108, 111] : Str)

/-- The session `http_open` starts from for `demoUri`, opened for reading. -/
def openedSession : HTTPContext := http_open_init demoEnv zeroContext demoUri AVIO_FLAG_READ

/-- A peer that answers every request with the redirect `respRedirect`. -/
def redirectingWorld : World := freshWorld (fun _ => respond respRedirect)

/-- A peer that answers the first two requests with the redirect
`respRedirect` and the third with `respOk`. -/
def twoRedirectsWorld : World :=
  freshWorld (fun n => if n < 2 then respond respRedirect else respond respOk)

/-- A challenge: `HTTP/1.1 401 Unauthorized`, `WWW-Authenticate: Basic realm=x`,
end of header. -/
def respChallenge : Str :=
  ([72, 84, 84, 80, 47, 49, 46, 49, 32, 52, 48, 49, 32, 85, 110, 97, 117, 116, 104, 111, 
    114, 105, 122, 101, 100, 13, 10, 87, 87, 87, 45, 65, 117, 116, 104, 101, 110, 116, 
    105, 99, 97, 116, 101, 58, 32, 66, 97, 115, 105, 99, 32, 114, 101, 97, 108, 109, 61, 
    120, 13, 10, 13, 10] : Str)

/-- A peer that answers every request with the challenge `respChallenge`. -/
def challengingWorld : World := freshWorld (fun _ => respond respChallenge)

/-- The status line and end of header `HTTP/1.1 404 Not Found`. -/
def respNotFound : Str := ([72, 84, 84, 80, 47, 49, 46, 49, 32, 52, 48, 52, 32, 78, 111, 116, 32, 70, 111, 117, 
    110, 100, 13, 10, 13, 10] : Str)

/-- A peer that answers the first request with a 404 and every later one with `respOk`. -/
def notFoundOnceWorld : World :=
  freshWorld (fun n => if n = 0 then respond respNotFound else respond respOk)

/-- A first line without the `HTTP` token: `garbage`. -/
def respGarbage : Str := ([103, 97, 114, 98, 97, 103, 101, 13, 10] : Str)

/-- A connection on which the peer closes the stream without sending a byte. -/
def closedStream : Option Script := some { rd := [], wfail := false }

/-- A peer that never sends a valid status line: garbage on the first four
connections, a closed stream on every later one. -/
def garbageWorld : World :=
  freshWorld (fun n => if n < 4 then respond respGarbage else closedStream)

/-- A resource of 30 bytes, the letters `a` to `z` and the digits `0` to `3`. -/
def resource30 : Str := ([97, 98, 99, 100, 101, 102, 103, 104, 105, 106, 107, 108, 109, 110, 111, 112, 113, 114, 
    115, 116, 117, 118, 119, 120, 121, 122, 48, 49, 50, 51] : Str)

/-- The head of a response that honours `Range: bytes=0-`:
`HTTP/1.1 206 Partial Content`, `Content-Range: bytes 0-29/30`, end of header. -/
def headRange0 : Str := ([72, 84, 84, 80, 47, 49, 46, 49, 32, 50, 48, 54, 32, 80, 97, 114, 116, 105, 97, 108, 32, 
    67, 111, 110, 116, 101, 110, 116, 13, 10, 67, 111, 110, 116, 101, 110, 116, 45, 82, 
    97, 110, 103, 101, 58, 32, 98, 121, 116, 101, 115, 32, 48, 45, 50, 57, 47, 51, 48, 
    13, 10, 13, 10] : Str)

/-- The head of a response that ignores `Range`: `HTTP/1.1 200 OK`,
`Content-Length: 30`, end of header. -/
def headFull : Str := ([72, 84, 84, 80, 47, 49, 46, 49, 32, 50, 48, 48, 32, 79, 75, 13, 10, 67, 111, 110, 116, 
    101, 110, 116, 45, 76, 101, 110, 103, 116, 104, 58, 32, 51, 48, 13, 10, 13, 10] : Str)

/-- A server that sends the 30 bytes with a `Content-Range` on the first
connection and then goes away: every later connection is refused. -/
def vanishingWorld : World :=
  freshWorld (fun n => if n = 0 then respond (headRange0 ++ resource30) else none)

/-- A server that honours the range on the first connection and ignores it
on every later one, where it sends the whole resource from byte 0 and closes. -/
def rangeIgnoringWorld : World :=
  freshWorld (fun n => if n = 0 then respond (headRange0 ++ resource30)
    else respond (headFull ++ resource30))

/-- Open `demoUri` in world `w`, then seek to `target` from the start: the
result of the seek. -/
def openThenSeek (w : World) (target : Int) : Option (Int × HTTPContext × World) :=
  (http_open demoEnv 100 zeroContext w demoUri AVIO_FLAG_READ).bind
    (fun o => http_seek demoEnv 100 o.2.1 o.2.2 target SEEK_SET)

/-- After `openThenSeek w target`, two reads of up to 100 bytes: the offset
before the first read, what the first read returns (count and bytes), the
offset after it, and what the second read returns. -/
def seekThenReadTwice (w : World) (target : Int) :
    Option (Int × (Int × Str) × Int × (Int × Str)) :=
  (openThenSeek w target).bind (fun k =>
    (http_read demoEnv 100 k.2.1 k.2.2 100).bind (fun r1 =>
      (http_read demoEnv 100 r1.2.2.1 r1.2.2.2 100).map (fun r2 =>
        (k.2.1.off, (r1.1, r1.2.1), r1.2.2.1.off, (r2.1, r2.2.1)))))

/-- A peer that accepts every connection and closes its stream without sending a byte. -/
def closedWorld : World := freshWorld (fun _ => closedStream)

/-- The session and world of `redirectingWorld` after eight redirects were followed. -/
def after8Redirects : HTTPContext × World :=
  (follow_redirects demoEnv 100 8 { openedSession with latest_get_time_ms := 0 }
    redirectingWorld).getD (zeroContext, deadWorld)

/-- A response head with `Transfer-Encoding: chunked` before `Content-Length: 10`. -/
def respChunkedThenLength : Str :=
  ([72, 84, 84, 80, 47, 49, 46, 49, 32, 50, 48, 48, 32, 79, 75, 13, 10, 84, 114, 97, 110, 
    115, 102, 101, 114, 45, 69, 110, 99, 111, 100, 105, 110, 103, 58, 32, 99, 104, 117, 
    110, 107, 101, 100, 13, 10, 67, 111, 110, 116, 101, 110, 116, 45, 76, 101, 110, 103, 
    116, 104, 58, 32, 49, 48, 13, 10, 13, 10] : Str)

/-- A response head with `Content-Length: 10` before `Transfer-Encoding: chunked`. -/
def respLengthThenChunked : Str :=
  ([72, 84, 84, 80, 47, 49, 46, 49, 32, 50, 48, 48, 32, 79, 75, 13, 10, 67, 111, 110, 116, 
    101, 110, 116, 45, 76, 101, 110, 103, 116, 104, 58, 32, 49, 48, 13, 10, 84, 114, 97, 
    110, 115, 102, 101, 114, 45, 69, 110, 99, 111, 100, 105, 110, 103, 58, 32, 99, 104, 
    117, 110, 107, 101, 100, 13, 10, 13, 10] : Str)

/-- Open `demoUri` on a peer that answers with `head`: the result of
`http_open` with the chunk size and the total size of the session after it. -/
def openedSizes (head : Str) : Option (Int × Int × Int) :=
  (http_open demoEnv 100 zeroContext (freshWorld (fun _ => respond head)) demoUri
    AVIO_FLAG_READ).map (fun r => (r.1, r.2.1.chunksize, r.2.1.filesize))

/-- A session on connection 0, at offset 0. -/
def sessOn0 : HTTPContext := { zeroContext with hd := some 0 }

/-- A response head with two `Connection` headers, `close` and then `keep-alive`. -/
def respCloseThenKeep : Str :=
  ([72, 84, 84, 80, 47, 49, 46, 49, 32, 50, 48, 48, 32, 79, 75, 13, 10, 67, 111, 110, 110, 
    101, 99, 116, 105, 111, 110, 58, 32, 99, 108, 111, 115, 101, 13, 10, 67, 111, 110, 
    110, 101, 99, 116, 105, 111, 110, 58, 32, 107, 101, 101, 112, 45, 97, 108, 105, 118, 
    101, 13, 10, 13, 10] : Str)

/-- What `http_connect` returns for `sessOn0` on the response `respCloseThenKeep`. -/
def closeThenKeepReply : Int × HTTPContext × World × Int :=
  (http_connect demoEnv 100 sessOn0 (connectedWorld respCloseThenKeep) [47] ([104, 111, 115, 116] : Str) [] 0).getD
    (0, zeroContext, deadWorld, 0)

/-- A peer that answers every request with `respOk`. -/
def okWorld : World := freshWorld (fun _ => respond respOk)

/-- What `http_open` of `demoUri` returns in `okWorld`. -/
def okOpened : Int × HTTPContext × World :=
  (http_open demoEnv 100 zeroContext okWorld demoUri AVIO_FLAG_READ).getD
    (0, zeroContext, deadWorld)

/-- The connection step of the first pass of that `http_open`. -/
def okFirstLink : Option PassOut × HTTPContext × World :=
  http_open_cnx_link demoEnv
    { http_open_init demoEnv zeroContext demoUri AVIO_FLAG_READ with latest_get_time_ms := 0 }
    (av_gettime okWorld).2

/-- A response that announces an empty body and sends three bytes all the
same: `HTTP/1.1 200 OK`, `Content-Length: 0`, end of header, `abc`. -/
def respEmptyPlus : Str := ([72, 84, 84, 80, 47, 49, 46, 49, 32, 50, 48, 48, 32, 79, 75, 13, 10, 67, 111, 110, 116, 
    101, 110, 116, 45, 76, 101, 110, 103, 116, 104, 58, 32, 48, 13, 10, 13, 10, 97, 98, 99] : Str)

/-- A response that announces five bytes and sends ten: `HTTP/1.1 200 OK`,
`Content-Length: 5`, end of header, `helloworld`. -/
def respFivePlus : Str := ([72, 84, 84, 80, 47, 49, 46, 49, 32, 50, 48, 48, 32, 79, 75, 13, 10, 67, 111, 110, 116, 
    101, 110, 116, 45, 76, 101, 110, 103, 116, 104, 58, 32, 53, 13, 10, 13, 10, 104, 101, 
    108, 108, 111, 119, 111, 114, 108, 100] : Str)

/-- Open `demoUri` on a peer that answers with `resp`, then read up to 100
bytes: the total size and the offset before the read, the count and the bytes
the read returns, and the offset after it. -/
def openThenRead (resp : Str) : Option (Int × Int × Int × Str × Int) :=
  (http_open demoEnv 100 zeroContext (freshWorld (fun _ => respond resp)) demoUri
    AVIO_FLAG_READ).bind (fun o =>
      (http_read demoEnv 100 o.2.1 o.2.2 100).map (fun r =>
        (o.2.1.filesize, o.2.1.off, r.1, r.2.1, r.2.2.1.off)))

/-- What `http_open` of `demoUri` returns on a peer that answers with
`respFivePlus`. -/
def fiveOpened : Int × HTTPContext × World :=
  (http_open demoEnv 100 zeroContext (freshWorld (fun _ => respond respFivePlus)) demoUri
    AVIO_FLAG_READ).getD (0, zeroContext, deadWorld)

/-- A read of up to five bytes on that session. -/
def fiveRead : Int × Str × HTTPContext × World :=
  (http_read demoEnv 100 fiveOpened.2.1 fiveOpened.2.2 5).getD (0, [], zeroContext, deadWorld)

/-- Two blocks, `hello` and `wor`. -/
def demoBlocks : List Str := [([104, 101, 108, 108, 111] : Str), ([119, 111, 114] : Str)]

/-- A connection that accepts what is written to it and delivers nothing. -/
def uploadLink : Link :=
  { addr := [], flags := 0, rd := [], wfail := false, idle := false, closed := false }

/-- A world with that connection alone. -/
def uploadWorld : World := { deadWorld with links := [uploadLink] }

/-- A session that posts in chunked mode on connection 0. -/
def uploadSession : HTTPContext :=
  { zeroContext with hd := some 0, chunksize := 0, flags := AVIO_FLAG_WRITE }

/-- A world whose connection 0 delivers what `uploadSession` sends for
`demoBlocks`, the first four bytes apart from the rest. -/
def downloadWorld : World :=
  { deadWorld with links := [{ uploadLink with rd :=
      [RdEv.data ((chunked_upload uploadSession uploadWorld demoBlocks).take 4),
       RdEv.data ((chunked_upload uploadSession uploadWorld demoBlocks).drop 4)] }] }

/-- A session at the start of a chunked body on connection 0. -/
def downloadSession : HTTPContext :=
  { zeroContext with hd := some 0, chunksize := 0, filesize := -1 }

/-- What `http_open_cnx` returns when `http_reopen_cnx` is called at offset 7
on a session that holds connection 0, has read `ab` ahead and is in a chunk
with 5 bytes left, while every new connection is refused. -/
def refusedReopen : Int × HTTPContext × World :=
  (http_open_cnx demoEnv 10
    (http_reopen_cnx_session { sessOn0 with buf := ([97, 98] : Str), chunksize := 5, off := 3 } 7)
    (http_reopen_cnx_world { sessOn0 with buf := ([97, 98] : Str), chunksize := 5, off := 3 }
      uploadWorld)).getD (0, zeroContext, deadWorld)

/-- A world in which every connection attempt is refused and connection 0
fails its next read with `EIO`. -/
def brokenWorld : World := { deadWorld with links := [{ uploadLink with rd := [RdEv.fail 4] }] }

/-- A reading session on connection 0 with no total size, not in chunked mode. -/
def plainSession : HTTPContext :=
  { zeroContext with hd := some 0, chunksize := -1, filesize := -1, max_connects := 1 }

/-- What `http_open` of `demoUri` returns in `vanishingWorld`. -/
def rangeOpened : Int × HTTPContext × World :=
  (http_open demoEnv 100 zeroContext vanishingWorld demoUri AVIO_FLAG_READ).getD
    (0, zeroContext, deadWorld)

/-- What a server answers to a request for a 3000000000-byte resource from byte 0. -/
def headBig0 : Str :=
  ([72, 84, 84, 80, 47, 49, 46, 49, 32, 50, 48, 54, 32, 80, 97, 114, 116, 105, 97, 108, 32, 
    67, 111, 110, 116, 101, 110, 116, 13, 10, 67, 111, 110, 116, 101, 110, 116, 45, 82, 
    97, 110, 103, 101, 58, 32, 98, 121, 116, 101, 115, 32, 48, 45, 50, 57, 57, 57, 57, 
    57, 57, 57, 57, 57, 47, 51, 48, 48, 48, 48, 48, 48, 48, 48, 48, 13, 10, 13, 10] : Str)

/-- What the server answers to a request for that resource from byte 2147483648. -/
def headBigHigh : Str :=
  ([72, 84, 84, 80, 47, 49, 46, 49, 32, 50, 48, 54, 32, 80, 97, 114, 116, 105, 97, 108, 32, 
    67, 111, 110, 116, 101, 110, 116, 13, 10, 67, 111, 110, 116, 101, 110, 116, 45, 82, 
    97, 110, 103, 101, 58, 32, 98, 121, 116, 101, 115, 32, 50, 49, 52, 55, 52, 56, 51, 
    54, 52, 56, 45, 50, 57, 57, 57, 57, 57, 57, 57, 57, 57, 47, 51, 48, 48, 48, 48, 48, 
    48, 48, 48, 48, 13, 10, 13, 10] : Str)

/-- What the server answers to a request for that resource from byte 2147483647. -/
def headBigLow : Str :=
  ([72, 84, 84, 80, 47, 49, 46, 49, 32, 50, 48, 54, 32, 80, 97, 114, 116, 105, 97, 108, 32, 
    67, 111, 110, 116, 101, 110, 116, 13, 10, 67, 111, 110, 116, 101, 110, 116, 45, 82, 
    97, 110, 103, 101, 58, 32, 98, 121, 116, 101, 115, 32, 50, 49, 52, 55, 52, 56, 51, 
    54, 52, 55, 45, 50, 57, 57, 57, 57, 57, 57, 57, 57, 57, 47, 51, 48, 48, 48, 48, 48, 
    48, 48, 48, 48, 13, 10, 13, 10] : Str)

/-- A server of the 3000000000-byte resource that honours ranges: the first
connection is answered from byte 0, every later one with `head`. -/
def bigWorld (head : Str) : World :=
  freshWorld (fun n => if n = 0 then respond (headBig0 ++ ([97, 98, 99] : Str)) else respond (head ++ ([120, 121, 122] : Str)))

/-- What `http_open` of `demoUri` returns in `bigWorld head`. -/
def bigOpened (head : Str) : Int × HTTPContext × World :=
  (http_open demoEnv 100 zeroContext (bigWorld head) demoUri AVIO_FLAG_READ).getD
    (0, zeroContext, deadWorld)

/-- The world `w` with the cancellation signal set at every poll. -/
def cancelled (w : World) : World := { w with intr := fun _ => true }

/-- A response head announcing a body of 50 bytes: `HTTP/1.1 200 OK`,
`Content-Length: 50`, end of header. -/
def headFifty : Str := ([72, 84, 84, 80, 47, 49, 46, 49, 32, 50, 48, 48, 32, 79, 75, 13, 10, 67, 111, 110, 116, 
    101, 110, 116, 45, 76, 101, 110, 103, 116, 104, 58, 32, 53, 48, 13, 10, 13, 10] : Str)

/-- A server whose every connection delivers `headFifty` and then fails with
the I/O error `EIO` on the next read. -/
def resettingWorld : World :=
  freshWorld (fun _ => some { rd := [RdEv.data headFifty, RdEv.fail 4], wfail := false })

/-- What `http_open` of `demoUri` returns in `resettingWorld`. -/
def resetOpened : Int × HTTPContext × World :=
  (http_open demoEnv 100 zeroContext resettingWorld demoUri AVIO_FLAG_READ).getD
    (0, zeroContext, deadWorld)

/-- A server whose every connection delivers `headFifty` and then has
nothing to deliver: four reads in a row would block. The monotonic clock reads
`t0` seconds at the first call of `clock_gettime` and 300 seconds more at each
call after it. -/
def stallingWorld (t0 : Int) : World :=
  { freshWorld (fun _ => some { rd := [RdEv.data headFifty, RdEv.fail 10, RdEv.fail 10,
        RdEv.fail 10, RdEv.fail 10], wfail := false }) with
    mono := fun k => (t0 + 300 * (k : Int), 0) }

/-- Open `demoUri` in `stallingWorld t0` and read twice, up to 10 bytes each
time: the result of the open, the result and the stall clock of the first
read, and the result of the second read with the number of calls of
`http_reopen_cnx` it makes. -/
def stallTwice (t0 : Int) : Option (Int × (Int × Int) × (Int × Nat)) :=
  (http_open demoEnv 100 zeroContext (stallingWorld t0) demoUri AVIO_FLAG_READ).bind (fun o =>
    (http_read demoEnv 100 o.2.1 o.2.2 10).bind (fun r1 =>
      (http_read demoEnv 100 r1.2.2.1 r1.2.2.2 10).map (fun r2 =>
        (o.1, (r1.1, r1.2.2.1.latest_get_time_ms),
         (r2.1, (http_read_reopen_calls demoEnv 100 r1.2.2.1 r1.2.2.2 10).length)))))

/-- A session in chunked mode with 5 bytes of the current chunk left, all
of them in the read buffer, followed there by the next chunk of 3 bytes. -/
def chunk5 : HTTPContext :=
  { plainSession with chunksize := 5, buf := ([104, 101, 108, 108, 111, 13, 10, 51, 13, 10, 97, 98, 99] : Str) }

/-- A session in chunked mode with 3 bytes of the current chunk left, which
has 3 bytes to skip; the read buffer holds those 3 bytes and the next chunk of
4 bytes. -/
def chunk3skip : HTTPContext :=
  { plainSession with chunksize := 3, do_readseek_size := 3, buf := ([97, 98, 99, 13, 10, 52, 13, 10, 100, 101, 102, 103, 13, 10, 48, 13, 10] : Str) }

/-- The reply to the first request in `twoRedirectsWorld`. -/
def firstReply : Int × HTTPContext × World × Int :=
  (http_open_cnx_reply demoEnv 100 { openedSession with latest_get_time_ms := 0 }
    twoRedirectsWorld 0).getD (0, zeroContext, deadWorld, 0)

/-- A session on connection 0 that wants to continue at offset `T`. -/
def sessAt (T : Int) : HTTPContext := { zeroContext with hd := some 0, off := T }

/-- What the header loop of `http_connect` returns for `sessAt T` when the
response is `respRange100`. -/
def rangeHeaderAt (T : Int) : Option Int × HTTPContext × World × Int :=
  (http_connect_header 100 100 demoEnv { http_connect_reset (sessAt T) with chunksize := -1 }
    (ffurl_write (connectedWorld respRange100) 0
      (cstr (http_request demoEnv (sessAt T) [47] ([104, 111, 115, 116] : Str) []))).2 0).getD
    (none, zeroContext, deadWorld, 0)

/-- A path of 4085 bytes, a slash and 4084 letters `a`: with `http://h` in
front, a location of 4093 bytes. -/
def longPath : Str := 47 :: List.replicate 4084 97

/-- An environment whose authorization module gives the text `auth_text` for every request. -/
def authEnv (auth_text : Str) : Env :=
  { demoEnv with ff_http_auth_create_response := fun _ _ _ _ => some auth_text }

/-- What `http_connect` returns for the session `sessOn0` on a connection
that answers `respOk`, with path `/` and host string `host`. -/
def plainConnect : Int × HTTPContext × World × Int :=
  (http_connect demoEnv 100 sessOn0 (connectedWorld respOk) [47] ([104, 111, 115, 116] : Str) [] 0).getD
    (0, zeroContext, deadWorld, 0)

/-- A session on connection 0 with a `URLContext` header that lacks its
CRLF and a custom `Accept` header, at offset `off`. -/
def gluedSession (off : Int) : HTTPContext :=
  { sessOn0 with h_headers := some ([88, 45, 65, 58, 32, 98] : Str), headers := ([65, 99, 99, 101, 112, 116, 58, 32, 120, 13, 10] : Str), off := off }

/-- A session on connection 0 at offset 0 with `is_seek` set. -/
def seekSession : HTTPContext := { sessOn0 with is_seek := 1 }

/-- What `http_connect` returns for the session `sessAt 100` on a connection
that answers `respRange100`, with path `/` and host string `host`. -/
def rangeConnect : Int × HTTPContext × World × Int :=
  (http_connect demoEnv 100 (sessAt 100) (connectedWorld respRange100) [47] ([104, 111, 115, 116] : Str) [] 0).getD
    (0, zeroContext, deadWorld, 0)

/-- A connection that answers would-block, then `HTTP/1.1 20`, then
would-block, and ends. -/
def midLineScript : Script :=
  { rd := [RdEv.fail 10, RdEv.data ([72, 84, 84, 80, 47, 49, 46, 49, 32, 50, 48] : Str), RdEv.fail 10], wfail := false }

/-- A connection that sends `HT` and fails with a read error; what it would
deliver after that is never read. -/
def readErrorScript : Script :=
  { rd := [RdEv.data ([72, 84] : Str), RdEv.fail 4, RdEv.data ([84, 80, 47, 49, 46, 49, 32, 50, 48, 48, 32, 79, 75, 13, 10] : Str)], wfail := false }

/-- A peer that never completes a first line: `midLineScript` on the first
connection, `readErrorScript` on the second; every later attempt is refused. -/
def midLineWorld : World :=
  freshWorld (fun n =>
    if n = 0 then some midLineScript else if n = 1 then some readErrorScript else none)

/-- An idle connection to the server of `demoUri` that delivers `abc` and ends. -/
def pooledLink : Link :=
  { addr := ([116, 99, 112, 58, 47, 47, 104, 111, 115, 116, 58, 56, 48] : Str), flags := http_open_cnx_flags demoEnv, rd := [RdEv.data ([97, 98, 99] : Str)],
    wfail := false, idle := true, closed := false }

/-- The world `midLineWorld` with the connection `pooledLink` in the pool. -/
def pooledWorld : World := { midLineWorld with links := [pooledLink] }

/-- A session of a `URLContext` opened for writing. -/
def postContext : HTTPContext := { zeroContext with h_flags := AVIO_FLAG_WRITE }

/-- The environment of the examples with the retry ceiling 3. -/
def threeTriesEnv : Env := { demoEnv with config_rettry := 3 }
/-! ## Lemmas -/

theorem option_eq_some_quad {α β γ δ : Type} (x : Option (α × β × γ × δ)) (d : α × β × γ × δ)
    (a : α) (c : δ) (h : x.isSome = true) (h1 : (x.getD d).1 = a)
    (h4 : (x.getD d).2.2.2 = c) :
    x = some (a, (x.getD d).2.1, (x.getD d).2.2.1, c) := by
  cases x with
  | none => simp at h
  | some v =>
    obtain ⟨v1, v2, v3, v4⟩ := v
    simp only [Option.getD_some] at h1 h4
    rw [← h1, ← h4]
    rfl

theorem bufOnly_refl (s : HTTPContext) : BufOnly s s := by
  cases s; rfl

theorem bufOnly_set (s : HTTPContext) (b : Str) : BufOnly s { s with buf := b } := by
  cases s; rfl

theorem bufOnly_trans {s1 s2 s3 : HTTPContext} (h12 : BufOnly s1 s2) (h23 : BufOnly s2 s3) :
    BufOnly s1 s3 := by
  unfold BufOnly at *
  rw [h23, h12]

theorem http_getc_fill_frame : ∀ (n : Nat) (s : HTTPContext) (w : World) (id : Nat) (t : Int)
    (r : Option Int) (s2 : HTTPContext) (w2 : World),
    http_getc_fill n s w id t = some (r, s2, w2) → BufOnly s s2 := by
  intro n
  induction n with
  | zero => intro s w id t r s2 w2 h; simp [http_getc_fill] at h
  | succ n ih =>
    intro s w id t r s2 w2 h
    unfold http_getc_fill at h
    simp only at h
    split_ifs at h with h1 h2 h3 h4 h5 h6 h7
    all_goals first
      | (simp only [Option.some.injEq, Prod.mk.injEq] at h
         obtain ⟨_, hs, _⟩ := h
         subst hs
         exact bufOnly_refl _)
      | exact ih _ _ _ _ _ _ _ h
      | exact bufOnly_trans (bufOnly_set _ _) (ih _ _ _ _ _ _ _ h)

theorem http_getc_frame (fuel : Nat) (s : HTTPContext) (w : World) (c : Int)
    (s2 : HTTPContext) (w2 : World) (h : http_getc fuel s w = some (c, s2, w2)) :
    BufOnly s s2 := by
  unfold http_getc at h
  simp only at h
  split at h
  · simp only [Option.some.injEq, Prod.mk.injEq] at h
    obtain ⟨_, hs, _⟩ := h
    subst hs
    exact bufOnly_refl _
  · split at h
    · simp only [Option.some.injEq, Prod.mk.injEq] at h
      obtain ⟨_, hs, _⟩ := h
      subst hs
      exact bufOnly_set _ _
    · split at h
      · simp at h
      · rename_i hf
        simp only [Option.some.injEq, Prod.mk.injEq] at h
        obtain ⟨_, hs, _⟩ := h
        subst hs
        exact http_getc_fill_frame _ _ _ _ _ _ _ _ hf
      · rename_i hf
        have hb := http_getc_fill_frame _ _ _ _ _ _ _ _ hf
        split at h
        · simp only [Option.some.injEq, Prod.mk.injEq] at h
          obtain ⟨_, hs, _⟩ := h
          subst hs
          exact bufOnly_trans hb (bufOnly_set _ _)
        · simp only [Option.some.injEq, Prod.mk.injEq] at h
          obtain ⟨_, hs, _⟩ := h
          subst hs
          exact hb

theorem http_get_line_loop_frame : ∀ (n fuel : Nat) (s : HTTPContext) (w : World)
    (line_size : Nat) (q : Str) (r : Int) (line : Str) (s2 : HTTPContext) (w2 : World),
    http_get_line_loop n fuel s w line_size q = some (r, line, s2, w2) → BufOnly s s2 := by
  intro n
  induction n with
  | zero => intro fuel s w ls q r line s2 w2 h; simp [http_get_line_loop] at h
  | succ n ih =>
    intro fuel s w ls q r line s2 w2 h
    unfold http_get_line_loop at h
    split at h
    · simp at h
    · rename_i ch s1 w1 hc
      have hb := http_getc_frame _ _ _ _ _ _ hc
      split_ifs at h
      · simp only [Option.some.injEq, Prod.mk.injEq] at h
        obtain ⟨_, _, hs, _⟩ := h
        subst hs; exact hb
      · simp only [Option.some.injEq, Prod.mk.injEq] at h
        obtain ⟨_, _, hs, _⟩ := h
        subst hs; exact hb
      · simp only [Option.some.injEq, Prod.mk.injEq] at h
        obtain ⟨_, _, hs, _⟩ := h
        subst hs; exact hb
      · exact bufOnly_trans hb (ih _ _ _ _ _ _ _ _ _ h)
      · exact bufOnly_trans hb (ih _ _ _ _ _ _ _ _ _ h)

theorem http_get_line_frame (fuel : Nat) (s : HTTPContext) (w : World) (line_size : Nat)
    (r : Int) (line : Str) (s2 : HTTPContext) (w2 : World)
    (h : http_get_line fuel s w line_size = some (r, line, s2, w2)) : BufOnly s s2 :=
  http_get_line_loop_frame _ _ _ _ _ _ _ _ _ _ h

theorem hdrKeeps_refl (e : Env) (s : HTTPContext) (nl : Int) : HdrKeeps e s nl s nl :=
  ⟨Eq.refl _, Eq.refl _, fun _ h => h, Or.inl ⟨Eq.refl _, Eq.refl _⟩, Eq.refl _, Eq.refl _,
   Eq.refl _, Eq.refl _, Eq.refl _⟩

theorem hdrKeeps_trans {e : Env} {s1 s2 s3 : HTTPContext} {n1 n2 n3 : Int}
    (h12 : HdrKeeps e s1 n1 s2 n2) (h23 : HdrKeeps e s2 n2 s3 n3) : HdrKeeps e s1 n1 s3 n3 := by
  refine ⟨h23.skip.trans h12.skip, h23.hd.trans h12.hd, fun hs h => h23.auth hs (h12.auth hs h),
    ?_, h23.keep_alive.trans h12.keep_alive, h23.flags.trans h12.flags,
    h23.max_connects.trans h12.max_connects, h23.is_seek.trans h12.is_seek,
    h23.canseek.trans h12.canseek⟩
  rcases h23.loc with ⟨ha, hb⟩ | h
  · rcases h12.loc with ⟨hc, hd⟩ | h'
    · exact Or.inl ⟨ha.trans hc, hb.trans hd⟩
    · exact Or.inr (ha.trans h')
  · exact Or.inr h

theorem hdrKeeps_of_bufOnly (e : Env) {s s2 : HTTPContext} (nl : Int) (h : BufOnly s s2) :
    HdrKeeps e s nl s2 nl := by
  unfold BufOnly at h
  rw [h]
  exact ⟨Eq.refl _, Eq.refl _, fun _ h => h, Or.inl ⟨Eq.refl _, Eq.refl _⟩, Eq.refl _, Eq.refl _,
   Eq.refl _, Eq.refl _, Eq.refl _⟩

theorem hdrKeeps_same (e : Env) (s s2 : HTTPContext) (nl : Int)
    (h1 : s2.do_readseek_size = s.do_readseek_size) (h2 : s2.hd = s.hd)
    (h3 : s2.auth_state = s.auth_state) (h4 : s2.location = s.location)
    (h5 : s2.keep_alive = s.keep_alive) (h6 : s2.flags = s.flags)
    (h7 : s2.max_connects = s.max_connects) (h8 : s2.is_seek = s.is_seek)
    (h9 : s2.canseek = s.canseek) : HdrKeeps e s nl s2 nl :=
  ⟨h1, h2, fun _ h => by rw [h3]; exact h, Or.inl ⟨Eq.refl _, h4⟩, h5, h6, h7, h8, h9⟩

theorem process_content_range_keeps (e : Env) (s : HTTPContext) (p : Str) (nl : Int) :
    HdrKeeps e s nl (process_content_range s p) nl := by
  have key : ∀ s1 : HTTPContext, HdrKeeps e s nl s1 nl →
      HdrKeeps e s nl (if s1.filesize > 0 then { s1 with h_is_streamed := 0 } else s1) nl := by
    intro s1 h
    by_cases hf : s1.filesize > 0
    · rw [if_pos hf]
      exact hdrKeeps_trans h (hdrKeeps_same _ _ _ _ (Eq.refl _) (Eq.refl _) (Eq.refl _)
        (Eq.refl _) (Eq.refl _) (Eq.refl _) (Eq.refl _) (Eq.refl _) (Eq.refl _))
    · rw [if_neg hf]; exact h
  unfold process_content_range
  apply key
  by_cases hb : strncmp_eq p str_bytes_sp 5 = true
  · rw [if_pos hb]
    simp only
    split
    · exact hdrKeeps_same _ _ _ _ (Eq.refl _) (Eq.refl _) (Eq.refl _)
        (Eq.refl _) (Eq.refl _) (Eq.refl _) (Eq.refl _) (Eq.refl _) (Eq.refl _)
    · exact hdrKeeps_same _ _ _ _ (Eq.refl _) (Eq.refl _) (Eq.refl _)
        (Eq.refl _) (Eq.refl _) (Eq.refl _) (Eq.refl _) (Eq.refl _) (Eq.refl _)
  · rw [if_neg hb]; exact hdrKeeps_refl _ _ _

theorem process_header_keeps (e : Env) (s : HTTPContext) (tag p : Str) (nl : Int) :
    HdrKeeps e s nl (process_header e s tag p nl).1 (process_header e s tag p nl).2 := by
  have same : ∀ s2 : HTTPContext, s2.do_readseek_size = s.do_readseek_size → s2.hd = s.hd →
      s2.auth_state = s.auth_state → s2.location = s.location →
      s2.keep_alive = s.keep_alive → s2.flags = s.flags →
      s2.max_connects = s.max_connects → s2.is_seek = s.is_seek →
      s2.canseek = s.canseek → HdrKeeps e s nl (s2, nl).1 (s2, nl).2 :=
    fun s2 h1 h2 h3 h4 h5 h6 h7 h8 h9 => hdrKeeps_same e s s2 nl h1 h2 h3 h4 h5 h6 h7 h8 h9
  unfold process_header
  by_cases c1 : strcasecmp_eq tag str_Location = true
  · rw [if_pos c1]
    exact ⟨Eq.refl _, Eq.refl _, fun _ h => h, Or.inr (Eq.refl _), Eq.refl _, Eq.refl _,
      Eq.refl _, Eq.refl _, Eq.refl _⟩
  rw [if_neg c1]
  by_cases c2 : strcasecmp_eq tag str_Content_Length = true ∧ s.filesize = -1
  · rw [if_pos c2]
    exact same _ (Eq.refl _) (Eq.refl _) (Eq.refl _) (Eq.refl _) (Eq.refl _) (Eq.refl _)
      (Eq.refl _) (Eq.refl _) (Eq.refl _)
  rw [if_neg c2]
  by_cases c3 : strcasecmp_eq tag str_Content_Range = true
  · rw [if_pos c3]; exact process_content_range_keeps e s p nl
  rw [if_neg c3]
  by_cases c4 : strcasecmp_eq tag str_Content_Encoding = true
  · rw [if_pos c4]
    by_cases c41 : strcasecmp_eq p str_identity = true
    · rw [if_pos c41]; exact hdrKeeps_refl _ _ _
    rw [if_neg c41]
    by_cases c42 : strcasecmp_eq p str_gzip = true ∨ strcasecmp_eq p str_deflate = true
    · rw [if_pos c42]
      exact same _ (Eq.refl _) (Eq.refl _) (Eq.refl _) (Eq.refl _) (Eq.refl _) (Eq.refl _)
        (Eq.refl _) (Eq.refl _) (Eq.refl _)
    · rw [if_neg c42]; exact hdrKeeps_refl _ _ _
  rw [if_neg c4]
  by_cases c5 : strcasecmp_eq tag str_Transfer_Encoding = true ∧ strncasecmp_eq p str_chunked 7 = true
  · rw [if_pos c5]
    exact same _ (Eq.refl _) (Eq.refl _) (Eq.refl _) (Eq.refl _) (Eq.refl _) (Eq.refl _)
      (Eq.refl _) (Eq.refl _) (Eq.refl _)
  rw [if_neg c5]
  by_cases c6 : strcasecmp_eq tag str_WWW_Authenticate = true
  · rw [if_pos c6]
    exact ⟨Eq.refl _, Eq.refl _, fun hs h => hs _ _ _ h, Or.inl ⟨Eq.refl _, Eq.refl _⟩,
      Eq.refl _, Eq.refl _, Eq.refl _, Eq.refl _, Eq.refl _⟩
  rw [if_neg c6]
  by_cases c7 : strcasecmp_eq tag str_Authentication_Info = true
  · rw [if_pos c7]
    exact ⟨Eq.refl _, Eq.refl _, fun hs h => hs _ _ _ h, Or.inl ⟨Eq.refl _, Eq.refl _⟩,
      Eq.refl _, Eq.refl _, Eq.refl _, Eq.refl _, Eq.refl _⟩
  rw [if_neg c7]
  by_cases c8 : strcasecmp_eq tag str_Connection = true
  · rw [if_pos c8]
    by_cases c81 : strcmp_eq p str_close = true
    · rw [if_pos c81]
      exact same _ (Eq.refl _) (Eq.refl _) (Eq.refl _) (Eq.refl _) (Eq.refl _) (Eq.refl _)
        (Eq.refl _) (Eq.refl _) (Eq.refl _)
    rw [if_neg c81]
    by_cases c82 : strcasecmp_eq p str_Keep_Alive = true
    · rw [if_pos c82]
      exact same _ (Eq.refl _) (Eq.refl _) (Eq.refl _) (Eq.refl _) (Eq.refl _) (Eq.refl _)
        (Eq.refl _) (Eq.refl _) (Eq.refl _)
    · rw [if_neg c82]
      exact same _ (Eq.refl _) (Eq.refl _) (Eq.refl _) (Eq.refl _) (Eq.refl _) (Eq.refl _)
        (Eq.refl _) (Eq.refl _) (Eq.refl _)
  rw [if_neg c8]
  by_cases c9 : strcasecmp_eq tag str_Server = true
  · rw [if_pos c9]
    by_cases c91 : strncmp_eq p str_Octoshape str_Octoshape.length = true
    · rw [if_pos c91]
      exact same _ (Eq.refl _) (Eq.refl _) (Eq.refl _) (Eq.refl _) (Eq.refl _) (Eq.refl _)
        (Eq.refl _) (Eq.refl _) (Eq.refl _)
    · rw [if_neg c91]; exact hdrKeeps_refl _ _ _
  rw [if_neg c9]
  by_cases c10 : strcasecmp_eq tag str_Pragma = true
  · rw [if_pos c10]
    by_cases c101 : strstr p str_features = true
    · rw [if_pos c101]
      by_cases c102 : strstr p str_broadcast = true
      · rw [if_pos c102]
        exact same _ (Eq.refl _) (Eq.refl _) (Eq.refl _) (Eq.refl _) (Eq.refl _) (Eq.refl _)
          (Eq.refl _) (Eq.refl _) (Eq.refl _)
      · rw [if_neg c102]
        exact same _ (Eq.refl _) (Eq.refl _) (Eq.refl _) (Eq.refl _) (Eq.refl _) (Eq.refl _)
          (Eq.refl _) (Eq.refl _) (Eq.refl _)
    · rw [if_neg c101]; exact hdrKeeps_refl _ _ _
  · rw [if_neg c10]; exact hdrKeeps_refl _ _ _

theorem process_line_keeps (e : Env) (s : HTTPContext) (line : Str) (lc nl : Int) :
    HdrKeeps e s nl (process_line e s line lc nl).2.1 (process_line e s line lc nl).2.2 := by
  unfold process_line
  simp only
  by_cases c1 : cstr line = []
  · rw [if_pos c1]; exact hdrKeeps_refl _ _ _
  rw [if_neg c1]
  by_cases c2 : lc = 0
  · rw [if_pos c2]
    by_cases c3 : ¬ strstr (cstr line) str_HTTP = true
    · rw [if_pos c3]; exact hdrKeeps_refl _ _ _
    rw [if_neg c3]
    split_ifs <;>
      exact hdrKeeps_same _ _ _ _ (Eq.refl _) (Eq.refl _) (Eq.refl _)
        (Eq.refl _) (Eq.refl _) (Eq.refl _) (Eq.refl _) (Eq.refl _) (Eq.refl _)
  rw [if_neg c2]
  split
  · exact hdrKeeps_refl _ _ _
  · exact process_header_keeps _ _ _ _ _

theorem http_connect_header_keeps : ∀ (n fuel : Nat) (e : Env) (s : HTTPContext) (w : World)
    (nl : Int) (r : Option Int) (s2 : HTTPContext) (w2 : World) (nl2 : Int),
    http_connect_header n fuel e s w nl = some (r, s2, w2, nl2) → HdrKeeps e s nl s2 nl2 := by
  intro n
  induction n with
  | zero => intro fuel e s w nl r s2 w2 nl2 h; simp [http_connect_header] at h
  | succ n ih =>
    intro fuel e s w nl r s2 w2 nl2 h
    unfold http_connect_header at h
    split at h
    · simp at h
    · rename_i rr line s1 w1 hg
      have hb : HdrKeeps e s nl s1 nl := hdrKeeps_of_bufOnly e nl (http_get_line_frame _ _ _ _ _ _ _ _ hg)
      have hp := process_line_keeps e s1 line s1.line_count nl
      simp only at h
      split_ifs at h
      all_goals first
        | (simp only [Option.some.injEq, Prod.mk.injEq] at h
           obtain ⟨_, hs, _, hn⟩ := h
           subst hs; subst hn
           first | exact hb | exact hdrKeeps_trans hb hp)
        | (refine hdrKeeps_trans (hdrKeeps_trans hb hp) (hdrKeeps_trans ?_ (ih _ _ _ _ _ _ _ _ _ h))
           exact hdrKeeps_same _ _ _ _ (Eq.refl _) (Eq.refl _) (Eq.refl _)
             (Eq.refl _) (Eq.refl _) (Eq.refl _) (Eq.refl _) (Eq.refl _) (Eq.refl _))

theorem connKeeps_of_hdrKeeps {e : Env} {s s2 : HTTPContext} {nl nl2 : Int}
    (h : HdrKeeps e s nl s2 nl2) : ConnKeeps e s nl s2 nl2 :=
  ⟨h.hd, h.auth, h.loc, h.keep_alive, h.flags, h.max_connects, h.is_seek, h.canseek⟩

theorem connKeeps_refl (e : Env) (s : HTTPContext) (nl : Int) : ConnKeeps e s nl s nl :=
  connKeeps_of_hdrKeeps (hdrKeeps_refl e s nl)

theorem connKeeps_trans {e : Env} {s1 s2 s3 : HTTPContext} {n1 n2 n3 : Int}
    (h12 : ConnKeeps e s1 n1 s2 n2) (h23 : ConnKeeps e s2 n2 s3 n3) : ConnKeeps e s1 n1 s3 n3 := by
  refine ⟨h23.hd.trans h12.hd, fun hs h => h23.auth hs (h12.auth hs h),
    ?_, h23.keep_alive.trans h12.keep_alive, h23.flags.trans h12.flags,
    h23.max_connects.trans h12.max_connects, h23.is_seek.trans h12.is_seek,
    h23.canseek.trans h12.canseek⟩
  rcases h23.loc with ⟨ha, hb⟩ | h
  · rcases h12.loc with ⟨hc, hd⟩ | h'
    · exact Or.inl ⟨ha.trans hc, hb.trans hd⟩
    · exact Or.inr (ha.trans h')
  · exact Or.inr h

theorem connKeeps_same (e : Env) (s s2 : HTTPContext) (nl : Int)
    (h2 : s2.hd = s.hd) (h3 : s2.auth_state = s.auth_state) (h4 : s2.location = s.location)
    (h5 : s2.keep_alive = s.keep_alive) (h6 : s2.flags = s.flags)
    (h7 : s2.max_connects = s.max_connects) (h8 : s2.is_seek = s.is_seek)
    (h9 : s2.canseek = s.canseek) : ConnKeeps e s nl s2 nl :=
  ⟨h2, fun _ h => by rw [h3]; exact h, Or.inl ⟨Eq.refl _, h4⟩, h5, h6, h7, h8, h9⟩

theorem http_connect_finish_keeps (e : Env) (s : HTTPContext) (off nl : Int) :
    ConnKeeps e s nl (http_connect_finish s off).2 nl := by
  unfold http_connect_finish
  simp only
  by_cases hc : s.off ≥ 0 ∧ off > s.off
  · rw [if_pos hc]
    exact connKeeps_same _ _ _ _ (Eq.refl _) (Eq.refl _) (Eq.refl _) (Eq.refl _) (Eq.refl _)
      (Eq.refl _) (Eq.refl _) (Eq.refl _)
  · rw [if_neg hc]; exact connKeeps_refl _ _ _

theorem http_connect_keeps (e : Env) (fuel : Nat) (s : HTTPContext) (w : World)
    (path hoststr auth : Str) (nl ret : Int) (s2 : HTTPContext) (w2 : World) (nl2 : Int)
    (h : http_connect e fuel s w path hoststr auth nl = some (ret, s2, w2, nl2)) :
    ConnKeeps e s nl s2 nl2 := by
  have hreset : ∀ c : Int, ConnKeeps e s nl { http_connect_reset s with chunksize := c } nl :=
    fun c => connKeeps_same _ _ _ _ (Eq.refl _) (Eq.refl _) (Eq.refl _) (Eq.refl _) (Eq.refl _)
      (Eq.refl _) (Eq.refl _) (Eq.refl _)
  unfold http_connect at h
  simp only at h
  split at h
  · simp only [Option.some.injEq, Prod.mk.injEq] at h
    obtain ⟨_, hs, _, hn⟩ := h
    subst hs; subst hn; exact connKeeps_refl _ _ _
  · split_ifs at h
    · simp only [Option.some.injEq, Prod.mk.injEq] at h
      obtain ⟨_, hs, _, hn⟩ := h
      subst hs; subst hn; exact connKeeps_refl _ _ _
    · simp only [Option.some.injEq, Prod.mk.injEq] at h
      obtain ⟨_, hs, _, hn⟩ := h
      subst hs; subst hn
      exact connKeeps_same _ _ _ _ (Eq.refl _) (Eq.refl _) (Eq.refl _) (Eq.refl _) (Eq.refl _)
        (Eq.refl _) (Eq.refl _) (Eq.refl _)
    · split at h
      · simp at h
      · rename_i hh
        simp only [Option.some.injEq, Prod.mk.injEq] at h
        obtain ⟨_, hs, _, hn⟩ := h
        subst hs; subst hn
        exact connKeeps_trans (hreset _)
          (connKeeps_of_hdrKeeps (http_connect_header_keeps _ _ _ _ _ _ _ _ _ _ hh))
      · rename_i hh
        simp only [Option.some.injEq, Prod.mk.injEq] at h
        obtain ⟨_, hs, _, hn⟩ := h
        subst hs; subst hn
        exact connKeeps_trans (connKeeps_trans (hreset _)
          (connKeeps_of_hdrKeeps (http_connect_header_keeps _ _ _ _ _ _ _ _ _ _ hh)))
          (http_connect_finish_keeps _ _ _ _)

theorem http_open_cnx_link_keeps (e : Env) (s : HTTPContext) (w : World) (s1 : HTTPContext)
    (w1 : World) (h : http_open_cnx_link e s w = (none, s1, w1)) :
    s1.auth_state = s.auth_state ∧ s1.location = s.location ∧ s1.keep_alive = s.keep_alive
      ∧ s1.flags = s.flags ∧ s1.max_connects = s.max_connects ∧ s1.is_seek = s.is_seek
      ∧ s1.canseek = s.canseek ∧ s1.hd.isSome := by
  unfold http_open_cnx_link at h
  simp only at h
  split_ifs at h
  · simp at h
  · split at h
    · rename_i id hid
      simp only [Prod.mk.injEq, true_and] at h
      obtain ⟨hs, _⟩ := h
      subst hs
      split at hid
      · refine ⟨Eq.refl _, Eq.refl _, Eq.refl _, Eq.refl _, Eq.refl _, Eq.refl _, Eq.refl _, ?_⟩
        simp
      · refine ⟨Eq.refl _, Eq.refl _, Eq.refl _, Eq.refl _, Eq.refl _, Eq.refl _, Eq.refl _, ?_⟩
        simp only at hid
        rw [hid]; simp
    · split at h
      · simp at h
      · simp only [Prod.mk.injEq, true_and] at h
        obtain ⟨hs, _⟩ := h
        subst hs
        split
        · exact ⟨Eq.refl _, Eq.refl _, Eq.refl _, Eq.refl _, Eq.refl _, Eq.refl _, Eq.refl _,
            Eq.refl _⟩
        · exact ⟨Eq.refl _, Eq.refl _, Eq.refl _, Eq.refl _, Eq.refl _, Eq.refl _, Eq.refl _,
            Eq.refl _⟩

theorem http_open_cnx_pass_of_reply (e : Env) (fuel : Nat) (s : HTTPContext) (w : World)
    (lc rd ret : Int) (s2 : HTTPContext) (w2 : World) (lc2 : Int)
    (h : http_open_cnx_reply e fuel s w lc = some (ret, s2, w2, lc2)) :
    http_open_cnx_pass e fuel s w lc rd
      = some (http_open_cnx_decide s2 w2 ret s.auth_state.auth_type lc2 rd) := by
  unfold http_open_cnx_reply at h
  unfold http_open_cnx_pass
  split at h
  · simp at h
  · rename_i s1 w1 hl
    simp only [h]
    rw [(http_open_cnx_link_keeps e s w s1 w1 hl).1]

theorem http_open_cnx_decide_redirect (s : HTTPContext) (w : World) (ret cur rd : Int)
    (hret : 0 ≤ ret) (hcode : isRedirectCode s.http_code) :
    http_open_cnx_decide s w ret cur 1 rd =
      if rd ≥ MAX_REDIRECTS then
        PassOut.done (AVERROR EIO) (http_close_and_keep s w 0).2.1 (http_close_and_keep s w 0).2.2
      else PassOut.redo Redo.moved (follow_redirect s w).1 (follow_redirect s w).2 0 (rd + 1) := by
  unfold http_open_cnx_decide
  have h401 : s.http_code ≠ 401 := by
    unfold isRedirectCode at hcode; omega
  rw [if_neg (not_lt.mpr hret), if_neg h401, if_pos ⟨hcode, Eq.refl _⟩]
  rfl

theorem http_open_cnx_loop_done (n : Nat) (e : Env) (fuel : Nat) (s : HTTPContext) (w : World)
    (lc rd ret : Int) (s1 : HTTPContext) (w1 : World)
    (h : http_open_cnx_pass e fuel s w lc rd = some (PassOut.done ret s1 w1)) :
    http_open_cnx_loop (n + 1) e fuel s w lc rd = some (ret, s1, w1) := by
  rw [http_open_cnx_loop, h]

theorem http_open_cnx_reply_keeps (e : Env) (fuel : Nat) (s : HTTPContext) (w : World)
    (lc ret : Int) (s2 : HTTPContext) (w2 : World) (lc2 : Int)
    (h : http_open_cnx_reply e fuel s w lc = some (ret, s2, w2, lc2)) :
    (AuthSticky e → s.auth_state.auth_type ≠ HTTP_AUTH_NONE →
      s2.auth_state.auth_type ≠ HTTP_AUTH_NONE) ∧
    ((lc2 = lc ∧ s2.location = s.location) ∨ lc2 = 1) := by
  unfold http_open_cnx_reply at h
  split at h
  · simp at h
  · rename_i s1 w1 hl
    have hk := http_connect_keeps _ _ _ _ _ _ _ _ _ _ _ _ h
    obtain ⟨ha, hloc, _⟩ := http_open_cnx_link_keeps e s w s1 w1 hl
    refine ⟨fun hs hn => hk.auth hs (by rw [ha]; exact hn), ?_⟩
    rcases hk.loc with ⟨h1, h2⟩ | h1
    · exact Or.inl ⟨h1, h2.trans hloc⟩
    · exact Or.inr h1

theorem http_close_and_keep_session (s : HTTPContext) (w : World) (c : Int) :
    (http_close_and_keep s w c).2.1 = { s with hd := none } := by
  unfold http_close_and_keep
  split
  · rename_i h
    cases s
    simp only at h
    subst h
    rfl
  · split_ifs <;> rfl

theorem http_open_cnx_fail_done (s : HTTPContext) (w : World) :
    ∃ (s2 : HTTPContext) (w2 : World), http_open_cnx_fail s w = PassOut.done (AVERROR EIO) s2 w2 :=
  ⟨_, _, Eq.refl _⟩

theorem http_open_cnx_link_done (e : Env) (s : HTTPContext) (w : World) (o : PassOut)
    (s1 : HTTPContext) (w1 : World) (h : http_open_cnx_link e s w = (some o, s1, w1)) :
    ∃ (s2 : HTTPContext) (w2 : World), o = PassOut.done (AVERROR EIO) s2 w2 := by
  unfold http_open_cnx_link at h
  simp only at h
  split_ifs at h
  · simp only [Prod.mk.injEq, Option.some.injEq] at h
    exact ⟨_, _, h.1.symm⟩
  · split at h
    · simp at h
    · split at h
      · simp only [Prod.mk.injEq, Option.some.injEq] at h
        exact ⟨_, _, h.1.symm⟩
      · simp at h

theorem http_open_cnx_pass_cases (e : Env) (fuel : Nat) (s : HTTPContext) (w : World)
    (lc rd : Int) (out : PassOut) (h : http_open_cnx_pass e fuel s w lc rd = some out) :
    (∃ (s2 : HTTPContext) (w2 : World), out = PassOut.done (AVERROR EIO) s2 w2) ∨
    (∃ (ret : Int) (s2 : HTTPContext) (w2 : World) (lc2 : Int),
      http_open_cnx_reply e fuel s w lc = some (ret, s2, w2, lc2) ∧
      out = http_open_cnx_decide s2 w2 ret s.auth_state.auth_type lc2 rd) := by
  unfold http_open_cnx_pass at h
  split at h
  · rename_i o s1 w1 hl
    simp only [Option.some.injEq] at h
    subst h
    exact Or.inl (http_open_cnx_link_done e s w _ _ _ hl)
  · rename_i s1 w1 hl
    simp only at h
    split at h
    · simp at h
    · rename_i ret s2 w2 lc2 hc
      simp only [Option.some.injEq] at h
      refine Or.inr ⟨ret, s2, w2, lc2, ?_, ?_⟩
      · unfold http_open_cnx_reply
        rw [hl]
        exact hc
      · rw [← h, (http_open_cnx_link_keeps e s w s1 w1 hl).1]

theorem http_open_cnx_decide_redo (s : HTTPContext) (w : World) (ret cur lc rd : Int)
    (why : Redo) (s2 : HTTPContext) (w2 : World) (lc2 rd2 : Int)
    (h : http_open_cnx_decide s w ret cur lc rd = PassOut.redo why s2 w2 lc2 rd2) :
    s2.auth_state = s.auth_state ∧
    (why = Redo.auth → 0 ≤ ret ∧ s.http_code = 401 ∧ cur = HTTP_AUTH_NONE ∧
      s.auth_state.auth_type ≠ HTTP_AUTH_NONE ∧ lc2 = lc) := by
  unfold http_open_cnx_decide http_open_cnx_fail at h
  simp only at h
  split_ifs at h with h1 h2 h3 h4 h5 h6
  · simp only [PassOut.redo.injEq] at h
    obtain ⟨hw, hs, _⟩ := h
    rw [← hs, http_close_and_keep_session]
    exact ⟨Eq.refl _, fun hh => by rw [← hw] at hh; exact absurd hh (by decide)⟩
  · simp only [PassOut.redo.injEq] at h
    obtain ⟨hw, hs, _, hl, _⟩ := h
    rw [← hs, http_close_and_keep_session]
    exact ⟨Eq.refl _, fun _ => ⟨not_lt.mp h1, h3, h4.1, h4.2, hl.symm⟩⟩
  · simp only [PassOut.redo.injEq] at h
    obtain ⟨hw, hs, _⟩ := h
    rw [← hs, http_close_and_keep_session]
    exact ⟨Eq.refl _, fun hh => by rw [← hw] at hh; exact absurd hh (by decide)⟩

theorem http_open_cnx_pass_redo (e : Env) (fuel : Nat) (s : HTTPContext) (w : World)
    (lc rd : Int) (why : Redo) (s2 : HTTPContext) (w2 : World) (lc2 rd2 : Int)
    (h : http_open_cnx_pass e fuel s w lc rd = some (PassOut.redo why s2 w2 lc2 rd2)) :
    (AuthSticky e → s.auth_state.auth_type ≠ HTTP_AUTH_NONE →
      s2.auth_state.auth_type ≠ HTTP_AUTH_NONE) ∧
    (why = Redo.auth → s.auth_state.auth_type = HTTP_AUTH_NONE ∧
      s2.auth_state.auth_type ≠ HTTP_AUTH_NONE ∧
      ∃ (ret : Int) (s1 : HTTPContext) (w1 : World),
        http_open_cnx_reply e fuel s w lc = some (ret, s1, w1, lc2) ∧ 0 ≤ ret ∧
        s1.http_code = 401) := by
  rcases http_open_cnx_pass_cases e fuel s w lc rd _ h with ⟨s3, w3, h3⟩ | ⟨ret, s1, w1, lc1, hr, hd⟩
  · simp at h3
  · obtain ⟨ha, hwhy⟩ := http_open_cnx_decide_redo _ _ _ _ _ _ _ _ _ _ _ hd.symm
    refine ⟨fun hs hn => ?_, fun hh => ?_⟩
    · rw [ha]
      exact (http_open_cnx_reply_keeps e fuel s w lc ret s1 w1 lc1 hr).1 hs hn
    · obtain ⟨h1, h2, h3, h4, h5⟩ := hwhy hh
      subst h5
      exact ⟨h3, by rw [ha]; exact h4, ret, s1, w1, hr, h1, h2⟩

theorem http_open_cnx_auth_retries_zero (e : Env) (hsticky : AuthSticky e) (fuel : Nat) :
    ∀ (n : Nat) (s : HTTPContext) (w : World) (lc rd : Int),
    s.auth_state.auth_type ≠ HTTP_AUTH_NONE →
    http_open_cnx_auth_retries n e fuel s w lc rd = 0 := by
  intro n
  induction n with
  | zero => intro s w lc rd _; rfl
  | succ n ih =>
    intro s w lc rd hs
    unfold http_open_cnx_auth_retries
    split
    · rename_i why s1 w1 lc1 rd1 hp
      obtain ⟨hkeep, hwhy⟩ := http_open_cnx_pass_redo _ _ _ _ _ _ _ _ _ _ _ hp
      rw [ih _ _ _ _ (hkeep hsticky hs)]
      have : why ≠ Redo.auth := fun hh => hs (hwhy hh).1
      simp [this]
    · rfl

theorem list_set_of_get? {α : Type} : ∀ (l : List α) (i : Nat) (a : α),
    l.get? i = some a → l.set i a = l := by
  intro l
  induction l with
  | nil => intro i a h; simp at h
  | cons x xs ih =>
    intro i a h
    cases i with
    | zero =>
      simp only [List.get?_cons_zero, Option.some.injEq] at h
      rw [h]; rfl
    | succ i =>
      simp only [List.get?_cons_succ] at h
      simp only [List.set_cons_succ, ih i a h]

theorem findIdle_none (addr : Str) (flags : Nat) : ∀ (ls : List Link) (i : Nat),
    (∀ l ∈ ls, l.idle = false) → findIdle addr flags ls i = none := by
  intro ls
  induction ls with
  | nil => intro i _; rfl
  | cons l ls ih =>
    intro i h
    unfold findIdle
    have hl : l.idle = false := h l (List.mem_cons_self _ _)
    rw [if_neg (by rw [hl]; simp)]
    exact ih _ (fun l' hl' => h l' (List.mem_cons_of_mem _ hl'))

theorem ffurl_read_closed (w : World) (id : Nat) (l : Link) (size : Int)
    (h : w.links.get? id = some l) (hrd : l.rd = []) : ffurl_read w id size = (0, [], w) := by
  unfold ffurl_read linkRead
  rw [h]
  simp only [hrd]
  unfold setLink
  rw [list_set_of_get? _ _ _ h]

theorem http_getc_closed (fuel : Nat) (s : HTTPContext) (w : World) (id : Nat) (l : Link)
    (hhd : s.hd = some id) (hbuf : s.buf = []) (h : w.links.get? id = some l)
    (hrd : l.rd = []) (hfuel : 1 ≤ fuel) :
    http_getc fuel s w = some (-1, s, (av_gettime w).2) := by
  obtain ⟨m, rfl⟩ : ∃ m, fuel = m + 1 := ⟨fuel - 1, by omega⟩
  have hread : ffurl_read (av_gettime w).2 id (BUFFER_SIZE : Nat) = (0, [], (av_gettime w).2) :=
    ffurl_read_closed _ _ l _ h hrd
  have hfill : http_getc_fill (m + 1) s (av_gettime w).2 id (av_gettime w).1
      = some (some (-1), s, (av_gettime w).2) := by
    unfold http_getc_fill
    simp [hread]
  unfold http_getc
  simp only [hhd, hbuf, hfill]

theorem http_get_line_closed (fuel : Nat) (s : HTTPContext) (w : World) (id : Nat) (l : Link)
    (size : Nat) (hhd : s.hd = some id) (hbuf : s.buf = []) (h : w.links.get? id = some l)
    (hrd : l.rd = []) (hfuel : 1 ≤ fuel) :
    http_get_line fuel s w size = some (AVERROR EIO, [], s, (av_gettime w).2) := by
  obtain ⟨m, hm⟩ : ∃ m, fuel = m + 1 := ⟨fuel - 1, by omega⟩
  unfold http_get_line
  conv => lhs; arg 1; rw [hm]
  unfold http_get_line_loop
  rw [http_getc_closed fuel s w id l hhd hbuf h hrd hfuel]
  simp only
  rw [if_pos (by decide)]

theorem http_connect_header_closed (n fuel : Nat) (e : Env) (s : HTTPContext) (w : World)
    (id : Nat) (l : Link) (nl : Int) (hhd : s.hd = some id) (hbuf : s.buf = [])
    (h : w.links.get? id = some l) (hrd : l.rd = []) (hfuel : 1 ≤ fuel) (hn : 1 ≤ n) :
    http_connect_header n fuel e s w nl = some (some (AVERROR EIO), s, (av_gettime w).2, nl) := by
  obtain ⟨m, rfl⟩ : ∃ m, n = m + 1 := ⟨n - 1, by omega⟩
  unfold http_connect_header
  rw [http_get_line_closed fuel s w id l _ hhd hbuf h hrd hfuel]
  simp only
  rw [if_pos (by decide)]

theorem quiet_refl (w : World) : Quiet w w :=
  ⟨Eq.refl _, Eq.refl _, Eq.refl _, Eq.refl _, Eq.refl _, Eq.refl _, Eq.refl _⟩

theorem quiet_gettime (w : World) : Quiet w (av_gettime w).2 :=
  ⟨Eq.refl _, Eq.refl _, Eq.refl _, Eq.refl _, Eq.refl _, Eq.refl _, Eq.refl _⟩

theorem quiet_trans {w1 w2 w3 : World} (h12 : Quiet w1 w2) (h23 : Quiet w2 w3) : Quiet w1 w3 :=
  ⟨h23.links.trans h12.links, h23.peer.trans h12.peer, h23.intr.trans h12.intr,
   h23.nopen.trans h12.nopen, h23.released.trans h12.released, h23.opened.trans h12.opened,
   h23.closed.trans h12.closed⟩

theorem quiet_wrote (w : World) (id : Nat) (b : Str) :
    Quiet w { w with log := w.log ++ [Ev.wrote id b] } := by
  refine ⟨Eq.refl _, Eq.refl _, Eq.refl _, Eq.refl _, ?_, ?_, ?_⟩
  · simp [releasedLinks, List.filterMap_append]
  · simp [openedLinks, List.filterMap_append]
  · simp [closedLinks, List.filterMap_append]

theorem ffurl_write_quiet (w : World) (id : Nat) (b : Str) : Quiet w (ffurl_write w id b).2 := by
  unfold ffurl_write
  split
  · exact quiet_refl _
  · split_ifs
    · exact quiet_refl _
    · exact quiet_wrote _ _ _

theorem http_connect_closed (e : Env) (fuel : Nat) (s : HTTPContext) (w : World)
    (path hoststr auth : Str) (nl : Int) (id : Nat) (l : Link)
    (hget : hasFlag s.h_flags AVIO_FLAG_WRITE = false)
    (hhd : s.hd = some id) (h : w.links.get? id = some l) (hrd : l.rd = [])
    (hfuel : 1 ≤ fuel) :
    ∃ (s2 : HTTPContext) (w2 : World),
      http_connect e fuel s w path hoststr auth nl = some (AVERROR EIO, s2, w2, nl) ∧
      s2.hd = some id ∧ s2.flags = s.flags ∧ s2.h_flags = s.h_flags ∧ Quiet w w2 := by
  unfold http_connect
  simp only [hhd, hget]
  by_cases hw : (ffurl_write w id (cstr (http_request e s path hoststr auth))).1 < 0
  · rw [if_pos hw]
    exact ⟨_, _, Eq.refl _, hhd, Eq.refl _, Eq.refl _, ffurl_write_quiet _ _ _⟩
  · rw [if_neg hw]
    have hq := ffurl_write_quiet w id (cstr (http_request e s path hoststr auth))
    have hl : (ffurl_write w id (cstr (http_request e s path hoststr auth))).2.links.get? id
        = some l := by rw [hq.links]; exact h
    simp only [Bool.false_eq_true, if_false]
    rw [http_connect_header_closed fuel fuel e { http_connect_reset s with chunksize := -1 } _
      id l nl hhd (Eq.refl _) hl hrd hfuel hfuel]
    exact ⟨_, _, Eq.refl _, hhd, Eq.refl _, Eq.refl _, quiet_trans hq (quiet_gettime _)⟩

theorem tcppool_find_none (w : World) (addr : Str) (flags : Nat)
    (h : ∀ l ∈ w.links, l.idle = false) : tcppool_find_free_tcplink w addr flags = (none, w) := by
  unfold tcppool_find_free_tcplink
  rw [findIdle_none addr flags w.links 0 h]

theorem http_open_cnx_fail_spec (s : HTTPContext) (w : World) :
    ∃ (s2 : HTTPContext) (w2 : World),
      http_open_cnx_fail s w = PassOut.done (AVERROR EIO) s2 w2 ∧ s2.hd = none ∧
      s2.h_flags = s.h_flags ∧ s2.flags = s.flags ∧
      w2 = (if s.hd.isSome then (http_close_and_keep s w 1).2.2 else w) := by
  refine ⟨_, _, Eq.refl _, Eq.refl _, ?_, ?_, ?_⟩
  · simp only
    split_ifs <;> simp [http_close_and_keep_session]
  · simp only
    split_ifs <;> simp [http_close_and_keep_session]
  · split_ifs <;> rfl

theorem http_open_cnx_link_dead (e : Env) (s : HTTPContext) (w : World)
    (hw : DeadPeer w) (hs : ReadSession s) :
    (∃ (s2 : HTTPContext) (w2 : World) (s1 : HTTPContext) (w1 : World),
      http_open_cnx_link e s w = (some (PassOut.done (AVERROR EIO) s2 w2), s1, w1) ∧
      ReadSession s2 ∧ w2.links = w.links ∧ w2.peer = w.peer ∧ w2.intr = w.intr ∧
      w2.nopen = w.nopen + 1 ∧ w2.log = w.log ++ [Ev.open_failed]) ∨
    (∃ (b : Bool) (s2 : HTTPContext) (w2 : World),
      http_open_cnx_link e s w = (none, s2, w2) ∧
      s2.hd = some w.links.length ∧ s2.h_flags = s.h_flags ∧ s2.flags = s.flags ∧
      w2.links = w.links ++ [{ addr := (http_open_cnx_target e s).1,
                               flags := http_open_cnx_flags e, rd := [], wfail := b,
                               idle := false, closed := false }] ∧
      w2.peer = w.peer ∧ w2.intr = w.intr ∧
      w2.nopen = w.nopen + 1 ∧ w2.log = w.log ++ [Ev.opened w.links.length]) := by
  have hfind := tcppool_find_none (url_interrupt_cb w).2 (http_open_cnx_target e s).1
    (http_open_cnx_flags e) hw.idle
  unfold http_open_cnx_link
  simp only [hfind]
  have hi : (url_interrupt_cb w).1 = false := hw.intr _
  rw [if_neg (by rw [hi]; simp)]
  simp only [hs.hd]
  rcases hw.peer w.nopen (http_open_cnx_target e s).1 with hp | ⟨b, hp⟩
  · left
    have ho : ffurl_open (url_interrupt_cb w).2 (http_open_cnx_target e s).1 (http_open_cnx_flags e)
        = (none, { (url_interrupt_cb w).2 with nopen := w.nopen + 1,
                                                log := w.log ++ [Ev.open_failed] }) := by
      unfold ffurl_open
      show (match w.peer w.nopen (http_open_cnx_target e s).1 with
        | none => _
        | some sc => _) = _
      rw [hp]
      rfl
    simp only [ho]
    obtain ⟨s2, w2, hf, h1, h2, h3, h4⟩ := http_open_cnx_fail_spec
      { s with hd := none, hosname := (http_open_cnx_target e s).2.1 }
      { (url_interrupt_cb w).2 with nopen := w.nopen + 1, log := w.log ++ [Ev.open_failed] }
    rw [hf]
    rw [if_neg (by simp)] at h4
    refine ⟨s2, w2, _, _, Eq.refl _, ⟨h1, by rw [h2]; exact hs.h_flags, by rw [h3]; exact hs.flags⟩,
      ?_, ?_, ?_, ?_, ?_⟩ <;> rw [h4] <;> rfl
  · right
    have ho : ffurl_open (url_interrupt_cb w).2 (http_open_cnx_target e s).1 (http_open_cnx_flags e)
        = (some w.links.length, { (url_interrupt_cb w).2 with
            nopen := w.nopen + 1,
            links := w.links ++ [{ addr := (http_open_cnx_target e s).1,
                                   flags := http_open_cnx_flags e, rd := [], wfail := b,
                                   idle := false, closed := false }],
            log := w.log ++ [Ev.opened w.links.length] }) := by
      unfold ffurl_open
      show (match w.peer w.nopen (http_open_cnx_target e s).1 with
        | none => _
        | some sc => _) = _
      rw [hp]
      rfl
    simp only [ho]
    exact ⟨b, _, _, Eq.refl _, Eq.refl _, Eq.refl _, Eq.refl _, Eq.refl _, Eq.refl _, Eq.refl _,
      Eq.refl _, Eq.refl _⟩

theorem http_close_and_keep_close (s : HTTPContext) (w : World) (id : Nat) (l : Link)
    (hhd : s.hd = some id) (hflags : hasFlag s.flags AVIO_FLAG_WRITE = false)
    (hl : w.links.get? id = some l) :
    (http_close_and_keep s w 1).2.2
      = { setLink w id { l with idle := false, closed := true } with
          log := w.log ++ [Ev.closed id] } := by
  unfold http_close_and_keep
  simp only [hhd, hflags]
  rw [if_pos (Or.inl (by decide))]
  simp only [Bool.false_eq_true, false_and, if_false]
  unfold tcppool_close_tcplink
  rw [hl]

theorem http_open_cnx_decide_eio (s : HTTPContext) (w : World) (cur lc rd : Int) :
    http_open_cnx_decide s w (AVERROR EIO) cur lc rd = http_open_cnx_fail s w := by
  unfold http_open_cnx_decide
  rw [if_pos (by decide), if_neg (by decide)]

theorem http_open_cnx_pass_dead (e : Env) (fuel : Nat) (s : HTTPContext) (w : World)
    (lc rd : Int) (hw : DeadPeer w) (hs : ReadSession s) (hfuel : 1 ≤ fuel) :
    ∃ (s2 : HTTPContext) (w2 : World),
      http_open_cnx_pass e fuel s w lc rd = some (PassOut.done (AVERROR EIO) s2 w2) ∧
      DeadPeer w2 ∧ ReadSession s2 ∧ FailedAttempts 1 w w2 := by
  rcases http_open_cnx_link_dead e s w hw hs with
    ⟨s2, w2, s1, w1, hlink, hs2, hlinks, hpeer, hintr, hnopen, hlog⟩ |
    ⟨b, s1, w1, hlink, hhd, hhf, hf, hlinks, hpeer, hintr, hnopen, hlog⟩
  · refine ⟨s2, w2, ?_, ⟨?_, ?_, ?_⟩, hs2, ⟨hnopen, ?_, [], ?_, ?_⟩⟩
    · unfold http_open_cnx_pass
      rw [hlink]
    · rw [hintr]; exact hw.intr
    · rw [hpeer]; exact hw.peer
    · rw [hlinks]; exact hw.idle
    · simp [releasedLinks, hlog, List.filterMap_append]
    · simp [openedLinks, hlog, List.filterMap_append]
    · simp [closedLinks, hlog, List.filterMap_append]
  · have hget1 : w1.links.get? w.links.length = some
        { addr := (http_open_cnx_target e s).1, flags := http_open_cnx_flags e, rd := [],
          wfail := b, idle := false, closed := false } := by
      rw [hlinks]; simp
    obtain ⟨s2, w2, hconn, hhd2, hf2, hhf2, hq⟩ :=
      http_connect_closed e fuel s1 w1 (http_open_cnx_target e s).2.2.2.2
        (http_open_cnx_target e s).2.2.1 (http_open_cnx_target e s).2.2.2.1 lc
        w.links.length _ (by rw [hhf]; exact hs.h_flags) hhd hget1 (Eq.refl _) hfuel
    obtain ⟨s3, w3, hfail, h1, h2, h3, h4⟩ := http_open_cnx_fail_spec s2 w2
    have hget2 : w2.links.get? w.links.length = some
        { addr := (http_open_cnx_target e s).1, flags := http_open_cnx_flags e, rd := [],
          wfail := b, idle := false, closed := false } := by
      rw [hq.links]; exact hget1
    have hflags2 : hasFlag s2.flags AVIO_FLAG_WRITE = false := by
      rw [hf2, hf]; exact hs.flags
    rw [if_pos (by rw [hhd2]; rfl),
      http_close_and_keep_close s2 w2 _ _ hhd2 hflags2 hget2] at h4
    have e_intr : w3.intr = w.intr := by
      rw [h4]; show w2.intr = w.intr; rw [hq.intr, hintr]
    have e_peer : w3.peer = w.peer := by
      rw [h4]; show w2.peer = w.peer; rw [hq.peer, hpeer]
    have e_nopen : w3.nopen = w.nopen + 1 := by
      rw [h4]; show w2.nopen = w.nopen + 1; rw [hq.nopen, hnopen]
    have e_log : w3.log = w2.log ++ [Ev.closed w.links.length] := by
      rw [h4]
    have e_links : ∀ l ∈ w3.links, l.idle = false := by
      rw [h4]
      show ∀ l ∈ w2.links.set _ _, l.idle = false
      intro l hl
      rcases List.mem_or_eq_of_mem_set hl with hm | he
      · rw [hq.links, hlinks] at hm
        rcases List.mem_append.mp hm with hm1 | hm2
        · exact hw.idle l hm1
        · simp only [List.mem_singleton] at hm2
          rw [hm2]
      · rw [he]
    refine ⟨s3, w3, ?_, ⟨?_, ?_, e_links⟩, ⟨h1, ?_, ?_⟩, ⟨e_nopen, ?_, [w.links.length], ?_, ?_⟩⟩
    · unfold http_open_cnx_pass
      rw [hlink]
      simp only [hconn, http_open_cnx_decide_eio, hfail]
    · rw [e_intr]; exact hw.intr
    · rw [e_peer]; exact hw.peer
    · rw [h2, hhf2, hhf]; exact hs.h_flags
    · rw [h3]; exact hflags2
    · have : releasedLinks w1 = releasedLinks w := by
        simp [releasedLinks, hlog, List.filterMap_append]
      rw [← this, ← hq.released]
      simp [releasedLinks, List.filterMap_append, e_log]
    · have : openedLinks w1 = openedLinks w ++ [w.links.length] := by
        simp [openedLinks, hlog, List.filterMap_append]
      rw [← this, ← hq.opened]
      simp [openedLinks, List.filterMap_append, e_log]
    · have : closedLinks w1 = closedLinks w := by
        simp [closedLinks, hlog, List.filterMap_append]
      rw [← this, ← hq.closed]
      simp [closedLinks, List.filterMap_append, e_log]

theorem failedAttempts_trans {j k : Nat} {w1 w2 w3 : World} (h12 : FailedAttempts j w1 w2)
    (h23 : FailedAttempts k w2 w3) : FailedAttempts (j + k) w1 w3 := by
  obtain ⟨ids1, ho1, hc1⟩ := h12.closed
  obtain ⟨ids2, ho2, hc2⟩ := h23.closed
  refine ⟨?_, h23.released.trans h12.released, ids1 ++ ids2, ?_, ?_⟩
  · rw [h23.nopen, h12.nopen]; omega
  · rw [ho2, ho1, List.append_assoc]
  · rw [hc2, hc1, List.append_assoc]

theorem failedAttempts_poll (w : World) : FailedAttempts 0 w (url_interrupt_cb w).2 :=
  ⟨Eq.refl _, Eq.refl _, [], (List.append_nil _).symm, (List.append_nil _).symm⟩

theorem failedAttempts_gettime (w : World) : FailedAttempts 0 w (av_gettime w).2 :=
  ⟨Eq.refl _, Eq.refl _, [], (List.append_nil _).symm, (List.append_nil _).symm⟩

theorem deadPeer_gettime (w : World) (h : DeadPeer w) : DeadPeer (av_gettime w).2 :=
  ⟨h.intr, h.peer, h.idle⟩

theorem http_open_cnx_dead (e : Env) (fuel : Nat) (s : HTTPContext) (w : World)
    (hw : DeadPeer w) (hs : ReadSession s) (hfuel : 1 ≤ fuel) :
    ∃ (s2 : HTTPContext) (w2 : World),
      http_open_cnx e fuel s w = some (AVERROR EIO, s2, w2) ∧
      DeadPeer w2 ∧ ReadSession s2 ∧ FailedAttempts 1 w w2 := by
  obtain ⟨m, hm⟩ : ∃ m, fuel = m + 1 := ⟨fuel - 1, by omega⟩
  obtain ⟨s2, w2, hp, h1, h2, h3⟩ := http_open_cnx_pass_dead e fuel
    { s with latest_get_time_ms := 0 } w 0 0 hw ⟨hs.hd, hs.h_flags, hs.flags⟩ hfuel
  refine ⟨s2, w2, ?_, h1, h2, h3⟩
  unfold http_open_cnx
  conv => lhs; arg 1; rw [hm]
  exact http_open_cnx_loop_done _ _ _ _ _ _ _ _ _ _ hp

theorem ffurl_write_log (w : World) (id : Nat) (b : Str) :
    (ffurl_write w id b).2.links = w.links ∧
    ((ffurl_write w id b).2.log = w.log ∨ (ffurl_write w id b).2.log = w.log ++ [Ev.wrote id b]) := by
  unfold ffurl_write
  split
  · exact ⟨Eq.refl _, Or.inl (Eq.refl _)⟩
  · split_ifs
    · exact ⟨Eq.refl _, Or.inl (Eq.refl _)⟩
    · exact ⟨Eq.refl _, Or.inr (Eq.refl _)⟩

theorem digitVal_digitChar (d : Nat) (h : d < 16) : digitVal (Nat.digitChar d).toNat = some d := by
  interval_cases d <;> rfl

theorem parseDigits_toDigitsCore (b : Nat) (hb : 2 ≤ b) (hb16 : b ≤ 16) (tl : Str) :
    ∀ (fuel n : Nat) (ds : List Char), n < fuel →
    ∃ k : Nat, ∀ acc : Nat,
      parseDigits b ((Nat.toDigitsCore b fuel n ds).map Char.toNat ++ tl) acc
        = parseDigits b (ds.map Char.toNat ++ tl) (acc * b ^ k + n) := by
  intro fuel
  induction fuel with
  | zero => intro n ds h; omega
  | succ fuel ih =>
    intro n ds hn
    have hd : n % b < b := Nat.mod_lt _ (by omega)
    have hstep : ∀ acc : Nat, parseDigits b ((Nat.digitChar (n % b) :: ds).map Char.toNat ++ tl) acc
        = parseDigits b (ds.map Char.toNat ++ tl) (acc * b + n % b) := by
      intro acc
      simp only [List.map_cons, List.cons_append, parseDigits,
        digitVal_digitChar (n % b) (by omega), if_pos hd]
      rfl
    unfold Nat.toDigitsCore
    simp only
    by_cases h0 : n / b = 0
    · rw [if_pos h0]
      refine ⟨1, fun acc => ?_⟩
      rw [hstep, pow_one]
      have : n % b = n := Nat.mod_eq_of_lt ((Nat.div_eq_zero_iff (by omega)).mp h0)
      rw [this]
    · rw [if_neg h0]
      have hlt : n / b < fuel := by
        have : n / b < n := Nat.div_lt_self (by
          rcases Nat.eq_zero_or_pos n with h | h
          · rw [h] at h0; simp at h0
          · exact h) (by omega)
        omega
      obtain ⟨k, hk⟩ := ih (n / b) (Nat.digitChar (n % b) :: ds) hlt
      refine ⟨k + 1, fun acc => ?_⟩
      rw [hk, hstep]
      congr 1
      have := Nat.div_add_mod n b
      rw [pow_succ]
      nlinarith [Nat.div_add_mod n b]
theorem toDigitsCore_all (b : Nat) (hb : 2 ≤ b) (P : Char → Prop)
    (hP : ∀ d : Nat, d < b → P (Nat.digitChar d)) :
    ∀ (fuel n : Nat) (ds : List Char), (∀ c ∈ ds, P c) →
      ∀ c ∈ Nat.toDigitsCore b fuel n ds, P c := by
  intro fuel
  induction fuel with
  | zero => intro n ds h; exact h
  | succ fuel ih =>
    intro n ds h
    have hd : P (Nat.digitChar (n % b)) := hP _ (Nat.mod_lt _ (by omega))
    have hds : ∀ c ∈ Nat.digitChar (n % b) :: ds, P c := by
      intro c hc
      rcases List.mem_cons.mp hc with h1 | h1
      · rw [h1]; exact hd
      · exact h c h1
    unfold Nat.toDigitsCore
    simp only
    split_ifs
    · exact hds
    · exact ih _ _ hds

theorem toDigitsCore_ne_nil (b : Nat) : ∀ (fuel n : Nat) (ds : List Char),
    (ds ≠ [] ∨ 0 < fuel) → Nat.toDigitsCore b fuel n ds ≠ [] := by
  intro fuel
  induction fuel with
  | zero =>
    intro n ds h
    rcases h with h | h
    · exact h
    · omega
  | succ fuel ih =>
    intro n ds _
    unfold Nat.toDigitsCore
    simp only
    split_ifs
    · exact List.cons_ne_nil _ _
    · exact ih _ _ (Or.inl (List.cons_ne_nil _ _))

theorem natDigits_isdigit (n : Nat) : ∀ c ∈ natDigits n, 48 ≤ c ∧ c ≤ 57 := by
  intro c hc
  unfold natDigits Nat.toDigits at hc
  obtain ⟨ch, hch, rfl⟩ := List.mem_map.mp hc
  exact toDigitsCore_all 10 (by decide) (fun c => 48 ≤ c.toNat ∧ c.toNat ≤ 57)
    (fun d hd => by interval_cases d <;> decide) _ _ [] (fun _ h => absurd h (List.not_mem_nil _))
    ch hch

theorem natDigits_ne_nil (n : Nat) : natDigits n ≠ [] := by
  unfold natDigits Nat.toDigits
  intro h
  exact toDigitsCore_ne_nil 10 (n + 1) n [] (Or.inr (Nat.succ_pos _)) (List.map_eq_nil_iff.mp h)

theorem natDigits_parse (n : Nat) (tl : Str) :
    parseDigits 10 (natDigits n ++ tl) 0 = parseDigits 10 tl n := by
  obtain ⟨k, hk⟩ := parseDigits_toDigitsCore 10 (by decide) (by decide) tl (n + 1) n []
    (Nat.lt_succ_self n)
  have := hk 0
  simpa [natDigits, Nat.toDigits] using this

theorem cstr_of_nonzero (l : Str) (h : ∀ c ∈ l, c ≠ 0) : cstr l = l := by
  unfold cstr
  rw [List.takeWhile_eq_self_iff]
  intro c hc
  simpa using h c hc

theorem dropWhile_append_of_all {α : Type} (p : α → Bool) (l r : List α)
    (h : ∀ x ∈ l, p x = true) : (l ++ r).dropWhile p = r.dropWhile p := by
  induction l with
  | nil => rfl
  | cons x xs ih =>
    rw [List.cons_append, List.dropWhile_cons, if_pos (h x (List.mem_cons_self _ _))]
    exact ih (fun y hy => h y (List.mem_cons_of_mem _ hy))

theorem takeWhile_append_of_all {α : Type} (p : α → Bool) (l r : List α)
    (h : ∀ x ∈ l, p x = true) : (l ++ r).takeWhile p = l ++ r.takeWhile p := by
  induction l with
  | nil => rfl
  | cons x xs ih =>
    rw [List.cons_append, List.takeWhile_cons, if_pos (h x (List.mem_cons_self _ _)),
      ih (fun y hy => h y (List.mem_cons_of_mem _ hy)), List.cons_append]

theorem clamp64_of_lt (n : Nat) (h : n < 2 ^ 63) : clamp 64 (n : Int) = n := by
  unfold clamp
  have h1 : ¬ ((n : Int) < -(2 ^ (64 - 1))) := by
    have : (0 : Int) ≤ n := Int.ofNat_nonneg n
    norm_num; omega
  have h2 : ¬ ((n : Int) > 2 ^ (64 - 1) - 1) := by
    have : (n : Int) < 2 ^ 63 := by exact_mod_cast h
    norm_num; omega
  rw [if_neg h1, if_neg h2]

/-- The decimal text of `n` in front of something that does not go on with a
digit reads back as `n`. -/
theorem atoll_natDigits (n : Nat) (tl : Str) (hn : n < 2 ^ 63)
    (htl : ∀ (c : Nat) (r : Str), tl = c :: r → isdigit c = false) :
    atoll (natDigits n ++ tl) = n := by
  obtain ⟨c, cs, hcs⟩ := List.exists_cons_of_ne_nil (natDigits_ne_nil n)
  have hc : 48 ≤ c ∧ c ≤ 57 := natDigits_isdigit n c (by rw [hcs]; exact List.mem_cons_self _ _)
  have hnz : ∀ x ∈ natDigits n, (fun c => c != 0) x = true := by
    intro x hx
    have := natDigits_isdigit n x hx
    simp only [bne_iff_ne, ne_eq]
    omega
  have hcstr : cstr (natDigits n ++ tl) = natDigits n ++ cstr tl := by
    unfold cstr
    exact takeWhile_append_of_all _ _ _ hnz
  have hsp : (natDigits n ++ cstr tl).dropWhile isspace = natDigits n ++ cstr tl := by
    rw [hcs, List.cons_append, List.dropWhile_cons]
    have : isspace c = false := by
      unfold isspace
      simp only [Bool.or_eq_false_iff, beq_eq_false_iff_ne, ne_eq, Bool.and_eq_false_iff,
        decide_eq_false_iff_not]
      omega
    rw [this]; rfl
  have hsign : parseSign (natDigits n ++ cstr tl) = (false, natDigits n ++ cstr tl) := by
    rw [hcs, List.cons_append]
    unfold parseSign
    split
    · rename_i h; simp only [List.cons.injEq] at h; omega
    · rename_i h; simp only [List.cons.injEq] at h; omega
    · rfl
  have htail : parseDigits 10 (cstr tl) n = n := by
    cases htl2 : cstr tl with
    | nil => rfl
    | cons x xs =>
      have hx : ∃ r, tl = x :: r := by
        unfold cstr at htl2
        cases tl with
        | nil => simp at htl2
        | cons y ys =>
          rw [List.takeWhile_cons] at htl2
          split_ifs at htl2
          · simp only [List.cons.injEq] at htl2
            exact ⟨ys, by rw [htl2.1]⟩
      obtain ⟨r, hr⟩ := hx
      have hxd := htl x r hr
      unfold isdigit at hxd
      simp only [Bool.and_eq_false_iff, decide_eq_false_iff_not] at hxd
      unfold parseDigits digitVal
      by_cases h1 : 48 ≤ x ∧ x ≤ 57
      · omega
      rw [if_neg h1]
      by_cases h2 : 97 ≤ x ∧ x ≤ 102
      · rw [if_pos h2]
        simp only
        rw [if_neg (by omega)]
      rw [if_neg h2]
      by_cases h3 : 65 ≤ x ∧ x ≤ 70
      · rw [if_pos h3]
        simp only
        rw [if_neg (by omega)]
      rw [if_neg h3]
  unfold atoll strtol10
  simp only [hcstr, hsp, hsign, natDigits_parse, htail]
  exact clamp64_of_lt n hn
theorem content_range_line_nonzero (S E T : Nat) : ∀ c ∈ content_range_line S E T, c ≠ 0 := by
  intro c hc
  unfold content_range_line at hc
  simp only [List.mem_append, List.mem_cons] at hc
  have h1 := natDigits_isdigit S c
  have h2 := natDigits_isdigit E c
  have h3 := natDigits_isdigit T c
  rcases hc with h | h | h | h | h | h
  · simp only [List.mem_cons, List.mem_singleton, List.not_mem_nil, or_false] at h
    omega
  · have := h1 h; omega
  · omega
  · have := h2 h; omega
  · omega
  · have := h3 h; omega

theorem dropWhile_natDigits (n : Nat) (tl : Str) (p : Nat → Bool)
    (hp : ∀ c : Nat, 48 ≤ c → c ≤ 57 → p c = false) :
    (natDigits n ++ tl).dropWhile p = natDigits n ++ tl := by
  obtain ⟨c, cs, hcs⟩ := List.exists_cons_of_ne_nil (natDigits_ne_nil n)
  have hc := natDigits_isdigit n c (by rw [hcs]; exact List.mem_cons_self _ _)
  rw [hcs, List.cons_append, List.dropWhile_cons, hp c hc.1 hc.2]
  rfl

theorem process_content_range_digits (s : HTTPContext) (S E T : Nat) (hS : S < 2 ^ 63)
    (hT : T < 2 ^ 63) :
    (process_content_range s
      (([98, 121, 116, 101, 115, 32] : Str) ++ (natDigits S ++ (45 :: (natDigits E ++ (47 :: natDigits T)))))).off = S ∧
    (process_content_range s
      (([98, 121, 116, 101, 115, 32] : Str) ++ (natDigits S ++ (45 :: (natDigits E ++ (47 :: natDigits T)))))).filesize
        = T := by
  have hb : strncmp_eq (([98, 121, 116, 101, 115, 32] : Str) ++ (natDigits S ++ (45 :: (natDigits E ++ (47 :: natDigits T)))))
      str_bytes_sp 5 = true := rfl
  have hp1 : ((([98, 121, 116, 101, 115, 32] : Str) ++ (natDigits S ++ (45 :: (natDigits E ++ (47 :: natDigits T))))).drop 5).dropWhile
      (fun c => c == 32) = natDigits S ++ (45 :: (natDigits E ++ (47 :: natDigits T))) := by
    show List.dropWhile (fun c => c == 32)
      (32 :: (natDigits S ++ (45 :: (natDigits E ++ (47 :: natDigits T))))) = _
    rw [List.dropWhile_cons, if_pos (by rfl)]
    exact dropWhile_natDigits S _ _ (fun c h1 h2 => by
      simp only [beq_eq_false_iff_ne, ne_eq]; omega)
  have hoff : atoll (natDigits S ++ (45 :: (natDigits E ++ (47 :: natDigits T)))) = S :=
    atoll_natDigits S _ hS (fun c r h => by
      simp only [List.cons.injEq] at h
      rw [← h.1]; rfl)
  have hslash : (natDigits S ++ (45 :: (natDigits E ++ (47 :: natDigits T)))).dropWhile
      (fun c => c != 47) = 47 :: natDigits T := by
    have hd : ∀ n : Nat, ∀ x ∈ natDigits n, (fun c => c != 47) x = true := by
      intro n x hx
      have := natDigits_isdigit n x hx
      simp only [bne_iff_ne, ne_eq]; omega
    rw [dropWhile_append_of_all _ _ _ (hd S), List.dropWhile_cons, if_pos (by rfl),
      dropWhile_append_of_all _ _ _ (hd E), List.dropWhile_cons, if_neg (by decide)]
  have hsize : atoll (natDigits T) = T := by
    have := atoll_natDigits T [] hT (fun c r h => by simp at h)
    rwa [List.append_nil] at this
  unfold process_content_range
  simp only [hb, if_true, hp1, hoff, hslash, hsize]
  constructor <;> split_ifs <;> rfl

theorem strcasecmp_eq_of_eq (a b c : Str) (h : strcasecmp_eq a b = true) :
    strcasecmp_eq a c = strcasecmp_eq b c := by
  unfold strcasecmp_eq at *
  rw [beq_iff_eq] at h
  rw [h]

theorem process_content_range_willclose (s : HTTPContext) (p : Str) :
    (process_content_range s p).willclose = s.willclose := by
  unfold process_content_range
  simp only
  split_ifs <;> first | rfl | (split <;> rfl)

theorem process_header_willclose (e : Env) (s : HTTPContext) (tag p : Str) (nl : Int) :
    (process_header e s tag p nl).1.willclose
      = if strcasecmp_eq tag str_Connection then
          (if strcasecmp_eq p str_Keep_Alive then 0 else 1)
        else s.willclose := by
  by_cases c8 : strcasecmp_eq tag str_Connection = true
  · rw [if_pos c8]
    have hk := strcasecmp_eq_of_eq tag str_Connection
    unfold process_header
    rw [if_neg (by rw [hk _ c8]; decide),
      if_neg (by rw [hk _ c8]; rintro ⟨h, _⟩; exact absurd h (by decide)),
      if_neg (by rw [hk _ c8]; decide), if_neg (by rw [hk _ c8]; decide),
      if_neg (by rw [hk _ c8]; rintro ⟨h, _⟩; exact absurd h (by decide)),
      if_neg (by rw [hk _ c8]; decide),
      if_neg (by rw [hk _ c8]; decide), if_pos c8]
    by_cases c81 : strcmp_eq p str_close = true
    · rw [if_pos c81]
      have : strcasecmp_eq p str_Keep_Alive = false := by
        unfold strcmp_eq at c81
        rw [beq_iff_eq] at c81
        unfold strcasecmp_eq
        rw [c81]
        decide
      rw [this]
      rfl
    rw [if_neg c81]
    by_cases c82 : strcasecmp_eq p str_Keep_Alive = true
    · rw [if_pos c82, if_pos c82]
    · rw [if_neg c82, if_neg c82]
  rw [if_neg c8]
  unfold process_header
  by_cases c1 : strcasecmp_eq tag str_Location = true
  · rw [if_pos c1]
  rw [if_neg c1]
  by_cases c2 : strcasecmp_eq tag str_Content_Length = true ∧ s.filesize = -1
  · rw [if_pos c2]
  rw [if_neg c2]
  by_cases c3 : strcasecmp_eq tag str_Content_Range = true
  · rw [if_pos c3]; exact process_content_range_willclose s p
  rw [if_neg c3]
  by_cases c4 : strcasecmp_eq tag str_Content_Encoding = true
  · rw [if_pos c4]
    split_ifs <;> rfl
  rw [if_neg c4]
  by_cases c5 : strcasecmp_eq tag str_Transfer_Encoding = true ∧ strncasecmp_eq p str_chunked 7 = true
  · rw [if_pos c5]
  rw [if_neg c5]
  by_cases c6 : strcasecmp_eq tag str_WWW_Authenticate = true
  · rw [if_pos c6]
  rw [if_neg c6]
  by_cases c7 : strcasecmp_eq tag str_Authentication_Info = true
  · rw [if_pos c7]
  rw [if_neg c7, if_neg c8]
  by_cases c9 : strcasecmp_eq tag str_Server = true
  · rw [if_pos c9]
    split_ifs <;> rfl
  rw [if_neg c9]
  by_cases c10 : strcasecmp_eq tag str_Pragma = true
  · rw [if_pos c10]
    split_ifs <;> rfl
  · rw [if_neg c10]

theorem process_line_willclose (e : Env) (s : HTTPContext) (line : Str) (lc nl : Int) :
    (process_line e s line lc nl).2.1.willclose
      = if lc = 0 then s.willclose else willclose_after s.willclose [line] := by
  have hwa : willclose_after s.willclose [line]
      = match connection_value line with
        | some v => if strcasecmp_eq v str_Keep_Alive then 0 else 1
        | none => s.willclose := by
    unfold willclose_after
    cases h : connection_value line <;> simp [List.filterMap, h]
  rw [hwa]
  unfold process_line connection_value
  simp only
  by_cases c1 : cstr line = []
  · rw [if_pos c1, c1]
    split_ifs <;> rfl
  rw [if_neg c1]
  by_cases c2 : lc = 0
  · rw [if_pos c2, if_pos c2]
    split_ifs <;> rfl
  rw [if_neg c2, if_neg c2]
  cases hd : (cstr line).dropWhile (fun c => c != 58) with
  | nil => rfl
  | cons x rest =>
    simp only
    rw [process_header_willclose]
    by_cases c3 : strcasecmp_eq ((cstr line).takeWhile (fun c => c != 58)) str_Connection = true
    · rw [if_pos c3, if_pos c3]
    · rw [if_neg c3, if_neg c3]

theorem headOnly_refl (s : HTTPContext) : HeadOnly s s := by
  cases s; rfl

theorem headOnly_trans {s1 s2 s3 : HTTPContext} (h12 : HeadOnly s1 s2) (h23 : HeadOnly s2 s3) :
    HeadOnly s1 s3 := by
  unfold HeadOnly at *
  rw [h23, h12]

theorem process_content_range_headOnly (s : HTTPContext) (p : Str) :
    HeadOnly s (process_content_range s p) := by
  have key : ∀ s1 : HTTPContext, HeadOnly s s1 →
      HeadOnly s (if s1.filesize > 0 then { s1 with h_is_streamed := 0 } else s1) := by
    intro s1 h
    by_cases hf : s1.filesize > 0
    · rw [if_pos hf]
      exact headOnly_trans h (by cases s1; rfl)
    · rw [if_neg hf]; exact h
  unfold process_content_range
  apply key
  by_cases hb : strncmp_eq p str_bytes_sp 5 = true
  · rw [if_pos hb]
    simp only
    split
    · cases s; rfl
    · cases s; rfl
  · rw [if_neg hb]; exact headOnly_refl _

theorem process_header_headOnly (e : Env) (s : HTTPContext) (tag p : Str) (nl : Int) :
    HeadOnly s (process_header e s tag p nl).1 := by
  unfold process_header
  by_cases c1 : strcasecmp_eq tag str_Location = true
  · rw [if_pos c1]; cases s; rfl
  rw [if_neg c1]
  by_cases c2 : strcasecmp_eq tag str_Content_Length = true ∧ s.filesize = -1
  · rw [if_pos c2]; cases s; rfl
  rw [if_neg c2]
  by_cases c3 : strcasecmp_eq tag str_Content_Range = true
  · rw [if_pos c3]; exact process_content_range_headOnly s p
  rw [if_neg c3]
  by_cases c4 : strcasecmp_eq tag str_Content_Encoding = true
  · rw [if_pos c4]
    by_cases c41 : strcasecmp_eq p str_identity = true
    · rw [if_pos c41]; exact headOnly_refl _
    rw [if_neg c41]
    by_cases c42 : strcasecmp_eq p str_gzip = true ∨ strcasecmp_eq p str_deflate = true
    · rw [if_pos c42]; cases s; rfl
    · rw [if_neg c42]; exact headOnly_refl _
  rw [if_neg c4]
  by_cases c5 : strcasecmp_eq tag str_Transfer_Encoding = true ∧ strncasecmp_eq p str_chunked 7 = true
  · rw [if_pos c5]; cases s; rfl
  rw [if_neg c5]
  by_cases c6 : strcasecmp_eq tag str_WWW_Authenticate = true
  · rw [if_pos c6]; cases s; rfl
  rw [if_neg c6]
  by_cases c7 : strcasecmp_eq tag str_Authentication_Info = true
  · rw [if_pos c7]; cases s; rfl
  rw [if_neg c7]
  by_cases c8 : strcasecmp_eq tag str_Connection = true
  · rw [if_pos c8]
    by_cases c81 : strcmp_eq p str_close = true
    · rw [if_pos c81]; cases s; rfl
    rw [if_neg c81]
    by_cases c82 : strcasecmp_eq p str_Keep_Alive = true
    · rw [if_pos c82]; cases s; rfl
    · rw [if_neg c82]; cases s; rfl
  rw [if_neg c8]
  by_cases c9 : strcasecmp_eq tag str_Server = true
  · rw [if_pos c9]
    by_cases c91 : strncmp_eq p str_Octoshape str_Octoshape.length = true
    · rw [if_pos c91]; cases s; rfl
    · rw [if_neg c91]; exact headOnly_refl _
  rw [if_neg c9]
  by_cases c10 : strcasecmp_eq tag str_Pragma = true
  · rw [if_pos c10]
    by_cases c101 : strstr p str_features = true
    · rw [if_pos c101]
      by_cases c102 : strstr p str_broadcast = true
      · rw [if_pos c102]; cases s; rfl
      · rw [if_neg c102]; cases s; rfl
    · rw [if_neg c101]; exact headOnly_refl _
  · rw [if_neg c10]; exact headOnly_refl _

theorem process_line_headOnly (e : Env) (s : HTTPContext) (line : Str) (lc nl : Int) :
    HeadOnly s (process_line e s line lc nl).2.1 := by
  unfold process_line
  simp only
  by_cases c1 : cstr line = []
  · rw [if_pos c1]; exact headOnly_refl _
  rw [if_neg c1]
  by_cases c2 : lc = 0
  · rw [if_pos c2]
    by_cases c3 : ¬ strstr (cstr line) str_HTTP = true
    · rw [if_pos c3]; exact headOnly_refl _
    rw [if_neg c3]
    split_ifs <;> (cases s; rfl)
  rw [if_neg c2]
  split
  · exact headOnly_refl _
  · exact process_header_headOnly _ _ _ _ _

theorem willclose_after_nil (b : Int) : willclose_after b [] = b := rfl

theorem willclose_after_cons (b : Int) (l : Str) (ls : List Str) :
    willclose_after b (l :: ls) = willclose_after (willclose_after b [l]) ls := by
  unfold willclose_after
  cases h : connection_value l with
  | none => simp [List.filterMap, h]
  | some v =>
    simp only [List.filterMap, h, List.getLast?_singleton]
    cases h2 : (List.filterMap connection_value ls).getLast? with
    | none =>
      rw [List.getLast?_eq_none_iff] at h2
      simp [h2]
    | some v2 =>
      have hne : List.filterMap connection_value ls ≠ [] := by
        intro h3; rw [h3] at h2; simp at h2
      obtain ⟨x, xs, hx⟩ := List.exists_cons_of_ne_nil hne
      rw [hx] at h2 ⊢
      rw [List.getLast?_cons_cons, h2]

theorem http_connect_header_willclose : ∀ (n fuel : Nat) (e : Env) (s : HTTPContext) (w : World)
    (nl : Int) (r : Option Int) (s2 : HTTPContext) (w2 : World) (nl2 : Int),
    0 ≤ s.line_count →
    http_connect_header n fuel e s w nl = some (r, s2, w2, nl2) →
    s2.willclose = willclose_after s.willclose
      (if s.line_count = 0 then (http_connect_lines n fuel e s w nl).tail
       else http_connect_lines n fuel e s w nl) := by
  intro n
  induction n with
  | zero => intro fuel e s w nl r s2 w2 nl2 _ h; simp [http_connect_header] at h
  | succ n ih =>
    intro fuel e s w nl r s2 w2 nl2 hlc h
    unfold http_connect_header at h
    unfold http_connect_lines
    split at h
    · simp at h
    · rename_i rr line s1 w1 hg
      have hb : BufOnly s s1 := http_get_line_frame _ _ _ _ _ _ _ _ hg
      have hw1 : s1.willclose = s.willclose := by unfold BufOnly at hb; rw [hb]
      have hl1 : s1.line_count = s.line_count := by unfold BufOnly at hb; rw [hb]
      have hpw := process_line_willclose e s1 line s1.line_count nl
      have hpl : (process_line e s1 line s1.line_count nl).2.1.line_count = s1.line_count := by
        have := process_line_headOnly e s1 line s1.line_count nl
        unfold HeadOnly at this
        rw [this]
      simp only [hg]
      simp only at h
      by_cases c1 : rr < 0
      · rw [if_pos c1] at h
        rw [if_pos c1]
        simp only [Option.some.injEq, Prod.mk.injEq] at h
        rw [← h.2.1, hw1]
        by_cases c : s.line_count = 0 <;> simp [c, willclose_after_nil]
      rw [if_neg c1] at h
      rw [if_neg c1]
      by_cases c2 : (process_line e s1 line s1.line_count nl).1 < 0
      · rw [if_pos c2] at h
        rw [if_pos (Or.inl c2)]
        have hs2 : s2 = (process_line e s1 line s1.line_count nl).2.1 := by
          split_ifs at h <;> simp only [Option.some.injEq, Prod.mk.injEq] at h <;> exact h.2.1.symm
        rw [hs2, hpw, hl1, hw1]
        by_cases c : s.line_count = 0 <;> simp [c, willclose_after_nil]
      rw [if_neg c2] at h
      by_cases c3 : (process_line e s1 line s1.line_count nl).1 = 0
      · rw [if_pos c3] at h
        rw [if_pos (Or.inr c3)]
        have hs2 : s2 = (process_line e s1 line s1.line_count nl).2.1 := by
          split_ifs at h <;> simp only [Option.some.injEq, Prod.mk.injEq] at h <;> exact h.2.1.symm
        rw [hs2, hpw, hl1, hw1]
        by_cases c : s.line_count = 0 <;> simp [c, willclose_after_nil]
      rw [if_neg c3] at h
      rw [if_neg (not_or.mpr ⟨c2, c3⟩)]
      obtain ⟨s3, hs3⟩ : ∃ s3 : HTTPContext, s3 =
          { (process_line e s1 line s1.line_count nl).2.1 with
            line_count := (process_line e s1 line s1.line_count nl).2.1.line_count + 1 } :=
        ⟨_, Eq.refl _⟩
      rw [← hs3] at h ⊢
      have h3w : s3.willclose
          = if s.line_count = 0 then s.willclose else willclose_after s.willclose [line] := by
        rw [hs3]; simp only; rw [hpw, hl1, hw1]
      have h3l : s3.line_count = s.line_count + 1 := by
        rw [hs3]; simp only; rw [hpl, hl1]
      have hrec := ih _ _ _ _ _ _ _ _ _ (by rw [h3l]; omega) h
      rw [if_neg (by rw [h3l]; omega), h3w] at hrec
      rw [hrec]
      by_cases c4 : s.line_count = 0
      · rw [if_pos c4, if_pos c4]; rfl
      · rw [if_neg c4, if_neg c4, ← willclose_after_cons]

theorem option_eq_some_quad_all {α β γ δ : Type} (x : Option (α × β × γ × δ))
    (d : α × β × γ × δ) (h : x.isSome = true) :
    x = some ((x.getD d).1, (x.getD d).2.1, (x.getD d).2.2.1, (x.getD d).2.2.2) := by
  cases x with
  | none => simp at h
  | some v => rfl

theorem http_connect_finish_willclose (s : HTTPContext) (off : Int) :
    (http_connect_finish s off).2.willclose = s.willclose := by
  unfold http_connect_finish
  simp only
  split_ifs <;> rfl

theorem http_connect_header_willclose_first (n fuel : Nat) (e : Env) (s : HTTPContext)
    (w : World) (nl : Int) (r : Option Int) (s2 : HTTPContext) (w2 : World) (nl2 : Int)
    (h0 : s.line_count = 0)
    (h : http_connect_header n fuel e s w nl = some (r, s2, w2, nl2)) :
    s2.willclose = willclose_after s.willclose (http_connect_lines n fuel e s w nl).tail := by
  have := http_connect_header_willclose n fuel e s w nl r s2 w2 nl2 (by omega) h
  rwa [if_pos h0] at this

theorem isPrefixOf_cons_cons (a b : Nat) (as bs : Str) :
    (a :: as).isPrefixOf (b :: bs) = (a == b && as.isPrefixOf bs) := rfl

theorem occurrences_cons (n : Str) (c : Nat) (h : Str) :
    occurrences n (c :: h) = (if n.isPrefixOf (c :: h) then 1 else 0) + occurrences n h := rfl

theorem isInfix_iff_occurrences (n : Str) : ∀ h : Str,
    isInfix n h = true ↔ 0 < occurrences n h := by
  intro h
  induction h with
  | nil =>
    unfold isInfix occurrences
    by_cases hn : n.isEmpty = true
    · simp [hn]
    · simp [hn]
  | cons c h ih =>
    unfold isInfix
    rw [occurrences_cons, Bool.or_eq_true, ih]
    by_cases hp : n.isPrefixOf (c :: h) = true
    · simp [hp]
    · simp [hp]

theorem isPrefixOf_crlf_tail (B : Str) : ∀ (m X : Str), 13 ∉ m →
    m.isPrefixOf (X ++ 13 :: 10 :: B) = m.isPrefixOf (X ++ [13, 10]) := by
  intro m
  induction m with
  | nil => intro X _; simp [List.isPrefixOf]
  | cons a m ih =>
    intro X hm
    have ha : a ≠ 13 := fun h => hm (by rw [h]; exact List.mem_cons_self _ _)
    have hm2 : 13 ∉ m := fun h => hm (List.mem_cons_of_mem _ h)
    cases X with
    | nil =>
      rw [List.nil_append, List.nil_append, isPrefixOf_cons_cons, isPrefixOf_cons_cons]
      have : (a == 13) = false := by simpa using ha
      rw [this]; rfl
    | cons x X =>
      rw [List.cons_append, List.cons_append, isPrefixOf_cons_cons, isPrefixOf_cons_cons,
        ih X hm2]

/-- Places where a header name starts do not straddle the end of a line. -/
theorem occurrences_crlf_append (R B : Str) (hR : 13 ∉ R) (hne : R ≠ []) : ∀ P : Str,
    occurrences (13 :: 10 :: R) (P ++ 13 :: 10 :: B)
      = occurrences (13 :: 10 :: R) (P ++ [13, 10]) + occurrences (13 :: 10 :: R) (13 :: 10 :: B) := by
  obtain ⟨r, R2, hR2⟩ := List.exists_cons_of_ne_nil hne
  intro P
  induction P with
  | nil =>
    have : occurrences (13 :: 10 :: R) ([] ++ [13, 10]) = 0 := by
      rw [hR2]; rfl
    rw [this, Nat.zero_add]; rfl
  | cons c P ih =>
    have h10 : 13 ∉ (10 :: R) := by
      intro h
      rcases List.mem_cons.mp h with h1 | h1
      · exact absurd h1 (by decide)
      · exact hR h1
    have hp : (13 :: 10 :: R).isPrefixOf (c :: (P ++ 13 :: 10 :: B))
        = (13 :: 10 :: R).isPrefixOf (c :: (P ++ [13, 10])) := by
      rw [isPrefixOf_cons_cons, isPrefixOf_cons_cons, isPrefixOf_crlf_tail B (10 :: R) P h10]
    rw [List.cons_append, List.cons_append, occurrences_cons, occurrences_cons, hp, ih]
    omega

theorem occurrences_line (R : Str) (hne : R ≠ []) : ∀ H : Str, 13 ∉ H →
    occurrences (13 :: 10 :: R) (H ++ [13, 10]) = 0 := by
  obtain ⟨r, R2, hR2⟩ := List.exists_cons_of_ne_nil hne
  intro H
  induction H with
  | nil => intro _; rw [hR2]; rfl
  | cons c H ih =>
    intro hH
    have hc : c ≠ 13 := fun h => hH (by rw [h]; exact List.mem_cons_self _ _)
    have hH2 : 13 ∉ H := fun h => hH (List.mem_cons_of_mem _ h)
    have : (13 == c) = false := by
      simp only [beq_eq_false_iff_ne, ne_eq]
      exact fun h => hc h.symm
    rw [List.cons_append, occurrences_cons, isPrefixOf_cons_cons, this, ih hH2]
    rfl

theorem cstr_nonzero (x : Str) : ∀ c ∈ cstr x, c ≠ 0 := by
  intro c hc
  unfold cstr at hc
  have := List.mem_takeWhile_imp hc
  simpa using this

theorem cstr_append_of_nonzero (a b : Str) (h : ∀ c ∈ a, c ≠ 0) :
    cstr (a ++ b) = a ++ cstr b := by
  unfold cstr
  exact takeWhile_append_of_all _ _ _ (fun c hc => by simpa using h c hc)

theorem cstr_cstr (x : Str) : cstr (cstr x) = cstr x := cstr_of_nonzero _ (cstr_nonzero x)

theorem tolower_ne_13 (c : Nat) (h : c ≠ 13) : tolower c ≠ 13 := by
  unfold tolower
  split_ifs <;> omega

theorem not_mem_map_tolower (H : Str) (h : 13 ∉ H) : 13 ∉ H.map tolower := by
  intro hm
  obtain ⟨c, hc, hc2⟩ := List.mem_map.mp hm
  exact tolower_ne_13 c (fun h2 => h (h2 ▸ hc)) hc2

theorem header_count_eq (hdr : Str) (hn : IsHeaderName hdr) (x : Str) :
    header_count hdr x = (if av_stristart x (hdr.drop 2) then 1 else 0)
      + occurrences ((cstr hdr).map tolower) ((cstr x).map tolower) := by
  obtain ⟨h1, h2, h3⟩ := hn
  obtain ⟨r, R2, hR2⟩ := List.exists_cons_of_ne_nil h3
  unfold header_count av_stristart
  rw [occurrences_cons, occurrences_cons, h1, isPrefixOf_cons_cons, isPrefixOf_cons_cons]
  have e1 : ((13 : Nat) == 13) = true := rfl
  have e2 : ((10 : Nat) == 10) = true := rfl
  rw [e1, e2, Bool.true_and, Bool.true_and]
  have e3 : (13 :: 10 :: List.map tolower (cstr (List.drop 2 hdr))).isPrefixOf
      (10 :: List.map tolower (cstr x)) = false := rfl
  rw [e3]
  simp only [Bool.false_eq_true, if_false, Nat.zero_add]

theorem has_header_iff (hdr : Str) (hn : IsHeaderName hdr) (x : Str) :
    has_header x hdr = true ↔ 0 < header_count hdr x := by
  rw [header_count_eq hdr hn x]
  unfold has_header av_stristr
  rw [Bool.or_eq_true, isInfix_iff_occurrences]
  by_cases h : av_stristart x (hdr.drop 2) = true
  · simp [h]
  · simp [h]

theorem has_header_false_iff (hdr : Str) (hn : IsHeaderName hdr) (x : Str) :
    has_header x hdr = false ↔ header_count hdr x = 0 := by
  have := has_header_iff hdr hn x
  constructor
  · intro h
    by_contra hc
    have := this.mpr (Nat.pos_of_ne_zero hc)
    rw [h] at this
    exact absurd this (by decide)
  · intro h
    by_contra hc
    have h2 := this.mp (by simpa using hc)
    omega

theorem header_count_nil (hdr : Str) (hn : IsHeaderName hdr) : header_count hdr [] = 0 := by
  obtain ⟨h1, h2, h3⟩ := hn
  obtain ⟨r, R2, hR2⟩ := List.exists_cons_of_ne_nil h3
  unfold header_count
  rw [h1, hR2]
  rfl

theorem header_count_append (hdr : Str) (hn : IsHeaderName hdr) (A B : Str)
    (hA : ∀ c ∈ A, c ≠ 0) (hw : WholeLines A) :
    header_count hdr (A ++ B) = header_count hdr A + header_count hdr B := by
  rcases hw with h | ⟨P, hP⟩
  · rw [h, header_count_nil hdr hn]
    simp
  · have hPz : ∀ c ∈ P, c ≠ 0 := fun c hc => hA c (by rw [hP]; exact List.mem_append_left _ hc)
    have hcz : ∀ c ∈ ([13, 10] : Str), c ≠ 0 := by decide
    obtain ⟨h1, h2, h3⟩ := hn
    unfold header_count
    rw [hP, List.append_assoc, cstr_append_of_nonzero P _ hPz,
      cstr_append_of_nonzero [13, 10] B hcz, cstr_of_nonzero (P ++ [13, 10])
        (fun c hc => by
          rcases List.mem_append.mp hc with h | h
          · exact hPz c h
          · exact hcz c h)]
    rw [h1]
    simp only [List.map_append, List.map_cons, List.map_nil]
    have e1 : tolower 13 = 13 := rfl
    have e2 : tolower 10 = 10 := rfl
    rw [e1, e2]
    have := occurrences_crlf_append _ (List.map tolower (cstr B)) h2 h3
      (13 :: 10 :: List.map tolower P)
    simpa using this

theorem header_count_line (hdr : Str) (hn : IsHeaderName hdr) (H : Str)
    (hz : ∀ c ∈ H, c ≠ 0) (h13 : 13 ∉ H) :
    header_count hdr (H ++ [13, 10])
      = if av_stristart (H ++ [13, 10]) (hdr.drop 2) then 1 else 0 := by
  rw [header_count_eq hdr hn]
  obtain ⟨h1, h2, h3⟩ := hn
  have hcz : ∀ c ∈ H ++ ([13, 10] : Str), c ≠ 0 := by
    intro c hc
    rcases List.mem_append.mp hc with h | h
    · exact hz c h
    · simp only [List.mem_cons, List.mem_singleton, List.not_mem_nil, or_false] at h
      omega
  rw [cstr_of_nonzero _ hcz, h1, List.map_append]
  have : List.map tolower ([13, 10] : Str) = [13, 10] := rfl
  rw [this, occurrences_line _ h3 _ (not_mem_map_tolower H h13), Nat.add_zero]

theorem take_append_take (N : Nat) (pre X post : Str) :
    (pre ++ (X.take N ++ post)).take N = (pre ++ (X ++ post)).take N := by
  by_cases hl : X.length ≤ N
  · rw [List.take_of_length_le hl]
  · have hN : N ≤ X.length := by omega
    rw [List.take_append_eq_append_take, @List.take_append_eq_append_take _ pre]
    congr 1
    rw [List.take_append_of_le_length (by rw [List.length_take]; omega),
      List.take_append_of_le_length (by omega), List.take_take]
    congr 1
    omega

theorem blockCut_nil : BlockCut [] ([], 0) := ⟨rfl, fun _ => rfl, fun h => absurd h (by decide)⟩

theorem blockCut_eq {h : Str} {a : Str × Int} (hq : BlockCut h a)
    (hl : h.length ≤ 1024 * 4 - 1) : a.1 = h := by
  rw [hq.1, List.take_of_length_le hl]

theorem blockCut_append {h : Str} {a : Str × Int} (hq : BlockCut h a) (po pn : Str)
    (hsame : h.length ≤ 1024 * 4 - 1 → pn = po) :
    BlockCut (h ++ po) (headers_append a pn) := by
  unfold headers_append
  by_cases hl : h.length ≤ 1024 * 4 - 1
  · have h2 := hq.2.1 hl
    have h1 := blockCut_eq hq hl
    rw [hsame hl]
    rw [if_pos (by rw [h2]; omega)]
    refine ⟨?_, ?_, ?_⟩
    · show (a.1 ++ po).take (1024 * 4 - 1) = _
      rw [h1]
    · intro _
      show a.2 + (po.length : Int) = _
      rw [h2, List.length_append]; push_cast; rfl
    · intro hlt
      show 1024 * 4 - 1 < a.2 + (po.length : Int)
      rw [h2]
      rw [List.length_append] at hlt
      omega
  · have h3 := hq.2.2 (by omega)
    rw [if_neg (by omega)]
    refine ⟨?_, ?_, ?_⟩
    · show a.1 = _
      rw [hq.1, List.take_append_of_le_length (by omega)]
    · intro hle
      rw [List.length_append] at hle
      omega
    · intro _
      show 1024 * 4 - 1 < a.2 + (pn.length : Int)
      omega

theorem blockCut_keep {h : Str} {a : Str × Int} (hq : BlockCut h a) (po : Str)
    (hsame : h.length ≤ 1024 * 4 - 1 → po = []) : BlockCut (h ++ po) a := by
  by_cases hl : h.length ≤ 1024 * 4 - 1
  · rw [hsame hl, List.append_nil]; exact hq
  · refine ⟨?_, ?_, ?_⟩
    · rw [hq.1, List.take_append_of_le_length (by omega)]
    · intro hle
      rw [List.length_append] at hle
      omega
    · intro _
      exact hq.2.2 (by omega)

theorem blockCut_step {h : Str} {a : Str × Int} (hq : BlockCut h a) (p : Str) (cn co : Prop)
    [Decidable cn] [Decidable co] (hc : h.length ≤ 1024 * 4 - 1 → (cn ↔ co)) :
    BlockCut (h ++ if co then p else []) (if cn then headers_append a p else a) := by
  by_cases hn : cn
  · rw [if_pos hn]
    exact blockCut_append hq _ _ (fun hl => by rw [if_pos ((hc hl).mp hn)])
  · rw [if_neg hn]
    exact blockCut_keep hq _ (fun hl => by rw [if_neg (fun h => hn ((hc hl).mpr h))])

theorem http_request_headers_eq (s : HTTPContext) (hoststr : Str) :
    http_request_headers s hoststr = (request_block s hoststr).take (1024 * 4 - 1) := by
  have q1 := blockCut_step blockCut_nil
    ([85, 115, 101, 114, 45, 65, 103, 101, 110, 116, 58, 32] ++ IPAD_IDENT ++ str_crlf)
    ((!has_header s.headers hdr_User_Agent) = true)
    ((!has_header s.headers hdr_User_Agent) = true) (fun _ => Iff.rfl)
  rw [List.nil_append] at q1
  obtain ⟨a1, ha1⟩ : ∃ a1 : Str × Int, a1 = (if (!has_header s.headers hdr_User_Agent) = true
      then headers_append ([], 0)
        ([85, 115, 101, 114, 45, 65, 103, 101, 110, 116, 58, 32] ++ IPAD_IDENT ++ str_crlf)
      else ([], 0)) := ⟨_, rfl⟩
  rw [← ha1] at q1
  have q1b : BlockCut (request_user_agent s) a1 := q1
  obtain ⟨a2, ha2⟩ : ∃ a2 : Str × Int, a2 = (match s.h_headers with
      | some hh => headers_append a1 (cstr hh)
      | none => a1) := ⟨_, rfl⟩
  have q2 : BlockCut (request_user_agent s ++ url_headers s) a2 := by
    rw [ha2]
    unfold url_headers
    cases s.h_headers with
    | none => exact blockCut_keep q1b [] (fun _ => rfl)
    | some hh => exact blockCut_append q1b (cstr hh) (cstr hh) (fun _ => rfl)
  have q3 := blockCut_step q2 str_Accept_line
    ((!has_header s.headers hdr_Accept) = true)
    ((!has_header s.headers hdr_Accept) = true) (fun _ => Iff.rfl)
  obtain ⟨a3, ha3⟩ : ∃ a3 : Str × Int, a3 = (if (!has_header s.headers hdr_Accept) = true
      then headers_append a2 str_Accept_line else a2) := ⟨_, rfl⟩
  rw [← ha3] at q3
  have q3b : BlockCut (request_user_agent s ++ url_headers s ++ request_accept s) a3 := q3
  have q4 := blockCut_step q3b (str_Range_bytes ++ fmtInt s.off ++ str_dash_crlf)
    ((!has_header s.headers hdr_Range) = true ∧ (s.off > 0 ∨ s.is_seek ≠ 0)
      ∧ (!has_header a3.1 hdr_Range) = true ∧ s.h_is_segment_media = 0)
    ((!has_header s.headers hdr_Range) = true ∧ (s.off > 0 ∨ s.is_seek ≠ 0)
      ∧ (!has_header (request_user_agent s ++ url_headers s ++ request_accept s) hdr_Range)
        = true ∧ s.h_is_segment_media = 0)
    (fun hl => by rw [blockCut_eq q3b hl])
  obtain ⟨a4, ha4⟩ : ∃ a4 : Str × Int, a4 =
      (if (!has_header s.headers hdr_Range) = true ∧ (s.off > 0 ∨ s.is_seek ≠ 0)
          ∧ (!has_header a3.1 hdr_Range) = true ∧ s.h_is_segment_media = 0
       then headers_append a3 (str_Range_bytes ++ fmtInt s.off ++ str_dash_crlf) else a3) :=
    ⟨_, rfl⟩
  rw [← ha4] at q4
  have q4b : BlockCut (request_user_agent s ++ url_headers s ++ request_accept s
      ++ request_range s) a4 := q4
  have q5 := blockCut_step q4b
    (if s.keep_alive ≠ 0 then str_Conn_keep_alive_line else str_Conn_close_line)
    ((!has_header s.headers hdr_Connection) = true ∧ (!has_header a4.1 hdr_Connection) = true)
    ((!has_header s.headers hdr_Connection) = true
      ∧ (!has_header (request_user_agent s ++ url_headers s ++ request_accept s
          ++ request_range s) hdr_Connection) = true)
    (fun hl => by rw [blockCut_eq q4b hl])
  obtain ⟨a5, ha5⟩ : ∃ a5 : Str × Int, a5 =
      (if (!has_header s.headers hdr_Connection) = true
          ∧ (!has_header a4.1 hdr_Connection) = true then
        (if s.keep_alive ≠ 0 then headers_append a4 str_Conn_keep_alive_line
         else headers_append a4 str_Conn_close_line)
       else a4) := ⟨_, rfl⟩
  have ha5b : a5 = (if (!has_header s.headers hdr_Connection) = true
          ∧ (!has_header a4.1 hdr_Connection) = true then
        headers_append a4
          (if s.keep_alive ≠ 0 then str_Conn_keep_alive_line else str_Conn_close_line)
       else a4) := by
    rw [ha5]
    by_cases hk : s.keep_alive ≠ 0
    · rw [if_pos hk, if_pos hk]
    · rw [if_neg hk, if_neg hk]
  rw [← ha5b] at q5
  have q5b : BlockCut (request_user_agent s ++ url_headers s ++ request_accept s
      ++ request_range s ++ request_connection s) a5 := q5
  have q6 := blockCut_step q5b ([72, 111, 115, 116, 58, 32] ++ cstr hoststr ++ str_crlf)
    ((!has_header s.headers hdr_Host) = true)
    ((!has_header s.headers hdr_Host) = true) (fun _ => Iff.rfl)
  obtain ⟨a6, ha6⟩ : ∃ a6 : Str × Int, a6 = (if (!has_header s.headers hdr_Host) = true
      then headers_append a5 ([72, 111, 115, 116, 58, 32] ++ cstr hoststr ++ str_crlf)
      else a5) := ⟨_, rfl⟩
  rw [← ha6] at q6
  have q6b : BlockCut (request_user_agent s ++ url_headers s ++ request_accept s
      ++ request_range s ++ request_connection s ++ request_host s hoststr) a6 := q6
  have q7 := blockCut_append q6b (cstr s.headers) (cstr s.headers) (fun _ => rfl)
  have hdef : http_request_headers s hoststr = (headers_append a6 (cstr s.headers)).1 := by
    rw [ha6, ha5, ha4, ha3, ha2, ha1]
    rfl
  rw [hdef, q7.1]
  unfold request_block
  simp only [List.append_assoc]

theorem isHeaderName_Connection : IsHeaderName hdr_Connection := by
  refine ⟨Eq.refl _, ?_, ?_⟩ <;> decide

theorem isHeaderName_Range : IsHeaderName hdr_Range := by
  refine ⟨Eq.refl _, ?_, ?_⟩ <;> decide

theorem fmtInt_chars (x : Int) : ∀ c ∈ fmtInt x, c = 45 ∨ (48 ≤ c ∧ c ≤ 57) := by
  intro c hc
  unfold fmtInt at hc
  split_ifs at hc
  · rcases List.mem_cons.mp hc with h | h
    · exact Or.inl h
    · exact Or.inr (natDigits_isdigit _ c h)
  · exact Or.inr (natDigits_isdigit _ c hc)

theorem wholeLines_line (H : Str) : WholeLines (H ++ [13, 10]) := Or.inr ⟨H, Eq.refl _⟩

theorem request_user_agent_ok (s : HTTPContext) :
    (∀ c ∈ request_user_agent s, c ≠ 0) ∧ WholeLines (request_user_agent s) := by
  unfold request_user_agent
  split_ifs
  · refine ⟨by decide, Or.inr ⟨[85, 115, 101, 114, 45, 65, 103, 101, 110, 116, 58, 32]
      ++ IPAD_IDENT, ?_⟩⟩
    rfl
  · exact ⟨fun c h => absurd h (List.not_mem_nil _), Or.inl (Eq.refl _)⟩

theorem request_accept_ok (s : HTTPContext) :
    (∀ c ∈ request_accept s, c ≠ 0) ∧ WholeLines (request_accept s) := by
  unfold request_accept
  split_ifs
  · exact ⟨by decide, Or.inr ⟨[65, 99, 99, 101, 112, 116, 58, 32, 42, 47, 42], Eq.refl _⟩⟩
  · exact ⟨fun c h => absurd h (List.not_mem_nil _), Or.inl (Eq.refl _)⟩

theorem range_line_ok (x : Int) :
    (∀ c ∈ str_Range_bytes ++ fmtInt x ++ [45], c ≠ 0) ∧
    13 ∉ str_Range_bytes ++ fmtInt x ++ [45] := by
  have key : ∀ c ∈ str_Range_bytes ++ fmtInt x ++ [45], c ≠ 0 ∧ c ≠ 13 := by
    intro c hc
    simp only [List.mem_append, List.mem_singleton] at hc
    rcases hc with (h | h) | h
    · unfold str_Range_bytes at h
      simp only [List.mem_cons, List.mem_singleton, List.not_mem_nil, or_false] at h
      omega
    · have := fmtInt_chars x c h
      omega
    · omega
  exact ⟨fun c hc => (key c hc).1, fun h => (key 13 h).2 (Eq.refl _)⟩

theorem request_range_ok (s : HTTPContext) :
    (∀ c ∈ request_range s, c ≠ 0) ∧ WholeLines (request_range s) := by
  unfold request_range
  split_ifs
  · have e : str_Range_bytes ++ fmtInt s.off ++ str_dash_crlf
        = (str_Range_bytes ++ fmtInt s.off ++ [45]) ++ [13, 10] := by
      unfold str_dash_crlf; simp
    rw [e]
    refine ⟨?_, wholeLines_line _⟩
    intro c hc
    rcases List.mem_append.mp hc with h | h
    · exact (range_line_ok s.off).1 c h
    · simp only [List.mem_cons, List.mem_singleton, List.not_mem_nil, or_false] at h
      omega
  · exact ⟨fun c h => absurd h (List.not_mem_nil _), Or.inl (Eq.refl _)⟩

theorem request_connection_ok (s : HTTPContext) :
    (∀ c ∈ request_connection s, c ≠ 0) ∧ WholeLines (request_connection s) := by
  unfold request_connection
  split_ifs
  · exact ⟨by decide, Or.inr ⟨[67, 111, 110, 110, 101, 99, 116, 105, 111, 110, 58, 32, 107, 101,
      101, 112, 45, 97, 108, 105, 118, 101], Eq.refl _⟩⟩
  · exact ⟨by decide, Or.inr ⟨[67, 111, 110, 110, 101, 99, 116, 105, 111, 110, 58, 32, 99, 108,
      111, 115, 101], Eq.refl _⟩⟩
  · exact ⟨fun c h => absurd h (List.not_mem_nil _), Or.inl (Eq.refl _)⟩

theorem host_line_ok (hoststr : Str) (h13 : 13 ∉ cstr hoststr) :
    (∀ c ∈ ([72, 111, 115, 116, 58, 32] : Str) ++ cstr hoststr, c ≠ 0) ∧
    13 ∉ ([72, 111, 115, 116, 58, 32] : Str) ++ cstr hoststr := by
  constructor
  · intro c hc
    rcases List.mem_append.mp hc with h | h
    · simp only [List.mem_cons, List.mem_singleton, List.not_mem_nil, or_false] at h
      omega
    · exact cstr_nonzero _ c h
  · intro hc
    rcases List.mem_append.mp hc with h | h
    · simp only [List.mem_cons, List.mem_singleton, List.not_mem_nil, or_false] at h
      omega
    · exact h13 h

theorem request_host_ok (s : HTTPContext) (hoststr : Str) (h13 : 13 ∉ cstr hoststr) :
    (∀ c ∈ request_host s hoststr, c ≠ 0) ∧ WholeLines (request_host s hoststr) := by
  unfold request_host
  split_ifs
  · have e : ([72, 111, 115, 116, 58, 32] : Str) ++ cstr hoststr ++ str_crlf
        = (([72, 111, 115, 116, 58, 32] : Str) ++ cstr hoststr) ++ [13, 10] := rfl
    rw [e]
    refine ⟨?_, wholeLines_line _⟩
    intro c hc
    rcases List.mem_append.mp hc with h | h
    · exact (host_line_ok hoststr h13).1 c h
    · simp only [List.mem_cons, List.mem_singleton, List.not_mem_nil, or_false] at h
      omega
  · exact ⟨fun c h => absurd h (List.not_mem_nil _), Or.inl (Eq.refl _)⟩

theorem url_headers_nonzero (s : HTTPContext) : ∀ c ∈ url_headers s, c ≠ 0 := by
  unfold url_headers
  cases s.h_headers with
  | none => exact fun c h => absurd h (List.not_mem_nil _)
  | some hh => exact cstr_nonzero hh

set_option maxRecDepth 100000 in
theorem header_count_user_agent (s : HTTPContext) :
    header_count hdr_Connection (request_user_agent s) = 0 ∧
    header_count hdr_Range (request_user_agent s) = 0 := by
  unfold request_user_agent
  split_ifs <;> exact ⟨by rfl, by rfl⟩

set_option maxRecDepth 100000 in
theorem header_count_accept (s : HTTPContext) :
    header_count hdr_Connection (request_accept s) = 0 ∧
    header_count hdr_Range (request_accept s) = 0 := by
  unfold request_accept
  split_ifs <;> exact ⟨by rfl, by rfl⟩

theorem header_count_range_line (x : Int) :
    header_count hdr_Connection (str_Range_bytes ++ fmtInt x ++ str_dash_crlf) = 0 ∧
    header_count hdr_Range (str_Range_bytes ++ fmtInt x ++ str_dash_crlf) = 1 := by
  have e : str_Range_bytes ++ fmtInt x ++ str_dash_crlf
      = (str_Range_bytes ++ fmtInt x ++ [45]) ++ [13, 10] := by
    unfold str_dash_crlf; simp
  rw [e, header_count_line _ isHeaderName_Connection _ (range_line_ok x).1 (range_line_ok x).2,
    header_count_line _ isHeaderName_Range _ (range_line_ok x).1 (range_line_ok x).2]
  exact ⟨by rfl, by rfl⟩

set_option maxRecDepth 100000 in
theorem header_count_connection_lines :
    header_count hdr_Connection str_Conn_keep_alive_line = 1 ∧
    header_count hdr_Connection str_Conn_close_line = 1 ∧
    header_count hdr_Range str_Conn_keep_alive_line = 0 ∧
    header_count hdr_Range str_Conn_close_line = 0 :=
  ⟨by rfl, by rfl, by rfl, by rfl⟩

theorem header_count_host (s : HTTPContext) (hoststr : Str) (h13 : 13 ∉ cstr hoststr) :
    header_count hdr_Connection (request_host s hoststr) = 0 ∧
    header_count hdr_Range (request_host s hoststr) = 0 := by
  unfold request_host
  split_ifs
  · have e : ([72, 111, 115, 116, 58, 32] : Str) ++ cstr hoststr ++ str_crlf
        = (([72, 111, 115, 116, 58, 32] : Str) ++ cstr hoststr) ++ [13, 10] := rfl
    rw [e, header_count_line _ isHeaderName_Connection _ (host_line_ok hoststr h13).1
        (host_line_ok hoststr h13).2,
      header_count_line _ isHeaderName_Range _ (host_line_ok hoststr h13).1
        (host_line_ok hoststr h13).2]
    exact ⟨by rfl, by rfl⟩
  · exact ⟨header_count_nil _ isHeaderName_Connection, header_count_nil _ isHeaderName_Range⟩

theorem header_count_cstr (hdr x : Str) : header_count hdr (cstr x) = header_count hdr x := by
  unfold header_count
  rw [cstr_cstr]

/-- The count of a header name in the header block of a request is the sum
of its counts in the parts of the block. -/
theorem header_count_block (hdr : Str) (hn : IsHeaderName hdr) (s : HTTPContext)
    (hoststr : Str) (hwf : WholeLines (url_headers s)) (hhost : 13 ∉ cstr hoststr) :
    header_count hdr (request_block s hoststr)
      = header_count hdr (request_user_agent s) + (header_count hdr (url_headers s)
        + (header_count hdr (request_accept s) + (header_count hdr (request_range s)
        + (header_count hdr (request_connection s) + (header_count hdr (request_host s hoststr)
        + header_count hdr s.headers))))) := by
  unfold request_block
  rw [header_count_append hdr hn _ _ (request_user_agent_ok s).1 (request_user_agent_ok s).2,
    header_count_append hdr hn _ _ (url_headers_nonzero s) hwf,
    header_count_append hdr hn _ _ (request_accept_ok s).1 (request_accept_ok s).2,
    header_count_append hdr hn _ _ (request_range_ok s).1 (request_range_ok s).2,
    header_count_append hdr hn _ _ (request_connection_ok s).1 (request_connection_ok s).2,
    header_count_append hdr hn _ _ (request_host_ok s hoststr hhost).1
      (request_host_ok s hoststr hhost).2,
    header_count_cstr]

/-- The count of a header name in the part of the block that stands before
the `Range` line. -/
theorem header_count_before_range (hdr : Str) (hn : IsHeaderName hdr) (s : HTTPContext)
    (hwf : WholeLines (url_headers s)) :
    header_count hdr (request_user_agent s ++ url_headers s ++ request_accept s)
      = header_count hdr (request_user_agent s) + (header_count hdr (url_headers s)
        + header_count hdr (request_accept s)) := by
  rw [List.append_assoc,
    header_count_append hdr hn _ _ (request_user_agent_ok s).1 (request_user_agent_ok s).2,
    header_count_append hdr hn _ _ (url_headers_nonzero s) hwf]

theorem header_count_before_connection (hdr : Str) (hn : IsHeaderName hdr) (s : HTTPContext)
    (hwf : WholeLines (url_headers s)) :
    header_count hdr (request_user_agent s ++ url_headers s ++ request_accept s
        ++ request_range s)
      = header_count hdr (request_user_agent s) + (header_count hdr (url_headers s)
        + (header_count hdr (request_accept s) + header_count hdr (request_range s))) := by
  rw [List.append_assoc, List.append_assoc,
    header_count_append hdr hn _ _ (request_user_agent_ok s).1 (request_user_agent_ok s).2,
    header_count_append hdr hn _ _ (url_headers_nonzero s) hwf,
    header_count_append hdr hn _ _ (request_accept_ok s).1 (request_accept_ok s).2]

theorem has_header_eq_of_count (hdr : Str) (hn : IsHeaderName hdr) (x y : Str)
    (h : header_count hdr x = header_count hdr y) : has_header x hdr = has_header y hdr := by
  have hx := has_header_iff hdr hn x
  have hy := has_header_iff hdr hn y
  rw [h] at hx
  cases hxv : has_header x hdr <;> cases hyv : has_header y hdr
  · rfl
  · have := hx.mpr (hy.mp hyv); rw [hxv] at this; exact absurd this (by decide)
  · have := hy.mpr (hx.mp hxv); rw [hyv] at this; exact absurd this (by decide)
  · rfl

theorem has_header_before_range (s : HTTPContext) (hwf : WholeLines (url_headers s)) :
    has_header (request_user_agent s ++ url_headers s ++ request_accept s) hdr_Range
      = has_header (url_headers s) hdr_Range := by
  apply has_header_eq_of_count _ isHeaderName_Range
  rw [header_count_before_range _ isHeaderName_Range s hwf, (header_count_user_agent s).2,
    (header_count_accept s).2]
  omega

theorem header_count_request_range (s : HTTPContext) :
    header_count hdr_Connection (request_range s) = 0 ∧
    header_count hdr_Range (request_range s) = if request_range s = [] then 0 else 1 := by
  unfold request_range
  split_ifs with h1 h2 h2
  · exact absurd h2 (by
      intro h
      have := congrArg List.length h
      unfold str_Range_bytes at this
      simp at this)
  · exact header_count_range_line s.off
  · exact ⟨header_count_nil _ isHeaderName_Connection, header_count_nil _ isHeaderName_Range⟩
  · exact absurd (Eq.refl _) h2

theorem has_header_before_connection (s : HTTPContext) (hwf : WholeLines (url_headers s)) :
    has_header (request_user_agent s ++ url_headers s ++ request_accept s ++ request_range s)
        hdr_Connection
      = has_header (url_headers s) hdr_Connection := by
  apply has_header_eq_of_count _ isHeaderName_Connection
  rw [header_count_before_connection _ isHeaderName_Connection s hwf,
    (header_count_user_agent s).1, (header_count_accept s).1, (header_count_request_range s).1]
  omega

theorem request_range_eq (s : HTTPContext) (hwf : WholeLines (url_headers s)) :
    request_range s
      = if (s.off > 0 ∨ s.is_seek ≠ 0) ∧ s.h_is_segment_media = 0
          ∧ has_header s.headers hdr_Range = false ∧ has_header (url_headers s) hdr_Range = false
        then str_Range_bytes ++ fmtInt s.off ++ str_dash_crlf else [] := by
  unfold request_range
  rw [has_header_before_range s hwf]
  by_cases c : (s.off > 0 ∨ s.is_seek ≠ 0) ∧ s.h_is_segment_media = 0
      ∧ has_header s.headers hdr_Range = false ∧ has_header (url_headers s) hdr_Range = false
  · rw [if_pos c, if_pos]
    obtain ⟨c1, c2, c3, c4⟩ := c
    refine ⟨?_, c1, ?_, c2⟩
    · rw [c3]; rfl
    · rw [c4]; rfl
  · rw [if_neg c, if_neg]
    rintro ⟨c3, c1, c4, c2⟩
    refine c ⟨c1, c2, ?_, ?_⟩
    · simpa using c3
    · simpa using c4

theorem request_connection_eq (s : HTTPContext) (hwf : WholeLines (url_headers s)) :
    request_connection s
      = if has_header s.headers hdr_Connection = false
          ∧ has_header (url_headers s) hdr_Connection = false
        then (if s.keep_alive ≠ 0 then str_Conn_keep_alive_line else str_Conn_close_line)
        else [] := by
  unfold request_connection
  rw [has_header_before_connection s hwf]
  by_cases c : has_header s.headers hdr_Connection = false
      ∧ has_header (url_headers s) hdr_Connection = false
  · rw [if_pos c, if_pos]
    obtain ⟨c1, c2⟩ := c
    rw [c1, c2]
    exact ⟨Eq.refl _, Eq.refl _⟩
  · rw [if_neg c, if_neg]
    rintro ⟨c1, c2⟩
    refine c ⟨?_, ?_⟩
    · simpa using c1
    · simpa using c2

theorem logExt_refl (w : World) : LogExt w w := ⟨[], (List.append_nil _).symm⟩

theorem logExt_of_eq {w w2 : World} (h : w2.log = w.log) : LogExt w w2 :=
  ⟨[], by rw [h, List.append_nil]⟩

theorem logExt_trans {w1 w2 w3 : World} (h12 : LogExt w1 w2) (h23 : LogExt w2 w3) :
    LogExt w1 w3 := by
  obtain ⟨l1, h1⟩ := h12
  obtain ⟨l2, h2⟩ := h23
  exact ⟨l1 ++ l2, by rw [h2, h1, List.append_assoc]⟩

theorem ffurl_read_log (w : World) (id : Nat) (size : Int) :
    (ffurl_read w id size).2.2.log = w.log := by
  unfold ffurl_read
  split <;> rfl

theorem ffurl_write_logExt (w : World) (id : Nat) (b : Str) : LogExt w (ffurl_write w id b).2 := by
  rcases (ffurl_write_log w id b).2 with h | h
  · exact logExt_of_eq h
  · exact ⟨_, h⟩

theorem ffurl_open_logExt (w : World) (addr : Str) (flags : Nat) :
    LogExt w (ffurl_open w addr flags).2 := by
  unfold ffurl_open
  split
  · exact ⟨_, Eq.refl _⟩
  · exact ⟨_, Eq.refl _⟩

theorem tcppool_find_logExt (w : World) (addr : Str) (flags : Nat) :
    LogExt w (tcppool_find_free_tcplink w addr flags).2 := by
  unfold tcppool_find_free_tcplink
  split
  · exact logExt_refl _
  · split
    · exact logExt_refl _
    · exact ⟨_, Eq.refl _⟩

theorem tcppool_release_logExt (w : World) (id : Nat) :
    LogExt w (tcppool_release_tcplink w id) := by
  unfold tcppool_release_tcplink
  split <;> exact ⟨_, Eq.refl _⟩

theorem tcppool_close_logExt (w : World) (id : Nat) :
    LogExt w (tcppool_close_tcplink w id) := by
  unfold tcppool_close_tcplink
  split <;> exact ⟨_, Eq.refl _⟩

theorem http_getc_fill_log : ∀ (n : Nat) (s : HTTPContext) (w : World) (id : Nat) (t : Int)
    (r : Option Int) (s2 : HTTPContext) (w2 : World),
    http_getc_fill n s w id t = some (r, s2, w2) → w2.log = w.log := by
  intro n
  induction n with
  | zero => intro s w id t r s2 w2 h; simp [http_getc_fill] at h
  | succ n ih =>
    intro s w id t r s2 w2 h
    unfold http_getc_fill at h
    simp only at h
    have hr := ffurl_read_log w id (BUFFER_SIZE : Nat)
    split_ifs at h
    all_goals first
      | (simp only [Option.some.injEq, Prod.mk.injEq] at h
         obtain ⟨_, _, hw⟩ := h
         rw [← hw]
         exact hr)
      | (rw [ih _ _ _ _ _ _ _ h]
         exact hr)

theorem http_getc_log (fuel : Nat) (s : HTTPContext) (w : World) (c : Int)
    (s2 : HTTPContext) (w2 : World) (h : http_getc fuel s w = some (c, s2, w2)) :
    w2.log = w.log := by
  unfold http_getc at h
  simp only at h
  split at h
  · simp only [Option.some.injEq, Prod.mk.injEq] at h
    rw [← h.2.2]; rfl
  · split at h
    · simp only [Option.some.injEq, Prod.mk.injEq] at h
      rw [← h.2.2]; rfl
    · split at h
      · simp at h
      · rename_i hf
        simp only [Option.some.injEq, Prod.mk.injEq] at h
        rw [← h.2.2, http_getc_fill_log _ _ _ _ _ _ _ _ hf]; rfl
      · rename_i hf
        have := http_getc_fill_log _ _ _ _ _ _ _ _ hf
        split at h <;>
          (simp only [Option.some.injEq, Prod.mk.injEq] at h
           rw [← h.2.2, this]; rfl)

theorem http_get_line_loop_log : ∀ (n fuel : Nat) (s : HTTPContext) (w : World)
    (line_size : Nat) (q : Str) (r : Int) (line : Str) (s2 : HTTPContext) (w2 : World),
    http_get_line_loop n fuel s w line_size q = some (r, line, s2, w2) → w2.log = w.log := by
  intro n
  induction n with
  | zero => intro fuel s w ls q r line s2 w2 h; simp [http_get_line_loop] at h
  | succ n ih =>
    intro fuel s w ls q r line s2 w2 h
    unfold http_get_line_loop at h
    split at h
    · simp at h
    · rename_i ch s1 w1 hg
      have h1 := http_getc_log _ _ _ _ _ _ hg
      split_ifs at h
      all_goals first
        | (simp only [Option.some.injEq, Prod.mk.injEq] at h
           rw [← h.2.2.2, h1])
        | (rw [ih _ _ _ _ _ _ _ _ _ h, h1])

theorem http_get_line_log (fuel : Nat) (s : HTTPContext) (w : World) (line_size : Nat)
    (r : Int) (line : Str) (s2 : HTTPContext) (w2 : World)
    (h : http_get_line fuel s w line_size = some (r, line, s2, w2)) : w2.log = w.log :=
  http_get_line_loop_log _ _ _ _ _ _ _ _ _ _ h

theorem http_connect_header_log : ∀ (n fuel : Nat) (e : Env) (s : HTTPContext) (w : World)
    (nl : Int) (r : Option Int) (s2 : HTTPContext) (w2 : World) (nl2 : Int),
    http_connect_header n fuel e s w nl = some (r, s2, w2, nl2) → w2.log = w.log := by
  intro n
  induction n with
  | zero => intro fuel e s w nl r s2 w2 nl2 h; simp [http_connect_header] at h
  | succ n ih =>
    intro fuel e s w nl r s2 w2 nl2 h
    unfold http_connect_header at h
    split at h
    · simp at h
    · rename_i rr line s1 w1 hg
      have h1 := http_get_line_log _ _ _ _ _ _ _ _ hg
      simp only at h
      split_ifs at h
      all_goals first
        | (simp only [Option.some.injEq, Prod.mk.injEq] at h
           rw [← h.2.2.1, h1])
        | (rw [ih _ _ _ _ _ _ _ _ _ h, h1])

theorem http_close_and_keep_logExt (s : HTTPContext) (w : World) (c : Int) :
    LogExt w (http_close_and_keep s w c).2.2 := by
  unfold http_close_and_keep
  split
  · exact logExt_refl _
  · split_ifs
    · exact logExt_trans (ffurl_write_logExt _ _ _) (tcppool_close_logExt _ _)
    · exact tcppool_close_logExt _ _
    · exact tcppool_release_logExt _ _

/-- What `http_connect` adds to the log: nothing when it cannot write its
request, the request otherwise. -/
theorem http_connect_log (e : Env) (fuel : Nat) (s : HTTPContext) (w : World)
    (path hoststr auth : Str) (nl ret : Int) (s2 : HTTPContext) (w2 : World) (nl2 : Int)
    (h : http_connect e fuel s w path hoststr auth nl = some (ret, s2, w2, nl2)) :
    (w2.log = w.log ∧ ret = AVERROR EIO ∧ s2 = s ∧
      (s.hd = none ∨ ∃ id : Nat, s.hd = some id ∧
        (ffurl_write w id (cstr (http_request e s path hoststr auth))).1 < 0)) ∨
    (∃ id : Nat, s.hd = some id ∧
      0 ≤ (ffurl_write w id (cstr (http_request e s path hoststr auth))).1 ∧
      w2.log = w.log ++ [Ev.wrote id (cstr (http_request e s path hoststr auth))]) := by
  unfold http_connect at h
  simp only at h
  split at h
  · rename_i hnone
    simp only [Option.some.injEq, Prod.mk.injEq] at h
    exact Or.inl ⟨by rw [← h.2.2.1], h.1.symm, h.2.1.symm, Or.inl hnone⟩
  · rename_i id hhd
    have hwl := ffurl_write_log w id (cstr (http_request e s path hoststr auth))
    by_cases c1 : (ffurl_write w id (cstr (http_request e s path hoststr auth))).1 < 0
    · rw [if_pos c1] at h
      simp only [Option.some.injEq, Prod.mk.injEq] at h
      refine Or.inl ⟨?_, h.1.symm, h.2.1.symm, Or.inr ⟨id, hhd, c1⟩⟩
      rw [← h.2.2.1]
      have : (ffurl_write w id (cstr (http_request e s path hoststr auth))).2.log = w.log := by
        unfold ffurl_write at c1 ⊢
        split
        · rfl
        · rename_i l hl
          rw [hl] at c1
          simp only at c1
          split_ifs at c1 ⊢
          · rfl
          · simp only at c1
            omega
      exact this
    · rw [if_neg c1] at h
      have hlog : (ffurl_write w id (cstr (http_request e s path hoststr auth))).2.log
          = w.log ++ [Ev.wrote id (cstr (http_request e s path hoststr auth))] := by
        unfold ffurl_write at c1 ⊢
        split
        · rename_i hl
          rw [hl] at c1
          exact absurd (by decide : AVERROR EIO < 0) c1
        · rename_i l hl
          rw [hl] at c1
          simp only at c1
          split_ifs at c1 ⊢
          · exact absurd (by decide : AVERROR EIO < 0) c1
          · rfl
      refine Or.inr ⟨id, hhd, not_lt.mp c1, ?_⟩
      split_ifs at h
      · simp only [Option.some.injEq, Prod.mk.injEq] at h
        rw [← h.2.2.1, hlog]
      · split at h
        · simp at h
        · rename_i hh
          simp only [Option.some.injEq, Prod.mk.injEq] at h
          rw [← h.2.2.1, http_connect_header_log _ _ _ _ _ _ _ _ _ _ hh, hlog]
        · rename_i hh
          simp only [Option.some.injEq, Prod.mk.injEq] at h
          rw [← h.2.2.1, http_connect_header_log _ _ _ _ _ _ _ _ _ _ hh, hlog]

theorem http_connect_logExt (e : Env) (fuel : Nat) (s : HTTPContext) (w : World)
    (path hoststr auth : Str) (nl ret : Int) (s2 : HTTPContext) (w2 : World) (nl2 : Int)
    (h : http_connect e fuel s w path hoststr auth nl = some (ret, s2, w2, nl2)) :
    LogExt w w2 := by
  rcases http_connect_log e fuel s w path hoststr auth nl ret s2 w2 nl2 h with
    ⟨h1, _, _, _⟩ | ⟨id, _, _, h1⟩
  · exact logExt_of_eq h1
  · exact ⟨_, h1⟩

/-- The world a pass of `http_open_cnx` ends with. -/
theorem passOut_world_cases (o : PassOut) :
    ∃ w : World, (∃ (r : Int) (s : HTTPContext), o = PassOut.done r s w) ∨
      (∃ (y : Redo) (s : HTTPContext) (lc rd : Int), o = PassOut.redo y s w lc rd) := by
  cases o with
  | done r s w => exact ⟨w, Or.inl ⟨r, s, Eq.refl _⟩⟩
  | redo y s w lc rd => exact ⟨w, Or.inr ⟨y, s, lc, rd, Eq.refl _⟩⟩

theorem http_open_cnx_fail_logExt (s : HTTPContext) (w : World) :
    LogExt w (passWorld (http_open_cnx_fail s w)) := by
  unfold http_open_cnx_fail
  simp only [passWorld]
  split_ifs
  · exact http_close_and_keep_logExt _ _ _
  · exact logExt_refl _

theorem http_open_cnx_decide_logExt (s : HTTPContext) (w : World) (ret cur lc rd : Int) :
    LogExt w (passWorld (http_open_cnx_decide s w ret cur lc rd)) := by
  unfold http_open_cnx_decide
  split_ifs
  all_goals first
    | exact http_open_cnx_fail_logExt _ _
    | exact http_close_and_keep_logExt _ _ _
    | exact logExt_refl _

/-- Getting a connection writes nothing: the log goes on, without a request. -/
theorem http_open_cnx_link_log (e : Env) (s : HTTPContext) (w : World) (o : Option PassOut)
    (s1 : HTTPContext) (w1 : World) (h : http_open_cnx_link e s w = (o, s1, w1)) :
    LogExt w w1 ∧ requestsWritten w1 = requestsWritten w ∧
    s1 = { s with hd := s1.hd, hosname := s1.hosname } ∧
    (∀ out : PassOut, o = some out → s.hd = none →
      ∃ s2 : HTTPContext, out = PassOut.done (AVERROR EIO) s2 w1 ∧
        s2 = { s with hd := none, hosname := s2.hosname, canseek := s2.canseek }) := by
  unfold http_open_cnx_link at h
  simp only at h
  by_cases c1 : (url_interrupt_cb w).1 = true
  · rw [if_pos c1] at h
    simp only [Prod.mk.injEq] at h
    obtain ⟨ho, hs, hw⟩ := h
    subst hs; subst hw
    refine ⟨logExt_refl _, Eq.refl _, by cases s; rfl, ?_⟩
    intro out hout hhd
    rw [← ho] at hout
    simp only [Option.some.injEq] at hout
    exact ⟨s, hout.symm, by cases s; simp only at hhd; rw [hhd]⟩
  rw [if_neg c1] at h
  have hf := tcppool_find_logExt (url_interrupt_cb w).2 (http_open_cnx_target e s).1
    (http_open_cnx_flags e)
  have hfw : requestsWritten (tcppool_find_free_tcplink (url_interrupt_cb w).2
      (http_open_cnx_target e s).1 (http_open_cnx_flags e)).2 = requestsWritten w := by
    unfold tcppool_find_free_tcplink
    split
    · rfl
    · split
      · rfl
      · simp [requestsWritten, url_interrupt_cb, setLink, List.filterMap_append]
  generalize tcppool_find_free_tcplink (url_interrupt_cb w).2 (http_open_cnx_target e s).1
    (http_open_cnx_flags e) = f at h hf hfw
  have hf0 : LogExt w f.2 := hf
  cases hf1 : f.1 with
  | some id =>
    simp only [hf1] at h
    simp only [Prod.mk.injEq] at h
    obtain ⟨ho, hs, hw⟩ := h
    subst hs; subst hw
    refine ⟨hf0, hfw, by cases s; rfl, ?_⟩
    intro out hout
    rw [← ho] at hout
    exact absurd hout (by simp)
  | none =>
    simp only [hf1] at h
    cases hhd : s.hd with
    | some id =>
      simp only [hhd] at h
      simp only [Prod.mk.injEq] at h
      obtain ⟨ho, hs, hw⟩ := h
      subst hs; subst hw
      refine ⟨hf0, hfw, by cases s; rfl, ?_⟩
      intro out hout
      rw [← ho] at hout
      exact absurd hout (by simp)
    | none =>
      simp only [hhd] at h
      have hopen := ffurl_open_logExt f.2 (http_open_cnx_target e s).1 (http_open_cnx_flags e)
      have hopw : requestsWritten (ffurl_open f.2 (http_open_cnx_target e s).1
          (http_open_cnx_flags e)).2 = requestsWritten f.2 := by
        unfold ffurl_open
        split <;> simp [requestsWritten, List.filterMap_append]
      generalize ffurl_open f.2 (http_open_cnx_target e s).1 (http_open_cnx_flags e) = op
        at h hopen hopw
      cases hop : op.1 with
      | none =>
        simp only [hop] at h
        simp only [Prod.mk.injEq] at h
        obtain ⟨ho, hs, hw⟩ := h
        subst hs; subst hw
        refine ⟨logExt_trans hf0 hopen, by rw [hopw, hfw], by cases s; rfl, ?_⟩
        intro out hout _
        rw [← ho] at hout
        simp only [Option.some.injEq] at hout
        rw [← hout]
        unfold http_open_cnx_fail
        simp only [hhd, Option.isSome_none, Bool.false_eq_true, if_false]
        refine ⟨_, Eq.refl _, ?_⟩
        split_ifs <;> (cases s; simp only at hhd; rw [hhd])
      | some id =>
        simp only [hop] at h
        simp only [Prod.mk.injEq] at h
        obtain ⟨ho, hs, hw⟩ := h
        subst hs; subst hw
        refine ⟨logExt_trans hf0 hopen, by rw [hopw, hfw], by cases s; rfl, ?_⟩
        intro out hout
        rw [← ho] at hout
        exact absurd hout (by simp)

theorem http_open_cnx_pass_logExt (e : Env) (fuel : Nat) (s : HTTPContext) (w : World)
    (lc rd : Int) (out : PassOut) (h : http_open_cnx_pass e fuel s w lc rd = some out) :
    LogExt w (passWorld out) := by
  unfold http_open_cnx_pass at h
  split at h
  · rename_i o s1 w1 hl
    simp only [Option.some.injEq] at h
    obtain ⟨h1, _, _, h4⟩ := http_open_cnx_link_log e s w _ _ _ hl
    unfold http_open_cnx_link at hl
    simp only at hl
    split_ifs at hl
    · simp only [Prod.mk.injEq, Option.some.injEq] at hl
      rw [← h, ← hl.1]
      exact logExt_refl _
    · split at hl
      · simp at hl
      · split at hl
        · simp only [Prod.mk.injEq, Option.some.injEq] at hl
          rw [← h, ← hl.1]
          refine logExt_trans ?_ (http_open_cnx_fail_logExt _ _)
          have a : LogExt w (tcppool_find_free_tcplink (url_interrupt_cb w).2
              (http_open_cnx_target e s).1 (http_open_cnx_flags e)).2 :=
            tcppool_find_logExt (url_interrupt_cb w).2 _ _
          exact logExt_trans a (ffurl_open_logExt _ _ _)
        · simp at hl
  · rename_i s1 w1 hl
    obtain ⟨h1, _, _, _⟩ := http_open_cnx_link_log e s w _ _ _ hl
    simp only at h
    split at h
    · simp at h
    · rename_i ret s2 w2 lc2 hc
      simp only [Option.some.injEq] at h
      rw [← h]
      exact logExt_trans h1 (logExt_trans (http_connect_logExt _ _ _ _ _ _ _ _ _ _ _ _ hc)
        (http_open_cnx_decide_logExt _ _ _ _ _ _))

theorem http_open_cnx_loop_logExt : ∀ (n : Nat) (e : Env) (fuel : Nat) (s : HTTPContext)
    (w : World) (lc rd ret : Int) (s2 : HTTPContext) (w2 : World),
    http_open_cnx_loop n e fuel s w lc rd = some (ret, s2, w2) → LogExt w w2 := by
  intro n
  induction n with
  | zero => intro e fuel s w lc rd ret s2 w2 h; simp [http_open_cnx_loop] at h
  | succ n ih =>
    intro e fuel s w lc rd ret s2 w2 h
    unfold http_open_cnx_loop at h
    split at h
    · simp at h
    · rename_i r s1 w1 hp
      simp only [Option.some.injEq, Prod.mk.injEq] at h
      have := http_open_cnx_pass_logExt _ _ _ _ _ _ _ hp
      rw [← h.2.2]
      exact this
    · rename_i y s1 w1 lc1 rd1 hp
      have := http_open_cnx_pass_logExt _ _ _ _ _ _ _ hp
      exact logExt_trans this (ih _ _ _ _ _ _ _ _ _ h)

theorem http_open_cnx_logExt (e : Env) (fuel : Nat) (s : HTTPContext) (w : World) (ret : Int)
    (s2 : HTTPContext) (w2 : World) (h : http_open_cnx e fuel s w = some (ret, s2, w2)) :
    LogExt w w2 :=
  http_open_cnx_loop_logExt _ _ _ _ _ _ _ _ _ _ h

theorem http_reopen_cnx_logExt (e : Env) (fuel : Nat) (s : HTTPContext) (w : World)
    (off ret : Int) (s2 : HTTPContext) (w2 : World)
    (h : http_reopen_cnx e fuel s w off = some (ret, s2, w2)) : LogExt w w2 := by
  unfold http_reopen_cnx at h
  simp only at h
  have h0 : LogExt w (if (decide (s.max_connects > 1 ∧ s.hd.isSome = true)) = true then w else
      match s.hd with
      | some id => tcppool_close_tcplink w id
      | none => w) := by
    split_ifs
    · exact logExt_refl _
    · split
      · exact tcppool_close_logExt _ _
      · exact logExt_refl _
  split at h
  · simp at h
  · rename_i r s1 w1 ho
    have h1 := http_open_cnx_logExt _ _ _ _ _ _ _ ho
    split_ifs at h
    all_goals
      simp only [Option.some.injEq, Prod.mk.injEq] at h
      rw [← h.2.2]
    all_goals first
      | exact logExt_trans h0 h1
      | (split
         · exact logExt_trans (logExt_trans h0 h1) (tcppool_close_logExt _ _)
         · exact logExt_trans h0 h1)

theorem http_open_retry_logExt (e : Env) (fuel : Nat) : ∀ (n : Nat) (s : HTTPContext)
    (w : World) (r j ret : Int) (s2 : HTTPContext) (w2 : World),
    http_open_retry n e fuel s w r j = some (ret, s2, w2) → LogExt w w2 := by
  intro n
  induction n with
  | zero => intro s w r j ret s2 w2 h; simp [http_open_retry] at h
  | succ n ih =>
    intro s w r j ret s2 w2 h
    unfold http_open_retry at h
    simp only at h
    split_ifs at h
    · split at h
      · simp at h
      · rename_i r1 s1 w1 ho
        have h1 : LogExt w w1 :=
          logExt_trans (logExt_of_eq (Eq.refl _) : LogExt w (url_interrupt_cb w).2)
            (http_open_cnx_logExt _ _ _ _ _ _ _ ho)
        exact logExt_trans h1 (ih _ _ _ _ _ _ _ h)
    all_goals
      simp only [Option.some.injEq, Prod.mk.injEq] at h
      rw [← h.2.2]
      exact logExt_refl _

theorem http_open_cnx_loop_after_pass (n : Nat) (e : Env) (fuel : Nat) (s : HTTPContext)
    (w : World) (lc rd ret : Int) (s2 : HTTPContext) (w2 : World) (out : PassOut)
    (h : http_open_cnx_loop (n + 1) e fuel s w lc rd = some (ret, s2, w2))
    (hp : http_open_cnx_pass e fuel s w lc rd = some out) : LogExt (passWorld out) w2 := by
  rw [http_open_cnx_loop, hp] at h
  cases out with
  | done r s1 w1 =>
    simp only [Option.some.injEq, Prod.mk.injEq] at h
    rw [← h.2.2]
    exact logExt_refl _
  | redo y s1 w1 lc1 rd1 =>
    simp only at h
    exact http_open_cnx_loop_logExt _ _ _ _ _ _ _ _ _ _ h

theorem requestsWritten_of_log (w w2 : World) (l : List Ev) (h : w2.log = w.log ++ l) :
    requestsWritten w2 = requestsWritten w ++ requestsWritten { w with log := l } := by
  unfold requestsWritten
  rw [h, List.filterMap_append]

theorem has_header_of_empty (x hdr : Str) (hx : cstr x = []) (hne : cstr (hdr.drop 2) ≠ [])
    (hne2 : cstr hdr ≠ []) : has_header x hdr = false := by
  unfold has_header av_stristart av_stristr
  rw [hx]
  obtain ⟨a, as, ha⟩ := List.exists_cons_of_ne_nil hne
  obtain ⟨b, bs, hb⟩ := List.exists_cons_of_ne_nil hne2
  rw [ha, hb]
  rfl

set_option maxRecDepth 100000 in
/-- The header block of the first request of `http_open` on a session
without headers of its own. -/
theorem http_open_request_headers (e : Env) (s : HTTPContext) (uri : Str) (flags : Nat)
    (hoststr : Str) (hka : e.enable_http_keepalive ≠ 0) (hhdr : cstr s.headers = [])
    (hurl : s.h_headers = none) (hmedia : s.h_is_segment_media = 0) (hoff : s.off = 0) :
    http_request_headers (http_open_init e s uri flags) hoststr
      = ([85, 115, 101, 114, 45, 65, 103, 101, 110, 116, 58, 32] ++ IPAD_IDENT ++ str_crlf
        ++ str_Accept_line ++ ([82, 97, 110, 103, 101, 58, 32, 98, 121, 116, 101, 115, 61, 48, 45, 13, 10] : Str) ++ str_Conn_keep_alive_line
        ++ (([72, 111, 115, 116, 58, 32] : Str) ++ cstr hoststr ++ str_crlf)).take (1024 * 4 - 1) := by
  have h1 : has_header s.headers hdr_User_Agent = false :=
    has_header_of_empty _ _ hhdr (by decide) (by decide)
  have h2 : has_header s.headers hdr_Accept = false :=
    has_header_of_empty _ _ hhdr (by decide) (by decide)
  have h3 : has_header s.headers hdr_Range = false :=
    has_header_of_empty _ _ hhdr (by decide) (by decide)
  have h4 : has_header s.headers hdr_Connection = false :=
    has_header_of_empty _ _ hhdr (by decide) (by decide)
  have h5 : has_header s.headers hdr_Host = false :=
    has_header_of_empty _ _ hhdr (by decide) (by decide)
  have hu : url_headers (http_open_init e s uri flags) = [] := by
    unfold url_headers http_open_init
    simp only [hurl]
  have hwf : WholeLines (url_headers (http_open_init e s uri flags)) := Or.inl hu
  have hr : request_range (http_open_init e s uri flags) = ([82, 97, 110, 103, 101, 58, 32, 98, 121, 116, 101, 115, 61, 48, 45, 13, 10] : Str) := by
    rw [request_range_eq _ hwf, hu, if_pos]
    · show str_Range_bytes ++ fmtInt s.off ++ str_dash_crlf = _
      rw [hoff]; rfl
    · exact ⟨Or.inr (by unfold http_open_init; simp only; decide), hmedia, h3, by rfl⟩
  have hc : request_connection (http_open_init e s uri flags) = str_Conn_keep_alive_line := by
    rw [request_connection_eq _ hwf, hu, if_pos ⟨h4, by rfl⟩, if_pos]
    exact hka
  have ha : request_accept (http_open_init e s uri flags) = str_Accept_line := by
    unfold request_accept
    rw [if_pos]
    show (!has_header s.headers hdr_Accept) = true
    rw [h2]; rfl
  have hua : request_user_agent (http_open_init e s uri flags)
      = [85, 115, 101, 114, 45, 65, 103, 101, 110, 116, 58, 32] ++ IPAD_IDENT ++ str_crlf := by
    unfold request_user_agent
    rw [if_pos]
    show (!has_header s.headers hdr_User_Agent) = true
    rw [h1]; rfl
  have hh : request_host (http_open_init e s uri flags) hoststr
      = ([72, 111, 115, 116, 58, 32] : Str) ++ cstr hoststr ++ str_crlf := by
    unfold request_host
    rw [if_pos]
    show (!has_header s.headers hdr_Host) = true
    rw [h5]; rfl
  have hcs : cstr (http_open_init e s uri flags).headers = [] := hhdr
  rw [http_request_headers_eq]
  unfold request_block
  rw [hua, hu, ha, hr, hc, hh, hcs]
  simp only [List.append_assoc, List.nil_append, List.append_nil]

theorem option_eq_some_triple {α β γ : Type} (x : Option (α × β × γ)) (d : α × β × γ)
    (h : x.isSome = true) : x = some ((x.getD d).1, (x.getD d).2.1, (x.getD d).2.2) := by
  cases x with
  | none => simp at h
  | some v => rfl

theorem prod_eq_of_fst {α β γ : Type} (x : α × β × γ) (a : α) (h : x.1 = a) :
    x = (a, x.2.1, x.2.2) := by
  rw [← h]

theorem readKeeps_refl (s : HTTPContext) : ReadKeeps s s :=
  ⟨Eq.refl _, Eq.refl _, Eq.refl _, fun h => h⟩

theorem readKeeps_trans {s1 s2 s3 : HTTPContext} (h12 : ReadKeeps s1 s2)
    (h23 : ReadKeeps s2 s3) : ReadKeeps s1 s3 :=
  ⟨h23.off.trans h12.off, h23.filesize.trans h12.filesize, h23.skip.trans h12.skip,
   fun h => h23.chunk (h12.chunk h)⟩

theorem readKeeps_of_bufOnly {s s2 : HTTPContext} (h : BufOnly s s2) : ReadKeeps s s2 := by
  unfold BufOnly at h
  rw [h]
  exact ⟨Eq.refl _, Eq.refl _, Eq.refl _, fun h => h⟩

theorem requestsWritten_length_le {w w2 : World} (h : LogExt w w2) :
    (requestsWritten w).length ≤ (requestsWritten w2).length := by
  obtain ⟨l, hl⟩ := h
  rw [requestsWritten_of_log w w2 l hl, List.length_append]
  omega

theorem http_open_cnx_fail_keeps (s : HTTPContext) (w : World) :
    ∃ (s2 : HTTPContext) (w2 : World),
      http_open_cnx_fail s w = PassOut.done (AVERROR EIO) s2 w2 ∧ ReadKeeps s s2 := by
  refine ⟨_, _, Eq.refl _, ?_⟩
  split_ifs
  all_goals
    first
      | (rw [http_close_and_keep_session]
         exact ⟨Eq.refl _, Eq.refl _, Eq.refl _, fun h => h⟩)
      | exact ⟨Eq.refl _, Eq.refl _, Eq.refl _, fun h => h⟩

/-- A pass of `http_open_cnx` that writes no request ends in failure and
keeps offset, total size and pending skip of the session. -/
theorem http_open_cnx_pass_quiet (e : Env) (fuel : Nat) (s : HTTPContext) (w : World)
    (lc rd : Int) (out : PassOut) (hhd : s.hd = none)
    (h : http_open_cnx_pass e fuel s w lc rd = some out)
    (hq : (requestsWritten (passWorld out)).length ≤ (requestsWritten w).length) :
    ∃ (s2 : HTTPContext) (w2 : World),
      out = PassOut.done (AVERROR EIO) s2 w2 ∧ ReadKeeps s s2 := by
  unfold http_open_cnx_pass at h
  split at h
  · rename_i o s1 w1 hl
    simp only [Option.some.injEq] at h
    obtain ⟨_, _, _, h4⟩ := http_open_cnx_link_log e s w _ _ _ hl
    obtain ⟨s2, hs2, hs2b⟩ := h4 o (Eq.refl _) hhd
    refine ⟨s2, w1, by rw [← h, hs2], ?_⟩
    rw [hs2b]
    exact ⟨Eq.refl _, Eq.refl _, Eq.refl _, fun h => h⟩
  · rename_i s1 w1 hl
    obtain ⟨_, hw1, hs1, _⟩ := http_open_cnx_link_log e s w _ _ _ hl
    have hk1 : ReadKeeps s s1 := by
      rw [hs1]
      exact ⟨Eq.refl _, Eq.refl _, Eq.refl _, fun h => h⟩
    simp only at h
    split at h
    · simp at h
    · rename_i ret s2 w2 lc2 hc
      simp only [Option.some.injEq] at h
      have hdec := http_open_cnx_decide_logExt s2 w2 ret s1.auth_state.auth_type lc2 rd
      rw [h] at hdec
      rcases http_connect_log _ _ _ _ _ _ _ _ _ _ _ _ hc with
        ⟨_, hret, hs2, _⟩ | ⟨id, _, _, hlog⟩
      · rw [hret, http_open_cnx_decide_eio, hs2] at h
        obtain ⟨s3, w3, hf, hk⟩ := http_open_cnx_fail_keeps s1 w2
        rw [hf] at h
        exact ⟨s3, w3, h.symm, readKeeps_trans hk1 hk⟩
      · exfalso
        have h1 := requestsWritten_length_le hdec
        have h2 : (requestsWritten w2).length = (requestsWritten w1).length + 1 := by
          unfold requestsWritten
          rw [hlog, List.filterMap_append]
          simp
        rw [hw1] at h2
        omega

theorem http_open_cnx_quiet (e : Env) (fuel : Nat) (s : HTTPContext) (w : World) (r : Int)
    (s1 : HTTPContext) (w1 : World) (hhd : s.hd = none)
    (h : http_open_cnx e fuel s w = some (r, s1, w1))
    (hq : (requestsWritten w1).length ≤ (requestsWritten w).length) :
    r < 0 ∧ ReadKeeps s s1 := by
  unfold http_open_cnx at h
  obtain ⟨n, hn⟩ : ∃ n, fuel = n + 1 := by
    cases fuel with
    | zero => simp [http_open_cnx_loop] at h
    | succ n => exact ⟨n, Eq.refl _⟩
  cases hp : http_open_cnx_pass e fuel { s with latest_get_time_ms := 0 } w 0 0 with
  | none =>
    rw [hn] at h
    rw [http_open_cnx_loop, ← hn, hp] at h
    simp at h
  | some out =>
    have hafter : LogExt (passWorld out) w1 := by
      rw [hn] at h hp
      exact http_open_cnx_loop_after_pass _ _ _ _ _ _ _ _ _ _ _ h hp
    have hle := requestsWritten_length_le hafter
    obtain ⟨s2, w2, hout, hk⟩ := http_open_cnx_pass_quiet e fuel
      { s with latest_get_time_ms := 0 } w 0 0 out hhd hp (by omega)
    rw [hn] at h
    rw [http_open_cnx_loop, ← hn, hp, hout] at h
    simp only [Option.some.injEq, Prod.mk.injEq] at h
    rw [← h.1, ← h.2.1]
    have hk0 : ReadKeeps s { s with latest_get_time_ms := 0 } :=
      ⟨Eq.refl _, Eq.refl _, Eq.refl _, fun h => h⟩
    exact ⟨by decide, readKeeps_trans hk0 hk⟩

/-- A reconnect that writes no request fails and keeps offset, total size
and pending skip of the session. -/
theorem http_reopen_cnx_quiet (e : Env) (fuel : Nat) (s : HTTPContext) (w : World)
    (off r : Int) (s2 : HTTPContext) (w2 : World)
    (h : http_reopen_cnx e fuel s w off = some (r, s2, w2))
    (hq : (requestsWritten w2).length ≤ (requestsWritten w).length) :
    ReadKeeps s s2 := by
  unfold http_reopen_cnx at h
  simp only at h
  split at h
  · simp at h
  · rename_i r1 s1 w1 ho
    obtain ⟨w0, hw0, ho⟩ : ∃ w0 : World, requestsWritten w0 = requestsWritten w ∧
        http_open_cnx e fuel
          { s with off := if off ≥ 0 then off else s.off, hd := none, chunksize := -1 } w0
          = some (r1, s1, w1) := by
      refine ⟨_, ?_, ho⟩
      split_ifs
      · rfl
      · split
        · unfold tcppool_close_tcplink
          split <;> simp [requestsWritten, setLink, List.filterMap_append]
        · rfl
    by_cases c : r1 < 0
    · rw [if_pos c] at h
      have hw12 : w2 = w1 := by
        split_ifs at h <;> simp only [Option.some.injEq, Prod.mk.injEq] at h <;>
          exact h.2.2.symm
      obtain ⟨_, hk⟩ := http_open_cnx_quiet e fuel _ w0 r1 s1 w1 (Eq.refl _) ho
        (by rw [hw0, ← hw12]; exact hq)
      split_ifs at h <;>
        (simp only [Option.some.injEq, Prod.mk.injEq] at h
         rw [← h.2.1]
         first
           | exact ⟨Eq.refl _, hk.filesize, hk.skip, fun hc => hc⟩
           | exact ⟨Eq.refl _, hk.filesize, hk.skip, fun _ => (by decide : (-1 : Int) < 0)⟩)
    · rw [if_neg c] at h
      simp only [Option.some.injEq, Prod.mk.injEq] at h
      exfalso
      have hext : LogExt w1 w2 := by
        rw [← h.2.2]
        split_ifs <;> first
          | exact logExt_refl _
          | (split <;> first | exact tcppool_close_logExt _ _ | exact logExt_refl _)
      have := requestsWritten_length_le hext
      obtain ⟨hneg, _⟩ := http_open_cnx_quiet e fuel _ w0 r1 s1 w1 (Eq.refl _) ho
        (by rw [hw0]; omega)
      exact c hneg
theorem linkRead_le (l : Link) (size : Int) (h : 0 < (linkRead l size).1) :
    (linkRead l size).1 ≤ size := by
  unfold linkRead at h ⊢
  cases hrd : l.rd with
  | nil =>
    rw [hrd] at h
    simp at h
  | cons ev r =>
    rw [hrd] at h
    cases ev with
    | fail e =>
      simp only at h
      omega
    | data bs =>
      simp only at h ⊢
      omega

theorem ffurl_read_le (w : World) (id : Nat) (size : Int) (h : 0 < (ffurl_read w id size).1) :
    (ffurl_read w id size).1 ≤ size := by
  unfold ffurl_read at h ⊢
  cases hl : w.links.get? id with
  | none =>
    rw [hl] at h
    simp [AVERROR, EIO] at h
  | some l =>
    rw [hl] at h
    exact linkRead_le _ _ h

theorem http_read_chunk_line_log : ∀ (n fuel : Nat) (s : HTTPContext) (w : World)
    (r : Int) (line : Str) (s2 : HTTPContext) (w2 : World),
    http_read_chunk_line n fuel s w = some (r, line, s2, w2) → w2.log = w.log := by
  intro n
  induction n with
  | zero => intro fuel s w r line s2 w2 h; simp [http_read_chunk_line] at h
  | succ n ih =>
    intro fuel s w r line s2 w2 h
    rw [http_read_chunk_line] at h
    split at h
    · simp at h
    · rename_i r1 l1 s1 w1 hg
      have h1 := http_get_line_log _ _ _ _ _ _ _ _ hg
      split_ifs at h
      · simp only [Option.some.injEq, Prod.mk.injEq] at h
        rw [← h.2.2.2, h1]
      · rw [ih _ _ _ _ _ _ _ h, h1]
      · simp only [Option.some.injEq, Prod.mk.injEq] at h
        rw [← h.2.2.2, h1]

theorem http_read_chunk_log (fuel : Nat) (s : HTTPContext) (w : World) (size : Int)
    (r : Option Int) (s2 : HTTPContext) (w2 : World) (size2 : Int)
    (h : http_read_chunk fuel s w size = some (r, s2, w2, size2)) : w2.log = w.log := by
  unfold http_read_chunk at h
  split_ifs at h
  · split at h
    · simp at h
    · rename_i r1 l1 s1 w1 hg
      have h1 := http_read_chunk_line_log _ _ _ _ _ _ _ _ hg
      by_cases c : r1 < 0
      · rw [if_pos c] at h
        simp only [Option.some.injEq, Prod.mk.injEq] at h
        rw [← h.2.2.1, h1]
      · rw [if_neg c] at h
        by_cases c2 : strtoll16 l1 = 0
        · simp only [c2, if_true, Option.some.injEq, Prod.mk.injEq] at h
          rw [← h.2.2.1, h1]
        · simp only [c2, if_false, Option.some.injEq, Prod.mk.injEq] at h
          rw [← h.2.2.1, h1]
  · simp only [Option.some.injEq, Prod.mk.injEq] at h
    rw [← h.2.2.1]
  · simp only [Option.some.injEq, Prod.mk.injEq] at h
    rw [← h.2.2.1]

theorem http_read_fetch_got (s : HTTPContext) (w : World) (size len : Int) (bytes : Str)
    (s2 : HTTPContext) (w2 : World)
    (h : http_read_fetch s w size = Fetch.got len bytes s2 w2) :
    (0 < len → len ≤ size) ∧ w2.log = w.log ∧ s2.off = s.off ∧ s2.filesize = s.filesize ∧
      s2.do_readseek_size = s.do_readseek_size ∧ s2.chunksize = s.chunksize := by
  unfold http_read_fetch at h
  split_ifs at h
  · simp only [Fetch.got.injEq] at h
    obtain ⟨h1, _, h3, h4⟩ := h
    rw [← h1, ← h3, ← h4]
    exact ⟨fun _ => min_le_right _ _, Eq.refl _, Eq.refl _, Eq.refl _, Eq.refl _, Eq.refl _⟩
  · split at h
    · simp only [Fetch.got.injEq] at h
      obtain ⟨h1, _, h3, h4⟩ := h
      rw [← h1, ← h3, ← h4]
      exact ⟨ffurl_read_le _ _ _, ffurl_read_log _ _ _, Eq.refl _, Eq.refl _, Eq.refl _,
        Eq.refl _⟩
    · simp at h

theorem http_read_account_keeps (e : Env) (s : HTTPContext) (w : World) (len : Int) :
    (http_read_account e s w len).2.2.log = w.log ∧
    (http_read_account e s w len).2.1.filesize = s.filesize ∧
    (http_read_account e s w len).2.1.do_readseek_size = s.do_readseek_size ∧
    (s.chunksize < 0 → (http_read_account e s w len).2.1.chunksize < 0) ∧
    ((http_read_account e s w len).2.1.off = s.off ∨
      (0 < len ∧ s.do_readseek_size ≤ 0 ∧
        (http_read_account e s w len).2.1.off = s.off + len)) ∧
    (0 < (http_read_account e s w len).1 → (http_read_account e s w len).1 = len) ∧
    (0 < len → (http_read_account e s w len).1 = len) := by
  unfold http_read_account
  simp only
  by_cases c1 : len > 0
  · have c2 : len ≠ AVERROR EAGAIN := by simp [AVERROR, EAGAIN]; omega
    have c3 : ¬ (len = AVERROR EAGAIN ∧ True) := fun h => c2 h.1
    simp only [if_pos c1, if_neg c2, c2, false_and, if_false]
    refine ⟨trivial, trivial, trivial, ?_, ?_, ?_, ?_⟩
    · intro hc
      show (if s.chunksize > 0 then s.chunksize - len else s.chunksize) < 0
      rw [if_neg (by omega)]
      exact hc
    · show (if s.do_readseek_size ≤ 0 then s.off + len else s.off) = s.off ∨ _
      by_cases c4 : s.do_readseek_size ≤ 0
      · rw [if_pos c4]
        exact Or.inr ⟨c1, c4, Eq.refl _⟩
      · rw [if_neg c4]
        exact Or.inl (Eq.refl _)
    · intro _
      split_ifs <;> first | rfl | omega
    · intro _
      split_ifs <;> first | rfl | omega
  · simp only [if_neg c1]
    refine ⟨?_, ?_, ?_, ?_, ?_, ?_, fun h => absurd h c1⟩
    · split_ifs <;> rfl
    · split_ifs <;> rfl
    · split_ifs <;> rfl
    · intro hc
      split_ifs <;> exact hc
    · left
      split_ifs <;> rfl
    · intro hp
      split_ifs at hp ⊢ <;> first | rfl | omega
theorem http_read_chunk_plain (fuel : Nat) (s : HTTPContext) (w : World) (size : Int)
    (hc : s.chunksize < 0) : http_read_chunk fuel s w size = some (none, s, w, size) := by
  unfold http_read_chunk
  rw [if_neg (by omega)]

theorem http_read_loop_bound : ∀ (n : Nat) (e : Env) (fuel : Nat) (s : HTTPContext) (w : World)
    (size err r : Int) (bytes : Str) (s2 : HTTPContext) (w2 : World),
    http_read_loop n e fuel s w size err = some (r, bytes, s2, w2) →
    LogExt w w2 ∧ (s.chunksize < 0 →
      (requestsWritten w2).length ≤ (requestsWritten w).length →
      s2.filesize = s.filesize ∧
        (s2.off = s.off ∨ (0 < r ∧ r ≤ size ∧ s2.off = s.off + r))) := by
  intro n
  induction n with
  | zero => intro e fuel s w size err r bytes s2 w2 h; simp [http_read_loop] at h
  | succ n ih =>
    intro e fuel s w size err r bytes s2 w2 h
    rw [http_read_loop] at h
    simp only at h
    have hic : LogExt w (url_interrupt_cb w).2 := logExt_of_eq (Eq.refl _)
    by_cases ci : (url_interrupt_cb w).1 = true
    · rw [if_pos ci] at h
      simp only [Option.some.injEq, Prod.mk.injEq] at h
      obtain ⟨_, _, hs, hw⟩ := h
      rw [← hs, ← hw]
      exact ⟨hic, fun _ _ => ⟨Eq.refl _, Or.inl (Eq.refl _)⟩⟩
    · rw [if_neg ci] at h
      have rec : ∀ (size1 : Int) (s3 : HTTPContext) (w3 : World)
          (r4 : Int) (s4 : HTTPContext) (w4 : World),
          http_reopen_cnx e fuel s3 w3 (-1) = some (r4, s4, w4) →
          http_read_loop n e fuel s4 w4 size1 (err - 1) = some (r, bytes, s2, w2) →
          LogExt w w3 →
          (s.chunksize < 0 → size1 = size ∧ s3.filesize = s.filesize ∧ s3.off = s.off ∧
            s3.chunksize < 0) →
          LogExt w w2 ∧ (s.chunksize < 0 →
            (requestsWritten w2).length ≤ (requestsWritten w).length →
            s2.filesize = s.filesize ∧
              (s2.off = s.off ∨ (0 < r ∧ r ≤ size ∧ s2.off = s.off + r))) := by
        intro size1 s3 w3 r4 s4 w4 hre hloop hw3 hk
        obtain ⟨hl42, hcond⟩ := ih _ _ _ _ _ _ _ _ _ _ hloop
        have hl34 := http_reopen_cnx_logExt _ _ _ _ _ _ _ _ hre
        refine ⟨logExt_trans (logExt_trans hw3 hl34) hl42, fun hc hq => ?_⟩
        obtain ⟨hsz, hf, ho, hc3⟩ := hk hc
        have q1 := requestsWritten_length_le hl42
        have q2 := requestsWritten_length_le hw3
        have q3 := requestsWritten_length_le hl34
        have hk34 := http_reopen_cnx_quiet _ _ _ _ _ _ _ _ hre (by omega)
        obtain ⟨hf2, ho2⟩ := hcond (hk34.chunk hc3) (by omega)
        rw [hsz, hk34.off, ho] at ho2
        exact ⟨by rw [hf2, hk34.filesize, hf], ho2⟩
      cases hch : http_read_chunk fuel s (url_interrupt_cb w).2 size with
      | none =>
        rw [hch] at h
        simp at h
      | some p =>
        obtain ⟨ro, s1, w1, size1⟩ := p
        rw [hch] at h
        have hl1 : LogExt w w1 :=
          logExt_trans hic (logExt_of_eq (http_read_chunk_log _ _ _ _ _ _ _ _ hch))
        have hplain : s.chunksize < 0 → ro = none ∧ s1 = s ∧ size1 = size := by
          intro hc
          rw [http_read_chunk_plain _ _ _ _ hc] at hch
          simp only [Option.some.injEq, Prod.mk.injEq] at hch
          exact ⟨hch.1.symm, hch.2.1.symm, hch.2.2.2.symm⟩
        cases ro with
        | some r0 =>
          simp only [Option.some.injEq, Prod.mk.injEq] at h
          rw [← h.2.2.2]
          exact ⟨hl1, fun hc _ => Option.noConfusion (hplain hc).1⟩
        | none =>
          simp only at h
          cases hf : http_read_fetch s1 w1 size1 with
          | eof =>
            rw [hf] at h
            simp only [Option.some.injEq, Prod.mk.injEq] at h
            rw [← h.2.2.2, ← h.2.2.1]
            refine ⟨hl1, fun hc _ => ?_⟩
            rw [(hplain hc).2.1]
            exact ⟨Eq.refl _, Or.inl (Eq.refl _)⟩
          | nohd =>
            rw [hf] at h
            simp only at h
            have stay : ∀ (r0 : Int) (b0 : Str), some (r0, b0, s1, w1) = some (r, bytes, s2, w2) →
                LogExt w w2 ∧ (s.chunksize < 0 →
                  (requestsWritten w2).length ≤ (requestsWritten w).length →
                  s2.filesize = s.filesize ∧
                    (s2.off = s.off ∨ (0 < r ∧ r ≤ size ∧ s2.off = s.off + r))) := by
              intro r0 b0 h
              simp only [Option.some.injEq, Prod.mk.injEq] at h
              rw [← h.2.2.2, ← h.2.2.1]
              refine ⟨hl1, fun hc _ => ?_⟩
              rw [(hplain hc).2.1]
              exact ⟨Eq.refl _, Or.inl (Eq.refl _)⟩
            by_cases c1 : (-1000 : Int) < 0 ∧ s1.filesize > 0 ∧ s1.off = s1.filesize
            · rw [if_pos c1] at h
              exact stay _ _ h
            · have c2 : (-1000 : Int) < 0 ∧ (-1000 : Int) ≠ AVERROR EAGAIN := by
                simp [AVERROR, EAGAIN]
              rw [if_neg c1, if_pos c2] at h
              by_cases c3 : err > 0
              · rw [if_pos c3] at h
                cases hre : http_reopen_cnx e fuel s1 w1 (-1) with
                | none =>
                  rw [hre] at h
                  simp at h
                | some q =>
                  obtain ⟨r4, s4, w4⟩ := q
                  rw [hre] at h
                  simp only at h
                  refine rec _ _ _ _ _ _ hre h hl1 (fun hc => ?_)
                  rw [(hplain hc).2.1]
                  exact ⟨(hplain hc).2.2, Eq.refl _, Eq.refl _, hc⟩
              · rw [if_neg c3] at h
                exact stay _ _ h
          | got len bs sf wf =>
            rw [hf] at h
            simp only at h
            obtain ⟨ha1, ha2, ha3, ha4, ha5, _, ha7⟩ := http_read_account_keeps e sf wf len
            obtain ⟨hg1, hg2, hg3, hg4, hg5, hg6⟩ := http_read_fetch_got _ _ _ _ _ _ _ hf
            generalize http_read_account e sf wf len = acc at h ha1 ha2 ha3 ha4 ha5 ha7
            obtain ⟨len3, s3, w3⟩ := acc
            simp only at h ha1 ha2 ha3 ha4 ha5 ha7
            have hl3 : LogExt w w3 := logExt_trans hl1 (logExt_of_eq (by rw [ha1, hg2]))
            have hk : s.chunksize < 0 → size1 = size ∧ s3.filesize = s.filesize ∧
                s3.do_readseek_size = s.do_readseek_size ∧ s3.chunksize < 0 ∧
                (s3.off = s.off ∨ (0 < len ∧ s.do_readseek_size ≤ 0 ∧ s3.off = s.off + len)) ∧
                (0 < len → len ≤ size) := by
              intro hc
              obtain ⟨_, h1, h2⟩ := hplain hc
              rw [h1] at hg3 hg4 hg5 hg6
              rw [h2] at hg1
              rw [hg3, hg5] at ha5
              exact ⟨h2, by rw [ha2, hg4], by rw [ha3, hg5], ha4 (by rw [hg6]; exact hc), ha5, hg1⟩
            have keep : ∀ (r0 : Int) (b0 : Str) (s0 : HTTPContext),
                some (r0, b0, s0, w3) = some (r, bytes, s2, w2) →
                s0.filesize = s3.filesize → s0.off = s3.off →
                (s.chunksize < 0 → s3.off = s.off ∨ (0 < r0 ∧ r0 ≤ size ∧ s3.off = s.off + r0)) →
                LogExt w w2 ∧ (s.chunksize < 0 →
                  (requestsWritten w2).length ≤ (requestsWritten w).length →
                  s2.filesize = s.filesize ∧
                    (s2.off = s.off ∨ (0 < r ∧ r ≤ size ∧ s2.off = s.off + r))) := by
              intro r0 b0 s0 h hfs hoff hd
              simp only [Option.some.injEq, Prod.mk.injEq] at h
              rw [← h.2.2.2, ← h.2.2.1, ← h.1]
              refine ⟨hl3, fun hc _ => ?_⟩
              rw [hfs, hoff]
              exact ⟨(hk hc).2.1, hd hc⟩
            by_cases c1 : len3 < 0 ∧ s3.filesize > 0 ∧ s3.off = s3.filesize
            · rw [if_pos c1] at h
              refine keep _ _ _ h (Eq.refl _) (Eq.refl _) (fun hc => ?_)
              rcases (hk hc).2.2.2.2.1 with h5 | h5
              · exact Or.inl h5
              · have := ha7 h5.1
                omega
            · rw [if_neg c1] at h
              by_cases c2 : len3 < 0 ∧ len3 ≠ AVERROR EAGAIN
              · rw [if_pos c2] at h
                have hoff : s.chunksize < 0 → s3.off = s.off := by
                  intro hc
                  rcases (hk hc).2.2.2.2.1 with h5 | h5
                  · exact h5
                  · have := ha7 h5.1
                    omega
                by_cases c3 : err > 0
                · rw [if_pos c3] at h
                  cases hre : http_reopen_cnx e fuel s3 w3 (-1) with
                  | none =>
                    rw [hre] at h
                    simp at h
                  | some q =>
                    obtain ⟨r4, s4, w4⟩ := q
                    rw [hre] at h
                    simp only at h
                    exact rec _ _ _ _ _ _ hre h hl3
                      (fun hc => ⟨(hk hc).1, (hk hc).2.1, hoff hc, (hk hc).2.2.2.1⟩)
                · rw [if_neg c3] at h
                  exact keep _ _ _ h (Eq.refl _) (Eq.refl _) (fun hc => Or.inl (hoff hc))
              · rw [if_neg c2] at h
                by_cases c4 : s3.do_readseek_size > 0 ∧ len3 > 0
                · rw [if_pos c4] at h
                  have hoff : s.chunksize < 0 → s3.off = s.off := by
                    intro hc
                    rcases (hk hc).2.2.2.2.1 with h5 | h5
                    · exact h5
                    · have := (hk hc).2.2.1
                      omega
                  by_cases c5 : len3 > s3.do_readseek_size
                  · rw [if_pos c5] at h
                    exact keep _ _ _ h (Eq.refl _) (Eq.refl _) (fun hc => Or.inl (hoff hc))
                  · rw [if_neg c5] at h
                    obtain ⟨hl32, hcond⟩ := ih _ _ _ _ _ _ _ _ _ _ h
                    refine ⟨logExt_trans hl3 hl32, fun hc hq => ?_⟩
                    have q1 := requestsWritten_length_le hl3
                    obtain ⟨hf2, ho2⟩ := hcond (hk hc).2.2.2.1 (by omega)
                    rw [(hk hc).1] at ho2
                    exact ⟨hf2.trans (hk hc).2.1, by
                      rw [show s2.off = s.off ∨ (0 < r ∧ r ≤ size ∧ s2.off = s.off + r) ↔
                        s2.off = s3.off ∨ (0 < r ∧ r ≤ size ∧ s2.off = s3.off + r) from by
                          rw [hoff hc]]
                      exact ho2⟩
                · rw [if_neg c4] at h
                  refine keep _ _ _ h (Eq.refl _) (Eq.refl _) (fun hc => ?_)
                  rcases (hk hc).2.2.2.2.1 with h5 | h5
                  · exact Or.inl h5
                  · have h7 := ha7 h5.1
                    have h8 := (hk hc).2.2.2.2.2 h5.1
                    right
                    rw [h7]
                    exact ⟨h5.1, h8, h5.2.2⟩

theorem hexDigits_chars (n : Nat) :
    ∀ c ∈ hexDigits n, (48 ≤ c ∧ c ≤ 57) ∨ (97 ≤ c ∧ c ≤ 102) := by
  intro c hc
  unfold hexDigits Nat.toDigits at hc
  obtain ⟨ch, hch, rfl⟩ := List.mem_map.mp hc
  exact toDigitsCore_all 16 (by decide)
    (fun c => (48 ≤ c.toNat ∧ c.toNat ≤ 57) ∨ (97 ≤ c.toNat ∧ c.toNat ≤ 102))
    (fun d hd => by interval_cases d <;> decide) _ _ []
    (fun _ h => absurd h (List.not_mem_nil _)) ch hch

theorem hexDigits_ne_nil (n : Nat) : hexDigits n ≠ [] := by
  unfold hexDigits Nat.toDigits
  intro h
  exact toDigitsCore_ne_nil 16 (n + 1) n [] (Or.inr (Nat.succ_pos _)) (List.map_eq_nil_iff.mp h)

theorem toDigitsCore_length (b : Nat) (hb : 2 ≤ b) : ∀ (fuel n : Nat) (ds : List Char) (k : Nat),
    n < b ^ (k + 1) → (Nat.toDigitsCore b fuel n ds).length ≤ ds.length + (k + 1) := by
  intro fuel
  induction fuel with
  | zero =>
    intro n ds k _
    simp [Nat.toDigitsCore]
  | succ fuel ih =>
    intro n ds k hn
    unfold Nat.toDigitsCore
    simp only
    by_cases c : n / b = 0
    · rw [if_pos c]
      simp only [List.length_cons]
      omega
    · rw [if_neg c]
      cases k with
      | zero =>
        exfalso
        apply c
        rw [Nat.div_eq_zero_iff (by omega)]
        simpa using hn
      | succ k =>
        have h1 : n / b < b ^ (k + 1) := by
          rw [Nat.div_lt_iff_lt_mul (by omega)]
          rw [pow_succ] at hn
          exact hn
        have := ih (n / b) (Nat.digitChar (n % b) :: ds) k h1
        simp only [List.length_cons] at this
        omega

theorem hexDigits_length (n : Nat) (hn : n < 2 ^ 32) : (hexDigits n).length ≤ 8 := by
  unfold hexDigits Nat.toDigits
  rw [List.length_map]
  have := toDigitsCore_length 16 (by decide) (n + 1) n [] 7 (by
    have : (16 : Nat) ^ (7 + 1) = 2 ^ 32 := by norm_num
    omega)
  simpa using this

theorem hexDigits_parse (n : Nat) : parseDigits 16 (hexDigits n) 0 = n := by
  obtain ⟨k, hk⟩ := parseDigits_toDigitsCore 16 (by decide) (by decide) [] (n + 1) n []
    (Nat.lt_succ_self n)
  have := hk 0
  simpa [hexDigits, Nat.toDigits, parseDigits] using this

theorem strtoll16_hexDigits (n : Nat) (hn : n < 2 ^ 63) : strtoll16 (hexDigits n) = n := by
  obtain ⟨c, cs, hcs⟩ := List.exists_cons_of_ne_nil (hexDigits_ne_nil n)
  have hch := hexDigits_chars n
  have hc := hch c (by rw [hcs]; exact List.mem_cons_self _ _)
  have hcstr : cstr (hexDigits n) = hexDigits n :=
    cstr_of_nonzero _ (fun x hx => by have := hch x hx; omega)
  have hsp : (hexDigits n).dropWhile isspace = hexDigits n := by
    rw [hcs]
    have : isspace c = false := by
      unfold isspace
      rcases hc with h | h <;> simp <;> omega
    simp [List.dropWhile, this]
  have hsign : parseSign (hexDigits n) = (false, hexDigits n) := by
    rw [hcs]
    unfold parseSign
    split
    · rename_i h
      simp only [List.cons.injEq] at h
      omega
    · rename_i h
      simp only [List.cons.injEq] at h
      omega
    · rfl
  have hskip : skipHexPrefix (hexDigits n) = hexDigits n := by
    unfold skipHexPrefix
    split
    · rename_i x d p h
      have hx := hch x (by rw [h]; simp)
      rw [if_neg (by omega)]
      exact h.symm
    · rfl
  unfold strtoll16 strtoll16_raw
  simp only [hcstr, hsp, hsign, hskip, hexDigits_parse, Bool.false_eq_true, if_false]
  exact clamp64_of_lt _ hn
theorem ffurl_write_ok (w : World) (id : Nat) (l : Link) (bytes : Str)
    (hl : w.links.get? id = some l) (hwf : l.wfail = false) :
    ffurl_write w id bytes = ((bytes.length : Int), { w with log := w.log ++ [Ev.wrote id bytes] }) := by
  unfold ffurl_write
  rw [hl]
  simp only [hwf, Bool.false_eq_true, if_false]

theorem chunk_size_line_eq (n : Nat) (hn : n < 2 ^ 31) :
    cstr (chunk_size_line n) = hexDigits n ++ str_crlf := by
  have h1 : ((n : Int) % 2 ^ 32).toNat = n := by omega
  have h2 := hexDigits_length n (by omega)
  unfold chunk_size_line
  rw [h1, List.take_of_length_le (by simp [str_crlf]; omega)]
  apply cstr_of_nonzero
  intro c hc
  rcases List.mem_append.mp hc with h | h
  · have := hexDigits_chars n c h
    omega
  · simp [str_crlf] at h
    omega

theorem http_write_chunked (s : HTTPContext) (w : World) (id : Nat) (l : Link) (b : Str)
    (hhd : s.hd = some id) (hl : w.links.get? id = some l) (hwf : l.wfail = false)
    (hc : s.chunksize ≠ -1) (hb : b ≠ []) (hlen : b.length < 2 ^ 31) :
    http_write s w b b.length = ((b.length : Int),
      { w with log := w.log ++ [Ev.wrote id (hexDigits b.length ++ str_crlf), Ev.wrote id b,
          Ev.wrote id str_crlf] }) := by
  have hpos : (b.length : Int) > 0 := by
    have := List.length_pos.mpr hb
    omega
  have e1 := ffurl_write_ok w id l (hexDigits b.length ++ str_crlf) hl hwf
  have e2 := ffurl_write_ok
    { w with log := w.log ++ [Ev.wrote id (hexDigits b.length ++ str_crlf)] } id l b hl hwf
  have e3 := ffurl_write_ok
    { w with log := w.log ++ [Ev.wrote id (hexDigits b.length ++ str_crlf)] ++ [Ev.wrote id b] }
    id l str_crlf hl hwf
  unfold http_write
  rw [hhd]
  simp only [if_neg hc, if_pos hpos, chunk_size_line_eq _ hlen, Int.toNat_ofNat,
    List.take_length]
  rw [e1]
  simp only
  rw [if_neg (by omega), e2]
  simp only
  rw [if_neg (by omega), e3]
  simp only
  rw [if_neg (by simp [str_crlf])]
  simp only [List.append_assoc, List.cons_append, List.nil_append]
theorem http_write_blocks_written (s : HTTPContext) (id : Nat) (l : Link)
    (hhd : s.hd = some id) (hwf : l.wfail = false) (hc : s.chunksize ≠ -1) :
    ∀ (blocks : List Str) (w : World), w.links.get? id = some l →
    (∀ b ∈ blocks, b ≠ [] ∧ b.length < 2 ^ 31) →
    (http_write_blocks s w blocks).links = w.links ∧
    requestsWritten (http_write_blocks s w blocks) = requestsWritten w ++
      (blocks.map (fun b => [hexDigits b.length ++ str_crlf, b, str_crlf])).flatten := by
  intro blocks
  induction blocks with
  | nil =>
    intro w _ _
    exact ⟨Eq.refl _, by simp [http_write_blocks]⟩
  | cons b bs ih =>
    intro w hl hb
    have hb1 := hb b (List.mem_cons_self _ _)
    have hstep := http_write_chunked s w id l b hhd hl hwf hc hb1.1 hb1.2
    obtain ⟨h1, h2⟩ := ih (http_write s w b b.length).2 (by rw [hstep]; exact hl)
      (fun x hx => hb x (List.mem_cons_of_mem _ hx))
    unfold http_write_blocks
    refine ⟨by rw [h1, hstep], ?_⟩
    rw [h2, hstep]
    simp [requestsWritten, List.filterMap_append]

theorem chunk_stream_eq (blocks : List Str) :
    ((blocks.map (fun b => [hexDigits b.length ++ str_crlf, b, str_crlf])).flatten
      ++ [str_footer]).flatten = chunk_stream blocks := by
  induction blocks with
  | nil => simp [chunk_stream]
  | cons b bs ih =>
    rw [chunk_stream, ← ih]
    simp [List.append_assoc]

theorem chunked_upload_eq (s : HTTPContext) (w : World) (id : Nat) (l : Link)
    (blocks : List Str) (hhd : s.hd = some id) (hl : w.links.get? id = some l)
    (hwf : l.wfail = false) (hc : s.chunksize ≠ -1)
    (hflag : hasFlag s.flags AVIO_FLAG_WRITE = true)
    (hb : ∀ b ∈ blocks, b ≠ [] ∧ b.length < 2 ^ 31) :
    chunked_upload s w blocks = chunk_stream blocks := by
  obtain ⟨h1, h2⟩ := http_write_blocks_written s id l hhd hwf hc blocks w hl hb
  have hclose : requestsWritten (http_close_and_keep s (http_write_blocks s w blocks) 1).2.2
      = requestsWritten (http_write_blocks s w blocks) ++ [str_footer] := by
    unfold http_close_and_keep
    rw [hhd]
    simp only [ne_eq, one_ne_zero, not_false_eq_true, true_or, if_true, hflag, hc, and_self]
    rw [ffurl_write_ok _ id l _ (by rw [h1]; exact hl) hwf]
    unfold tcppool_close_tcplink
    split <;> simp [requestsWritten, setLink, List.filterMap_append]
  unfold chunked_upload
  rw [hclose, h2, List.append_assoc, List.drop_left, chunk_stream_eq]
theorem ffurl_read_data (w : World) (id : Nat) (l : Link) (bs : Str) (r : List RdEv)
    (size : Int) (hl : w.links.get? id = some l) (hrd : l.rd = RdEv.data bs :: r) :
    ffurl_read w id size = (((min size.toNat bs.length : Nat) : Int),
      bs.take (min size.toNat bs.length),
      setLink w id { l with rd := (if bs.drop (min size.toNat bs.length) = [] then r
        else RdEv.data (bs.drop (min size.toNat bs.length)) :: r) }) := by
  unfold ffurl_read
  rw [hl]
  simp only
  unfold linkRead
  rw [hrd]

theorem setLink_get (w : World) (id : Nat) (l l2 : Link) (hl : w.links.get? id = some l) :
    (setLink w id l2).links.get? id = some l2 := by
  unfold setLink
  simp only [List.get?_eq_getElem?] at hl ⊢
  rw [List.getElem?_set_self (List.getElem?_eq_some_iff.mp hl).1]

theorem allData_tail {ev : RdEv} {r : List RdEv} (h : AllData (ev :: r)) : AllData r :=
  fun x hx => h x (List.mem_cons_of_mem _ hx)

theorem allData_after_read (bs : Str) (r : List RdEv) (n : Nat)
    (h : AllData (RdEv.data bs :: r)) :
    AllData (if bs.drop n = [] then r else RdEv.data (bs.drop n) :: r) ∧
    pendingBytes (if bs.drop n = [] then r else RdEv.data (bs.drop n) :: r)
      = bs.drop n ++ pendingBytes r := by
  by_cases c : bs.drop n = []
  · rw [if_pos c, c]
    exact ⟨allData_tail h, Eq.refl _⟩
  · rw [if_neg c]
    refine ⟨?_, Eq.refl _⟩
    intro x hx
    rcases List.mem_cons.mp hx with h1 | h1
    · exact ⟨_, h1, c⟩
    · exact h x (List.mem_cons_of_mem _ h1)

theorem pendingBytes_cons_of_allData (rd : List RdEv) (c : Nat) (rest : Str)
    (had : AllData rd) (h : pendingBytes rd = c :: rest) :
    ∃ (bs : Str) (r : List RdEv), rd = RdEv.data (c :: bs) :: r := by
  cases rd with
  | nil => simp [pendingBytes] at h
  | cons ev r =>
    obtain ⟨bs, hev, hne⟩ := had ev (List.mem_cons_self _ _)
    rw [hev] at h ⊢
    cases bs with
    | nil => exact absurd (Eq.refl _) hne
    | cons b bs =>
      simp only [pendingBytes, List.cons_append, List.cons.injEq] at h
      rw [h.1]
      exact ⟨bs, r, Eq.refl _⟩

theorem allData_nil : AllData [] := fun _ h => absurd h (List.not_mem_nil _)

theorem allData_cons (bs : Str) (r : List RdEv) (hbs : bs ≠ []) (h : AllData r) :
    AllData (RdEv.data bs :: r) := by
  intro x hx
  rcases List.mem_cons.mp hx with h1 | h1
  · exact ⟨bs, h1, hbs⟩
  · exact h x h1
theorem http_getc_fill_data (fuel : Nat) (s : HTTPContext) (w : World) (id : Nat) (l : Link)
    (bs : Str) (r : List RdEv) (t : Int) (hl : w.links.get? id = some l)
    (hrd : l.rd = RdEv.data bs :: r) (hbs : bs ≠ []) (hcalm : Calm w) :
    ∃ w2 : World, http_getc_fill (fuel + 1) s w id t
        = some (none, { s with buf := bs.take (min BUFFER_SIZE bs.length) }, w2) ∧
      w2.links = (setLink w id { l with rd := (if bs.drop (min BUFFER_SIZE bs.length) = [] then r
        else RdEv.data (bs.drop (min BUFFER_SIZE bs.length)) :: r) }).links ∧
      w2.intr = w.intr ∧ w2.clock = w.clock := by
  have hn : 0 < min BUFFER_SIZE bs.length := by
    have := List.length_pos.mpr hbs
    simp [BUFFER_SIZE]
    omega
  have hread := ffurl_read_data w id l bs r (BUFFER_SIZE : Nat) hl hrd
  rw [Int.toNat_ofNat] at hread
  have h3 : ((min BUFFER_SIZE bs.length : Nat) : Int) > 0 := by exact_mod_cast hn
  have h1 : ¬ (((min BUFFER_SIZE bs.length : Nat) : Int) < 0 ∧
      ((min BUFFER_SIZE bs.length : Nat) : Int) ≠ AVERROR EAGAIN) := fun h => by omega
  have h2 : ¬ ((min BUFFER_SIZE bs.length : Nat) : Int) = 0 := by omega
  have h4 : ¬ ((min BUFFER_SIZE bs.length : Nat) : Int) = AVERROR EAGAIN := by
    simp only [AVERROR, EAGAIN]
    omega
  have h5 : ∀ w1 : World, w1.clock = w.clock →
      ¬ ((av_gettime (av_gettime w1).2).1 > (av_gettime w1).1 + 1000 * 10000) := by
    intro w1 hc
    unfold av_gettime
    simp only [hc]
    have := hcalm.2 w1.ticks
    omega
  rw [http_getc_fill]
  simp only [hread, if_neg h1, if_neg h2, if_pos h3, if_neg h4]
  rw [if_neg (h5 (setLink w id _) (Eq.refl _))]
  exact ⟨_, Eq.refl _, Eq.refl _, Eq.refl _, Eq.refl _⟩
theorem calm_of_eq {w w2 : World} (h : Calm w) (hi : w2.intr = w.intr) (hc : w2.clock = w.clock) :
    Calm w2 := by
  unfold Calm
  rw [hi, hc]
  exact h

theorem http_getc_feeds (fuel : Nat) (s : HTTPContext) (w : World) (c : Nat) (rest : Str)
    (hf : Feeds s w (c :: rest)) (hcalm : Calm w) (hfuel : 1 ≤ fuel) :
    ∃ (s2 : HTTPContext) (w2 : World), http_getc fuel s w = some ((c : Int), s2, w2) ∧
      Feeds s2 w2 rest ∧ Calm w2 := by
  obtain ⟨id, l, hhd, hl, had, hrest⟩ := hf
  obtain ⟨f, hfu⟩ : ∃ f, fuel = f + 1 := ⟨fuel - 1, by omega⟩
  unfold http_getc
  simp only [hhd]
  cases hb : s.buf with
  | cons c1 r1 =>
    rw [hb] at hrest
    simp only [List.cons_append, List.cons.injEq] at hrest
    simp only
    rw [hrest.1]
    exact ⟨_, _, Eq.refl _, ⟨id, l, Eq.refl _, hl, had, hrest.2⟩,
      calm_of_eq hcalm (Eq.refl _) (Eq.refl _)⟩
  | nil =>
    rw [hb] at hrest
    simp only [List.nil_append] at hrest
    obtain ⟨bs, r, hrd⟩ := pendingBytes_cons_of_allData l.rd c rest had hrest
    obtain ⟨k, hk⟩ : ∃ k, min BUFFER_SIZE (c :: bs).length = k + 1 :=
      ⟨min BUFFER_SIZE (c :: bs).length - 1, by simp [BUFFER_SIZE]⟩
    obtain ⟨w2, hfill, hlinks, hintr, hclock⟩ := http_getc_fill_data f s (av_gettime w).2 id l
      (c :: bs) r (av_gettime w).1 hl hrd (List.cons_ne_nil _ _)
      (calm_of_eq hcalm (Eq.refl _) (Eq.refl _))
    rw [hk] at hfill hlinks
    simp only [List.take_succ_cons, List.drop_succ_cons] at hfill hlinks
    simp only
    rw [hfu, hfill]
    simp only
    have had2 := allData_after_read (c :: bs) r (k + 1) (by rw [← hrd]; exact had)
    simp only [List.drop_succ_cons] at had2
    refine ⟨_, _, Eq.refl _, ⟨id, { l with rd := (if bs.drop k = [] then r
      else RdEv.data (bs.drop k) :: r) }, hhd, ?_, had2.1, ?_⟩, calm_of_eq hcalm hintr hclock⟩
    · rw [hlinks]
      exact setLink_get _ _ _ _ hl
    · show bs.take k ++ pendingBytes (if bs.drop k = [] then r
        else RdEv.data (bs.drop k) :: r) = rest
      rw [had2.2, ← List.append_assoc, List.take_append_drop]
      rw [hrd] at hrest
      simp only [pendingBytes, List.cons_append, List.cons.injEq] at hrest
      exact hrest.2
theorem http_get_line_loop_feeds : ∀ (line : Str) (n fuel : Nat) (s : HTTPContext) (w : World)
    (line_size : Nat) (q rest : Str),
    Feeds s w (line ++ 13 :: 10 :: rest) → Calm w → 1 ≤ fuel → line.length + 2 ≤ n →
    (∀ c ∈ line, c ≠ 10) → q.length + line.length + 1 < line_size →
    ∃ (s2 : HTTPContext) (w2 : World),
      http_get_line_loop n fuel s w line_size q = some (0, q ++ line, s2, w2) ∧
      Feeds s2 w2 rest ∧ Calm w2 := by
  intro line
  induction line with
  | nil =>
    intro n fuel s w line_size q rest hf hcalm hfuel hn _ hq
    obtain ⟨m, hm⟩ : ∃ m, n = m + 1 + 1 := ⟨n - 2, by simp at hn; omega⟩
    obtain ⟨s1, w1, hg1, hf1, hc1⟩ := http_getc_feeds fuel s w 13 (10 :: rest) hf hcalm hfuel
    obtain ⟨s2, w2, hg2, hf2, hc2⟩ := http_getc_feeds fuel s1 w1 10 rest hf1 hc1 hfuel
    refine ⟨s2, w2, ?_, hf2, hc2⟩
    rw [hm, http_get_line_loop, hg1]
    simp only [List.length_nil, Nat.add_zero] at hq
    simp only [Nat.cast_ofNat, if_pos hq]
    rw [if_neg (by decide), if_neg (by decide), http_get_line_loop, hg2]
    simp
  | cons c line ih =>
    intro n fuel s w line_size q rest hf hcalm hfuel hn hline hq
    obtain ⟨m, hm⟩ : ∃ m, n = m + 1 := ⟨n - 1, by simp at hn; omega⟩
    obtain ⟨s1, w1, hg1, hf1, hc1⟩ := http_getc_feeds fuel s w c (line ++ 13 :: 10 :: rest) hf
      hcalm hfuel
    have hc10 : c ≠ 10 := hline c (List.mem_cons_self _ _)
    simp only [List.length_cons] at hq hn
    obtain ⟨s2, w2, hg2, hf2, hc2⟩ := ih m fuel s1 w1 line_size (q ++ [c]) rest hf1 hc1 hfuel
      (by omega) (fun x hx => hline x (List.mem_cons_of_mem _ hx))
      (by simp only [List.length_append, List.length_singleton]; omega)
    refine ⟨s2, w2, ?_, hf2, hc2⟩
    rw [hm, http_get_line_loop, hg1]
    simp only
    rw [if_neg (by omega), if_neg (by omega), if_pos (by omega)]
    rw [Int.toNat_ofNat, hg2]
    simp
theorem http_get_line_feeds (line : Str) (fuel : Nat) (s : HTTPContext) (w : World)
    (line_size : Nat) (rest : Str)
    (hf : Feeds s w (line ++ 13 :: 10 :: rest)) (hcalm : Calm w) (hfuel : line.length + 2 ≤ fuel)
    (hline : ∀ c ∈ line, c ≠ 10) (hq : line.length + 1 < line_size) :
    ∃ (s2 : HTTPContext) (w2 : World),
      http_get_line fuel s w line_size = some (0, line, s2, w2) ∧
      Feeds s2 w2 rest ∧ Calm w2 ∧ BufOnly s s2 := by
  obtain ⟨s2, w2, h, hf2, hc2⟩ := http_get_line_loop_feeds line fuel fuel s w line_size [] rest
    hf hcalm (by omega) hfuel hline (by simpa using hq)
  rw [List.nil_append] at h
  exact ⟨s2, w2, h, hf2, hc2, http_get_line_frame _ _ _ _ _ _ _ _ h⟩

theorem http_read_chunk_line_feeds (pre line rest : Str) (n fuel : Nat) (s : HTTPContext)
    (w : World) (hpre : pre = [] ∨ pre = str_crlf)
    (hf : Feeds s w (pre ++ (line ++ 13 :: 10 :: rest))) (hcalm : Calm w)
    (hfuel : line.length + 2 ≤ fuel) (hn : 2 ≤ n)
    (hline : ∀ c ∈ line, c ≠ 10 ∧ c ≠ 0) (hne : line ≠ []) (hlen : line.length + 1 < 32) :
    ∃ (s2 : HTTPContext) (w2 : World),
      http_read_chunk_line n fuel s w = some (0, line, s2, w2) ∧
      Feeds s2 w2 rest ∧ Calm w2 ∧ BufOnly s s2 := by
  have hcstr : cstr line ≠ [] := by
    rw [cstr_of_nonzero line (fun c hc => (hline c hc).2)]
    exact hne
  have last : ∀ (k : Nat) (s1 : HTTPContext) (w1 : World),
      Feeds s1 w1 (line ++ 13 :: 10 :: rest) → Calm w1 →
      ∃ (s2 : HTTPContext) (w2 : World),
        http_read_chunk_line (k + 1) fuel s1 w1 = some (0, line, s2, w2) ∧
        Feeds s2 w2 rest ∧ Calm w2 ∧ BufOnly s1 s2 := by
    intro k s1 w1 hf1 hc1
    obtain ⟨s2, w2, h, hf2, hc2, hb2⟩ := http_get_line_feeds line fuel s1 w1 32 rest hf1 hc1
      hfuel (fun c hc => (hline c hc).1) hlen
    refine ⟨s2, w2, ?_, hf2, hc2, hb2⟩
    rw [http_read_chunk_line, h]
    simp only [lt_self_iff_false, if_false, if_neg hcstr]
  obtain ⟨m, hm⟩ : ∃ m, n = m + 1 + 1 := ⟨n - 2, by omega⟩
  rcases hpre with hp | hp
  · rw [hp, List.nil_append] at hf
    rw [hm]
    exact last _ s w hf hcalm
  · rw [hp] at hf
    obtain ⟨s1, w1, h, hf1, hc1, hb1⟩ := http_get_line_feeds [] fuel s w 32
      (line ++ 13 :: 10 :: rest) hf hcalm (by simp; omega) (fun c hc => absurd hc (List.not_mem_nil _))
      (by simp)
    obtain ⟨s2, w2, h2, hf2, hc2, hb2⟩ := last m s1 w1 hf1 hc1
    refine ⟨s2, w2, ?_, hf2, hc2, bufOnly_trans hb1 hb2⟩
    rw [hm, http_read_chunk_line, h]
    simp only [lt_self_iff_false, if_false]
    rw [if_pos (by rfl), h2]
theorem http_read_chunk_head (pre rest : Str) (m : Nat) (fuel : Nat) (s : HTTPContext)
    (w : World) (size : Int) (hpre : pre = [] ∨ pre = str_crlf)
    (hf : Feeds s w (pre ++ (hexDigits m ++ 13 :: 10 :: rest))) (hcalm : Calm w)
    (hc : s.chunksize = 0) (hm : m < 2 ^ 31) (hfuel : 10 ≤ fuel) :
    ∃ (s2 : HTTPContext) (w2 : World),
      http_read_chunk fuel s w size
        = some (if m = 0 then some 0 else none, { s2 with chunksize := m }, w2,
            if m = 0 then size else wrap32 (min size m)) ∧
      Feeds s2 w2 rest ∧ Calm w2 ∧ BufOnly s s2 := by
  have hlen := hexDigits_length m (by omega)
  obtain ⟨s2, w2, h, hf2, hc2, hb2⟩ := http_read_chunk_line_feeds pre (hexDigits m) rest fuel fuel
    s w hpre hf hcalm (by omega) (by omega)
    (fun c hc => by have := hexDigits_chars m c hc; omega) (hexDigits_ne_nil m) (by omega)
  refine ⟨s2, w2, ?_, hf2, hc2, hb2⟩
  unfold http_read_chunk
  rw [if_pos (by omega), if_pos hc, h]
  simp only [lt_self_iff_false, if_false, strtoll16_hexDigits m (by omega)]
  by_cases c : m = 0
  · simp [c]
  · simp [c]

theorem http_read_fetch_feeds (s : HTTPContext) (w : World) (d rest : Str) (size : Int)
    (hf : Feeds s w (d ++ rest)) (hcalm : Calm w) (hs : 0 < size) (hsz : size ≤ d.length)
    (hfs : s.filesize < 0) :
    ∃ (k : Nat) (s2 : HTTPContext) (w2 : World),
      http_read_fetch s w size = Fetch.got (k : Int) (d.take k) s2 w2 ∧ 0 < k ∧ k ≤ d.length ∧
      Feeds s2 w2 (d.drop k ++ rest) ∧ Calm w2 ∧ BufOnly s s2 := by
  obtain ⟨id, l, hhd, hl, had, hrest⟩ := hf
  unfold http_read_fetch
  by_cases cb : s.buf.length > 0
  · rw [if_pos cb]
    obtain ⟨k, hk⟩ : ∃ k : Nat, min (s.buf.length : Int) size = k :=
      ⟨(min (s.buf.length : Int) size).toNat, by omega⟩
    have hk1 : 0 < k := by omega
    have hk2 : k ≤ s.buf.length := by omega
    have hk3 : k ≤ d.length := by omega
    have htake : s.buf.take k = d.take k := by
      have h1 : (s.buf ++ pendingBytes l.rd).take k = s.buf.take k :=
        List.take_append_of_le_length hk2
      have h2 : (d ++ rest).take k = d.take k := List.take_append_of_le_length hk3
      rw [← h1, hrest, h2]
    have hdrop : s.buf.drop k ++ pendingBytes l.rd = d.drop k ++ rest := by
      have h1 : (s.buf ++ pendingBytes l.rd).drop k = s.buf.drop k ++ pendingBytes l.rd :=
        List.drop_append_of_le_length hk2
      have h2 : (d ++ rest).drop k = d.drop k ++ rest := List.drop_append_of_le_length hk3
      rw [← h1, hrest, h2]
    simp only [hk, Int.toNat_ofNat, htake]
    exact ⟨k, _, _, Eq.refl _, hk1, hk3, ⟨id, l, hhd, hl, had, hdrop⟩, hcalm, bufOnly_set _ _⟩
  · rw [if_neg cb, if_neg (by omega)]
    simp only [hhd]
    have hbuf : s.buf = [] := List.length_eq_zero.mp (by omega)
    rw [hbuf, List.nil_append] at hrest
    obtain ⟨c, d1, hd1⟩ : ∃ c d1, d = c :: d1 := by
      cases d with
      | nil => simp at hsz; omega
      | cons c d1 => exact ⟨c, d1, Eq.refl _⟩
    obtain ⟨bs, r, hrd⟩ := pendingBytes_cons_of_allData l.rd c (d1 ++ rest) had
      (by rw [hrest, hd1]; rfl)
    rw [ffurl_read_data w id l (c :: bs) r size hl hrd]
    simp only
    have had2 := allData_after_read (c :: bs) r (min size.toNat (c :: bs).length)
      (by rw [← hrd]; exact had)
    have hk1 : 0 < min size.toNat (c :: bs).length := by
      simp only [List.length_cons]
      omega
    have hk3 : min size.toNat (c :: bs).length ≤ d.length := by omega
    have hk2 : min size.toNat (c :: bs).length ≤ (c :: bs).length := min_le_right _ _
    have hpend : pendingBytes l.rd = (c :: bs) ++ pendingBytes r := by rw [hrd]; rfl
    have htake : (c :: bs).take (min size.toNat (c :: bs).length)
        = d.take (min size.toNat (c :: bs).length) := by
      have h1 : ((c :: bs) ++ pendingBytes r).take (min size.toNat (c :: bs).length)
          = (c :: bs).take (min size.toNat (c :: bs).length) :=
        List.take_append_of_le_length hk2
      have h2 : (d ++ rest).take (min size.toNat (c :: bs).length)
          = d.take (min size.toNat (c :: bs).length) := List.take_append_of_le_length hk3
      rw [← h1, ← hpend, hrest, h2]
    have hdrop : (c :: bs).drop (min size.toNat (c :: bs).length) ++ pendingBytes r
        = d.drop (min size.toNat (c :: bs).length) ++ rest := by
      have h1 : ((c :: bs) ++ pendingBytes r).drop (min size.toNat (c :: bs).length)
          = (c :: bs).drop (min size.toNat (c :: bs).length) ++ pendingBytes r :=
        List.drop_append_of_le_length hk2
      have h2 : (d ++ rest).drop (min size.toNat (c :: bs).length)
          = d.drop (min size.toNat (c :: bs).length) ++ rest :=
        List.drop_append_of_le_length hk3
      rw [← h1, ← hpend, hrest, h2]
    rw [htake]
    refine ⟨_, _, _, Eq.refl _, hk1, hk3, ⟨id, _, hhd, setLink_get _ _ _ _ hl, had2.1, ?_⟩,
      calm_of_eq hcalm (Eq.refl _) (Eq.refl _), bufOnly_refl _⟩
    rw [hbuf, List.nil_append]
    exact had2.2.trans hdrop
theorem http_read_account_pos (e : Env) (s : HTTPContext) (w : World) (len : Int)
    (hlen : 0 < len) (hskip : s.do_readseek_size ≤ 0) :
    http_read_account e s w len = (len,
      { s with off := s.off + len,
               chunksize := if s.chunksize > 0 then s.chunksize - len else s.chunksize,
               latest_get_time_ms := 0 }, w) := by
  have c2 : len ≠ AVERROR EAGAIN := by simp [AVERROR, EAGAIN]; omega
  unfold http_read_account
  simp only [gt_iff_lt, hlen, if_true, if_pos hskip, c2, false_and, if_false]
  rw [if_neg (by omega)]

theorem http_read_loop_got (n : Nat) (e : Env) (fuel : Nat) (s : HTTPContext) (w : World)
    (size err : Int) (s1 : HTTPContext) (w1 : World) (size1 : Int) (d rest : Str)
    (hcalm : Calm w)
    (hchunk : http_read_chunk fuel s (url_interrupt_cb w).2 size = some (none, s1, w1, size1))
    (hs1 : 0 < size1) (hs2 : size1 ≤ d.length) (hc : s1.chunksize = d.length)
    (hf : Feeds s1 w1 (d ++ rest)) (hcalm1 : Calm w1) (hfs : s1.filesize < 0)
    (hskip : s1.do_readseek_size ≤ 0) :
    ∃ (k : Nat) (s2 : HTTPContext) (w2 : World),
      http_read_loop (n + 1) e fuel s w size err = some ((k : Int), d.take k, s2, w2) ∧
      0 < k ∧ k ≤ d.length ∧ Feeds s2 w2 (d.drop k ++ rest) ∧ Calm w2 ∧
      s2.chunksize = (d.drop k).length ∧ s2.filesize = s1.filesize ∧
      s2.do_readseek_size = s1.do_readseek_size := by
  obtain ⟨k, s2, w2, hfetch, hk1, hk2, hf2, hc2, hb2⟩ :=
    http_read_fetch_feeds s1 w1 d rest size1 hf hcalm1 hs1 hs2 hfs
  have hskip2 : s2.do_readseek_size ≤ 0 := by rw [hb2]; exact hskip
  have hacc := http_read_account_pos e s2 w2 k (by omega) hskip2
  have hi : (url_interrupt_cb w).1 = false := hcalm.1 w.polls
  have hchunk2 : s2.chunksize = d.length := by rw [hb2]; exact hc
  refine ⟨k, { s2 with off := s2.off + k,
                       chunksize := if s2.chunksize > 0 then s2.chunksize - k else s2.chunksize,
                       latest_get_time_ms := 0 }, w2, ?_, hk1, hk2, ?_, hc2, ?_, ?_, ?_⟩
  · rw [http_read_loop]
    simp only [hi, Bool.false_eq_true, if_false, hchunk, hfetch, hacc]
    have hkp : (k : Int) > 0 := by omega
    rw [if_neg (by omega), if_neg (by omega), if_neg (by omega)]
    simp only [hkp, if_true]
  · obtain ⟨id, l, h1, h2, h3, h4⟩ := hf2
    exact ⟨id, l, h1, h2, h3, h4⟩
  · show (if s2.chunksize > 0 then s2.chunksize - k else s2.chunksize) = ((d.drop k).length : Int)
    rw [hchunk2, List.length_drop]
    split_ifs <;> omega
  · show s2.filesize = s1.filesize
    rw [hb2]
  · show s2.do_readseek_size = s1.do_readseek_size
    rw [hb2]
theorem feeds_of_eq {s s2 : HTTPContext} {w w2 : World} {rest : Str} (h : Feeds s w rest)
    (hhd : s2.hd = s.hd) (hbuf : s2.buf = s.buf) (hl : w2.links = w.links) : Feeds s2 w2 rest := by
  obtain ⟨id, l, h1, h2, h3, h4⟩ := h
  exact ⟨id, l, by rw [hhd, h1], by rw [hl, h2], h3, by rw [hbuf, h4]⟩

theorem http_read_decoding_data (e : Env) (fuel : Nat) (s : HTTPContext) (w : World)
    (size : Int) (d : Str) (bs : List Str) (h : Decoding s w d bs) (hd : d ≠ [])
    (hsize : 0 < size) (hfuel : 1 ≤ fuel) :
    ∃ (k : Nat) (s2 : HTTPContext) (w2 : World),
      http_read e fuel s w size = some ((k : Int), d.take k, s2, w2) ∧ 0 < k ∧ k ≤ d.length ∧
      Decoding s2 w2 (d.drop k) bs := by
  obtain ⟨pre, hpre, hf⟩ := h.feeds
  obtain ⟨n, hn⟩ : ∃ n, fuel = n + 1 := ⟨fuel - 1, by omega⟩
  have hlen := List.length_pos.mpr hd
  have hshort := h.short
  have hchunk : http_read_chunk fuel s (url_interrupt_cb w).2 size
      = some (none, s, (url_interrupt_cb w).2, min size d.length) := by
    unfold http_read_chunk
    rw [if_pos (by rw [h.chunk]; omega), if_neg (by rw [h.chunk]; omega), h.chunk]
    have : wrap32 (min size (d.length : Int)) = min size (d.length : Int) := by
      unfold wrap32
      omega
    rw [this]
  obtain ⟨k, s2, w2, hloop, hk1, hk2, hf2, hc2, hch2, hfs2, hsk2⟩ :=
    http_read_loop_got n e fuel s w size e.config_rettry s (url_interrupt_cb w).2
      (min size d.length) d (pre ++ chunk_stream bs) h.calm hchunk (by omega) (min_le_right _ _)
      h.chunk (feeds_of_eq hf (Eq.refl _) (Eq.refl _) (Eq.refl _))
      (calm_of_eq h.calm (Eq.refl _) (Eq.refl _)) h.nosize h.skip
  refine ⟨k, s2, w2, ?_, hk1, hk2, ⟨hch2, by rw [hfs2]; exact h.nosize,
    by rw [hsk2]; exact h.skip, hc2, by rw [List.length_drop]; omega, h.blocks,
    ⟨pre, hpre, hf2⟩⟩⟩
  unfold http_read
  rw [if_neg (fun hh => by have := h.nosize; omega)]
  conv => lhs; arg 1; rw [hn]
  exact hloop
theorem http_read_decoding_head (e : Env) (fuel : Nat) (s : HTTPContext) (w : World)
    (size : Int) (b : Str) (bs : List Str) (h : Decoding s w [] (b :: bs))
    (hsize : 0 < size) (hfuel : 10 ≤ fuel) :
    ∃ (k : Nat) (s2 : HTTPContext) (w2 : World),
      http_read e fuel s w size = some ((k : Int), b.take k, s2, w2) ∧ 0 < k ∧ k ≤ b.length ∧
      Decoding s2 w2 (b.drop k) bs := by
  obtain ⟨pre, hpre, hf⟩ := h.feeds
  obtain ⟨n, hn⟩ : ∃ n, fuel = n + 1 := ⟨fuel - 1, by omega⟩
  obtain ⟨hb1, hb2⟩ := h.blocks b (List.mem_cons_self _ _)
  have hlen := List.length_pos.mpr hb1
  have hstream : [] ++ (pre ++ chunk_stream (b :: bs))
      = pre ++ (hexDigits b.length ++ 13 :: 10 :: (b ++ (str_crlf ++ chunk_stream bs))) := by
    simp [chunk_stream, str_crlf, List.append_assoc]
  rw [hstream] at hf
  obtain ⟨s1, w1, hchunk, hf1, hc1, hbuf1⟩ := http_read_chunk_head pre
    (b ++ (str_crlf ++ chunk_stream bs)) b.length fuel s (url_interrupt_cb w).2 size hpre
    (feeds_of_eq hf (Eq.refl _) (Eq.refl _) (Eq.refl _))
    (calm_of_eq h.calm (Eq.refl _) (Eq.refl _))
    (by rw [h.chunk]; rfl) hb2 hfuel
  rw [if_neg (by omega), if_neg (by omega)] at hchunk
  have hw : wrap32 (min size (b.length : Int)) = min size (b.length : Int) := by
    unfold wrap32
    omega
  rw [hw] at hchunk
  have hfs1 : s1.filesize < 0 := by rw [hbuf1]; exact h.nosize
  have hsk1 : s1.do_readseek_size ≤ 0 := by rw [hbuf1]; exact h.skip
  obtain ⟨k, s2, w2, hloop, hk1, hk2, hf2, hc2, hch2, hfs2, hsk2⟩ :=
    http_read_loop_got n e fuel s w size e.config_rettry { s1 with chunksize := b.length } w1
      (min size b.length) b (str_crlf ++ chunk_stream bs) h.calm hchunk (by omega)
      (min_le_right _ _) (Eq.refl _) (feeds_of_eq hf1 (Eq.refl _) (Eq.refl _) (Eq.refl _))
      hc1 hfs1 hsk1
  refine ⟨k, s2, w2, ?_, hk1, hk2, ⟨hch2, by rw [hfs2]; exact hfs1,
    by rw [hsk2]; exact hsk1, hc2, by rw [List.length_drop]; omega,
    fun x hx => h.blocks x (List.mem_cons_of_mem _ hx), ⟨str_crlf, Or.inr (Eq.refl _), hf2⟩⟩⟩
  unfold http_read
  rw [if_neg (fun hh => by have := h.nosize; omega)]
  conv => lhs; arg 1; rw [hn]
  exact hloop

theorem http_read_decoding_end (e : Env) (fuel : Nat) (s : HTTPContext) (w : World)
    (size : Int) (h : Decoding s w [] []) (hfuel : 10 ≤ fuel) :
    ∃ (s2 : HTTPContext) (w2 : World), http_read e fuel s w size = some (0, [], s2, w2) := by
  obtain ⟨pre, hpre, hf⟩ := h.feeds
  obtain ⟨n, hn⟩ : ∃ n, fuel = n + 1 := ⟨fuel - 1, by omega⟩
  have hstream : [] ++ (pre ++ chunk_stream []) = pre ++ (hexDigits 0 ++ 13 :: 10 :: [13, 10]) := by
    simp only [chunk_stream, List.nil_append]
    rfl
  rw [hstream] at hf
  obtain ⟨s1, w1, hchunk, _, _, _⟩ := http_read_chunk_head pre [13, 10] 0 fuel s
    (url_interrupt_cb w).2 size hpre (feeds_of_eq hf (Eq.refl _) (Eq.refl _) (Eq.refl _))
    (calm_of_eq h.calm (Eq.refl _) (Eq.refl _)) (by rw [h.chunk]; rfl) (by norm_num) hfuel
  rw [if_pos (Eq.refl _), if_pos (Eq.refl _)] at hchunk
  have hi : (url_interrupt_cb w).1 = false := h.calm.1 w.polls
  refine ⟨{ s1 with chunksize := ((0 : Nat) : Int) }, w1, ?_⟩
  unfold http_read
  rw [if_neg (fun hh => by have := h.nosize; omega)]
  conv => lhs; arg 1; rw [hn]
  rw [http_read_loop]
  simp only [hi, Bool.false_eq_true, if_false, hchunk]
theorem http_read_all_decoding : ∀ (n : Nat) (e : Env) (fuel : Nat) (s : HTTPContext)
    (w : World) (size : Nat → Int) (d : Str) (bs : List Str),
    Decoding s w d bs → (∀ k, 0 < size k) → 10 ≤ fuel → d.length + bs.flatten.length < n →
    ∃ (s2 : HTTPContext) (w2 : World),
      http_read_all n e fuel s w size = some (0, d ++ bs.flatten, s2, w2) := by
  intro n
  induction n with
  | zero => intro e fuel s w size d bs _ _ _ hn; omega
  | succ n ih =>
    intro e fuel s w size d bs h hsize hfuel hn
    have next : ∀ (k : Nat) (s1 : HTTPContext) (w1 : World) (d1 : Str) (bs1 : List Str)
        (bytes : Str), http_read e fuel s w (size 0) = some ((k : Int), bytes, s1, w1) →
        0 < k → Decoding s1 w1 d1 bs1 → d1.length + bs1.flatten.length < n →
        bytes ++ (d1 ++ bs1.flatten) = d ++ bs.flatten →
        ∃ (s2 : HTTPContext) (w2 : World),
          http_read_all (n + 1) e fuel s w size = some (0, d ++ bs.flatten, s2, w2) := by
      intro k s1 w1 d1 bs1 bytes hr hk hd1 hm hcat
      obtain ⟨s2, w2, hall⟩ := ih e fuel s1 w1 (fun k => size (k + 1)) d1 bs1 hd1
        (fun k => hsize (k + 1)) hfuel hm
      refine ⟨s2, w2, ?_⟩
      rw [http_read_all, hr]
      simp only
      rw [if_pos (by omega), hall]
      simp only [hcat]
    cases d with
    | cons c d1 =>
      obtain ⟨k, s1, w1, hr, hk1, hk2, hd1⟩ := http_read_decoding_data e fuel s w (size 0)
        (c :: d1) bs h (List.cons_ne_nil _ _) (hsize 0) (by omega)
      refine next k s1 w1 _ bs _ hr hk1 hd1 ?_ ?_
      · rw [List.length_drop]
        omega
      · rw [← List.append_assoc, List.take_append_drop]
    | nil =>
      cases bs with
      | nil =>
        obtain ⟨s2, w2, hr⟩ := http_read_decoding_end e fuel s w (size 0) h hfuel
        refine ⟨s2, w2, ?_⟩
        rw [http_read_all, hr]
        simp
      | cons b bs1 =>
        obtain ⟨k, s1, w1, hr, hk1, hk2, hd1⟩ := http_read_decoding_head e fuel s w (size 0)
          b bs1 h (hsize 0) hfuel
        refine next k s1 w1 _ bs1 _ hr hk1 hd1 ?_ ?_
        · rw [List.length_drop]
          simp only [List.flatten_cons, List.length_append, List.length_nil, Nat.zero_add] at hn
          omega
        · rw [← List.append_assoc, List.take_append_drop]
          simp

theorem http_open_cnx_fail_max (s : HTTPContext) (w : World) :
    (passSession (http_open_cnx_fail s w)).max_connects = s.max_connects := by
  unfold http_open_cnx_fail passSession
  simp only
  split_ifs <;> simp only [http_close_and_keep_session]

theorem http_open_cnx_decide_max (s : HTTPContext) (w : World) (ret cur lc rd : Int) :
    (passSession (http_open_cnx_decide s w ret cur lc rd)).max_connects = s.max_connects := by
  unfold http_open_cnx_decide
  simp only
  split_ifs <;>
    first
      | exact http_open_cnx_fail_max s w
      | (simp only [passSession, http_close_and_keep_session])

theorem http_open_cnx_link_max (e : Env) (s : HTTPContext) (w : World) (o : PassOut)
    (s1 : HTTPContext) (w1 : World) (h : http_open_cnx_link e s w = (some o, s1, w1)) :
    (passSession o).max_connects = s.max_connects := by
  unfold http_open_cnx_link at h
  simp only at h
  split_ifs at h
  · simp only [Prod.mk.injEq, Option.some.injEq] at h
    rw [← h.1]
    rfl
  · split at h
    · simp at h
    · split at h
      · simp only [Prod.mk.injEq, Option.some.injEq] at h
        rw [← h.1, http_open_cnx_fail_max]
        split <;> rfl
      · simp at h

theorem http_open_cnx_pass_max (e : Env) (fuel : Nat) (s : HTTPContext) (w : World)
    (lc rd : Int) (out : PassOut) (h : http_open_cnx_pass e fuel s w lc rd = some out) :
    (passSession out).max_connects = s.max_connects := by
  unfold http_open_cnx_pass at h
  split at h
  · rename_i o s1 w1 hl
    simp only [Option.some.injEq] at h
    rw [← h]
    exact http_open_cnx_link_max e s w o s1 w1 hl
  · rename_i s1 w1 hl
    simp only at h
    split at h
    · simp at h
    · rename_i ret s2 w2 lc2 hc
      simp only [Option.some.injEq] at h
      rw [← h, http_open_cnx_decide_max, (http_connect_keeps _ _ _ _ _ _ _ _ _ _ _ _ hc).max_connects]
      exact (http_open_cnx_link_keeps e s w s1 w1 hl).2.2.2.2.1

theorem http_open_cnx_loop_max : ∀ (n : Nat) (e : Env) (fuel : Nat) (s : HTTPContext) (w : World)
    (lc rd r : Int) (s2 : HTTPContext) (w2 : World),
    http_open_cnx_loop n e fuel s w lc rd = some (r, s2, w2) →
    s2.max_connects = s.max_connects := by
  intro n
  induction n with
  | zero => intro e fuel s w lc rd r s2 w2 h; simp [http_open_cnx_loop] at h
  | succ n ih =>
    intro e fuel s w lc rd r s2 w2 h
    rw [http_open_cnx_loop] at h
    cases hp : http_open_cnx_pass e fuel s w lc rd with
    | none => rw [hp] at h; simp at h
    | some out =>
      have hm := http_open_cnx_pass_max e fuel s w lc rd out hp
      rw [hp] at h
      cases out with
      | done ret s1 w1 =>
        simp only [Option.some.injEq, Prod.mk.injEq] at h
        rw [← h.2.1]
        exact hm
      | redo why s1 w1 lc1 rd1 =>
        simp only at h
        rw [ih _ _ _ _ _ _ _ _ _ h]
        exact hm

theorem http_open_cnx_max (e : Env) (fuel : Nat) (s : HTTPContext) (w : World) (r : Int)
    (s2 : HTTPContext) (w2 : World) (h : http_open_cnx e fuel s w = some (r, s2, w2)) :
    s2.max_connects = s.max_connects := by
  unfold http_open_cnx at h
  exact http_open_cnx_loop_max _ _ _ { s with latest_get_time_ms := 0 } _ _ _ _ _ _ h

theorem http_open_retry_calls_length : ∀ (n : Nat) (e : Env) (fuel : Nat) (s : HTTPContext)
    (w : World) (ret k : Int),
    ((http_open_retry_calls n e fuel s w ret k).length : Int)
      ≤ max 0 (e.config_rettry - (k + 1)) := by
  intro n
  induction n with
  | zero =>
    intro e fuel s w ret k
    simp [http_open_retry_calls]
  | succ n ih =>
    intro e fuel s w ret k
    rw [http_open_retry_calls]
    simp only
    by_cases c1 : ret < 0
    · rw [if_pos c1]
      by_cases c2 : k + 1 < e.config_rettry
      · rw [if_pos c2]
        by_cases c3 : (!(url_interrupt_cb w).1) = true ∧
            (s.http_code ≠ 404 ∨ s.http_code ≠ 503 ∨ s.http_code ≠ 500)
        · rw [if_pos c3]
          cases ho : http_open_cnx e fuel { s with is_seek := 0, canseek := 0 }
              (url_interrupt_cb w).2 with
          | none =>
            simp only [List.length_cons, List.length_nil]
            omega
          | some p =>
            obtain ⟨r, s1, w1⟩ := p
            simp only [List.length_cons]
            have := ih e fuel s1 w1 r (k + 1)
            omega
        · rw [if_neg c3]
          simp
      · rw [if_neg c2]
        simp
    · rw [if_neg c1]
      simp

theorem http_open_retry_calls_flags : ∀ (n : Nat) (e : Env) (fuel : Nat) (s : HTTPContext)
    (w : World) (ret k : Int),
    ∀ c ∈ http_open_retry_calls n e fuel s w ret k, c.is_seek = 0 ∧ c.canseek = 0 := by
  intro n
  induction n with
  | zero =>
    intro e fuel s w ret k c hc
    simp [http_open_retry_calls] at hc
  | succ n ih =>
    intro e fuel s w ret k c hc
    rw [http_open_retry_calls] at hc
    simp only at hc
    split_ifs at hc
    · rcases List.mem_cons.mp hc with h | h
      · rw [h]
        exact ⟨Eq.refl _, Eq.refl _⟩
      · cases ho : http_open_cnx e fuel { s with is_seek := 0, canseek := 0 }
            (url_interrupt_cb w).2 with
        | none =>
          rw [ho] at h
          simp at h
        | some p =>
          obtain ⟨r, s1, w1⟩ := p
          rw [ho] at h
          exact ih e fuel s1 w1 r (k + 1) c h
    · simp at hc
    · simp at hc
    · simp at hc

theorem http_read_loop_pass (n : Nat) (e : Env) (fuel : Nat) (s : HTTPContext) (w : World)
    (size err : Int) :
    http_read_loop (n + 1) e fuel s w size err
      = http_read_next e fuel err (http_read_loop n e fuel) (http_read_pass e fuel s w size err) := by
  rw [http_read_loop]
  unfold http_read_pass
  simp only
  by_cases ci : (url_interrupt_cb w).1 = true
  · rw [if_pos ci, if_pos ci]
    rfl
  · rw [if_neg ci, if_neg ci]
    cases hch : http_read_chunk fuel s (url_interrupt_cb w).2 size with
    | none => rfl
    | some p =>
      obtain ⟨ro, s1, w1, size1⟩ := p
      cases ro with
      | some r0 => rfl
      | none =>
        simp only
        cases hf : http_read_fetch s1 w1 size1 with
        | eof => rfl
        | nohd =>
          simp only
          split_ifs <;> rfl
        | got len bs sf wf =>
          simp only
          split_ifs <;> rfl

theorem http_open_cnx_fail_size (s : HTTPContext) (w : World) :
    (passSession (http_open_cnx_fail s w)).filesize = s.filesize := by
  unfold http_open_cnx_fail passSession
  simp only
  split_ifs <;> simp only [http_close_and_keep_session]

theorem http_open_cnx_link_size (e : Env) (s : HTTPContext) (w : World) (o : Option PassOut)
    (s1 : HTTPContext) (w1 : World) (h : http_open_cnx_link e s w = (o, s1, w1)) :
    s1.filesize = s.filesize ∧ ∀ out, o = some out → (passSession out).filesize = s.filesize := by
  unfold http_open_cnx_link at h
  simp only at h
  split_ifs at h
  · simp only [Prod.mk.injEq] at h
    rw [← h.1, ← h.2.1]
    refine ⟨Eq.refl _, fun out ho => ?_⟩
    simp only [Option.some.injEq] at ho
    rw [← ho]
    rfl
  · split at h
    · simp only [Prod.mk.injEq] at h
      rw [← h.1, ← h.2.1]
      refine ⟨?_, fun out ho => by simp at ho⟩
      split <;> rfl
    · split at h
      · simp only [Prod.mk.injEq] at h
        rw [← h.1, ← h.2.1]
        have hs : ∀ x : HTTPContext, (match (tcppool_find_free_tcplink (url_interrupt_cb w).2
            (http_open_cnx_target e s).1 (http_open_cnx_flags e)).1 with
            | some id => { { s with hosname := (http_open_cnx_target e s).2.1 } with hd := some id }
            | none => { s with hosname := (http_open_cnx_target e s).2.1 }) = x →
            x.filesize = s.filesize := by
          intro x hx
          rw [← hx]
          split <;> rfl
        refine ⟨hs _ (Eq.refl _), fun out ho => ?_⟩
        simp only [Option.some.injEq] at ho
        rw [← ho, http_open_cnx_fail_size]
        exact hs _ (Eq.refl _)
      · simp only [Prod.mk.injEq] at h
        rw [← h.1, ← h.2.1]
        refine ⟨?_, fun out ho => by simp at ho⟩
        show (match (tcppool_find_free_tcplink (url_interrupt_cb w).2
            (http_open_cnx_target e s).1 (http_open_cnx_flags e)).1 with
            | some id => { { s with hosname := (http_open_cnx_target e s).2.1 } with hd := some id }
            | none => { s with hosname := (http_open_cnx_target e s).2.1 }).filesize = s.filesize
        split <;> rfl

theorem http_connect_closed_size (e : Env) (fuel : Nat) (s : HTTPContext) (w : World)
    (path hoststr auth : Str) (nl : Int) (id : Nat) (l : Link)
    (hget : hasFlag s.h_flags AVIO_FLAG_WRITE = false)
    (hhd : s.hd = some id) (h : w.links.get? id = some l) (hrd : l.rd = [])
    (hfuel : 1 ≤ fuel) (ret : Int) (s2 : HTTPContext) (w2 : World) (nl2 : Int)
    (hc : http_connect e fuel s w path hoststr auth nl = some (ret, s2, w2, nl2)) :
    s2.filesize = s.filesize ∨ s2.filesize = -1 := by
  unfold http_connect at hc
  simp only [hhd, hget] at hc
  by_cases hw : (ffurl_write w id (cstr (http_request e s path hoststr auth))).1 < 0
  · rw [if_pos hw] at hc
    simp only [Option.some.injEq, Prod.mk.injEq] at hc
    rw [← hc.2.1]
    exact Or.inl (Eq.refl _)
  · rw [if_neg hw] at hc
    have hq := ffurl_write_quiet w id (cstr (http_request e s path hoststr auth))
    have hl : (ffurl_write w id (cstr (http_request e s path hoststr auth))).2.links.get? id
        = some l := by rw [hq.links]; exact h
    simp only [Bool.false_eq_true, if_false] at hc
    rw [http_connect_header_closed fuel fuel e { http_connect_reset s with chunksize := -1 } _
      id l nl hhd (Eq.refl _) hl hrd hfuel hfuel] at hc
    simp only [Option.some.injEq, Prod.mk.injEq] at hc
    rw [← hc.2.1]
    exact Or.inr (Eq.refl _)

theorem http_open_cnx_decide_eio_size (s : HTTPContext) (w : World) (cur lc rd : Int) :
    (passSession (http_open_cnx_decide s w (AVERROR EIO) cur lc rd)).filesize = s.filesize := by
  rw [http_open_cnx_decide_eio, http_open_cnx_fail_size]

theorem http_open_cnx_pass_dead_size (e : Env) (fuel : Nat) (s : HTTPContext) (w : World)
    (lc rd : Int) (hw : DeadPeer w) (hs : ReadSession s) (hfuel : 1 ≤ fuel) (out : PassOut)
    (h : http_open_cnx_pass e fuel s w lc rd = some out) :
    (passSession out).filesize = s.filesize ∨ (passSession out).filesize = -1 := by
  rcases http_open_cnx_link_dead e s w hw hs with
    ⟨s2, w2, s1, w1, hlink, _⟩ | ⟨b, s1, w1, hlink, hhd, hhf, hf, hlinks, _⟩
  · have hsz := (http_open_cnx_link_size e s w _ s1 w1 hlink).2 _ (Eq.refl _)
    unfold http_open_cnx_pass at h
    rw [hlink] at h
    simp only [Option.some.injEq] at h
    rw [← h]
    exact Or.inl hsz
  · have hsz := (http_open_cnx_link_size e s w _ s1 w1 hlink).1
    have hget1 : w1.links.get? w.links.length = some
        { addr := (http_open_cnx_target e s).1, flags := http_open_cnx_flags e, rd := [],
          wfail := b, idle := false, closed := false } := by
      rw [hlinks]; simp
    obtain ⟨s2, w2, hconn, _⟩ :=
      http_connect_closed e fuel s1 w1 (http_open_cnx_target e s).2.2.2.2
        (http_open_cnx_target e s).2.2.1 (http_open_cnx_target e s).2.2.2.1 lc
        w.links.length _ (by rw [hhf]; exact hs.h_flags) hhd hget1 (Eq.refl _) hfuel
    have hsz2 := http_connect_closed_size e fuel s1 w1 _ _ _ lc w.links.length _
      (by rw [hhf]; exact hs.h_flags) hhd hget1 (Eq.refl _) hfuel _ _ _ _ hconn
    unfold http_open_cnx_pass at h
    rw [hlink] at h
    simp only [hconn, Option.some.injEq] at h
    rw [← h, http_open_cnx_decide_eio_size, ← hsz]
    exact hsz2

theorem http_open_cnx_dead_size (e : Env) (fuel : Nat) (s : HTTPContext) (w : World)
    (hw : DeadPeer w) (hs : ReadSession s) (hfuel : 1 ≤ fuel) :
    ∃ (s2 : HTTPContext) (w2 : World),
      http_open_cnx e fuel s w = some (AVERROR EIO, s2, w2) ∧
      DeadPeer w2 ∧ ReadSession s2 ∧ (s2.filesize = s.filesize ∨ s2.filesize = -1) ∧
      s2.max_connects = s.max_connects := by
  obtain ⟨s2, w2, ho, h1, h2, _⟩ := http_open_cnx_dead e fuel s w hw hs hfuel
  obtain ⟨s3, w3, hp, _⟩ := http_open_cnx_pass_dead e fuel
    { s with latest_get_time_ms := 0 } w 0 0 hw ⟨hs.hd, hs.h_flags, hs.flags⟩ hfuel
  have hsz := http_open_cnx_pass_dead_size e fuel { s with latest_get_time_ms := 0 } w 0 0 hw
    ⟨hs.hd, hs.h_flags, hs.flags⟩ hfuel _ hp
  obtain ⟨m, hm⟩ : ∃ m, fuel = m + 1 := ⟨fuel - 1, by omega⟩
  have ho2 : http_open_cnx e fuel s w = some (AVERROR EIO, s3, w3) := by
    unfold http_open_cnx
    conv => lhs; arg 1; rw [hm]
    exact http_open_cnx_loop_done _ _ _ _ _ _ _ _ _ _ hp
  rw [ho] at ho2
  simp only [Option.some.injEq, Prod.mk.injEq, true_and] at ho2
  rw [← ho2.1] at hsz
  exact ⟨s2, w2, ho, h1, h2, hsz, http_open_cnx_max _ _ _ _ _ _ _ ho⟩

theorem ffurl_read_fail (w : World) (id : Nat) (l : Link) (e0 : Nat) (r : List RdEv)
    (size : Int) (hl : w.links.get? id = some l) (hrd : l.rd = RdEv.fail e0 :: r) :
    ffurl_read w id size = (-((e0 + 1 : Nat) : Int), [], setLink w id { l with rd := r }) := by
  unfold ffurl_read
  rw [hl]
  simp only
  unfold linkRead
  rw [hrd]

theorem http_reopen_cnx_failed (e : Env) (fuel : Nat) (s : HTTPContext) (w : World)
    (off r1 : Int) (s1 : HTTPContext) (w1 : World)
    (hopen : http_open_cnx e fuel (http_reopen_cnx_session s off) (http_reopen_cnx_world s w)
      = some (r1, s1, w1))
    (hfail : r1 < 0) :
    ∃ s2 : HTTPContext, http_reopen_cnx e fuel s w off = some (-1, s2, w1) ∧ s2.off = s.off ∧
      ((s.max_connects > 1 ∧ s.hd.isSome) →
        s2.hd = s.hd ∧ s2.chunksize = s.chunksize ∧ s2.buf = s.buf ∧ s2.max_connects = 1) ∧
      (¬ (s.max_connects > 1 ∧ s.hd.isSome) →
        s2.hd = none ∧ s2.buf = [] ∧ s2.chunksize = -1) := by
  have hmax : s1.max_connects = s.max_connects :=
    http_open_cnx_max _ _ (http_reopen_cnx_session s off) _ _ _ _ hopen
  unfold http_reopen_cnx_session http_reopen_cnx_world at hopen
  unfold http_reopen_cnx
  cases hhd : s.hd with
  | none =>
    rw [hhd] at hopen
    simp only [Option.isSome_none, Bool.false_eq_true, and_false, if_false, decide_False]
      at hopen ⊢
    rw [hopen]
    simp only [hfail, if_true]
    exact ⟨_, Eq.refl _, Eq.refl _, fun h => absurd h (by simp),
      fun _ => ⟨Eq.refl _, Eq.refl _, Eq.refl _⟩⟩
  | some id =>
    rw [hhd] at hopen
    by_cases c : s.max_connects > 1
    · simp only [c, Option.isSome_some, and_self, decide_True, if_true] at hopen ⊢
      rw [hopen]
      simp only [hfail, if_true, hmax, c]
      exact ⟨_, Eq.refl _, Eq.refl _, fun _ => ⟨Eq.refl _, Eq.refl _, Eq.refl _, Eq.refl _⟩,
        fun h => absurd trivial h⟩
    · simp only [c, false_and, decide_False, Bool.false_eq_true, if_false] at hopen ⊢
      rw [hopen]
      simp only [hfail, if_true, Option.isSome_none, Bool.false_eq_true, and_false, if_false]
      exact ⟨_, Eq.refl _, Eq.refl _, fun h => absurd h (by simp),
        fun _ => ⟨Eq.refl _, Eq.refl _, Eq.refl _⟩⟩

theorem http_open_retry_max : ∀ (n : Nat) (e : Env) (fuel : Nat) (s : HTTPContext) (w : World)
    (ret k r : Int) (s2 : HTTPContext) (w2 : World),
    http_open_retry n e fuel s w ret k = some (r, s2, w2) →
    s2.max_connects = s.max_connects := by
  intro n
  induction n with
  | zero => intro e fuel s w ret k r s2 w2 h; simp [http_open_retry] at h
  | succ n ih =>
    intro e fuel s w ret k r s2 w2 h
    rw [http_open_retry] at h
    simp only at h
    split_ifs at h
    · cases ho : http_open_cnx e fuel { s with is_seek := 0, canseek := 0 }
          (url_interrupt_cb w).2 with
      | none => rw [ho] at h; simp at h
      | some p =>
        obtain ⟨r1, s1, w1⟩ := p
        rw [ho] at h
        simp only at h
        rw [ih _ _ _ _ _ _ _ _ _ h,
          http_open_cnx_max e fuel { s with is_seek := 0, canseek := 0 } _ _ _ _ ho]
    · simp only [Option.some.injEq, Prod.mk.injEq] at h
      rw [← h.2.1]
    · simp only [Option.some.injEq, Prod.mk.injEq] at h
      rw [← h.2.1]
    · simp only [Option.some.injEq, Prod.mk.injEq] at h
      rw [← h.2.1]

theorem shttp_open_retry_max : ∀ (n : Nat) (e : Env) (fuel : Nat) (s : HTTPContext) (w : World)
    (ret k r : Int) (s2 : HTTPContext) (w2 : World),
    shttp_open_retry n e fuel s w ret k = some (r, s2, w2) →
    s2.max_connects = s.max_connects := by
  intro n
  induction n with
  | zero => intro e fuel s w ret k r s2 w2 h; simp [shttp_open_retry] at h
  | succ n ih =>
    intro e fuel s w ret k r s2 w2 h
    rw [shttp_open_retry] at h
    simp only at h
    split_ifs at h
    · cases ho : http_open_cnx e fuel { s with is_seek := 0, canseek := 0 }
          (url_interrupt_cb w).2 with
      | none => rw [ho] at h; simp at h
      | some p =>
        obtain ⟨r1, s1, w1⟩ := p
        rw [ho] at h
        simp only at h
        rw [ih _ _ _ _ _ _ _ _ _ h,
          http_open_cnx_max e fuel { s with is_seek := 0, canseek := 0 } _ _ _ _ ho]
    · simp only [Option.some.injEq, Prod.mk.injEq] at h
      rw [← h.2.1]
    · simp only [Option.some.injEq, Prod.mk.injEq] at h
      rw [← h.2.1]
    · simp only [Option.some.injEq, Prod.mk.injEq] at h
      rw [← h.2.1]

theorem ff_http_do_new_request_retry_max : ∀ (n : Nat) (e : Env) (fuel : Nat)
    (s : HTTPContext) (w : World) (ret k r : Int) (s2 : HTTPContext) (w2 : World),
    ff_http_do_new_request_retry n e fuel s w ret k = some (r, s2, w2) →
    s2.max_connects = s.max_connects := by
  intro n
  induction n with
  | zero => intro e fuel s w ret k r s2 w2 h; simp [ff_http_do_new_request_retry] at h
  | succ n ih =>
    intro e fuel s w ret k r s2 w2 h
    rw [ff_http_do_new_request_retry] at h
    simp only at h
    split_ifs at h
    · cases ho : http_open_cnx e fuel { s with is_seek := 0, canseek := 0 }
          (url_interrupt_cb w).2 with
      | none => rw [ho] at h; simp at h
      | some p =>
        obtain ⟨r1, s1, w1⟩ := p
        rw [ho] at h
        simp only at h
        rw [ih _ _ _ _ _ _ _ _ _ h,
          http_open_cnx_max e fuel { s with is_seek := 0, canseek := 0 } _ _ _ _ ho]
    · simp only [Option.some.injEq, Prod.mk.injEq] at h
      rw [← h.2.1]
    · simp only [Option.some.injEq, Prod.mk.injEq] at h
      rw [← h.2.1]
    · simp only [Option.some.injEq, Prod.mk.injEq] at h
      rw [← h.2.1]

theorem http_open_max (e : Env) (fuel : Nat) (s : HTTPContext) (w : World) (uri : Str)
    (flags : Nat) (r : Int) (s2 : HTTPContext) (w2 : World)
    (h : http_open e fuel s w uri flags = some (r, s2, w2)) : s2.max_connects = 1 := by
  unfold http_open at h
  simp only at h
  cases ho : http_open_cnx e fuel (http_open_init e s uri flags) (av_gettime w).2 with
  | none => rw [ho] at h; simp at h
  | some p =>
    obtain ⟨r1, s1, w1⟩ := p
    rw [ho] at h
    simp only at h
    cases hr : http_open_retry fuel e fuel s1 w1 r1 0 with
    | none => rw [hr] at h; simp at h
    | some q =>
      obtain ⟨r2, s3, w3⟩ := q
      rw [hr] at h
      simp only [Option.some.injEq, Prod.mk.injEq] at h
      rw [← h.2.1]
      show s3.max_connects = 1
      rw [http_open_retry_max _ _ _ _ _ _ _ _ _ _ hr,
        http_open_cnx_max e fuel (http_open_init e s uri flags) _ _ _ _ ho]
      rfl

theorem shttp_open_max (e : Env) (fuel : Nat) (s : HTTPContext) (w : World) (uri : Str)
    (flags : Nat) (r : Int) (s2 : HTTPContext) (w2 : World)
    (h : shttp_open e fuel s w uri flags = some (r, s2, w2)) : s2.max_connects = 1 := by
  unfold shttp_open at h
  simp only at h
  cases ho : http_open_cnx e fuel { http_open_init e s uri flags with
      location := ((cstr uri).drop 1).take (MAX_URL_SIZE - 1) } (av_gettime w).2 with
  | none => rw [ho] at h; simp at h
  | some p =>
    obtain ⟨r1, s1, w1⟩ := p
    rw [ho] at h
    simp only at h
    cases hr : shttp_open_retry fuel e fuel s1 w1 r1 0 with
    | none => rw [hr] at h; simp at h
    | some q =>
      obtain ⟨r2, s3, w3⟩ := q
      rw [hr] at h
      simp only [Option.some.injEq, Prod.mk.injEq] at h
      rw [← h.2.1]
      show s3.max_connects = 1
      rw [shttp_open_retry_max _ _ _ _ _ _ _ _ _ _ hr,
        http_open_cnx_max e fuel { http_open_init e s uri flags with
          location := ((cstr uri).drop 1).take (MAX_URL_SIZE - 1) } _ _ _ _ ho]
      rfl

theorem ff_http_do_new_request_max (e : Env) (fuel : Nat) (s : HTTPContext) (w : World)
    (uri : Option Str) (r : Int) (s2 : HTTPContext) (w2 : World)
    (h : ff_http_do_new_request e fuel s w uri = some (r, s2, w2)) :
    s2.max_connects = s.max_connects := by
  unfold ff_http_do_new_request at h
  simp only at h
  split at h
  · simp at h
  · rename_i r1 s1 w1 ho
    split at h
    · simp at h
    · rename_i r2 s3 w3 hr
      simp only [Option.some.injEq, Prod.mk.injEq] at h
      rw [← h.2.1]
      show s3.max_connects = s.max_connects
      rw [ff_http_do_new_request_retry_max _ _ _ _ _ _ _ _ _ _ hr]
      exact (http_open_cnx_max e fuel _ _ _ _ _ ho).trans rfl

theorem http_read_chunk_line_frame : ∀ (n fuel : Nat) (s : HTTPContext) (w : World)
    (r : Int) (line : Str) (s2 : HTTPContext) (w2 : World),
    http_read_chunk_line n fuel s w = some (r, line, s2, w2) → BufOnly s s2 := by
  intro n
  induction n with
  | zero => intro fuel s w r line s2 w2 h; simp [http_read_chunk_line] at h
  | succ n ih =>
    intro fuel s w r line s2 w2 h
    rw [http_read_chunk_line] at h
    cases hg : http_get_line fuel s w 32 with
    | none => rw [hg] at h; simp at h
    | some p =>
      obtain ⟨r1, l1, s1, w1⟩ := p
      rw [hg] at h
      simp only at h
      have hb : BufOnly s s1 := http_get_line_frame _ _ _ _ _ _ _ _ hg
      split_ifs at h
      · simp only [Option.some.injEq, Prod.mk.injEq] at h
        rw [← h.2.2.1]; exact hb
      · exact bufOnly_trans hb (ih _ _ _ _ _ _ _ h)
      · simp only [Option.some.injEq, Prod.mk.injEq] at h
        rw [← h.2.2.1]; exact hb

theorem http_read_chunk_max (fuel : Nat) (s : HTTPContext) (w : World) (size : Int)
    (o : Option Int) (s1 : HTTPContext) (w1 : World) (size1 : Int)
    (h : http_read_chunk fuel s w size = some (o, s1, w1, size1)) :
    s1.max_connects = s.max_connects := by
  unfold http_read_chunk at h
  split_ifs at h
  · cases hc : http_read_chunk_line fuel fuel s w with
    | none => rw [hc] at h; simp at h
    | some p =>
      obtain ⟨r, line, s0, w0⟩ := p
      rw [hc] at h
      simp only at h
      have hb : BufOnly s s0 := http_read_chunk_line_frame _ _ _ _ _ _ _ _ hc
      have hm : s0.max_connects = s.max_connects := by unfold BufOnly at hb; rw [hb]
      split_ifs at h
      all_goals
        simp only [Option.some.injEq, Prod.mk.injEq] at h
        rw [← h.2.1]
        exact hm
  · simp only [Option.some.injEq, Prod.mk.injEq] at h
    rw [← h.2.1]
  · simp only [Option.some.injEq, Prod.mk.injEq] at h
    rw [← h.2.1]

theorem http_read_account_max (e : Env) (s : HTTPContext) (w : World) (len : Int) :
    (http_read_account e s w len).2.1.max_connects = s.max_connects := by
  unfold http_read_account
  simp only
  split_ifs <;> rfl

theorem http_read_fetch_max (s : HTTPContext) (w : World) (size len : Int) (bytes : Str)
    (s2 : HTTPContext) (w2 : World)
    (h : http_read_fetch s w size = Fetch.got len bytes s2 w2) :
    s2.max_connects = s.max_connects := by
  unfold http_read_fetch at h
  split_ifs at h
  · simp only [Fetch.got.injEq] at h
    rw [← h.2.2.1]
  · cases hhd : s.hd with
    | none => rw [hhd] at h; simp at h
    | some id =>
      rw [hhd] at h
      simp only [Fetch.got.injEq] at h
      rw [← h.2.2.1]

theorem http_read_pass_max (e : Env) (fuel : Nat) (s : HTTPContext) (w : World)
    (size err_retry : Int) :
    ReadStepMax s.max_connects (http_read_pass e fuel s w size err_retry) := by
  unfold http_read_pass
  simp only
  by_cases hi : (url_interrupt_cb w).1 = true
  · rw [if_pos hi]; exact Eq.refl _
  · rw [if_neg hi]
    cases hc : http_read_chunk fuel s (url_interrupt_cb w).2 size with
    | none => exact True.intro
    | some p =>
      obtain ⟨o, s1, w1, size1⟩ := p
      have hm1 := http_read_chunk_max _ _ _ _ _ _ _ _ hc
      cases o with
      | some r => exact hm1
      | none =>
        simp only
        cases hf : http_read_fetch s1 w1 size1 with
        | eof => exact hm1
        | nohd =>
          simp only
          split_ifs <;> exact hm1
        | got len bytes s2 w2 =>
          simp only
          have hm2 := http_read_fetch_max _ _ _ _ _ _ _ hf
          have hm3 := http_read_account_max e s2 w2 len
          split_ifs <;> exact (hm3.trans hm2).trans hm1

theorem http_reopen_cnx_max (e : Env) (fuel : Nat) (s : HTTPContext) (w : World) (off r : Int)
    (s2 : HTTPContext) (w2 : World) (hm : s.max_connects = 1)
    (h : http_reopen_cnx e fuel s w off = some (r, s2, w2)) : s2.max_connects = 1 := by
  unfold http_reopen_cnx at h
  simp only at h
  split at h
  · simp at h
  · rename_i r1 s1 w1 ho
    have h1 : s1.max_connects = 1 := (http_open_cnx_max e fuel _ _ _ _ _ ho).trans hm
    split_ifs at h
    all_goals
      simp only [Option.some.injEq, Prod.mk.injEq] at h
      rw [← h.2.1] <;> exact h1

theorem http_read_loop_max : ∀ (n : Nat) (e : Env) (fuel : Nat) (s : HTTPContext) (w : World)
    (size err_retry r : Int) (bytes : Str) (s2 : HTTPContext) (w2 : World),
    s.max_connects = 1 →
    http_read_loop n e fuel s w size err_retry = some (r, bytes, s2, w2) →
    s2.max_connects = 1 := by
  intro n
  induction n with
  | zero => intro e fuel s w size err r bytes s2 w2 _ h; simp [http_read_loop] at h
  | succ n ih =>
    intro e fuel s w size err r bytes s2 w2 hm h
    rw [http_read_loop_pass] at h
    have hp := http_read_pass_max e fuel s w size err
    cases hs : http_read_pass e fuel s w size err with
    | stuck => rw [hs] at h; simp [http_read_next] at h
    | ret r1 b1 s1 w1 =>
      rw [hs] at h hp
      simp only [http_read_next, Option.some.injEq, Prod.mk.injEq] at h
      rw [← h.2.2.1]
      exact hp.trans hm
    | reopen s3 w3 size1 =>
      rw [hs] at h hp
      simp only [http_read_next] at h
      cases hr : http_reopen_cnx e fuel s3 w3 (-1) with
      | none => rw [hr] at h; simp at h
      | some q =>
        obtain ⟨r4, s4, w4⟩ := q
        rw [hr] at h
        exact ih _ _ _ _ _ _ _ _ _ _
          (http_reopen_cnx_max _ _ _ _ _ _ _ _ (hp.trans hm) hr) h
    | skip s3 w3 size1 =>
      rw [hs] at h hp
      simp only [http_read_next] at h
      exact ih _ _ _ _ _ _ _ _ _ _ (hp.trans hm) h

theorem http_read_max (e : Env) (fuel : Nat) (s : HTTPContext) (w : World) (size r : Int)
    (bytes : Str) (s2 : HTTPContext) (w2 : World) (hm : s.max_connects = 1)
    (h : http_read e fuel s w size = some (r, bytes, s2, w2)) : s2.max_connects = 1 := by
  unfold http_read at h
  split_ifs at h
  · simp only [Option.some.injEq, Prod.mk.injEq] at h
    rw [← h.2.2.1]; exact hm
  · exact http_read_loop_max _ _ _ _ _ _ _ _ _ _ _ hm h

theorem http_seek_retry_max : ∀ (n : Nat) (e : Env) (fuel : Nat) (s : HTTPContext) (w : World)
    (off ret k r : Int) (s2 : HTTPContext) (w2 : World),
    s.max_connects = 1 →
    http_seek_retry n e fuel s w off ret k = some (r, s2, w2) →
    s2.max_connects = 1 := by
  intro n
  induction n with
  | zero => intro e fuel s w off ret k r s2 w2 _ h; simp [http_seek_retry] at h
  | succ n ih =>
    intro e fuel s w off ret k r s2 w2 hm h
    rw [http_seek_retry] at h
    simp only at h
    split_ifs at h
    · simp only [Option.some.injEq, Prod.mk.injEq] at h
      rw [← h.2.1]; exact hm
    · cases hr : http_reopen_cnx e fuel s (url_interrupt_cb w).2 off with
      | none => rw [hr] at h; simp at h
      | some q =>
        obtain ⟨r1, s1, w1⟩ := q
        rw [hr] at h
        exact ih _ _ _ _ _ _ _ _ _ _ (http_reopen_cnx_max _ _ _ _ _ _ _ _ hm hr) h
    · simp only [Option.some.injEq, Prod.mk.injEq] at h
      rw [← h.2.1]; exact hm
    · simp only [Option.some.injEq, Prod.mk.injEq] at h
      rw [← h.2.1]; exact hm
    · simp only [Option.some.injEq, Prod.mk.injEq] at h
      rw [← h.2.1]; exact hm

theorem http_seek_max (e : Env) (fuel : Nat) (s : HTTPContext) (w : World) (off whence r : Int)
    (s2 : HTTPContext) (w2 : World) (hm : s.max_connects = 1)
    (h : http_seek e fuel s w off whence = some (r, s2, w2)) : s2.max_connects = 1 := by
  unfold http_seek at h
  simp only at h
  split_ifs at h
  · simp only [Option.some.injEq, Prod.mk.injEq] at h
    rw [← h.2.1]; exact hm
  · simp only [Option.some.injEq, Prod.mk.injEq] at h
    rw [← h.2.1]; exact hm
  · simp only [Option.some.injEq, Prod.mk.injEq] at h
    rw [← h.2.1]; exact hm
  · simp only [Option.some.injEq, Prod.mk.injEq] at h
    rw [← h.2.1]; exact hm
  · cases hr : http_reopen_cnx e fuel { s with is_seek := 1 } w (seek_target s off whence) with
    | none => rw [hr] at h; simp at h
    | some q =>
      obtain ⟨r1, s1, w1⟩ := q
      rw [hr] at h
      simp only at h
      have h1 : s1.max_connects = 1 :=
        http_reopen_cnx_max e fuel { s with is_seek := 1 } _ _ _ _ _ hm hr
      cases hq : http_seek_retry fuel e fuel s1 w1 (seek_target s off whence) r1 0 with
      | none => rw [hq] at h; simp at h
      | some q2 =>
        obtain ⟨r2, s3, w3⟩ := q2
        rw [hq] at h
        simp only [Option.some.injEq, Prod.mk.injEq] at h
        rw [← h.2.1]
        show s3.max_connects = 1
        exact http_seek_retry_max _ _ _ _ _ _ _ _ _ _ _ h1 hq

theorem http_close_and_keep_max (s : HTTPContext) (w : World) (close : Int) :
    (http_close_and_keep s w close).2.1.max_connects = s.max_connects := by
  rw [http_close_and_keep_session]

theorem reachable_max (e : Env) (s : HTTPContext) (h : Reachable e s) : s.max_connects = 1 := by
  induction h with
  | opened fuel s w uri flags r s2 w2 h => exact http_open_max _ _ _ _ _ _ _ _ _ h
  | sopened fuel s w uri flags r s2 w2 h => exact shttp_open_max _ _ _ _ _ _ _ _ _ h
  | read fuel s w size r bytes s2 w2 _ h ih => exact http_read_max _ _ _ _ _ _ _ _ _ ih h
  | seek fuel s w off whence r s2 w2 _ h ih => exact http_seek_max _ _ _ _ _ _ _ _ _ ih h
  | closed s w _ ih => exact (http_close_and_keep_max s w 0).trans ih
  | requested fuel s w uri r s2 w2 _ h ih =>
    exact (ff_http_do_new_request_max _ _ _ _ _ _ _ _ h).trans ih
  | headers s hdrs _ ih => exact ih
  | chunked s c _ ih => exact ih
  | auth s src _ ih => exact ih

theorem http_reopen_cnx_world_single (s : HTTPContext) (w : World) (id : Nat)
    (hm : s.max_connects = 1) (hhd : s.hd = some id) :
    http_reopen_cnx_world s w = tcppool_close_tcplink w id := by
  unfold http_reopen_cnx_world
  rw [hhd, hm]
  simp

theorem http_reopen_cnx_single (e : Env) (fuel : Nat) (s : HTTPContext) (w : World)
    (off r : Int) (s2 : HTTPContext) (w2 : World) (hm : s.max_connects = 1)
    (h : http_reopen_cnx e fuel s w off = some (r, s2, w2)) :
    ∃ (r1 : Int) (s1 : HTTPContext) (w1 : World),
      http_open_cnx e fuel (http_reopen_cnx_session s off) (http_reopen_cnx_world s w)
        = some (r1, s1, w1) ∧
      (r1 < 0 → r = -1 ∧ s2.hd = none ∧ s2.buf = [] ∧ s2.chunksize = -1 ∧ w2 = w1) := by
  cases ho : http_open_cnx e fuel (http_reopen_cnx_session s off) (http_reopen_cnx_world s w) with
  | none =>
    exfalso
    unfold http_reopen_cnx_session http_reopen_cnx_world at ho
    unfold http_reopen_cnx at h
    rw [hm] at ho h
    cases hhd : s.hd with
    | none =>
      rw [hhd] at ho h
      simp only [gt_iff_lt, lt_self_iff_false, false_and, decide_False, Bool.false_eq_true,
        if_false] at ho h
      rw [ho] at h
      simp at h
    | some id =>
      rw [hhd] at ho h
      simp only [gt_iff_lt, lt_self_iff_false, false_and, decide_False, Bool.false_eq_true,
        if_false] at ho h
      rw [ho] at h
      simp at h
  | some p =>
    obtain ⟨r1, s1, w1⟩ := p
    refine ⟨r1, s1, w1, Eq.refl _, fun hneg => ?_⟩
    have hn : ¬ (s.max_connects > 1 ∧ s.hd.isSome) := by rw [hm]; simp
    obtain ⟨s3, h3, _, _, h5⟩ := http_reopen_cnx_failed e fuel s w off r1 s1 w1 ho hneg
    rw [h3] at h
    simp only [Option.some.injEq, Prod.mk.injEq] at h
    obtain ⟨h6, h7, h8⟩ := h5 hn
    rw [← h.1, ← h.2.1, ← h.2.2]
    exact ⟨Eq.refl _, h6, h7, h8, Eq.refl _⟩

theorem http_read_reopens_max : ∀ (n : Nat) (e : Env) (fuel : Nat) (s : HTTPContext) (w : World)
    (size err_retry : Int), s.max_connects = 1 →
    ∀ c ∈ http_read_reopens n e fuel s w size err_retry, c.1.max_connects = 1 := by
  intro n
  induction n with
  | zero => intro e fuel s w size err _ c hc; simp [http_read_reopens] at hc
  | succ n ih =>
    intro e fuel s w size err hm c hc
    rw [http_read_reopens] at hc
    have hp := http_read_pass_max e fuel s w size err
    cases hs : http_read_pass e fuel s w size err with
    | stuck => rw [hs] at hc; simp at hc
    | ret r1 b1 s1 w1 => rw [hs] at hc; simp at hc
    | reopen s3 w3 size1 =>
      rw [hs] at hc hp
      simp only [List.mem_cons] at hc
      rcases hc with hc | hc
      · rw [hc]; exact hp.trans hm
      · cases hr : http_reopen_cnx e fuel s3 w3 (-1) with
        | none => rw [hr] at hc; simp at hc
        | some q =>
          obtain ⟨r4, s4, w4⟩ := q
          rw [hr] at hc
          exact ih _ _ _ _ _ _ (http_reopen_cnx_max _ _ _ _ _ _ _ _ (hp.trans hm) hr) c hc
    | skip s3 w3 size1 =>
      rw [hs] at hc hp
      exact ih _ _ _ _ _ _ (hp.trans hm) c hc

theorem http_seek_retry_calls_max : ∀ (n : Nat) (e : Env) (fuel : Nat) (s : HTTPContext)
    (w : World) (off ret k : Int), s.max_connects = 1 →
    ∀ c ∈ http_seek_retry_calls n e fuel s w off ret k, c.1.max_connects = 1 := by
  intro n
  induction n with
  | zero => intro e fuel s w off ret k _ c hc; simp [http_seek_retry_calls] at hc
  | succ n ih =>
    intro e fuel s w off ret k hm c hc
    rw [http_seek_retry_calls] at hc
    simp only at hc
    split_ifs at hc
    · simp at hc
    · simp only [List.mem_cons] at hc
      rcases hc with hc | hc
      · rw [hc]; exact hm
      · cases hr : http_reopen_cnx e fuel s (url_interrupt_cb w).2 off with
        | none => rw [hr] at hc; simp at hc
        | some q =>
          obtain ⟨r1, s1, w1⟩ := q
          rw [hr] at hc
          exact ih _ _ _ _ _ _ _ (http_reopen_cnx_max _ _ _ _ _ _ _ _ hm hr) c hc
    · simp at hc
    · simp at hc
    · simp at hc

theorem http_read_reopen_calls_max (e : Env) (fuel : Nat) (s : HTTPContext) (w : World)
    (size : Int) (hm : s.max_connects = 1) :
    ∀ c ∈ http_read_reopen_calls e fuel s w size, c.1.max_connects = 1 := by
  intro c hc
  unfold http_read_reopen_calls at hc
  split_ifs at hc
  · simp at hc
  · exact http_read_reopens_max _ _ _ _ _ _ _ hm c hc

theorem http_seek_reopen_calls_max (e : Env) (fuel : Nat) (s : HTTPContext) (w : World)
    (off whence : Int) (hm : s.max_connects = 1) :
    ∀ c ∈ http_seek_reopen_calls e fuel s w off whence, c.1.max_connects = 1 := by
  intro c hc
  unfold http_seek_reopen_calls at hc
  split_ifs at hc
  · simp at hc
  · simp at hc
  · simp at hc
  · simp at hc
  · simp only [List.mem_cons] at hc
    rcases hc with hc | hc
    · rw [hc]; exact hm
    · cases hr : http_reopen_cnx e fuel { s with is_seek := 1 } w (seek_target s off whence) with
      | none => rw [hr] at hc; simp at hc
      | some q =>
        obtain ⟨r1, s1, w1⟩ := q
        rw [hr] at hc
        exact http_seek_retry_calls_max _ _ _ _ _ _ _ _
          (http_reopen_cnx_max e fuel { s with is_seek := 1 } _ _ _ _ _ hm hr) c hc

theorem wrap32_id (x : Int) (h1 : -2 ^ 31 ≤ x) (h2 : x < 2 ^ 31) : wrap32 x = x := by
  unfold wrap32
  rw [Int.emod_eq_of_lt (by omega) (by omega)]
  omega

theorem http_read_account_chunk (e : Env) (s : HTTPContext) (w : World) (len : Int) :
    (http_read_account e s w len).2.1.chunksize =
      if len > 0 ∧ s.chunksize > 0 then s.chunksize - len else s.chunksize := by
  unfold http_read_account
  simp only
  split_ifs <;> first | rfl | (exfalso; tauto)

theorem fetchTaken_le (s : HTTPContext) (w : World) (size : Int) :
    fetchTaken (http_read_fetch s w size) ≤ max 0 size := by
  unfold http_read_fetch
  split_ifs
  · show max 0 (min (s.buf.length : Int) size) ≤ max 0 size
    exact max_le_max (le_refl _) (min_le_right _ _)
  · exact le_max_left _ _
  · cases hhd : s.hd with
    | none => exact le_max_left _ _
    | some id =>
      show max 0 (ffurl_read w id size).1 ≤ max 0 size
      by_cases hp : 0 < (ffurl_read w id size).1
      · exact max_le (le_max_left _ _)
          (le_trans (ffurl_read_le w id size hp) (le_max_right _ _))
      · exact max_le (le_max_left _ _) (le_trans (not_lt.mp hp) (le_max_left _ _))

theorem http_read_fetch_chunk (s : HTTPContext) (w : World) (size len : Int) (bytes : Str)
    (s2 : HTTPContext) (w2 : World)
    (h : http_read_fetch s w size = Fetch.got len bytes s2 w2) :
    s2.chunksize = s.chunksize := by
  unfold http_read_fetch at h
  split_ifs at h
  · simp only [Fetch.got.injEq] at h
    rw [← h.2.2.1]
  · cases hhd : s.hd with
    | none => rw [hhd] at h; simp at h
    | some id =>
      rw [hhd] at h
      simp only [Fetch.got.injEq] at h
      rw [← h.2.2.1]

theorem http_read_chunk_cases (fuel : Nat) (s : HTTPContext) (w : World) (size : Int)
    (o : Option Int) (s1 : HTTPContext) (w1 : World) (size1 : Int) (hc : 0 ≤ s.chunksize)
    (h : http_read_chunk fuel s w size = some (o, s1, w1, size1)) :
    (0 < s.chunksize → o = none ∧ s1 = s ∧ w1 = w) ∧
    (o = none → s1.chunksize ≠ 0 ∧ size1 = wrap32 (min size s1.chunksize)) ∧
    (o ≠ none → s1.chunksize = 0) := by
  unfold http_read_chunk at h
  rw [if_pos hc] at h
  by_cases h0 : s.chunksize = 0
  · rw [if_pos h0] at h
    refine ⟨fun hp => absurd h0 (by omega), ?_⟩
    cases hl : http_read_chunk_line fuel fuel s w with
    | none => rw [hl] at h; simp at h
    | some p =>
      obtain ⟨r, line, s0, w0⟩ := p
      rw [hl] at h
      simp only at h
      have hb : BufOnly s s0 := http_read_chunk_line_frame _ _ _ _ _ _ _ _ hl
      have hcs : s0.chunksize = 0 := by unfold BufOnly at hb; rw [hb]; exact h0
      split_ifs at h with h1 h2
      · simp only [Option.some.injEq, Prod.mk.injEq] at h
        refine ⟨fun hn => ?_, fun _ => ?_⟩
        · rw [← h.1] at hn; simp at hn
        · rw [← h.2.1]; exact hcs
      · simp only [Option.some.injEq, Prod.mk.injEq] at h
        refine ⟨fun hn => ?_, fun _ => ?_⟩
        · rw [← h.1] at hn; simp at hn
        · rw [← h.2.1]; exact h2
      · simp only [Option.some.injEq, Prod.mk.injEq] at h
        refine ⟨fun _ => ?_, fun hn => absurd h.1.symm hn⟩
        rw [← h.2.1, ← h.2.2.2]
        exact ⟨h2, Eq.refl _⟩
  · rw [if_neg h0] at h
    simp only [Option.some.injEq, Prod.mk.injEq] at h
    refine ⟨fun _ => ⟨h.1.symm, h.2.1.symm, h.2.2.1.symm⟩, fun _ => ?_,
      fun hn => absurd h.1.symm hn⟩
    rw [← h.2.1, ← h.2.2.2]
    exact ⟨h0, Eq.refl _⟩

theorem process_content_range_off (s : HTTPContext) (p : Str) :
    (process_content_range s p).off
      = if strncmp_eq p str_bytes_sp 5
        then atoll ((p.drop 5).dropWhile (fun c => c == 32)) else s.off := by
  unfold process_content_range
  simp only
  by_cases hb : strncmp_eq p str_bytes_sp 5 = true
  · rw [if_pos hb, if_pos hb]
    split_ifs <;> (split <;> rfl)
  · rw [if_neg hb, if_neg hb]
    split_ifs <;> rfl

theorem process_header_off (e : Env) (s : HTTPContext) (tag p : Str) (nl : Int) :
    (process_header e s tag p nl).1.off
      = if strcasecmp_eq tag str_Content_Range ∧ strncmp_eq p str_bytes_sp 5
        then atoll ((p.drop 5).dropWhile (fun c => c == 32)) else s.off := by
  by_cases c3 : strcasecmp_eq tag str_Content_Range = true
  · have hk := strcasecmp_eq_of_eq tag str_Content_Range
    unfold process_header
    rw [if_neg (by rw [hk _ c3]; decide),
      if_neg (by rw [hk _ c3]; rintro ⟨h, _⟩; exact absurd h (by decide)), if_pos c3,
      process_content_range_off]
    by_cases hb : strncmp_eq p str_bytes_sp 5 = true
    · rw [if_pos hb, if_pos ⟨c3, hb⟩]
    · rw [if_neg hb, if_neg (fun h => hb h.2)]
  rw [if_neg (fun h => c3 h.1)]
  unfold process_header
  by_cases c1 : strcasecmp_eq tag str_Location = true
  · rw [if_pos c1]
  rw [if_neg c1]
  by_cases c2 : strcasecmp_eq tag str_Content_Length = true ∧ s.filesize = -1
  · rw [if_pos c2]
  rw [if_neg c2, if_neg c3]
  by_cases c4 : strcasecmp_eq tag str_Content_Encoding = true
  · rw [if_pos c4]
    split_ifs <;> rfl
  rw [if_neg c4]
  by_cases c5 : strcasecmp_eq tag str_Transfer_Encoding = true ∧ strncasecmp_eq p str_chunked 7 = true
  · rw [if_pos c5]
  rw [if_neg c5]
  by_cases c6 : strcasecmp_eq tag str_WWW_Authenticate = true
  · rw [if_pos c6]
  rw [if_neg c6]
  by_cases c7 : strcasecmp_eq tag str_Authentication_Info = true
  · rw [if_pos c7]
  rw [if_neg c7]
  by_cases c8 : strcasecmp_eq tag str_Connection = true
  · rw [if_pos c8]
    split_ifs <;> rfl
  rw [if_neg c8]
  by_cases c9 : strcasecmp_eq tag str_Server = true
  · rw [if_pos c9]
    split_ifs <;> rfl
  rw [if_neg c9]
  by_cases c10 : strcasecmp_eq tag str_Pragma = true
  · rw [if_pos c10]
    split_ifs <;> rfl
  · rw [if_neg c10]

theorem process_line_off (e : Env) (s : HTTPContext) (line : Str) (lc nl : Int) :
    (process_line e s line lc nl).2.1.off
      = if lc = 0 then s.off else offset_after s.off [line] := by
  have hwa : offset_after s.off [line]
      = match content_range_start line with
        | some v => v
        | none => s.off := by
    unfold offset_after
    cases h : content_range_start line <;> simp [List.filterMap, h]
  rw [hwa]
  unfold process_line content_range_start
  simp only
  by_cases c1 : cstr line = []
  · rw [if_pos c1, c1]
    split_ifs <;> rfl
  rw [if_neg c1]
  by_cases c2 : lc = 0
  · rw [if_pos c2, if_pos c2]
    split_ifs <;> rfl
  rw [if_neg c2, if_neg c2]
  cases hd : (cstr line).dropWhile (fun c => c != 58) with
  | nil => rfl
  | cons x rest =>
    simp only
    rw [process_header_off]
    by_cases c3 : strcasecmp_eq ((cstr line).takeWhile (fun c => c != 58)) str_Content_Range = true
        ∧ strncmp_eq (rest.dropWhile isspace) str_bytes_sp 5 = true
    · rw [if_pos c3, if_pos c3]
    · rw [if_neg c3, if_neg c3]

theorem offset_after_nil (b : Int) : offset_after b [] = b := rfl

theorem offset_after_cons (b : Int) (l : Str) (ls : List Str) :
    offset_after b (l :: ls) = offset_after (offset_after b [l]) ls := by
  unfold offset_after
  cases h : content_range_start l with
  | none => simp [List.filterMap, h]
  | some v =>
    simp only [List.filterMap, h, List.getLast?_singleton]
    cases h2 : (List.filterMap content_range_start ls).getLast? with
    | none =>
      rw [List.getLast?_eq_none_iff] at h2
      simp [h2]
    | some v2 =>
      have hne : List.filterMap content_range_start ls ≠ [] := by
        intro h3; rw [h3] at h2; simp at h2
      obtain ⟨x, xs, hx⟩ := List.exists_cons_of_ne_nil hne
      rw [hx] at h2 ⊢
      rw [List.getLast?_cons_cons, h2]

theorem http_connect_header_off : ∀ (n fuel : Nat) (e : Env) (s : HTTPContext) (w : World)
    (nl : Int) (r : Option Int) (s2 : HTTPContext) (w2 : World) (nl2 : Int),
    0 ≤ s.line_count →
    http_connect_header n fuel e s w nl = some (r, s2, w2, nl2) →
    s2.off = offset_after s.off
      (if s.line_count = 0 then (http_connect_lines n fuel e s w nl).tail
       else http_connect_lines n fuel e s w nl) := by
  intro n
  induction n with
  | zero => intro fuel e s w nl r s2 w2 nl2 _ h; simp [http_connect_header] at h
  | succ n ih =>
    intro fuel e s w nl r s2 w2 nl2 hlc h
    unfold http_connect_header at h
    unfold http_connect_lines
    split at h
    · simp at h
    · rename_i rr line s1 w1 hg
      have hb : BufOnly s s1 := http_get_line_frame _ _ _ _ _ _ _ _ hg
      have hw1 : s1.off = s.off := by unfold BufOnly at hb; rw [hb]
      have hl1 : s1.line_count = s.line_count := by unfold BufOnly at hb; rw [hb]
      have hpw := process_line_off e s1 line s1.line_count nl
      have hpl : (process_line e s1 line s1.line_count nl).2.1.line_count = s1.line_count := by
        have := process_line_headOnly e s1 line s1.line_count nl
        unfold HeadOnly at this
        rw [this]
      simp only [hg]
      simp only at h
      by_cases c1 : rr < 0
      · rw [if_pos c1] at h
        rw [if_pos c1]
        simp only [Option.some.injEq, Prod.mk.injEq] at h
        rw [← h.2.1, hw1]
        by_cases c : s.line_count = 0 <;> simp [c, offset_after_nil]
      rw [if_neg c1] at h
      rw [if_neg c1]
      by_cases c2 : (process_line e s1 line s1.line_count nl).1 < 0
      · rw [if_pos c2] at h
        rw [if_pos (Or.inl c2)]
        have hs2 : s2 = (process_line e s1 line s1.line_count nl).2.1 := by
          split_ifs at h <;> simp only [Option.some.injEq, Prod.mk.injEq] at h <;> exact h.2.1.symm
        rw [hs2, hpw, hl1, hw1]
        by_cases c : s.line_count = 0 <;> simp [c, offset_after_nil]
      rw [if_neg c2] at h
      by_cases c3 : (process_line e s1 line s1.line_count nl).1 = 0
      · rw [if_pos c3] at h
        rw [if_pos (Or.inr c3)]
        have hs2 : s2 = (process_line e s1 line s1.line_count nl).2.1 := by
          split_ifs at h <;> simp only [Option.some.injEq, Prod.mk.injEq] at h <;> exact h.2.1.symm
        rw [hs2, hpw, hl1, hw1]
        by_cases c : s.line_count = 0 <;> simp [c, offset_after_nil]
      rw [if_neg c3] at h
      rw [if_neg (not_or.mpr ⟨c2, c3⟩)]
      obtain ⟨s3, hs3⟩ : ∃ s3 : HTTPContext, s3 =
          { (process_line e s1 line s1.line_count nl).2.1 with
            line_count := (process_line e s1 line s1.line_count nl).2.1.line_count + 1 } :=
        ⟨_, Eq.refl _⟩
      rw [← hs3] at h ⊢
      have h3w : s3.off
          = if s.line_count = 0 then s.off else offset_after s.off [line] := by
        rw [hs3]; simp only; rw [hpw, hl1, hw1]
      have h3l : s3.line_count = s.line_count + 1 := by
        rw [hs3]; simp only; rw [hpl, hl1]
      have hrec := ih _ _ _ _ _ _ _ _ _ (by rw [h3l]; omega) h
      rw [if_neg (by rw [h3l]; omega), h3w] at hrec
      rw [hrec]
      by_cases c4 : s.line_count = 0
      · rw [if_pos c4, if_pos c4]; rfl
      · rw [if_neg c4, if_neg c4, ← offset_after_cons]

theorem http_connect_header_off_first (n fuel : Nat) (e : Env) (s : HTTPContext)
    (w : World) (nl : Int) (r : Option Int) (s2 : HTTPContext) (w2 : World) (nl2 : Int)
    (h0 : s.line_count = 0)
    (h : http_connect_header n fuel e s w nl = some (r, s2, w2, nl2)) :
    s2.off = offset_after s.off (http_connect_lines n fuel e s w nl).tail := by
  have := http_connect_header_off n fuel e s w nl r s2 w2 nl2 (by omega) h
  rwa [if_pos h0] at this

theorem content_range_start_line (S E T : Nat) (hS : S < 2 ^ 63) :
    content_range_start (content_range_line S E T) = some (S : Int) := by
  have hL : cstr (content_range_line S E T) = content_range_line S E T :=
    cstr_of_nonzero _ (content_range_line_nonzero S E T)
  have hdrop : (content_range_line S E T).dropWhile (fun c => c != 58)
      = 58 :: (([32, 98, 121, 116, 101, 115, 32] : Str) ++ (natDigits S ++ (45 :: (natDigits E ++ (47 :: natDigits T))))) :=
    rfl
  have htag : (content_range_line S E T).takeWhile (fun c => c != 58) = str_Content_Range :=
    rfl
  have hp : (([32, 98, 121, 116, 101, 115, 32] : Str) ++ (natDigits S ++ (45 :: (natDigits E ++ (47 :: natDigits T))))).dropWhile
      isspace = ([98, 121, 116, 101, 115, 32] : Str) ++ (natDigits S ++ (45 :: (natDigits E ++ (47 :: natDigits T)))) :=
    rfl
  have hb : strncmp_eq (([98, 121, 116, 101, 115, 32] : Str) ++ (natDigits S ++ (45 :: (natDigits E ++ (47 :: natDigits T)))))
      str_bytes_sp 5 = true := rfl
  have hp1 : ((([98, 121, 116, 101, 115, 32] : Str) ++ (natDigits S ++ (45 :: (natDigits E ++ (47 :: natDigits T))))).drop 5).dropWhile
      (fun c => c == 32) = natDigits S ++ (45 :: (natDigits E ++ (47 :: natDigits T))) := by
    show List.dropWhile (fun c => c == 32)
      (32 :: (natDigits S ++ (45 :: (natDigits E ++ (47 :: natDigits T))))) = _
    rw [List.dropWhile_cons, if_pos (by rfl)]
    exact dropWhile_natDigits S _ _ (fun c h1 h2 => by
      simp only [beq_eq_false_iff_ne, ne_eq]; omega)
  have hoff : atoll (natDigits S ++ (45 :: (natDigits E ++ (47 :: natDigits T)))) = S :=
    atoll_natDigits S _ hS (fun c r h => by
      simp only [List.cons.injEq] at h
      rw [← h.1]; rfl)
  unfold content_range_start
  simp only [hL, hdrop, htag, hp, hb, hp1, hoff]
  rfl

theorem offset_after_none (b : Int) (headers : List Str)
    (h : ∀ line ∈ headers, content_range_start line = none) : offset_after b headers = b := by
  unfold offset_after
  have : headers.filterMap content_range_start = [] := by
    rw [List.filterMap_eq_nil_iff]
    exact h
  rw [this]
  rfl

theorem http_connect_reported (e : Env) (fuel : Nat) (s : HTTPContext) (w : World)
    (path hoststr auth : Str) (nl : Int) (id : Nat) (r : Option Int) (s2 : HTTPContext)
    (w2 : World) (nl2 : Int) (hhd : s.hd = some id)
    (h : http_connect_header fuel fuel e { http_connect_reset s with chunksize := -1 }
      (ffurl_write w id (cstr (http_request e s path hoststr auth))).2 nl
      = some (r, s2, w2, nl2)) :
    s2.off = reported_offset (response_header_lines e fuel s w path hoststr auth nl) := by
  unfold reported_offset response_header_lines
  simp only [hhd]
  exact http_connect_header_off_first _ _ _ _ _ _ _ _ _ _ (Eq.refl _) h

theorem wholeLines_append {A B : Str} (hA : WholeLines A) (hB : WholeLines B) :
    WholeLines (A ++ B) := by
  rcases hB with hB | ⟨P, hP⟩
  · rw [hB, List.append_nil]; exact hA
  · exact Or.inr ⟨A ++ P, by rw [hP, List.append_assoc]⟩

theorem mem_append_nonzero {A B : Str} (hA : ∀ c ∈ A, c ≠ 0) (hB : ∀ c ∈ B, c ≠ 0) :
    ∀ c ∈ A ++ B, c ≠ 0 := by
  intro c hc
  rcases List.mem_append.mp hc with h | h
  · exact hA c h
  · exact hB c h

theorem request_block_ok (s : HTTPContext) (hoststr : Str) (hurl : WholeLines (url_headers s))
    (hcustom : WholeLines (cstr s.headers)) (hhost : 13 ∉ cstr hoststr) :
    (∀ c ∈ request_block s hoststr, c ≠ 0) ∧ WholeLines (request_block s hoststr) := by
  unfold request_block
  exact ⟨mem_append_nonzero (request_user_agent_ok s).1 (mem_append_nonzero
      (url_headers_nonzero s) (mem_append_nonzero (request_accept_ok s).1 (mem_append_nonzero
      (request_range_ok s).1 (mem_append_nonzero (request_connection_ok s).1
      (mem_append_nonzero (request_host_ok s hoststr hhost).1 (cstr_nonzero _)))))),
    wholeLines_append (request_user_agent_ok s).2 (wholeLines_append hurl
      (wholeLines_append (request_accept_ok s).2 (wholeLines_append (request_range_ok s).2
      (wholeLines_append (request_connection_ok s).2
      (wholeLines_append (request_host_ok s hoststr hhost).2 hcustom)))))⟩

theorem http_request_uncut (e : Env) (s : HTTPContext) (path hoststr auth : Str)
    (hfit : (http_request e s path hoststr auth).length < BUFFER_SIZE - 1) :
    http_request e s path hoststr auth
      = request_line s path ++ (request_chunked s ++ (request_block s hoststr
          ++ (request_auth e s path auth ++ str_crlf))) := by
  have hdef : http_request e s path hoststr auth
      = (request_line s path ++ (request_chunked s
          ++ ((request_block s hoststr).take (1024 * 4 - 1)
          ++ (request_auth e s path auth ++ str_crlf)))).take (BUFFER_SIZE - 1) := by
    unfold http_request request_line request_chunked request_auth
    rw [http_request_headers_eq]
    simp only [List.append_assoc]
  rw [hdef] at hfit ⊢
  rw [List.length_take] at hfit
  have hlen : (request_line s path ++ (request_chunked s
      ++ ((request_block s hoststr).take (1024 * 4 - 1)
      ++ (request_auth e s path auth ++ str_crlf)))).length < BUFFER_SIZE - 1 := by
    rcases Nat.lt_or_ge (request_line s path ++ (request_chunked s
      ++ ((request_block s hoststr).take (1024 * 4 - 1)
      ++ (request_auth e s path auth ++ str_crlf)))).length (BUFFER_SIZE - 1) with h | h
    · exact h
    · rw [Nat.min_eq_left h] at hfit
      exact absurd hfit (lt_irrefl _)
  rw [List.take_of_length_le (le_of_lt hlen)]
  have hb : (request_block s hoststr).length ≤ 1024 * 4 - 1 := by
    by_contra hc
    have h1 : ((request_block s hoststr).take (1024 * 4 - 1)).length = 1024 * 4 - 1 := by
      rw [List.length_take]; omega
    simp only [List.length_append, h1] at hlen
    unfold BUFFER_SIZE at hlen
    omega
  rw [List.take_of_length_le hb]
theorem request_line_ok (s : HTTPContext) (path : Str) (h13 : 13 ∉ cstr path) :
    (∀ c ∈ request_line s path, c ≠ 0) ∧ WholeLines (request_line s path) ∧
    request_line s path ≠ [] ∧
    header_count hdr_Connection (request_line s path) = 0 ∧
    header_count hdr_Range (request_line s path) = 0 := by
  have hshape : request_line s path
      = ((if hasFlag s.h_flags AVIO_FLAG_WRITE then str_POST else str_GET) ++ [32] ++ cstr path
          ++ [32, 72, 84, 84, 80, 47, 49, 46, 49]) ++ [13, 10] := by
    unfold request_line str_HTTP11_crlf
    simp only [List.append_assoc, List.cons_append, List.nil_append]
  have hz : ∀ c ∈ (if hasFlag s.h_flags AVIO_FLAG_WRITE then str_POST else str_GET) ++ [32]
      ++ cstr path ++ [32, 72, 84, 84, 80, 47, 49, 46, 49], c ≠ 0 := by
    refine mem_append_nonzero (mem_append_nonzero (mem_append_nonzero ?_ (by decide))
      (cstr_nonzero _)) (by decide)
    split_ifs <;> decide
  have h13b : 13 ∉ (if hasFlag s.h_flags AVIO_FLAG_WRITE then str_POST else str_GET) ++ [32]
      ++ cstr path ++ [32, 72, 84, 84, 80, 47, 49, 46, 49] := by
    intro hm
    rcases List.mem_append.mp hm with hm | hm
    · rcases List.mem_append.mp hm with hm | hm
      · rcases List.mem_append.mp hm with hm | hm
        · split_ifs at hm <;> exact absurd hm (by decide)
        · exact absurd hm (by decide)
      · exact h13 hm
    · exact absurd hm (by decide)
  have hstart : ∀ hdr : Str, hdr = hdr_Connection ∨ hdr = hdr_Range →
      av_stristart (((if hasFlag s.h_flags AVIO_FLAG_WRITE then str_POST else str_GET) ++ [32]
        ++ cstr path ++ [32, 72, 84, 84, 80, 47, 49, 46, 49]) ++ [13, 10]) (hdr.drop 2)
        = false := by
    intro hdr hh
    rcases hh with hh | hh <;> rw [hh] <;> split_ifs <;> rfl
  refine ⟨?_, ?_, ?_, ?_, ?_⟩
  · rw [hshape]; exact mem_append_nonzero hz (by decide)
  · rw [hshape]; exact wholeLines_line _
  · rw [hshape]; simp
  · rw [hshape, header_count_line _ isHeaderName_Connection _ hz h13b,
      hstart _ (Or.inl rfl)]
    rfl
  · rw [hshape, header_count_line _ isHeaderName_Range _ hz h13b, hstart _ (Or.inr rfl)]
    rfl

theorem request_chunked_ok (s : HTTPContext) :
    (∀ c ∈ request_chunked s, c ≠ 0) ∧ WholeLines (request_chunked s) ∧
    header_count hdr_Connection (request_chunked s) = 0 ∧
    header_count hdr_Range (request_chunked s) = 0 := by
  unfold request_chunked
  split_ifs
  · exact ⟨by decide, Or.inr ⟨([84, 114, 97, 110, 115, 102, 101, 114, 45, 69, 110, 99, 111, 100, 105, 110, 103, 58, 32, 
    99, 104, 117, 110, 107, 101, 100] : Str), rfl⟩, by rfl, by rfl⟩
  · exact ⟨by decide, Or.inl rfl, by rfl, by rfl⟩

theorem request_auth_nonzero (e : Env) (s : HTTPContext) (path auth : Str) :
    ∀ c ∈ request_auth e s path auth, c ≠ 0 := by
  unfold request_auth
  split
  · exact cstr_nonzero _
  · intro c hc; exact absurd hc (List.not_mem_nil _)

theorem isPrefixOf_append_crlf : ∀ (Y m : Str), 13 ∉ m → m ≠ [] →
    m.isPrefixOf (Y ++ [13, 10]) = m.isPrefixOf Y := by
  intro Y
  induction Y with
  | nil =>
    intro m h13 hne
    obtain ⟨a, m2, hm⟩ := List.exists_cons_of_ne_nil hne
    have ha : a ≠ 13 := fun h => h13 (by rw [hm, h]; exact List.mem_cons_self _ _)
    rw [hm, List.nil_append, isPrefixOf_cons_cons]
    have : (a == 13) = false := by simpa using ha
    rw [this]; rfl
  | cons y Y ih =>
    intro m h13 hne
    obtain ⟨a, m2, hm⟩ := List.exists_cons_of_ne_nil hne
    rw [hm, List.cons_append, isPrefixOf_cons_cons, isPrefixOf_cons_cons]
    by_cases h2 : m2 = []
    · rw [h2]; simp [List.isPrefixOf]
    · rw [ih m2 (fun h => h13 (by rw [hm]; exact List.mem_cons_of_mem _ h)) h2]

theorem occurrences_append_crlf (R : Str) (hR : 13 ∉ R) (hne : R ≠ []) : ∀ X : Str,
    occurrences (13 :: 10 :: R) (X ++ [13, 10]) = occurrences (13 :: 10 :: R) X := by
  have h10 : 13 ∉ (10 :: R) := by
    intro h
    rcases List.mem_cons.mp h with h | h
    · exact absurd h (by decide)
    · exact hR h
  obtain ⟨r, R2, hR2⟩ := List.exists_cons_of_ne_nil hne
  intro X
  induction X with
  | nil =>
    rw [List.nil_append, hR2]
    rfl
  | cons c X ih =>
    rw [List.cons_append, occurrences_cons, occurrences_cons, ih]
    congr 1
    have : (13 :: 10 :: R).isPrefixOf (c :: (X ++ [13, 10]))
        = (13 :: 10 :: R).isPrefixOf (c :: X) := by
      rw [isPrefixOf_cons_cons, isPrefixOf_cons_cons,
        isPrefixOf_append_crlf X (10 :: R) h10 (List.cons_ne_nil _ _)]
    rw [this]

theorem header_count_append_crlf (hdr : Str) (hn : IsHeaderName hdr) (A : Str)
    (hA : ∀ c ∈ A, c ≠ 0) : header_count hdr (A ++ str_crlf) = header_count hdr A := by
  have hc : cstr (A ++ str_crlf) = A ++ [13, 10] :=
    cstr_of_nonzero _ (mem_append_nonzero hA (by decide))
  unfold header_count
  rw [hc, cstr_of_nonzero A hA, hn.1, List.map_append]
  have : List.map tolower [13, 10] = [13, 10] := rfl
  rw [this]
  exact occurrences_append_crlf _ hn.2.1 hn.2.2 (13 :: 10 :: List.map tolower A)

/-- The count of a header name in an uncut request is its count in the
header block plus its count in the authorization text, when request line and
chunked line hold none. -/
theorem header_count_request (hdr : Str) (hn : IsHeaderName hdr) (e : Env) (s : HTTPContext)
    (path hoststr auth : Str) (ht : RequestTexts e s path hoststr auth)
    (hfit : (http_request e s path hoststr auth).length < BUFFER_SIZE - 1)
    (hrl : header_count hdr (request_line s path) = 0)
    (hte : header_count hdr (request_chunked s) = 0) :
    header_count hdr (http_request e s path hoststr auth)
      = header_count hdr (request_block s hoststr)
        + header_count hdr (request_auth e s path auth) := by
  rw [http_request_uncut e s path hoststr auth hfit,
    header_count_append hdr hn _ _ (request_line_ok s path ht.path_cr).1
      (request_line_ok s path ht.path_cr).2.1,
    header_count_append hdr hn _ _ (request_chunked_ok s).1 (request_chunked_ok s).2.1,
    header_count_append hdr hn _ _
      (request_block_ok s hoststr ht.url_lines ht.custom_lines ht.host_cr).1
      (request_block_ok s hoststr ht.url_lines ht.custom_lines ht.host_cr).2,
    header_count_append_crlf hdr hn _ (request_auth_nonzero e s path auth), hrl, hte]
  omega
theorem occurrences_of_not_mem (a : Nat) (N : Str) : ∀ hay : Str, a ∉ hay →
    occurrences (a :: N) hay = 0 := by
  intro hay
  induction hay with
  | nil => intro _; rfl
  | cons c hay ih =>
    intro h
    have hc : a ≠ c := fun e => h (by rw [e]; exact List.mem_cons_self _ _)
    rw [occurrences_cons, ih (fun hm => h (List.mem_cons_of_mem _ hm)), isPrefixOf_cons_cons]
    have : (a == c) = false := by simpa using hc
    rw [this]; rfl

theorem tolower_eq_13 (c : Nat) (h : tolower c = 13) : c = 13 := by
  unfold tolower at h
  split_ifs at h <;> omega

/-- A text without CR that does not begin with a header name holds no header of that name. -/
theorem header_count_no_cr (hdr : Str) (hn : IsHeaderName hdr) (X : Str) (h13 : 13 ∉ X)
    (hstart : av_stristart X (hdr.drop 2) = false) : header_count hdr X = 0 := by
  rw [header_count_eq hdr hn X, hstart, hn.1]
  have hc : 13 ∉ (cstr X).map tolower := by
    intro hm
    obtain ⟨c, hcm, hce⟩ := List.mem_map.mp hm
    have : c = 13 := tolower_eq_13 c hce
    rw [this] at hcm
    exact h13 ((List.takeWhile_prefix _).subset hcm)
  rw [occurrences_of_not_mem 13 _ _ hc]
  rfl

/-- A GET request whose request line reaches the end of `s->buffer` before
its CRLF is cut there. -/
theorem http_request_cut_in_line (e : Env) (s : HTTPContext) (path hoststr auth : Str)
    (hget : hasFlag s.h_flags AVIO_FLAG_WRITE = false)
    (hlen : BUFFER_SIZE - 1
      ≤ (str_GET ++ [32] ++ cstr path ++ [32, 72, 84, 84, 80, 47, 49, 46, 49]).length) :
    http_request e s path hoststr auth
      = (str_GET ++ [32] ++ cstr path ++ [32, 72, 84, 84, 80, 47, 49, 46, 49]).take
          (BUFFER_SIZE - 1) := by
  unfold http_request
  simp only [hget, Bool.false_eq_true, if_false, false_and]
  have hsplit : str_HTTP11_crlf = [32, 72, 84, 84, 80, 47, 49, 46, 49] ++ [13, 10] := rfl
  rw [hsplit, ← List.append_assoc (str_GET ++ [32] ++ cstr path),
    List.append_assoc (str_GET ++ [32] ++ cstr path ++ [32, 72, 84, 84, 80, 47, 49, 46, 49]),
    List.append_assoc (str_GET ++ [32] ++ cstr path ++ [32, 72, 84, 84, 80, 47, 49, 46, 49]),
    List.append_assoc (str_GET ++ [32] ++ cstr path ++ [32, 72, 84, 84, 80, 47, 49, 46, 49]),
    List.append_assoc (str_GET ++ [32] ++ cstr path ++ [32, 72, 84, 84, 80, 47, 49, 46, 49]),
    List.take_append_of_le_length hlen]

theorem header_count_cut_in_line (e : Env) (s : HTTPContext) (path hoststr auth : Str)
    (hget : hasFlag s.h_flags AVIO_FLAG_WRITE = false)
    (hlen : BUFFER_SIZE - 1
      ≤ (str_GET ++ [32] ++ cstr path ++ [32, 72, 84, 84, 80, 47, 49, 46, 49]).length)
    (h13 : 13 ∉ cstr path) :
    (http_request e s path hoststr auth).length = BUFFER_SIZE - 1 ∧
    header_count hdr_Connection (http_request e s path hoststr auth) = 0 ∧
    header_count hdr_Range (http_request e s path hoststr auth) = 0 := by
  rw [http_request_cut_in_line e s path hoststr auth hget hlen]
  have hno : 13 ∉ (str_GET ++ [32] ++ cstr path ++ [32, 72, 84, 84, 80, 47, 49, 46, 49]).take
      (BUFFER_SIZE - 1) := by
    intro hm
    have hm2 := (List.take_prefix _ _).subset hm
    rcases List.mem_append.mp hm2 with h | h
    · rcases List.mem_append.mp h with h | h
      · exact absurd h (by decide)
      · exact h13 h
    · exact absurd h (by decide)
  have hshape : (str_GET ++ [32] ++ cstr path ++ [32, 72, 84, 84, 80, 47, 49, 46, 49]).take
      (BUFFER_SIZE - 1)
      = 71 :: ((69 :: 84 :: 32 :: (cstr path ++ [32, 72, 84, 84, 80, 47, 49, 46, 49])).take
          (BUFFER_SIZE - 2)) := rfl
  refine ⟨?_, ?_, ?_⟩
  · rw [List.length_take]; omega
  · refine header_count_no_cr _ isHeaderName_Connection _ hno ?_
    rw [hshape]; rfl
  · refine header_count_no_cr _ isHeaderName_Range _ hno ?_
    rw [hshape]; rfl

theorem longPath_ok : cstr longPath = longPath ∧ longPath.length = 4085 ∧ 13 ∉ longPath := by
  have hz : ∀ c ∈ longPath, c ≠ 0 := by
    intro c hc
    unfold longPath at hc
    rcases List.mem_cons.mp hc with h | h
    · rw [h]; decide
    · rw [(List.mem_replicate.mp h).2]; decide
  refine ⟨cstr_of_nonzero _ hz, ?_, ?_⟩
  · unfold longPath
    rw [List.length_cons, List.length_replicate]
  · intro hc
    unfold longPath at hc
    rcases List.mem_cons.mp hc with h | h
    · exact absurd h (by decide)
    · exact absurd (List.mem_replicate.mp h).2 (by decide)

theorem readsOn_refl (id : Nat) (w : World) : ReadsOn id w w :=
  ⟨Eq.refl _, Eq.refl _, Eq.refl _, Eq.refl _, fun _ _ => Eq.refl _⟩

theorem readsOn_gettime (id : Nat) (w : World) : ReadsOn id w (av_gettime w).2 :=
  ⟨Eq.refl _, Eq.refl _, Eq.refl _, Eq.refl _, fun _ _ => Eq.refl _⟩

theorem readsOn_trans {id : Nat} {w1 w2 w3 : World} (h12 : ReadsOn id w1 w2)
    (h23 : ReadsOn id w2 w3) : ReadsOn id w1 w3 :=
  ⟨h23.peer.trans h12.peer, h23.intr.trans h12.intr, h23.nopen.trans h12.nopen,
   h23.log.trans h12.log, fun j hj => (h23.others j hj).trans (h12.others j hj)⟩

theorem readsOn_setLink (id : Nat) (w : World) (l : Link) : ReadsOn id w (setLink w id l) := by
  refine ⟨Eq.refl _, Eq.refl _, Eq.refl _, Eq.refl _, fun j hj => ?_⟩
  unfold setLink
  simp only [List.get?_eq_getElem?]
  exact List.getElem?_set_ne (Ne.symm hj)

theorem link_rd_self (l : Link) : { l with rd := l.rd } = l := by
  cases l; rfl

theorem context_buf_self (s : HTTPContext) : { s with buf := s.buf } = s := by
  cases s; rfl

theorem http_getc_fill_step (fuel : Nat) (s : HTTPContext) (w : World) (id : Nat) (t : Int)
    (len : Int) (bs : Str) (w1 : World)
    (hr : ffurl_read w id (BUFFER_SIZE : Nat) = (len, bs, w1)) :
    (len < 0 → len ≠ AVERROR EAGAIN →
      http_getc_fill (fuel + 1) s w id t = some (some (AVERROR EIO), s, w1)) ∧
    (len = 0 → http_getc_fill (fuel + 1) s w id t = some (some (-1), s, w1)) ∧
    (len = AVERROR EAGAIN →
      http_getc_fill (fuel + 1) s w id t
        = if (av_gettime w1).1 > t + 1000 * 10000
          then some (some (AVERROR ETIMEDOUT), s, (av_gettime w1).2)
          else http_getc_fill fuel s (av_gettime w1).2 id t) ∧
    (0 < len →
      http_getc_fill (fuel + 1) s w id t
        = if (av_gettime (av_gettime w1).2).1 > (av_gettime w1).1 + 1000 * 10000
          then some (some (AVERROR ETIMEDOUT), { s with buf := bs }, (av_gettime (av_gettime w1).2).2)
          else some (none, { s with buf := bs }, (av_gettime (av_gettime w1).2).2)) := by
  refine ⟨fun h1 h2 => ?_, fun h1 => ?_, fun h1 => ?_, fun h1 => ?_⟩
  · unfold http_getc_fill
    simp only [hr]
    rw [if_pos ⟨h1, h2⟩]
  · unfold http_getc_fill
    simp only [hr]
    rw [if_neg (by omega), if_pos h1]
  · have hneg : len < 0 := by rw [h1]; decide
    conv => lhs; unfold http_getc_fill
    simp only [hr]
    rw [if_neg (fun h => h.2 h1), if_neg (by omega)]
    have hlen : ¬ (len > 0) := by omega
    simp only [hlen, if_false]
    rw [if_pos h1]
  · have hne : len ≠ AVERROR EAGAIN := by
      intro h; rw [h] at h1; exact absurd h1 (by decide)
    unfold http_getc_fill
    simp only [hr]
    rw [if_neg (by omega), if_neg (by omega)]
    have hlen : len > 0 := h1
    simp only [hlen, if_true]
    rw [if_neg hne]

/-- The refill loop of `http_getc` on a connection that ends before it has
delivered a line feed ends, with an error or with a buffer without line feed. -/
theorem http_getc_fill_noLine : ∀ (fuel : Nat) (s : HTTPContext) (w : World) (id : Nat)
    (l : Link) (t : Int), s.buf = [] → w.links.get? id = some l → EndsBeforeLine l.rd →
    rdCost l.rd < fuel →
    ∃ (r : Option Int) (b : Str) (w2 : World) (rd : List RdEv),
      http_getc_fill fuel s w id t = some (r, { s with buf := b }, w2) ∧
      ReadsOn id w w2 ∧ w2.links.get? id = some { l with rd := rd } ∧
      10 ∉ b ∧ b.length + rdCost rd ≤ rdCost l.rd ∧
      ((∃ err : Int, r = some err ∧ err < 0) ∨ (r = none ∧ b ≠ [] ∧ EndsBeforeLine rd)) := by
  intro fuel
  induction fuel with
  | zero => intro s w id l t _ _ _ h; omega
  | succ fuel ih =>
    intro s w id l t hb hl hnl hc
    have hs : s = { s with buf := [] } := by rw [← hb, context_buf_self]
    cases hrd : l.rd with
    | nil =>
      have hstep := (http_getc_fill_step fuel s w id t _ _ _
        (ffurl_read_closed w id l _ hl hrd)).2.1 (Eq.refl _)
      refine ⟨some (-1), [], w, [], ?_, readsOn_refl _ _, ?_, by simp, by simp,
        Or.inl ⟨-1, Eq.refl _, by decide⟩⟩
      · rw [hstep, ← hs]
      · rw [← hrd, link_rd_self]; exact hl
    | cons ev r =>
      rw [hrd] at hnl hc
      cases ev with
      | fail e0 =>
        have hread := ffurl_read_fail w id l e0 r (BUFFER_SIZE : Nat) hl hrd
        have hstep := http_getc_fill_step fuel s w id t _ _ _ hread
        have hl2 : (setLink w id { l with rd := r }).links.get? id = some { l with rd := r } :=
          setLink_get w id l _ hl
        simp only [rdCost] at hc
        by_cases h1 : -((e0 + 1 : Nat) : Int) = AVERROR EAGAIN
        · have he0 : e0 = 10 := by
            have : AVERROR EAGAIN = -11 := rfl
            rw [this] at h1
            omega
          have hnr : EndsBeforeLine r := hnl he0
          rw [hstep.2.2.1 h1]
          split_ifs with h2
          · refine ⟨some (AVERROR ETIMEDOUT), [], _, r, ?_,
              readsOn_trans (readsOn_setLink _ _ _) (readsOn_gettime _ _), hl2,
              by simp, by simp [rdCost], Or.inl ⟨_, Eq.refl _, by decide⟩⟩
            rw [← hs]
          · obtain ⟨r2, b2, w2, rd2, he, hro, hl3, hb3, hc3, hr3⟩ :=
              ih s (av_gettime (setLink w id { l with rd := r })).2 id { l with rd := r } t hb
                hl2 hnr (by simp only; omega)
            refine ⟨r2, b2, w2, rd2, he,
              readsOn_trans (readsOn_setLink _ _ _) (readsOn_trans (readsOn_gettime _ _) hro),
              hl3, hb3, ?_, hr3⟩
            simp only [rdCost] at hc3 ⊢
            omega
        · rw [hstep.1 (by omega) h1]
          refine ⟨some (AVERROR EIO), [], _, r, ?_, readsOn_setLink _ _ _, hl2,
            by simp, by simp [rdCost], Or.inl ⟨_, Eq.refl _, by decide⟩⟩
          rw [← hs]
      | data bs =>
        have hread := ffurl_read_data w id l bs r (BUFFER_SIZE : Nat) hl hrd
        have hcost : (bs.take (min (BUFFER_SIZE : Int).toNat bs.length)).length
            + rdCost (if bs.drop (min (BUFFER_SIZE : Int).toNat bs.length) = [] then r
              else RdEv.data (bs.drop (min (BUFFER_SIZE : Int).toNat bs.length)) :: r)
            ≤ rdCost (RdEv.data bs :: r) := by
          split_ifs
          · simp only [rdCost, List.length_take]
            omega
          · simp only [rdCost, List.length_take, List.length_drop]
            omega
        have hn2 : bs ≠ [] →
            EndsBeforeLine (if bs.drop (min (BUFFER_SIZE : Int).toNat bs.length) = [] then r
              else RdEv.data (bs.drop (min (BUFFER_SIZE : Int).toNat bs.length)) :: r) := by
          intro hne
          obtain ⟨hnbs, hnr⟩ := hnl hne
          split_ifs
          · exact hnr
          · exact fun _ => ⟨fun hm => hnbs (List.mem_of_mem_drop hm), hnr⟩
        have hntake : bs ≠ [] → 10 ∉ bs.take (min (BUFFER_SIZE : Int).toNat bs.length) :=
          fun hne hm => (hnl hne).1 (List.mem_of_mem_take hm)
        generalize (if bs.drop (min (BUFFER_SIZE : Int).toNat bs.length) = [] then r
            else RdEv.data (bs.drop (min (BUFFER_SIZE : Int).toNat bs.length)) :: r) = rd2
          at hread hn2 hcost
        have hstep := http_getc_fill_step fuel s w id t _ _ _ hread
        have hl2 := setLink_get w id l { l with rd := rd2 } hl
        by_cases h0 : ((min (BUFFER_SIZE : Int).toNat bs.length : Nat) : Int) = 0
        · rw [hstep.2.1 h0]
          refine ⟨some (-1), [], _, _, ?_, readsOn_setLink _ _ _, hl2, by simp, ?_,
            Or.inl ⟨-1, Eq.refl _, by decide⟩⟩
          · rw [← hs]
          · have := hcost
            simp only [List.length_nil, zero_add]
            omega
        · have hpos : 0 < ((min (BUFFER_SIZE : Int).toNat bs.length : Nat) : Int) := by omega
          rw [hstep.2.2.2 hpos]
          have hbs : bs ≠ [] := by
            intro h
            rw [h] at h0
            exact h0 (by simp)
          have hne : bs.take (min (BUFFER_SIZE : Int).toNat bs.length) ≠ [] := by
            intro h
            have := congrArg List.length h
            simp only [List.length_take, List.length_nil] at this
            omega
          split_ifs with h2
          · exact ⟨some (AVERROR ETIMEDOUT), _, _, _, Eq.refl _,
              readsOn_trans (readsOn_setLink _ _ _)
                (readsOn_trans (readsOn_gettime _ _) (readsOn_gettime _ _)), hl2, hntake hbs,
              hcost, Or.inl ⟨_, Eq.refl _, by decide⟩⟩
          · exact ⟨none, _, _, _, Eq.refl _,
              readsOn_trans (readsOn_setLink _ _ _)
                (readsOn_trans (readsOn_gettime _ _) (readsOn_gettime _ _)), hl2, hntake hbs,
              hcost, Or.inr ⟨Eq.refl _, hne, hn2 hbs⟩⟩

theorem http_getc_eq (fuel : Nat) (s : HTTPContext) (w : World) (id : Nat)
    (hhd : s.hd = some id) :
    http_getc fuel s w
      = match s.buf with
        | c :: rest => some (c, { s with buf := rest }, (av_gettime w).2)
        | [] =>
          match http_getc_fill fuel s (av_gettime w).2 id (av_gettime w).1 with
          | none => none
          | some (some r, s1, w1) => some (r, s1, w1)
          | some (none, s1, w1) =>
            match s1.buf with
            | c :: rest => some (c, { s1 with buf := rest }, w1)
            | [] => some (0, s1, w1) := by
  unfold http_getc
  split
  · rename_i h
    rw [hhd] at h
    exact absurd h (by simp)
  · rename_i id2 h
    rw [hhd] at h
    simp only [Option.some.injEq] at h
    subst h
    rfl

/-- The function `http_getc` on a connection that ends before it has
delivered a line feed returns an error, or a byte that is no line feed, and
then what is left to deliver has become less. -/
theorem http_getc_noLine (fuel : Nat) (s : HTTPContext) (w : World) (id : Nat) (l : Link)
    (hhd : s.hd = some id) (hl : w.links.get? id = some l) (hnl : EndsBeforeLine l.rd)
    (hbuf : 10 ∉ s.buf) (hc : rdCost l.rd < fuel) :
    ∃ (c : Int) (b : Str) (w2 : World) (rd : List RdEv),
      http_getc fuel s w = some (c, { s with buf := b }, w2) ∧
      ReadsOn id w w2 ∧ w2.links.get? id = some { l with rd := rd } ∧
      10 ∉ b ∧ rdCost rd ≤ rdCost l.rd ∧
      (c < 0 ∨ (c ≠ 10 ∧ EndsBeforeLine rd ∧
        b.length + rdCost rd < s.buf.length + rdCost l.rd)) := by
  rw [http_getc_eq fuel s w id hhd]
  cases hb : s.buf with
  | cons c rest =>
    simp only
    rw [hb] at hbuf
    refine ⟨c, rest, _, l.rd, ?_, readsOn_gettime _ _, ?_, ?_, le_refl _,
      Or.inr ⟨?_, hnl, ?_⟩⟩
    · rfl
    · rw [link_rd_self]; exact hl
    · exact fun h => hbuf (List.mem_cons_of_mem _ h)
    · intro h
      have : c = 10 := by exact_mod_cast h
      exact hbuf (by rw [this]; exact List.mem_cons_self _ _)
    · simp only [List.length_cons]; omega
  | nil =>
    simp only
    obtain ⟨r, b, w2, rd, he, hro, hl2, hb2, hc2, hr⟩ :=
      http_getc_fill_noLine fuel s (av_gettime w).2 id l (av_gettime w).1 hb hl hnl hc
    rw [he]
    rcases hr with ⟨err, hr, hneg⟩ | ⟨hr, hne, hn2⟩
    · subst hr
      simp only
      exact ⟨err, b, w2, rd, Eq.refl _, readsOn_trans (readsOn_gettime _ _) hro, hl2, hb2,
        by omega, Or.inl hneg⟩
    · subst hr
      simp only
      cases hbb : b with
      | nil => exact absurd hbb hne
      | cons c rest =>
        simp only
        rw [hbb] at hb2 hc2
        refine ⟨c, rest, w2, rd, Eq.refl _, readsOn_trans (readsOn_gettime _ _) hro, hl2,
          fun h => hb2 (List.mem_cons_of_mem _ h), by omega, Or.inr ⟨?_, hn2, ?_⟩⟩
        · intro h
          have : c = 10 := by exact_mod_cast h
          exact hb2 (by rw [this]; exact List.mem_cons_self _ _)
        · simp only [List.length_cons, List.length_nil] at hc2 ⊢
          omega

/-- The loop of `http_get_line` on a connection that ends before it has
delivered a line feed ends with `AVERROR(EIO)`. -/
theorem http_get_line_loop_noLine : ∀ (n fuel : Nat) (s : HTTPContext) (w : World) (id : Nat)
    (l : Link) (line_size : Nat) (q : Str), s.hd = some id → w.links.get? id = some l →
    EndsBeforeLine l.rd → 10 ∉ s.buf → s.buf.length + rdCost l.rd < n → rdCost l.rd < fuel →
    ∃ (q2 b : Str) (w2 : World) (rd : List RdEv),
      http_get_line_loop n fuel s w line_size q = some (AVERROR EIO, q2, { s with buf := b }, w2) ∧
      ReadsOn id w w2 ∧ w2.links.get? id = some { l with rd := rd } := by
  intro n
  induction n with
  | zero => intro fuel s w id l ls q _ _ _ _ h _; omega
  | succ n ih =>
    intro fuel s w id l ls q hhd hl hnl hbuf hpot hc
    obtain ⟨c, b, w2, rd, he, hro, hl2, hb2, hc2, hr⟩ :=
      http_getc_noLine fuel s w id l hhd hl hnl hbuf hc
    unfold http_get_line_loop
    rw [he]
    simp only
    rcases hr with hneg | ⟨hne, hn2, hlt⟩
    · rw [if_pos hneg]
      exact ⟨q, b, w2, rd, Eq.refl _, hro, hl2⟩
    · by_cases hneg : c < 0
      · rw [if_pos hneg]
        exact ⟨q, b, w2, rd, Eq.refl _, hro, hl2⟩
      · rw [if_neg hneg, if_neg hne]
        obtain ⟨q3, b3, w3, rd3, he3, hro3, hl3⟩ := ih fuel { s with buf := b } w2 id
          { l with rd := rd } ls (if q.length + 1 < ls then q ++ [c.toNat] else q) hhd hl2 hn2 hb2
          (by simp only; omega) (by simp only; omega)
        exact ⟨q3, b3, w3, rd3, he3, readsOn_trans hro hro3, hl3⟩

theorem http_get_line_noLine (fuel : Nat) (s : HTTPContext) (w : World) (id : Nat) (l : Link)
    (line_size : Nat) (hhd : s.hd = some id) (hl : w.links.get? id = some l)
    (hnl : EndsBeforeLine l.rd) (hbuf : 10 ∉ s.buf) (hpot : s.buf.length + rdCost l.rd < fuel) :
    ∃ (q2 b : Str) (w2 : World) (rd : List RdEv),
      http_get_line fuel s w line_size = some (AVERROR EIO, q2, { s with buf := b }, w2) ∧
      ReadsOn id w w2 ∧ w2.links.get? id = some { l with rd := rd } :=
  http_get_line_loop_noLine fuel fuel s w id l line_size [] hhd hl hnl hbuf hpot (by omega)

theorem http_connect_header_noLine (n fuel : Nat) (e : Env) (s : HTTPContext) (w : World)
    (id : Nat) (l : Link) (nl : Int) (hhd : s.hd = some id) (hl : w.links.get? id = some l)
    (hnl : EndsBeforeLine l.rd) (hbuf : 10 ∉ s.buf) (hpot : s.buf.length + rdCost l.rd < fuel)
    (hn : 1 ≤ n) :
    ∃ (b : Str) (w2 : World) (rd : List RdEv),
      http_connect_header n fuel e s w nl = some (some (AVERROR EIO), { s with buf := b }, w2, nl) ∧
      ReadsOn id w w2 ∧ w2.links.get? id = some { l with rd := rd } := by
  obtain ⟨m, rfl⟩ : ∃ m, n = m + 1 := ⟨n - 1, by omega⟩
  obtain ⟨q2, b, w2, rd, he, hro, hl2⟩ := http_get_line_noLine fuel s w id l MAX_URL_SIZE hhd hl
    hnl hbuf hpot
  unfold http_connect_header
  rw [he]
  simp only
  rw [if_pos (by decide)]
  exact ⟨b, w2, rd, Eq.refl _, hro, hl2⟩

/-- The function `http_connect` of a GET on a connection that ends before it
has delivered a line feed returns `AVERROR(EIO)`; it has written its request, or nothing
when the write failed, and read on this connection only. -/
theorem http_connect_noLine (e : Env) (fuel : Nat) (s : HTTPContext) (w : World)
    (path hoststr auth : Str) (nl : Int) (id : Nat) (l : Link)
    (hget : hasFlag s.h_flags AVIO_FLAG_WRITE = false)
    (hhd : s.hd = some id) (hl : w.links.get? id = some l) (hnl : EndsBeforeLine l.rd)
    (hc : rdCost l.rd < fuel) :
    ∃ (s2 : HTTPContext) (w2 : World) (rd : List RdEv) (evs : List Ev),
      http_connect e fuel s w path hoststr auth nl = some (AVERROR EIO, s2, w2, nl) ∧
      s2.hd = some id ∧ s2.flags = s.flags ∧ s2.h_flags = s.h_flags ∧
      w2.peer = w.peer ∧ w2.intr = w.intr ∧ w2.nopen = w.nopen ∧ w2.log = w.log ++ evs ∧
      (evs = [] ∨ evs = [Ev.wrote id (cstr (http_request e s path hoststr auth))]) ∧
      (∀ j : Nat, j ≠ id → w2.links.get? j = w.links.get? j) ∧
      w2.links.get? id = some { l with rd := rd } := by
  have hq := ffurl_write_quiet w id (cstr (http_request e s path hoststr auth))
  have hlog := (ffurl_write_log w id (cstr (http_request e s path hoststr auth))).2
  have hevs : ∃ evs : List Ev,
      (ffurl_write w id (cstr (http_request e s path hoststr auth))).2.log = w.log ++ evs ∧
      (evs = [] ∨ evs = [Ev.wrote id (cstr (http_request e s path hoststr auth))]) := by
    rcases hlog with h | h
    · exact ⟨[], by rw [h, List.append_nil], Or.inl (Eq.refl _)⟩
    · exact ⟨_, h, Or.inr (Eq.refl _)⟩
  obtain ⟨evs, hlog2, hevs2⟩ := hevs
  unfold http_connect
  simp only [hhd, hget]
  by_cases hw : (ffurl_write w id (cstr (http_request e s path hoststr auth))).1 < 0
  · rw [if_pos hw]
    refine ⟨_, _, l.rd, evs, Eq.refl _, hhd, Eq.refl _, Eq.refl _, hq.peer, hq.intr, hq.nopen,
      hlog2, hevs2, fun j _ => by rw [hq.links], ?_⟩
    rw [hq.links, link_rd_self]; exact hl
  · rw [if_neg hw]
    have hl1 : (ffurl_write w id (cstr (http_request e s path hoststr auth))).2.links.get? id
        = some l := by rw [hq.links]; exact hl
    simp only [Bool.false_eq_true, if_false]
    obtain ⟨b, w2, rd, he, hro, hl2⟩ := http_connect_header_noLine fuel fuel e
      { http_connect_reset s with chunksize := -1 } _ id l nl hhd hl1 hnl
      (by simp [http_connect_reset]) (by simp [http_connect_reset]; omega) (by omega)
    rw [he]
    refine ⟨_, w2, rd, evs, Eq.refl _, hhd, Eq.refl _, Eq.refl _, hro.peer.trans hq.peer,
      hro.intr.trans hq.intr, hro.nopen.trans hq.nopen, by rw [hro.log, hlog2], hevs2,
      fun j hj => by rw [hro.others j hj, hq.links], hl2⟩

theorem findIdle_some (addr : Str) (flags : Nat) : ∀ (ls : List Link) (i j : Nat),
    findIdle addr flags ls i = some j →
    i ≤ j ∧ ∃ l : Link, ls.get? (j - i) = some l ∧ l.idle = true ∧ l.closed = false := by
  intro ls
  induction ls with
  | nil => intro i j h; simp [findIdle] at h
  | cons x xs ih =>
    intro i j h
    unfold findIdle at h
    split_ifs at h with hx
    · simp only [Option.some.injEq] at h
      subst h
      refine ⟨le_refl _, x, by simp, hx.1, ?_⟩
      have := hx.2.1
      simpa using this
    · obtain ⟨hle, l, hl, h1, h2⟩ := ih (i + 1) j h
      refine ⟨by omega, l, ?_, h1, h2⟩
      have hj : j - i = (j - (i + 1)) + 1 := by omega
      rw [hj, List.get?_cons_succ]
      exact hl

/-- The pool's acquire finds nothing, or hands over a connection that was
idle and open. -/
theorem tcppool_find_cases (w : World) (addr : Str) (flags : Nat) :
    tcppool_find_free_tcplink w addr flags = (none, w) ∨
    ∃ (id : Nat) (l : Link), w.links.get? id = some l ∧ l.idle = true ∧ l.closed = false ∧
      tcppool_find_free_tcplink w addr flags
        = (some id, { setLink w id { l with idle := false } with
                      log := w.log ++ [Ev.acquired id] }) := by
  unfold tcppool_find_free_tcplink
  cases hf : findIdle addr flags w.links 0 with
  | none => exact Or.inl (Eq.refl _)
  | some id =>
    obtain ⟨_, l, hl, h1, h2⟩ := findIdle_some addr flags w.links 0 id hf
    rw [Nat.sub_zero] at hl
    right
    refine ⟨id, l, hl, h1, h2, ?_⟩
    simp only [hl]

theorem get?_mem_links {ls : List Link} {j : Nat} {l : Link} (h : ls.get? j = some l) :
    l ∈ ls := by
  exact List.get?_mem h

/-- The part of a pass of `http_open_cnx` before `http_connect`, in a world
where no response yields a first line: the connection attempt is refused and
the pass fails, or the session gets a connection, new or from the pool, that
ends before it has delivered a line feed. -/
theorem http_open_cnx_link_noLine (e : Env) (B : Nat) (s : HTTPContext) (w : World)
    (hw : NoFirstLine B w) (hs : ReadSession s) :
    (∃ (s2 : HTTPContext) (w2 : World) (s1 : HTTPContext) (w1 : World),
      http_open_cnx_link e s w = (some (PassOut.done (AVERROR EIO) s2 w2), s1, w1) ∧
      ReadSession s2 ∧ w2.links = w.links ∧ w2.peer = w.peer ∧ w2.intr = w.intr ∧
      w2.nopen = w.nopen + 1 ∧ w2.log = w.log ++ [Ev.open_failed]) ∨
    (∃ (ev : Ev) (id : Nat) (l : Link) (s1 : HTTPContext) (w1 : World),
      http_open_cnx_link e s w = (none, s1, w1) ∧
      s1.hd = some id ∧ s1.h_flags = s.h_flags ∧ s1.flags = s.flags ∧
      s1.auth_state = s.auth_state ∧
      w1.links.get? id = some l ∧ l.idle = false ∧ EndsBeforeLine l.rd ∧ rdCost l.rd ≤ B ∧
      w1.peer = w.peer ∧ w1.intr = w.intr ∧ w1.log = w.log ++ [ev] ∧
      ((ev = Ev.opened id ∧ w1.nopen = w.nopen + 1) ∨
       (ev = Ev.acquired id ∧ w1.nopen = w.nopen ∧
        ∃ l0 : Link, w.links.get? id = some l0 ∧ l0.idle = true)) ∧
      (∀ (j : Nat) (l2 : Link), j ≠ id → w1.links.get? j = some l2 → l2.idle = true →
        w.links.get? j = some l2)) := by
  have hi : (url_interrupt_cb w).1 = false := hw.intr _
  rcases tcppool_find_cases (url_interrupt_cb w).2 (http_open_cnx_target e s).1
    (http_open_cnx_flags e) with hfind | ⟨id, l0, hl0, hidle, hopen, hfind⟩
  · unfold http_open_cnx_link
    simp only [hfind]
    rw [if_neg (by rw [hi]; simp)]
    simp only [hs.hd]
    cases hp : w.peer w.nopen (http_open_cnx_target e s).1 with
    | none =>
      left
      have ho : ffurl_open (url_interrupt_cb w).2 (http_open_cnx_target e s).1
          (http_open_cnx_flags e)
          = (none, { (url_interrupt_cb w).2 with nopen := w.nopen + 1,
                                                  log := w.log ++ [Ev.open_failed] }) := by
        unfold ffurl_open
        show (match w.peer w.nopen (http_open_cnx_target e s).1 with
          | none => _
          | some sc => _) = _
        rw [hp]
        rfl
      simp only [ho]
      obtain ⟨s2, w2, hf, h1, h2, h3, h4⟩ := http_open_cnx_fail_spec
        { s with hd := none, hosname := (http_open_cnx_target e s).2.1 }
        { (url_interrupt_cb w).2 with nopen := w.nopen + 1, log := w.log ++ [Ev.open_failed] }
      rw [hf]
      rw [if_neg (by simp)] at h4
      refine ⟨s2, w2, _, _, Eq.refl _,
        ⟨h1, by rw [h2]; exact hs.h_flags, by rw [h3]; exact hs.flags⟩,
        ?_, ?_, ?_, ?_, ?_⟩ <;> rw [h4] <;> rfl
    | some sc =>
      right
      have ho : ffurl_open (url_interrupt_cb w).2 (http_open_cnx_target e s).1
          (http_open_cnx_flags e)
          = (some w.links.length, { (url_interrupt_cb w).2 with
              nopen := w.nopen + 1,
              links := w.links ++ [{ addr := (http_open_cnx_target e s).1,
                                     flags := http_open_cnx_flags e, rd := sc.rd,
                                     wfail := sc.wfail, idle := false, closed := false }],
              log := w.log ++ [Ev.opened w.links.length] }) := by
        unfold ffurl_open
        show (match w.peer w.nopen (http_open_cnx_target e s).1 with
          | none => _
          | some sc => _) = _
        rw [hp]
        rfl
      simp only [ho]
      obtain ⟨hn, hc⟩ := hw.peer _ _ sc hp
      refine ⟨Ev.opened w.links.length, w.links.length,
        { addr := (http_open_cnx_target e s).1, flags := http_open_cnx_flags e, rd := sc.rd,
          wfail := sc.wfail, idle := false, closed := false }, _, _, Eq.refl _, Eq.refl _,
        Eq.refl _, Eq.refl _, Eq.refl _, ?_, Eq.refl _, hn, hc, Eq.refl _, Eq.refl _, Eq.refl _,
        Or.inl ⟨Eq.refl _, Eq.refl _⟩, ?_⟩
      · simp
      · intro j l2 hj hl2 _
        simp only [List.get?_eq_getElem?] at hl2 ⊢
        by_cases hlt : j < w.links.length
        · rw [List.getElem?_append_left hlt] at hl2
          exact hl2
        · have hgt : w.links.length < j := by omega
          rw [List.getElem?_eq_none (by simp; omega)] at hl2
          exact absurd hl2 (by simp)
  · right
    obtain ⟨hn, hc⟩ := hw.idle l0 (get?_mem_links hl0) hidle hopen
    unfold http_open_cnx_link
    simp only [hfind]
    rw [if_neg (by rw [hi]; simp)]
    refine ⟨Ev.acquired id, id, { l0 with idle := false }, _, _, Eq.refl _, Eq.refl _,
      Eq.refl _, Eq.refl _, Eq.refl _, ?_, Eq.refl _, hn, hc, Eq.refl _, Eq.refl _, Eq.refl _,
      Or.inr ⟨Eq.refl _, Eq.refl _, l0, hl0, hidle⟩, ?_⟩
    · exact setLink_get (url_interrupt_cb w).2 id l0 _ hl0
    · intro j l2 hj hl2 _
      have : (setLink (url_interrupt_cb w).2 id { l0 with idle := false }).links.get? j
          = w.links.get? j := (readsOn_setLink id (url_interrupt_cb w).2 _).others j hj
      rw [← this]
      exact hl2

theorem noFirstLine_of_idle {B : Nat} {w w2 : World} (hw : NoFirstLine B w)
    (hintr : w2.intr = w.intr) (hpeer : w2.peer = w.peer)
    (hidle : ∀ (j : Nat) (l : Link), w2.links.get? j = some l → l.idle = true →
      w.links.get? j = some l) : NoFirstLine B w2 := by
  refine ⟨by rw [hintr]; exact hw.intr, by rw [hpeer]; exact hw.peer, ?_⟩
  intro l hl h1 h2
  obtain ⟨j, hj⟩ := List.mem_iff_get?.mp hl
  exact hw.idle l (get?_mem_links (hidle j l hj h1)) h1 h2

/-- One pass of `http_open_cnx` in a world where no response yields a first
line fails with `AVERROR(EIO)`; it is one attempt, and the connection it got
is closed. -/
theorem http_open_cnx_pass_noLine (e : Env) (fuel B : Nat) (s : HTTPContext) (w : World)
    (lc rd : Int) (hw : NoFirstLine B w) (hs : ReadSession s) (hfuel : B < fuel) :
    ∃ (s2 : HTTPContext) (w2 : World) (evs : List Ev),
      http_open_cnx_pass e fuel s w lc rd = some (PassOut.done (AVERROR EIO) s2 w2) ∧
      NoFirstLine B w2 ∧ ReadSession s2 ∧ FailedTries 1 w w2 evs := by
  rcases http_open_cnx_link_noLine e B s w hw hs with
    ⟨s2, w2, s1, w1, hlink, hs2, hlinks, hpeer, hintr, hnopen, hlog⟩ |
    ⟨ev, id, l, s1, w1, hlink, hhd, hhf, hf, _, hl1, hidle1, hnl, hcost, hpeer, hintr, hlog, hev,
      hothers⟩
  · have hkeep : ∀ (j : Nat) (l : Link), w2.links.get? j = some l → l.idle = true →
        w.links.get? j = some l := by
      intro j l h _
      rw [← hlinks]; exact h
    refine ⟨s2, w2, [Ev.open_failed], ?_, noFirstLine_of_idle hw hintr hpeer hkeep, hs2,
      ⟨hlog, Eq.refl _, hnopen, Eq.refl _, Eq.refl _, ?_, hkeep⟩⟩
    · unfold http_open_cnx_pass
      rw [hlink]
    · intro id h
      simp at h
  · obtain ⟨s2, w2, rd2, evs, hconn, hhd2, hf2, hhf2, hpeer2, hintr2, hnopen2, hlog2, hevs, hoth2,
      hl2⟩ := http_connect_noLine e fuel s1 w1 (http_open_cnx_target e s).2.2.2.2
        (http_open_cnx_target e s).2.2.1 (http_open_cnx_target e s).2.2.2.1 lc id l
        (by rw [hhf]; exact hs.h_flags) hhd hl1 hnl (by omega)
    obtain ⟨s3, w3, hfail, h1, h2, h3, h4⟩ := http_open_cnx_fail_spec s2 w2
    have hflags2 : hasFlag s2.flags AVIO_FLAG_WRITE = false := by
      rw [hf2, hf]; exact hs.flags
    rw [if_pos (by rw [hhd2]; rfl),
      http_close_and_keep_close s2 w2 _ _ hhd2 hflags2 hl2] at h4
    have e_intr : w3.intr = w.intr := by
      rw [h4]; show w2.intr = w.intr; rw [hintr2, hintr]
    have e_peer : w3.peer = w.peer := by
      rw [h4]; show w2.peer = w.peer; rw [hpeer2, hpeer]
    have e_nopen : w3.nopen = w1.nopen := by
      rw [h4]; show w2.nopen = w1.nopen; rw [hnopen2]
    have e_log : w3.log = w.log ++ (ev :: (evs ++ [Ev.closed id])) := by
      rw [h4]
      show w2.log ++ [Ev.closed id] = _
      rw [hlog2, hlog]
      simp
    have hkeep : ∀ (j : Nat) (l3 : Link), w3.links.get? j = some l3 → l3.idle = true →
        w.links.get? j = some l3 := by
      intro j l3 hj hi
      by_cases hjid : j = id
      · subst hjid
        rw [h4] at hj
        have hset := setLink_get w2 j _ { ({ l with rd := rd2 } : Link) with
          idle := false, closed := true } hl2
        have hj2 : (setLink w2 j { ({ l with rd := rd2 } : Link) with
            idle := false, closed := true }).links.get? j = some l3 := hj
        rw [hset] at hj2
        simp only [Option.some.injEq] at hj2
        rw [← hj2] at hi
        exact absurd hi (by simp)
      · rw [h4] at hj
        have hj2 : (setLink w2 id { ({ l with rd := rd2 } : Link) with
            idle := false, closed := true }).links.get? j = some l3 := hj
        rw [(readsOn_setLink id w2 _).others j hjid, hoth2 j hjid] at hj2
        exact hothers j l3 hjid hj2 hi
    refine ⟨s3, w3, ev :: (evs ++ [Ev.closed id]), ?_, noFirstLine_of_idle hw e_intr e_peer hkeep,
      ⟨h1, by rw [h2, hhf2, hhf]; exact hs.h_flags, by rw [h3]; exact hflags2⟩,
      ⟨e_log, ?_, ?_, ?_, ?_, ?_, hkeep⟩⟩
    · unfold http_open_cnx_pass
      rw [hlink]
      simp only [hconn, http_open_cnx_decide_eio, hfail]
    · rcases hev with ⟨he, _⟩ | ⟨he, _⟩ <;> rcases hevs with hv | hv <;> rw [he, hv] <;> rfl
    · rw [e_nopen]
      rcases hev with ⟨he, hn⟩ | ⟨he, hn, _⟩ <;> rcases hevs with hv | hv <;>
        rw [he, hv, hn] <;> rfl
    · rcases hev with ⟨he, _⟩ | ⟨he, _⟩ <;> rcases hevs with hv | hv <;> rw [he, hv] <;> rfl
    · rcases hev with ⟨he, _⟩ | ⟨he, _⟩ <;> rcases hevs with hv | hv <;> rw [he, hv] <;> rfl
    · intro id2 hmem
      rcases hev with ⟨he, _⟩ | ⟨he, _, l0, hl0, hi0⟩
      · rcases hevs with hv | hv <;> rw [he, hv] at hmem <;> simp at hmem
      · have : id2 = id := by
          rcases hevs with hv | hv <;> rw [he, hv] at hmem <;> simpa using hmem
        rw [this]
        exact ⟨l0, hl0, hi0⟩

theorem failedTries_trans {j k : Nat} {w1 w2 w3 : World} {evs1 evs2 : List Ev}
    (h12 : FailedTries j w1 w2 evs1) (h23 : FailedTries k w2 w3 evs2) :
    FailedTries (j + k) w1 w3 (evs1 ++ evs2) := by
  refine ⟨?_, ?_, ?_, ?_, ?_, ?_, fun i l hl hi => h12.idle i l (h23.idle i l hl hi) hi⟩
  · rw [h23.log, h12.log, List.append_assoc]
  · rw [List.filter_append, List.length_append, h12.tries, h23.tries]
  · rw [h23.nopen, h12.nopen, List.filter_append, List.length_append]; omega
  · unfold linksReleased
    rw [List.filterMap_append]
    have a := h12.released
    have b := h23.released
    unfold linksReleased at a b
    rw [a, b]; rfl
  · unfold linksClosed linksUsed
    rw [List.filterMap_append, List.filterMap_append]
    have a := h12.closed
    have b := h23.closed
    unfold linksClosed linksUsed at a b
    rw [a, b]
  · intro id hmem
    rcases List.mem_append.mp hmem with h | h
    · exact h12.acquired id h
    · obtain ⟨l, hl, hi⟩ := h23.acquired id h
      exact ⟨l, h12.idle id l hl hi, hi⟩

theorem failedTries_poll (w : World) : FailedTries 0 w (url_interrupt_cb w).2 [] :=
  ⟨(List.append_nil _).symm, Eq.refl _, Eq.refl _, Eq.refl _, Eq.refl _,
   fun _ h => absurd h (List.not_mem_nil _), fun _ _ h _ => h⟩

theorem failedTries_gettime (w : World) : FailedTries 0 w (av_gettime w).2 [] :=
  ⟨(List.append_nil _).symm, Eq.refl _, Eq.refl _, Eq.refl _, Eq.refl _,
   fun _ h => absurd h (List.not_mem_nil _), fun _ _ h _ => h⟩

theorem failedTries_refl (w : World) : FailedTries 0 w w [] :=
  ⟨(List.append_nil _).symm, Eq.refl _, Eq.refl _, Eq.refl _, Eq.refl _,
   fun _ h => absurd h (List.not_mem_nil _), fun _ _ h _ => h⟩

theorem noFirstLine_poll {B : Nat} (w : World) (h : NoFirstLine B w) :
    NoFirstLine B (url_interrupt_cb w).2 :=
  ⟨h.intr, h.peer, h.idle⟩

theorem noFirstLine_gettime {B : Nat} (w : World) (h : NoFirstLine B w) :
    NoFirstLine B (av_gettime w).2 :=
  ⟨h.intr, h.peer, h.idle⟩

theorem http_open_cnx_noLine (e : Env) (fuel B : Nat) (s : HTTPContext) (w : World)
    (hw : NoFirstLine B w) (hs : ReadSession s) (hfuel : B < fuel) :
    ∃ (s2 : HTTPContext) (w2 : World) (evs : List Ev),
      http_open_cnx e fuel s w = some (AVERROR EIO, s2, w2) ∧
      NoFirstLine B w2 ∧ ReadSession s2 ∧ FailedTries 1 w w2 evs := by
  obtain ⟨m, hm⟩ : ∃ m, fuel = m + 1 := ⟨fuel - 1, by omega⟩
  obtain ⟨s2, w2, evs, hp, h1, h2, h3⟩ := http_open_cnx_pass_noLine e fuel B
    { s with latest_get_time_ms := 0 } w 0 0 hw ⟨hs.hd, hs.h_flags, hs.flags⟩ hfuel
  refine ⟨s2, w2, evs, ?_, h1, h2, h3⟩
  unfold http_open_cnx
  conv => lhs; arg 1; rw [hm]
  exact http_open_cnx_loop_done _ _ _ _ _ _ _ _ _ _ hp

theorem http_open_retry_noLine (e : Env) (fuel B : Nat) (hfuel : B < fuel) :
    ∀ (n : Nat) (s : HTTPContext) (w : World) (j : Int),
    NoFirstLine B w → ReadSession s → 1 ≤ n → e.config_rettry - j ≤ n →
    ∃ (s2 : HTTPContext) (w2 : World) (evs : List Ev),
      http_open_retry n e fuel s w (AVERROR EIO) j = some (AVERROR EIO, s2, w2) ∧
      NoFirstLine B w2 ∧ ReadSession s2 ∧
      FailedTries (e.config_rettry - 1 - j).toNat w w2 evs := by
  intro n
  induction n with
  | zero => intro s w j _ _ h1 _; omega
  | succ n ih =>
    intro s w j hw hs _ hn
    unfold http_open_retry
    rw [if_pos (by decide)]
    by_cases hj : j + 1 < e.config_rettry
    · rw [if_pos hj]
      have hi : (url_interrupt_cb w).1 = false := hw.intr _
      simp only
      rw [if_pos ⟨by rw [hi]; rfl, by omega⟩]
      obtain ⟨s1, w1, evs1, hc, hw1, hs1, ha1⟩ := http_open_cnx_noLine e fuel B
        { s with is_seek := 0, canseek := 0 } (url_interrupt_cb w).2 (noFirstLine_poll w hw)
        ⟨hs.hd, hs.h_flags, hs.flags⟩ hfuel
      rw [hc]
      simp only
      obtain ⟨s2, w2, evs2, hr, hw2, hs2, ha2⟩ := ih s1 w1 (j + 1) hw1 hs1 (by omega)
        (by push_cast at hn; omega)
      refine ⟨s2, w2, [] ++ (evs1 ++ evs2), hr, hw2, hs2, ?_⟩
      have hk : (e.config_rettry - 1 - j).toNat
          = 0 + (1 + (e.config_rettry - 1 - (j + 1)).toNat) := by omega
      rw [hk]
      exact failedTries_trans (failedTries_poll w) (failedTries_trans ha1 ha2)
    · rw [if_neg hj]
      refine ⟨s, w, [], Eq.refl _, hw, hs, ?_⟩
      have hk : (e.config_rettry - 1 - j).toNat = 0 := by omega
      rw [hk]
      exact failedTries_refl w

theorem filter_isTry_of_not_acquired : ∀ evs : List Ev, (∀ id : Nat, Ev.acquired id ∉ evs) →
    evs.filter isTry = evs.filter isConnect ∧ linksUsed evs = linksOpened evs := by
  intro evs
  induction evs with
  | nil => intro _; exact ⟨Eq.refl _, Eq.refl _⟩
  | cons ev r ih =>
    intro h
    obtain ⟨h1, h2⟩ := ih (fun id hm => h id (List.mem_cons_of_mem _ hm))
    unfold linksUsed linksOpened at h2 ⊢
    cases ev with
    | acquired id => exact absurd (List.mem_cons_self _ _) (h id)
    | opened id => simp [isTry, isConnect, List.filter_cons, List.filterMap_cons, h1, h2]
    | open_failed => simp [isTry, isConnect, List.filter_cons, List.filterMap_cons, h1, h2]
    | released id => simp [isTry, isConnect, List.filter_cons, List.filterMap_cons, h1, h2]
    | closed id => simp [isTry, isConnect, List.filter_cons, List.filterMap_cons, h1, h2]
    | wrote id b => simp [isTry, isConnect, List.filter_cons, List.filterMap_cons, h1, h2]

theorem links_of_log (w : World) (evs : List Ev) :
    releasedLinks { w with log := w.log ++ evs } = releasedLinks w ++ linksReleased evs ∧
    openedLinks { w with log := w.log ++ evs } = openedLinks w ++ linksOpened evs ∧
    closedLinks { w with log := w.log ++ evs } = closedLinks w ++ linksClosed evs :=
  ⟨List.filterMap_append _ _ _, List.filterMap_append _ _ _, List.filterMap_append _ _ _⟩

/-- With no idle connection in the pool, failed attempts are connection
attempts: each one a call of `ffurl_open`. -/
theorem failedTries_attempts {k : Nat} {w w2 : World} {evs : List Ev}
    (h : FailedTries k w w2 evs) (hidle : ∀ l ∈ w.links, l.idle = false) :
    FailedAttempts k w w2 := by
  have hna : ∀ id : Nat, Ev.acquired id ∉ evs := by
    intro id hm
    obtain ⟨l, hl, hi⟩ := h.acquired id hm
    have := hidle l (get?_mem_links hl)
    rw [this] at hi
    exact absurd hi (by simp)
  obtain ⟨h1, h2⟩ := filter_isTry_of_not_acquired evs hna
  have hlinks := links_of_log w evs
  have e1 : releasedLinks w2 = releasedLinks { w with log := w.log ++ evs } := by
    unfold releasedLinks; rw [h.log]
  have e2 : openedLinks w2 = openedLinks { w with log := w.log ++ evs } := by
    unfold openedLinks; rw [h.log]
  have e3 : closedLinks w2 = closedLinks { w with log := w.log ++ evs } := by
    unfold closedLinks; rw [h.log]
  refine ⟨?_, ?_, linksUsed evs, ?_, ?_⟩
  · rw [h.nopen, ← h1, h.tries]
  · rw [e1, hlinks.1, h.released, List.append_nil]
  · rw [e2, hlinks.2.1, h2]
  · rw [e3, hlinks.2.2, h.closed]
/-! ## The claims -/

theorem http_connect_header_neg : ∀ (n fuel : Nat) (e : Env) (s : HTTPContext) (w : World)
    (nl : Int) (r : Int) (s2 : HTTPContext) (w2 : World) (nl2 : Int),
    http_connect_header n fuel e s w nl = some (some r, s2, w2, nl2) → r < 0 := by
  intro n
  induction n with
  | zero => intro fuel e s w nl r s2 w2 nl2 h; simp [http_connect_header] at h
  | succ n ih =>
    intro fuel e s w nl r s2 w2 nl2 h
    unfold http_connect_header at h
    split at h
    · simp at h
    · simp only at h
      split_ifs at h with h1 h2 h3 h4 h5
      · simp only [Option.some.injEq, Prod.mk.injEq] at h
        rw [← h.1]; decide
      · simp only [Option.some.injEq, Prod.mk.injEq] at h
        rw [← h.1]; decide
      · simp only [Option.some.injEq, Prod.mk.injEq] at h
        rw [← h.1]; exact h2
      · simp only [Option.some.injEq, Prod.mk.injEq] at h
        rw [← h.1]; decide
      · simp only [Option.some.injEq, Prod.mk.injEq] at h
        exact absurd h.1 (by simp)
      · exact ih _ _ _ _ _ _ _ _ _ h

theorem http_connect_finish_spec (s : HTTPContext) (off : Int) :
    (s.off = off → (http_connect_finish s off).1 = 0 ∧ (http_connect_finish s off).2 = s) ∧
    (0 ≤ s.off → s.off < off → (http_connect_finish s off).1 = 0 ∧
      (http_connect_finish s off).2.off = off ∧
      (http_connect_finish s off).2.do_readseek_size = off - s.off) ∧
    (off < s.off → (http_connect_finish s off).1 = -1) ∧
    (0 ≤ (http_connect_finish s off).1 → (http_connect_finish s off).2.off = off) := by
  unfold http_connect_finish
  simp only
  by_cases hc : s.off ≥ 0 ∧ off > s.off
  · rw [if_pos hc]
    refine ⟨fun h => ?_, fun _ _ => ?_, fun h => ?_, fun _ => Eq.refl _⟩
    · omega
    · exact ⟨if_pos (Eq.refl _), Eq.refl _, Eq.refl _⟩
    · omega
  · rw [if_neg hc]
    refine ⟨fun h => ?_, fun h1 h2 => ?_, fun h => ?_, fun h => ?_⟩
    · rw [if_pos h.symm]; exact ⟨Eq.refl _, Eq.refl _⟩
    · exact absurd ⟨h1, h2⟩ hc
    · rw [if_neg (by omega)]
    · by_cases he : off = s.off
      · exact he.symm
      · rw [if_neg he] at h; exact absurd h (by decide)

/-- C8: `http_connect` for a GET called at session offset `T = s.off`, on a
response whose header is read to its end. Let `r` be the offset the response
reports: the start the last `Content-Range` header among the header lines read
gives, 0 when none of them is a `Content-Range` header. With `r = T` it returns
0 with offset `T` and nothing to skip; with `0 ≤ r < T` it returns 0 with offset
`T` and `T - r` to skip; with `r > T` it returns an error. Whenever it returns
without error the session offset is `T`. For a header line
`Content-Range: bytes S-E/T` with `S < 2^63` the start is `S`. -/
theorem http_connect_offset (e : Env) (fuel : Nat) (s : HTTPContext) (w : World)
    (path hoststr auth : Str) (nl : Int)
    (hget : hasFlag s.h_flags AVIO_FLAG_WRITE = false) :
    (∀ (id : Nat) (s2 : HTTPContext) (w2 : World) (nl2 : Int),
        s.hd = some id →
        0 ≤ (ffurl_write w id (cstr (http_request e s path hoststr auth))).1 →
        http_connect_header fuel fuel e { http_connect_reset s with chunksize := -1 }
          (ffurl_write w id (cstr (http_request e s path hoststr auth))).2 nl
          = some (none, s2, w2, nl2) →
        ∃ (ret : Int) (s3 : HTTPContext),
          http_connect e fuel s w path hoststr auth nl = some (ret, s3, w2, nl2) ∧
          (reported_offset (response_header_lines e fuel s w path hoststr auth nl) = s.off →
            ret = 0 ∧ s3.off = s.off ∧ s3.do_readseek_size = 0) ∧
          (0 ≤ reported_offset (response_header_lines e fuel s w path hoststr auth nl) →
            reported_offset (response_header_lines e fuel s w path hoststr auth nl) < s.off →
            ret = 0 ∧ s3.off = s.off ∧
            s3.do_readseek_size
              = s.off - reported_offset (response_header_lines e fuel s w path hoststr auth nl)) ∧
          (s.off < reported_offset (response_header_lines e fuel s w path hoststr auth nl) →
            ret < 0)) ∧
    (∀ (ret : Int) (s3 : HTTPContext) (w3 : World) (nl3 : Int),
        http_connect e fuel s w path hoststr auth nl = some (ret, s3, w3, nl3) →
        0 ≤ ret → s3.off = s.off) ∧
    (∀ S E T : Nat, S < 2 ^ 63 →
      content_range_start (content_range_line S E T) = some (S : Int)) ∧
    (∀ headers : List Str, (∀ line ∈ headers, content_range_start line = none) →
      reported_offset headers = 0) ∧
    (∀ (headers : List Str) (line : Str) (v : Int), content_range_start line = some v →
      (∀ l ∈ headers, content_range_start l = none) →
      reported_offset (line :: headers) = v) := by
  refine ⟨?_, ?_, fun S E T hS => content_range_start_line S E T hS,
    fun headers h => offset_after_none 0 headers h, ?_⟩
  · intro id s2 w2 nl2 hhd hwr hhdr
    have hk := http_connect_header_keeps _ _ _ _ _ _ _ _ _ _ hhdr
    have hskip : s2.do_readseek_size = 0 := hk.skip
    have hr := http_connect_reported e fuel s w path hoststr auth nl id none s2 w2 nl2 hhd hhdr
    rw [← hr]
    obtain ⟨f1, f2, f3, _⟩ := http_connect_finish_spec s2 s.off
    refine ⟨(http_connect_finish s2 s.off).1, (http_connect_finish s2 s.off).2, ?_, ?_, f2, ?_⟩
    · unfold http_connect
      simp only [hhd, hget, not_lt.mpr hwr, if_false, Bool.false_eq_true, hhdr]
    · intro h
      obtain ⟨h1, h2⟩ := f1 h
      rw [h1, h2]
      exact ⟨Eq.refl _, h, hskip⟩
    · intro h
      rw [f3 h]; decide
  · intro ret s3 w3 nl3 h hret
    unfold http_connect at h
    simp only [hget, Bool.false_eq_true, if_false] at h
    split at h
    · simp only [Option.some.injEq, Prod.mk.injEq] at h
      rw [← h.1] at hret; exact absurd hret (by decide)
    · split_ifs at h
      · simp only [Option.some.injEq, Prod.mk.injEq] at h
        rw [← h.1] at hret; exact absurd hret (by decide)
      · split at h
        · simp at h
        · rename_i hh
          simp only [Option.some.injEq, Prod.mk.injEq] at h
          have := http_connect_header_neg _ _ _ _ _ _ _ _ _ _ hh
          rw [h.1] at this; omega
        · simp only [Option.some.injEq, Prod.mk.injEq] at h
          obtain ⟨h1, h2, _⟩ := h
          rw [← h2]
          exact (http_connect_finish_spec _ s.off).2.2.2 (by rw [h1]; exact hret)
  · intro headers line v hv hn
    unfold reported_offset
    rw [offset_after_cons, offset_after_none _ headers hn]
    unfold offset_after
    simp [List.filterMap, hv]

/-- C6: on a session of known size that is not streamed, a seek with
`SEEK_SET`, `SEEK_END`, or `SEEK_CUR` and a non-zero delta whose target is at
or past the size returns -2 and changes neither the session (offset,
connection, read buffer) nor the world (no reconnect). -/
theorem http_seek_past_end (e : Env) (fuel : Nat) (s : HTTPContext) (w : World)
    (off whence : Int) (hsize : s.filesize > 0) (hstream : s.h_is_streamed = 0)
    (hwhence : whence = SEEK_SET ∨ whence = SEEK_END ∨ (whence = SEEK_CUR ∧ off ≠ 0))
    (htarget : seek_target s off whence ≥ s.filesize) :
    http_seek e fuel s w off whence = some (-2, s, w) := by
  have h1 : whence ≠ AVSEEK_SIZE := by
    rcases hwhence with h | h | ⟨h, _⟩ <;> subst h <;> decide
  have h2 : ¬ ((s.filesize = -1 ∧ whence = SEEK_END) ∨ s.h_is_streamed ≠ 0) := by
    rintro (⟨h, _⟩ | h)
    · omega
    · exact h hstream
  have h3 : ¬ (whence = SEEK_CUR ∧ off = 0) := by
    rintro ⟨h, h0⟩
    rcases hwhence with h' | h' | ⟨_, h'⟩
    · rw [h] at h'; exact absurd h' (by decide)
    · rw [h] at h'; exact absurd h' (by decide)
    · exact h' h0
  unfold http_seek
  rw [if_neg h1, if_neg h2, if_neg h3]
  simp only [htarget, hsize, and_self, if_true]

/-- C7, as amended: on a streamed session every seek that is not a size
query returns -1, with no input or output and the session unchanged;
`SEEK_CUR` with offset 0 is no exception. -/
theorem http_seek_streamed (e : Env) (fuel : Nat) (s : HTTPContext) (w : World)
    (off whence : Int) (hstream : s.h_is_streamed ≠ 0) (hquery : whence ≠ AVSEEK_SIZE) :
    http_seek e fuel s w off whence = some (-1, s, w) := by
  unfold http_seek
  rw [if_neg hquery, if_pos (Or.inr hstream)]


set_option maxRecDepth 100000 in
/-- Witness of C8: the response `Content-Range: bytes 100-999/1000` reports
offset 100. A connect at offset 100 succeeds with nothing to skip, one at
offset 150 succeeds with 50 bytes to skip, one at offset 50 fails. -/
theorem http_connect_offset_witness :
    reported_offset (response_header_lines demoEnv 100 (sessAt 100)
      (connectedWorld respRange100) [47] ([104, 111, 115, 116] : Str) [] 0) = 100 ∧
    (∃ (s3 : HTTPContext) (w3 : World),
      http_connect demoEnv 100 (sessAt 100) (connectedWorld respRange100) [47]
        ([104, 111, 115, 116] : Str) [] 0 = some (0, s3, w3, 0)
      ∧ s3.off = 100 ∧ s3.do_readseek_size = 0) ∧
    (∃ (s3 : HTTPContext) (w3 : World),
      http_connect demoEnv 100 (sessAt 150) (connectedWorld respRange100) [47]
        ([104, 111, 115, 116] : Str) [] 0 = some (0, s3, w3, 0)
      ∧ s3.off = 150 ∧ s3.do_readseek_size = 50) ∧
    (∃ (ret : Int) (s3 : HTTPContext) (w3 : World),
      http_connect demoEnv 100 (sessAt 50) (connectedWorld respRange100) [47]
        ([104, 111, 115, 116] : Str) [] 0 = some (ret, s3, w3, 0) ∧ ret < 0) := by
  refine ⟨by rfl, ?_, ?_, ?_⟩
  · obtain ⟨ret, s3, h, h1, _, _⟩ :=
      (http_connect_offset demoEnv 100 (sessAt 100) (connectedWorld respRange100) [47]
        ([104, 111, 115, 116] : Str) [] 0 (by decide)).1 0 (rangeHeaderAt 100).2.1 (rangeHeaderAt 100).2.2.1 0
        (by rfl) (by decide)
        (option_eq_some_quad _ (none, zeroContext, deadWorld, 0) none 0 (by rfl) (by rfl)
          (by rfl))
    obtain ⟨hr, ho, hs⟩ := h1 (by rfl)
    subst hr
    exact ⟨s3, _, h, ho, hs⟩
  · obtain ⟨ret, s3, h, _, h2, _⟩ :=
      (http_connect_offset demoEnv 100 (sessAt 150) (connectedWorld respRange100) [47]
        ([104, 111, 115, 116] : Str) [] 0 (by decide)).1 0 (rangeHeaderAt 150).2.1 (rangeHeaderAt 150).2.2.1 0
        (by rfl) (by decide)
        (option_eq_some_quad _ (none, zeroContext, deadWorld, 0) none 0 (by rfl) (by rfl)
          (by rfl))
    have hrep : reported_offset (response_header_lines demoEnv 100 (sessAt 150)
        (connectedWorld respRange100) [47] ([104, 111, 115, 116] : Str) [] 0) = 100 := by rfl
    rw [hrep] at h2
    obtain ⟨hr, ho, hs⟩ := h2 (by decide) (by decide)
    subst hr
    exact ⟨s3, _, h, ho, hs⟩
  · obtain ⟨ret, s3, h, _, _, h3⟩ :=
      (http_connect_offset demoEnv 100 (sessAt 50) (connectedWorld respRange100) [47]
        ([104, 111, 115, 116] : Str) [] 0 (by decide)).1 0 (rangeHeaderAt 50).2.1 (rangeHeaderAt 50).2.2.1 0
        (by rfl) (by decide)
        (option_eq_some_quad _ (none, zeroContext, deadWorld, 0) none 0 (by rfl) (by rfl)
          (by rfl))
    have hrep : reported_offset (response_header_lines demoEnv 100 (sessAt 50)
        (connectedWorld respRange100) [47] ([104, 111, 115, 116] : Str) [] 0) = 100 := by rfl
    rw [hrep] at h3
    exact ⟨ret, s3, _, h, h3 (by decide)⟩

/-- Witness of C6: seeking to 1500 in a resource of 1000 bytes. -/
theorem http_seek_past_end_witness :
    http_seek demoEnv 10 sized1000 deadWorld 1500 SEEK_SET = some (-2, sized1000, deadWorld) :=
  http_seek_past_end demoEnv 10 sized1000 deadWorld 1500 SEEK_SET (by decide) (by decide)
    (Or.inl (Eq.refl _)) (by decide)

/-- Counterexample to C7: on a streamed session at offset 5, `SEEK_CUR` with
offset 0 returns -1, not the current offset. -/
theorem http_seek_streamed_tell_fails :
    (http_seek demoEnv 10 streamedAt5 deadWorld 0 SEEK_CUR).map (fun r => (r.1, r.2.1.off))
      = some (-1, 5) := by
  decide

/-- Witness of C7 as amended: a seek to 0 on a streamed session. -/
theorem http_seek_streamed_witness :
    http_seek demoEnv 10 streamedAt5 deadWorld 0 SEEK_SET = some (-1, streamedAt5, deadWorld) :=
  http_seek_streamed demoEnv 10 streamedAt5 deadWorld 0 SEEK_SET (by decide) (by decide)

/-- C4: with an auth-header handler that never resets a selected scheme to
none, a pass of `http_open_cnx` ends in the retry of the 401 branch only when
the reply is a 401, no scheme was selected before the request and one is
selected after it; a 401 reply on any other condition makes the pass return
`AVERROR(EIO)`, in particular every 401 that follows such a retry; and a run
of `http_open_cnx` makes at most one such retry. -/
theorem http_open_cnx_auth_once (e : Env) (hsticky : AuthSticky e) (fuel : Nat) :
    (∀ (s : HTTPContext) (w : World) (lc rd : Int) (s2 : HTTPContext) (w2 : World)
        (lc2 rd2 : Int),
      http_open_cnx_pass e fuel s w lc rd = some (PassOut.redo Redo.auth s2 w2 lc2 rd2) →
      s.auth_state.auth_type = HTTP_AUTH_NONE ∧ s2.auth_state.auth_type ≠ HTTP_AUTH_NONE ∧
      ∃ (ret : Int) (s1 : HTTPContext) (w1 : World),
        http_open_cnx_reply e fuel s w lc = some (ret, s1, w1, lc2) ∧ 0 ≤ ret ∧
        s1.http_code = 401) ∧
    (∀ (s : HTTPContext) (w : World) (lc rd ret : Int) (s1 : HTTPContext) (w1 : World)
        (lc1 : Int),
      http_open_cnx_reply e fuel s w lc = some (ret, s1, w1, lc1) → 0 ≤ ret →
      s1.http_code = 401 →
      ¬ (s.auth_state.auth_type = HTTP_AUTH_NONE ∧
          s1.auth_state.auth_type ≠ HTTP_AUTH_NONE) →
      ∃ (s2 : HTTPContext) (w2 : World),
        http_open_cnx_pass e fuel s w lc rd = some (PassOut.done (AVERROR EIO) s2 w2)) ∧
    (∀ (n : Nat) (s : HTTPContext) (w : World) (lc rd : Int),
      http_open_cnx_auth_retries n e fuel s w lc rd ≤ 1) := by
  refine ⟨?_, ?_, ?_⟩
  · intro s w lc rd s2 w2 lc2 rd2 h
    exact (http_open_cnx_pass_redo _ _ _ _ _ _ _ _ _ _ _ h).2 (Eq.refl _)
  · intro s w lc rd ret s1 w1 lc1 hr hret hcode hn
    rw [http_open_cnx_pass_of_reply e fuel s w lc rd ret s1 w1 lc1 hr]
    unfold http_open_cnx_decide
    rw [if_neg (not_lt.mpr hret), if_pos hcode, if_neg hn]
    exact ⟨_, _, Eq.refl _⟩
  · intro n
    induction n with
    | zero => intro s w lc rd; exact Nat.zero_le _
    | succ n ih =>
      intro s w lc rd
      unfold http_open_cnx_auth_retries
      split
      · rename_i why s1 w1 lc1 rd1 hp
        by_cases hw : why = Redo.auth
        · obtain ⟨_, hs1, _⟩ := (http_open_cnx_pass_redo _ _ _ _ _ _ _ _ _ _ _ hp).2 hw
          rw [http_open_cnx_auth_retries_zero e hsticky fuel _ _ _ _ _ hs1]
          simp [hw]
        · have := ih s1 w1 lc1 rd1
          simp only [hw, if_false]
          omega
      · exact Nat.zero_le _

theorem demoEnv_authSticky : AuthSticky demoEnv := by
  intro st tag value h
  show (demo_auth_handle_header st tag value).auth_type ≠ HTTP_AUTH_NONE
  unfold demo_auth_handle_header
  split_ifs with hc
  · exact absurd hc.1 h
  · exact h

set_option maxRecDepth 100000 in
/-- Witness of C4: a peer that answers every request with a 401 and a Basic
challenge gets one retry; the second 401 makes `http_open_cnx` return
`AVERROR(EIO)` on its second connection. -/
theorem http_open_cnx_auth_once_witness :
    http_open_cnx_auth_retries 100 demoEnv 100 openedSession challengingWorld 0 0 ≤ 1
    ∧ http_open_cnx_auth_retries 100 demoEnv 100 openedSession challengingWorld 0 0 = 1
    ∧ (http_open_cnx demoEnv 100 openedSession challengingWorld).map
        (fun r => (r.1, r.2.2.nopen, r.2.1.http_code)) = some (AVERROR EIO, 2, 401) :=
  ⟨(http_open_cnx_auth_once demoEnv demoEnv_authSticky 100).2.2 100 openedSession
      challengingWorld 0 0, by rfl, by rfl⟩

set_option maxRecDepth 100000 in
/-- C1, the code at the failing input: the first request is answered with
`404 Not Found`; `http_open_cnx` does not return but connects again, sends a
second request and returns 0 with `http_code` 200. -/
theorem http_open_cnx_retries_after_404 :
    (http_open_cnx demoEnv 100 openedSession notFoundOnceWorld).map
        (fun r => (r.1, r.2.1.http_code, r.2.2.nopen, requestsSent r.2.2))
      = some (0, 200, 2, 2) := by
  rfl

set_option maxRecDepth 100000 in
/-- Counterexample to C2: no connection of this peer yields a valid status
line (four lack the `HTTP` token, the others are closed streams) and the retry
ceiling is 2, yet `http_open` makes six connection attempts before it returns
`AVERROR(EIO)`. Two more ways the claim fails on a peer that closes every
stream at once: with the retry ceiling 0 `http_open` still makes one
connection attempt, and opened for writing it returns 0, for `http_connect`
reads no response after a POST. -/
theorem http_open_garbage_six_attempts :
    demoEnv.config_rettry = 2 ∧
    (http_open demoEnv 100 zeroContext garbageWorld demoUri AVIO_FLAG_READ).map
        (fun r => (r.1, r.2.2.nopen)) = some (AVERROR EIO, 6) ∧
    (http_open { demoEnv with config_rettry := 0 } 100 zeroContext closedWorld demoUri
        AVIO_FLAG_READ).map (fun r => (r.1, r.2.2.nopen)) = some (AVERROR EIO, 1) ∧
    (http_open demoEnv 100 postContext closedWorld demoUri AVIO_FLAG_WRITE).map
        (fun r => (r.1, r.2.2.nopen)) = some (0, 1) := by
  refine ⟨?_, ?_, ?_, ?_⟩ <;> rfl

set_option maxRecDepth 100000 in
/-- C5, the code at the failing input: after the open the server is gone, so
every reconnect of `http_seek` fails (four attempts); it still returns the
target 10, inside the 30 bytes of the resource, while the session is left at
offset 0 with no connection. -/
theorem http_seek_returns_target_on_failure :
    (openThenSeek vanishingWorld 10).map
        (fun r => (r.1, r.2.1.off, r.2.1.hd, r.2.1.filesize, r.2.2.nopen))
      = some (10, 0, none, 30, 5) := by
  rfl

set_option maxRecDepth 100000 in
/-- C9, the code at the failing input: after a seek to 4 on a server that
ignores `Range`, the first read skips 4 bytes and returns bytes 4 to 29; at
the end of the stream the next read reconnects at the stale offset 4 and
returns bytes 4 to 29 a second time. -/
theorem http_read_delivers_tail_twice :
    (seekThenReadTwice rangeIgnoringWorld 4).map (fun r => (r.2.1, r.2.2.2))
      = some ((26, resource30.drop 4), (26, resource30.drop 4)) := by
  rfl

set_option maxRecDepth 100000 in
/-- C10, the code at the failing input: with 4 bytes to skip the read
returns 26 bytes, and the session offset is 4 before the read and 4 after it. -/
theorem http_read_offset_not_advanced :
    (seekThenReadTwice rangeIgnoringWorld 4).map (fun r => (r.1, r.2.1.1, r.2.2.1))
      = some (4, 26, 4) := by
  rfl

/-- C2, as amended: when the cancellation signal is never set and every
connection, new or idle in the pool, ends before it has delivered a first line
(the peer closes the stream or a read fails before a line feed has arrived) or
is refused, `http_open` of a session opened for reading returns
`AVERROR(EIO)` after exactly `max(1, R)` attempts, `R` being the retry
ceiling, each attempt a connection opened, refused or taken from the pool;
every connection it opened or took from the pool is closed and none is
released to the pool. When the pool holds no idle connection, these are
`max(1, R)` connection attempts. The fuel is to exceed the retry ceiling and
the bytes and read events of a connection. -/
theorem http_open_no_first_line (e : Env) (fuel B : Nat) (s : HTTPContext) (w : World)
    (uri : Str) (flags : Nat) (hw : NoFirstLine B w)
    (hget : hasFlag s.h_flags AVIO_FLAG_WRITE = false)
    (hflags : hasFlag flags AVIO_FLAG_WRITE = false) (hfuel : B < fuel)
    (hR : e.config_rettry ≤ fuel) :
    ∃ (s2 : HTTPContext) (w2 : World) (evs : List Ev),
      http_open e fuel s w uri flags = some (AVERROR EIO, s2, w2) ∧ s2.hd = none ∧
      FailedTries (max 1 e.config_rettry).toNat w w2 evs ∧
      ((∀ l ∈ w.links, l.idle = false) →
        FailedAttempts (max 1 e.config_rettry).toNat w w2) := by
  obtain ⟨s1, w1, evs1, hc, hw1, hs1, ha1⟩ := http_open_cnx_noLine e fuel B
    (http_open_init e s uri flags) (av_gettime w).2 (noFirstLine_gettime w hw)
    ⟨Eq.refl _, hget, hflags⟩ hfuel
  obtain ⟨s2, w2, evs2, hr, hw2, hs2, ha2⟩ := http_open_retry_noLine e fuel B hfuel fuel s1 w1 0
    hw1 hs1 (by omega) (by omega)
  have hk : (max 1 e.config_rettry).toNat
      = 0 + (1 + ((e.config_rettry - 1 - 0).toNat + 0)) := by
    rcases le_total 1 e.config_rettry with h | h
    · rw [max_eq_right h]; omega
    · rw [max_eq_left h]; omega
  have hall : FailedTries (max 1 e.config_rettry).toNat w (av_gettime w2).2
      ([] ++ (evs1 ++ (evs2 ++ []))) := by
    rw [hk]
    exact failedTries_trans (failedTries_gettime w)
      (failedTries_trans ha1 (failedTries_trans ha2 (failedTries_gettime w2)))
  refine ⟨{ s2 with is_seek := 0 }, (av_gettime w2).2, _, ?_, hs2.hd, hall,
    fun hidle => failedTries_attempts hall hidle⟩
  unfold http_open
  simp only [hc, hr]

theorem pooledWorld_noFirstLine : NoFirstLine 32 pooledWorld := by
  refine ⟨fun _ => Eq.refl _, ?_, ?_⟩
  · intro n addr sc h
    have hp : pooledWorld.peer n addr
        = if n = 0 then some midLineScript else if n = 1 then some readErrorScript
          else none := rfl
    rw [hp] at h
    split_ifs at h
    · simp only [Option.some.injEq] at h
      subst h
      exact ⟨fun _ _ => ⟨by decide, fun _ => trivial⟩, by decide⟩
    · simp only [Option.some.injEq] at h
      subst h
      exact ⟨fun _ => ⟨by decide, fun h4 => absurd h4 (by decide)⟩, by decide⟩
  · intro l hl _ _
    have hm : l ∈ [pooledLink] := hl
    simp only [List.mem_singleton] at hm
    subst hm
    exact ⟨fun _ => ⟨by decide, trivial⟩, by decide⟩

set_option maxRecDepth 100000 in
/-- Witness of C2 as amended: the pool holds an idle connection that
delivers `abc` and ends, the peer answers the next connection with
would-block, `HTTP/1.1 20`, would-block and the end of the stream, and the one
after that with `HT` and a read error. With the retry ceiling 3 `http_open`
fails after three attempts, the connection from the pool and two new
connections, all three closed, none released. -/
theorem http_open_no_first_line_witness :
    NoFirstLine 32 pooledWorld ∧
    ∃ (s2 : HTTPContext) (w2 : World) (evs : List Ev),
      http_open threeTriesEnv 100 zeroContext pooledWorld demoUri AVIO_FLAG_READ
        = some (AVERROR EIO, s2, w2) ∧
      w2.log = pooledWorld.log ++ evs ∧ (evs.filter isTry).length = 3 ∧
      w2.nopen = 2 ∧ linksUsed evs = [0, 1, 2] ∧ linksClosed evs = [0, 1, 2] ∧
      linksReleased evs = [] := by
  refine ⟨pooledWorld_noFirstLine, ?_⟩
  obtain ⟨s2, w2, evs, h, _, ha, _⟩ := http_open_no_first_line threeTriesEnv 100 32 zeroContext
    pooledWorld demoUri AVIO_FLAG_READ pooledWorld_noFirstLine (by decide) (by decide)
    (by decide) (by decide)
  have hrun : (http_open threeTriesEnv 100 zeroContext pooledWorld demoUri AVIO_FLAG_READ).map
      (fun r => (r.2.2.nopen, linksUsed r.2.2.log)) = some (2, [0, 1, 2]) := by rfl
  rw [h] at hrun
  simp only [Option.map_some', Option.some.injEq, Prod.mk.injEq] at hrun
  have hlog : w2.log = evs := by rw [ha.log]; rfl
  rw [hlog] at hrun
  exact ⟨s2, w2, evs, h, ha.log, ha.tries, hrun.1, hrun.2, by rw [ha.closed, hrun.2],
    ha.released⟩


/-- C20: `http_close_and_keep` on a session that holds connection `id`
closes it, releasing nothing to the pool, when `close` is set or `willclose`
is set or `keep_alive` is 0; otherwise it releases it to the pool, closing
nothing. Either way it returns 0 and the session holds no connection
afterwards. On a session without connection it returns 0 and changes neither
the session nor the world. -/
theorem http_close_and_keep_spec (s : HTTPContext) (w : World) (close : Int) :
    (∀ id : Nat, s.hd = some id → (close ≠ 0 ∨ s.willclose ≠ 0 ∨ s.keep_alive = 0) →
      (http_close_and_keep s w close).1 = 0 ∧
      (http_close_and_keep s w close).2.1 = { s with hd := none } ∧
      closedLinks (http_close_and_keep s w close).2.2 = closedLinks w ++ [id] ∧
      releasedLinks (http_close_and_keep s w close).2.2 = releasedLinks w ∧
      ∀ l : Link, w.links.get? id = some l →
        (http_close_and_keep s w close).2.2.links.get? id
          = some { l with idle := false, closed := true }) ∧
    (∀ id : Nat, s.hd = some id → ¬ (close ≠ 0 ∨ s.willclose ≠ 0 ∨ s.keep_alive = 0) →
      (http_close_and_keep s w close).1 = 0 ∧
      (http_close_and_keep s w close).2.1 = { s with hd := none } ∧
      releasedLinks (http_close_and_keep s w close).2.2 = releasedLinks w ++ [id] ∧
      closedLinks (http_close_and_keep s w close).2.2 = closedLinks w ∧
      ∀ l : Link, w.links.get? id = some l →
        (http_close_and_keep s w close).2.2.links.get? id = some { l with idle := true }) ∧
    (s.hd = none → http_close_and_keep s w close = (0, s, w)) := by
  refine ⟨?_, ?_, ?_⟩
  · intro id hhd hc
    have hval : http_close_and_keep s w close = (0, { s with hd := none },
        tcppool_close_tcplink (if hasFlag s.flags AVIO_FLAG_WRITE ∧ s.chunksize ≠ -1
          then (ffurl_write w id str_footer).2 else w) id) := by
      unfold http_close_and_keep
      simp only [hhd, if_pos hc]
    rw [hval]
    obtain ⟨w1, hw1, hlinks, hlog⟩ : ∃ w1 : World,
        (if hasFlag s.flags AVIO_FLAG_WRITE ∧ s.chunksize ≠ -1
          then (ffurl_write w id str_footer).2 else w) = w1 ∧ w1.links = w.links ∧
        (w1.log = w.log ∨ w1.log = w.log ++ [Ev.wrote id str_footer]) := by
      refine ⟨_, Eq.refl _, ?_⟩
      split_ifs
      · exact ffurl_write_log w id str_footer
      · exact ⟨Eq.refl _, Or.inl (Eq.refl _)⟩
    rw [hw1]
    refine ⟨Eq.refl _, Eq.refl _, ?_, ?_, ?_⟩
    · unfold tcppool_close_tcplink
      rcases hlog with h | h <;> split <;>
        simp [closedLinks, h, List.filterMap_append, setLink]
    · unfold tcppool_close_tcplink
      rcases hlog with h | h <;> split <;>
        simp [releasedLinks, h, List.filterMap_append, setLink]
    · intro l hl
      unfold tcppool_close_tcplink
      rw [hlinks, hl]
      simp only [setLink, hlinks]
      rw [List.get?_eq_getElem?, List.getElem?_set_self]
      rw [List.get?_eq_getElem?] at hl
      exact (List.getElem?_eq_some_iff.mp hl).1
  · intro id hhd hc
    have hval : http_close_and_keep s w close = (0, { s with hd := none },
        tcppool_release_tcplink w id) := by
      unfold http_close_and_keep
      simp only [hhd, if_neg hc]
    rw [hval]
    refine ⟨Eq.refl _, Eq.refl _, ?_, ?_, ?_⟩
    · unfold tcppool_release_tcplink
      split <;> simp [releasedLinks, List.filterMap_append, setLink]
    · unfold tcppool_release_tcplink
      split <;> simp [closedLinks, List.filterMap_append, setLink]
    · intro l hl
      unfold tcppool_release_tcplink
      rw [hl]
      simp only [setLink]
      rw [List.get?_eq_getElem?, List.getElem?_set_self]
      rw [List.get?_eq_getElem?] at hl
      exact (List.getElem?_eq_some_iff.mp hl).1
  · intro hhd
    unfold http_close_and_keep
    simp only [hhd]

/-- C18: for a header line `Content-Range: bytes S-E/T` with decimal numbers
below 2^63, `process_line` (on a line that is not the first) sets the session
offset to `S` and the total size to `T`, whatever the size was before, a size
set by `Content-Length` included; a `Content-Length` line processed after it
leaves the session as it is, so the total is `T` in either order. -/
theorem process_line_content_range (e : Env) (s : HTTPContext) (lc nl : Int) (S E T : Nat)
    (hlc : lc ≠ 0) (hS : S < 2 ^ 63) (hT : T < 2 ^ 63) :
    (process_line e s (content_range_line S E T) lc nl).1 = 1 ∧
    (process_line e s (content_range_line S E T) lc nl).2.1.off = S ∧
    (process_line e s (content_range_line S E T) lc nl).2.1.filesize = T ∧
    (∀ (v : Str) (lc2 nl2 : Int), lc2 ≠ 0 →
      process_line e (process_line e s (content_range_line S E T) lc nl).2.1
          (content_length_line v) lc2 nl2
        = (1, (process_line e s (content_range_line S E T) lc nl).2.1, nl2)) ∧
    (∀ (v : Str) (lc0 nl0 : Int),
      (process_line e (process_line e s (content_length_line v) lc0 nl0).2.1
          (content_range_line S E T) lc nl).2.1.filesize = T) := by
  have main : ∀ s0 : HTTPContext,
      (process_line e s0 (content_range_line S E T) lc nl).1 = 1 ∧
      (process_line e s0 (content_range_line S E T) lc nl).2.1.off = S ∧
      (process_line e s0 (content_range_line S E T) lc nl).2.1.filesize = T := by
    intro s0
    have hL : cstr (content_range_line S E T) = content_range_line S E T :=
      cstr_of_nonzero _ (content_range_line_nonzero S E T)
    have hne : content_range_line S E T ≠ [] := by
      unfold content_range_line; exact List.cons_ne_nil _ _
    have hdrop : (content_range_line S E T).dropWhile (fun c => c != 58)
        = 58 :: (([32, 98, 121, 116, 101, 115, 32] : Str) ++ (natDigits S ++ (45 :: (natDigits E ++ (47 :: natDigits T))))) :=
      rfl
    have htag : (content_range_line S E T).takeWhile (fun c => c != 58) = str_Content_Range :=
      rfl
    have hp : (([32, 98, 121, 116, 101, 115, 32] : Str) ++ (natDigits S ++ (45 :: (natDigits E ++ (47 :: natDigits T))))).dropWhile
        isspace = ([98, 121, 116, 101, 115, 32] : Str) ++ (natDigits S ++ (45 :: (natDigits E ++ (47 :: natDigits T)))) :=
      rfl
    have hhdr : process_header e s0 str_Content_Range
        (([98, 121, 116, 101, 115, 32] : Str) ++ (natDigits S ++ (45 :: (natDigits E ++ (47 :: natDigits T))))) nl
        = (process_content_range s0
            (([98, 121, 116, 101, 115, 32] : Str) ++ (natDigits S ++ (45 :: (natDigits E ++ (47 :: natDigits T))))), nl) := by
      unfold process_header
      rw [if_neg (by decide), if_neg (by rintro ⟨h, _⟩; exact absurd h (by decide)),
        if_pos (by decide)]
    have hval : process_line e s0 (content_range_line S E T) lc nl
        = (1, process_content_range s0
            (([98, 121, 116, 101, 115, 32] : Str) ++ (natDigits S ++ (45 :: (natDigits E ++ (47 :: natDigits T))))), nl) := by
      unfold process_line
      simp only [hL, if_neg hne, if_neg hlc, hdrop, htag, hp, hhdr]
    rw [hval]
    exact ⟨Eq.refl _, process_content_range_digits s0 S E T hS hT⟩
  obtain ⟨m1, m2, m3⟩ := main s
  refine ⟨m1, m2, m3, ?_, fun v lc0 nl0 => (main _).2.2⟩
  intro v lc2 nl2 hlc2
  have hsz : (process_line e s (content_range_line S E T) lc nl).2.1.filesize ≠ -1 := by
    rw [m3]; omega
  generalize (process_line e s (content_range_line S E T) lc nl).2.1 = s1 at hsz
  have hcl : cstr (content_length_line v) = ([67, 111, 110, 116, 101, 110, 116, 45, 76, 101, 110, 103, 116, 104, 58, 32] : Str) ++ cstr v := by
    unfold content_length_line cstr
    exact takeWhile_append_of_all _ _ _ (by decide)
  have hdrop : (([67, 111, 110, 116, 101, 110, 116, 45, 76, 101, 110, 103, 116, 104, 58, 32] : Str) ++ cstr v).dropWhile (fun c => c != 58)
      = 58 :: (32 :: cstr v) := rfl
  have htag : (([67, 111, 110, 116, 101, 110, 116, 45, 76, 101, 110, 103, 116, 104, 58, 32] : Str) ++ cstr v).takeWhile (fun c => c != 58)
      = str_Content_Length := rfl
  have hhdr : ∀ p : Str, process_header e s1 str_Content_Length p nl2 = (s1, nl2) := by
    intro p
    unfold process_header
    rw [if_neg (by decide), if_neg (by rintro ⟨_, h⟩; exact hsz h), if_neg (by decide),
      if_neg (by decide), if_neg (by rintro ⟨h, _⟩; exact absurd h (by decide)),
      if_neg (by decide), if_neg (by decide), if_neg (by decide), if_neg (by decide),
      if_neg (by decide)]
  unfold process_line
  simp only [hcl, if_neg hlc2, hdrop, htag, hhdr]
  rw [if_neg (by simp)]

/-- Witness of C18: `Content-Range: bytes 100-199/1000`. -/
theorem process_line_content_range_witness :
    (process_line demoEnv zeroContext (content_range_line 100 199 1000) 1 0).2.1.off = 100 ∧
    (process_line demoEnv zeroContext (content_range_line 100 199 1000) 1 0).2.1.filesize
      = 1000 :=
  ⟨(process_line_content_range demoEnv zeroContext 1 0 100 199 1000 (by decide) (by decide)
      (by decide)).2.1,
   (process_line_content_range demoEnv zeroContext 1 0 100 199 1000 (by decide) (by decide)
      (by decide)).2.2.1⟩

set_option maxRecDepth 100000 in
/-- C17, the code at the failing input: a response head in which
`Content-Length: 10` follows `Transfer-Encoding: chunked` leaves the session
in chunked mode with the total size 10, not -1; in the other order the total
size is -1. -/
theorem http_open_chunked_then_length :
    openedSizes respChunkedThenLength = some (0, 0, 10) ∧
    openedSizes respLengthThenChunked = some (0, 0, -1) := by
  constructor <;> rfl

/-- C19: when `http_connect` has sent a GET request and returns, the session
is marked will-close (`willclose = 1`) unless the value of the last
`Connection` header among the header lines it read equals `Keep-Alive`
ignoring case, in which case `willclose = 0`: without any `Connection` header
the mark is 1, and with one it is decided by the last one alone. -/
theorem http_connect_willclose (e : Env) (fuel : Nat) (s : HTTPContext) (w : World)
    (path hoststr auth : Str) (nl : Int) (id : Nat) (ret : Int) (s2 : HTTPContext) (w2 : World)
    (nl2 : Int) (hget : hasFlag s.h_flags AVIO_FLAG_WRITE = false) (hhd : s.hd = some id)
    (hwr : 0 ≤ (ffurl_write w id (cstr (http_request e s path hoststr auth))).1)
    (h : http_connect e fuel s w path hoststr auth nl = some (ret, s2, w2, nl2)) :
    s2.willclose = willclose_after 1 (response_header_lines e fuel s w path hoststr auth nl) ∧
    ((∀ line ∈ response_header_lines e fuel s w path hoststr auth nl,
        connection_value line = none) → s2.willclose = 1) ∧
    (∀ v : Str, ((response_header_lines e fuel s w path hoststr auth nl).filterMap
        connection_value).getLast? = some v →
      s2.willclose = if strcasecmp_eq v str_Keep_Alive then 0 else 1) := by
  have main : s2.willclose
      = willclose_after 1 (response_header_lines e fuel s w path hoststr auth nl) := by
    unfold http_connect at h
    unfold response_header_lines
    simp only [hhd, hget, not_lt.mpr hwr, if_false, Bool.false_eq_true] at h ⊢
    split at h
    · simp at h
    · rename_i r s3 w3 nl3 hh
      simp only [Option.some.injEq, Prod.mk.injEq] at h
      rw [← h.2.1]
      exact http_connect_header_willclose_first _ _ _ _ _ _ _ _ _ _ (Eq.refl _) hh
    · rename_i s3 w3 nl3 hh
      simp only [Option.some.injEq, Prod.mk.injEq] at h
      rw [← h.2.1, http_connect_finish_willclose]
      exact http_connect_header_willclose_first _ _ _ _ _ _ _ _ _ _ (Eq.refl _) hh
  refine ⟨main, ?_, ?_⟩
  · intro hnone
    rw [main]
    unfold willclose_after
    have : (response_header_lines e fuel s w path hoststr auth nl).filterMap connection_value
        = [] := by
      rw [List.filterMap_eq_nil_iff]
      exact hnone
    rw [this]
    rfl
  · intro v hv
    rw [main]
    unfold willclose_after
    rw [hv]

set_option maxRecDepth 100000 in
/-- Witness of C19: after `Connection: close` and then `Connection: keep-alive`
the session is not marked will-close. -/
theorem http_connect_willclose_witness :
    closeThenKeepReply.2.1.willclose
      = willclose_after 1 (response_header_lines demoEnv 100 sessOn0
          (connectedWorld respCloseThenKeep) [47] ([104, 111, 115, 116] : Str) [] 0) ∧
    willclose_after 1 (response_header_lines demoEnv 100 sessOn0
          (connectedWorld respCloseThenKeep) [47] ([104, 111, 115, 116] : Str) [] 0) = 0 :=
  ⟨(http_connect_willclose demoEnv 100 sessOn0 (connectedWorld respCloseThenKeep) [47] ([104, 111, 115, 116] : Str) []
      0 0 closeThenKeepReply.1 closeThenKeepReply.2.1 closeThenKeepReply.2.2.1
      closeThenKeepReply.2.2.2 (by decide) (Eq.refl _) (by decide)
      (option_eq_some_quad_all _ (0, zeroContext, deadWorld, 0) (by rfl))).1, by rfl⟩

/-- C14, as amended: the request `http_connect` formats is the one it
writes when the connection takes it, and it writes no other. Take a request
that is shorter than the 4095 bytes `s->buffer` holds and is put together from
well formed texts (path and host string without CR; headers of the
`URLContext` and custom headers in whole lines; authorization text without
`Connection` header). When neither the custom headers nor the headers
of the `URLContext` hold a `Connection` header, the request has exactly one
`Connection` header, the line `Connection: keep-alive` for `keep_alive` set and
`Connection: close` otherwise, placed after the `Range` line; when one of them
holds a `Connection` header, no `Connection` line is added and the request has
the `Connection` headers of the caller only. -/
theorem http_connect_connection_header (e : Env) (s : HTTPContext) (path hoststr auth : Str)
    (ht : RequestTexts e s path hoststr auth)
    (hfit : (http_request e s path hoststr auth).length < BUFFER_SIZE - 1)
    (hauth : header_count hdr_Connection (request_auth e s path auth) = 0) :
    (∀ (fuel : Nat) (w : World) (nl : Int) (id : Nat) (ret : Int) (s2 : HTTPContext)
        (w2 : World) (nl2 : Int), s.hd = some id →
      0 ≤ (ffurl_write w id (cstr (http_request e s path hoststr auth))).1 →
      http_connect e fuel s w path hoststr auth nl = some (ret, s2, w2, nl2) →
      w2.log = w.log ++ [Ev.wrote id (cstr (http_request e s path hoststr auth))]) ∧
    (has_header s.headers hdr_Connection = false →
      has_header (url_headers s) hdr_Connection = false →
      header_count hdr_Connection (http_request e s path hoststr auth) = 1 ∧
      http_request e s path hoststr auth
        = request_line s path ++ (request_chunked s ++ (request_user_agent s
          ++ (url_headers s ++ (request_accept s ++ (request_range s
          ++ ((if s.keep_alive ≠ 0 then str_Conn_keep_alive_line else str_Conn_close_line)
          ++ (request_host s hoststr ++ (cstr s.headers
          ++ (request_auth e s path auth ++ str_crlf)))))))))) ∧
    (¬ (has_header s.headers hdr_Connection = false
        ∧ has_header (url_headers s) hdr_Connection = false) →
      header_count hdr_Connection (http_request e s path hoststr auth)
        = header_count hdr_Connection (url_headers s)
          + header_count hdr_Connection s.headers ∧
      http_request e s path hoststr auth
        = request_line s path ++ (request_chunked s ++ (request_user_agent s
          ++ (url_headers s ++ (request_accept s ++ (request_range s
          ++ (request_host s hoststr ++ (cstr s.headers
          ++ (request_auth e s path auth ++ str_crlf))))))))) := by
  have hlog : ∀ (fuel : Nat) (w : World) (nl : Int) (id : Nat) (ret : Int) (s2 : HTTPContext)
      (w2 : World) (nl2 : Int), s.hd = some id →
      0 ≤ (ffurl_write w id (cstr (http_request e s path hoststr auth))).1 →
      http_connect e fuel s w path hoststr auth nl = some (ret, s2, w2, nl2) →
      w2.log = w.log ++ [Ev.wrote id (cstr (http_request e s path hoststr auth))] := by
    intro fuel w nl id ret s2 w2 nl2 hhd hwr h
    rcases http_connect_log e fuel s w path hoststr auth nl ret s2 w2 nl2 h with
      ⟨_, _, _, hbad⟩ | ⟨id2, hid2, _, hw⟩
    · rcases hbad with hbad | ⟨id2, hid2, hneg⟩
      · rw [hhd] at hbad; exact absurd hbad (by simp)
      · rw [hhd] at hid2
        simp only [Option.some.injEq] at hid2
        rw [← hid2] at hneg
        omega
    · rw [hhd] at hid2
      simp only [Option.some.injEq] at hid2
      rw [hid2]; exact hw
  have hreq := header_count_request hdr_Connection isHeaderName_Connection e s path hoststr auth
    ht hfit (request_line_ok s path ht.path_cr).2.2.2.1 (request_chunked_ok s).2.2.1
  have hcount := header_count_block _ isHeaderName_Connection s hoststr ht.url_lines ht.host_cr
  rw [(header_count_user_agent s).1, (header_count_accept s).1,
    (header_count_request_range s).1, (header_count_host s hoststr ht.host_cr).1] at hcount
  have huncut := http_request_uncut e s path hoststr auth hfit
  unfold request_block at huncut
  refine ⟨hlog, ?_, ?_⟩
  · intro h1 h2
    have hc : request_connection s
        = (if s.keep_alive ≠ 0 then str_Conn_keep_alive_line else str_Conn_close_line) := by
      rw [request_connection_eq s ht.url_lines, if_pos ⟨h1, h2⟩]
    have hone : header_count hdr_Connection (request_connection s) = 1 := by
      rw [hc]
      split_ifs
      · exact header_count_connection_lines.1
      · exact header_count_connection_lines.2.1
    refine ⟨?_, ?_⟩
    · rw [hreq, hauth, hcount, hone, (has_header_false_iff _ isHeaderName_Connection _).mp h1,
        (has_header_false_iff _ isHeaderName_Connection _).mp h2]
    · rw [huncut, hc]
      simp only [List.append_assoc]
  · intro hn
    have hc : request_connection s = [] := by
      rw [request_connection_eq s ht.url_lines, if_neg hn]
    refine ⟨?_, ?_⟩
    · rw [hreq, hauth, hcount, hc, header_count_nil _ isHeaderName_Connection]
      omega
    · rw [huncut, hc]
      simp only [List.append_assoc, List.nil_append]

set_option maxRecDepth 100000 in
/-- C14 fails as stated. With a path of 4085 bytes the request `http_connect`
formats is cut at 4095 bytes, inside the request line, and has no `Connection`
header, though the caller supplied none. The other conjuncts show what else
the count depends on: a header of the `URLContext` without its CRLF swallows
the `Connection` line; a CR LF in the host string or in the path, a custom
header cut short before the authorization text, or an authorization text with
a `Connection` header give a second `Connection` header. -/
theorem connection_header_lost :
    ((http_request demoEnv sessOn0 longPath ([104, 111, 115, 116] : Str) []).length = BUFFER_SIZE - 1 ∧
      header_count hdr_Connection (http_request demoEnv sessOn0 longPath ([104, 111, 115, 116] : Str) []) = 0) ∧
    header_count hdr_Connection (http_request demoEnv (gluedSession 0) [47] ([104, 111, 115, 116] : Str) []) = 0 ∧
    header_count hdr_Connection
      (http_request demoEnv sessOn0 [47] ([104, 13, 10, 67, 111, 110, 110, 101, 99, 116, 105, 111, 110, 58, 32, 120] : Str) []) = 2 ∧
    header_count hdr_Connection
      (http_request demoEnv sessOn0 ([47, 13, 10, 67, 111, 110, 110, 101, 99, 116, 105, 111, 110, 58, 32, 120] : Str) ([104, 111, 115, 116] : Str) []) = 2 ∧
    header_count hdr_Connection (http_request (authEnv ([101, 99, 116, 105, 111, 110, 58, 32, 122, 13, 10] : Str))
      { sessOn0 with headers := ([88, 45, 66, 58, 32, 99, 13, 10, 67, 111, 110, 110] : Str) } [47] ([104, 111, 115, 116] : Str) []) = 2 ∧
    header_count hdr_Connection
      (http_request (authEnv ([67, 111, 110, 110, 101, 99, 116, 105, 111, 110, 58, 32, 122, 13, 10] : Str)) sessOn0 [47] ([104, 111, 115, 116] : Str) []) = 2 := by
  have hlen : BUFFER_SIZE - 1
      ≤ (str_GET ++ [32] ++ cstr longPath ++ [32, 72, 84, 84, 80, 47, 49, 46, 49]).length := by
    rw [longPath_ok.1, List.length_append, List.length_append, longPath_ok.2.1]
    decide
  have h13 : 13 ∉ cstr longPath := by rw [longPath_ok.1]; exact longPath_ok.2.2
  have hcut := header_count_cut_in_line demoEnv sessOn0 longPath ([104, 111, 115, 116] : Str) [] (by rfl) hlen h13
  exact ⟨⟨hcut.1, hcut.2.1⟩, by rfl, by rfl, by rfl, by rfl, by rfl⟩

set_option maxRecDepth 100000 in
/-- Witness of C14 as amended: the request for path `/` on a session without
headers of its own and with `keep_alive` 0 is written as formatted and has the
one `Connection` header `Connection: close`. -/
theorem http_connect_connection_header_witness :
    plainConnect.2.2.1.log = (connectedWorld respOk).log
      ++ [Ev.wrote 0 (cstr (http_request demoEnv sessOn0 [47] ([104, 111, 115, 116] : Str) []))] ∧
    header_count hdr_Connection (http_request demoEnv sessOn0 [47] ([104, 111, 115, 116] : Str) []) = 1 ∧
    http_request demoEnv sessOn0 [47] ([104, 111, 115, 116] : Str) []
      = ([71, 69, 84, 32, 47, 32, 72, 84, 84, 80, 47, 49, 46, 49, 13, 10] : Str) ++ ([85, 115, 101, 114, 45, 65, 103, 101, 110, 116, 58, 32]
          ++ IPAD_IDENT ++ str_crlf)
        ++ ([65, 99, 99, 101, 112, 116, 58, 32, 42, 47, 42, 13, 10, 67, 111, 110, 110, 101, 99, 116, 
    105, 111, 110, 58, 32, 99, 108, 111, 115, 101, 13, 10, 72, 111, 115, 116, 58, 32, 
    104, 111, 115, 116, 13, 10, 13, 10] : Str) :=
  have h := http_connect_connection_header demoEnv sessOn0 [47] ([104, 111, 115, 116] : Str) []
    ⟨by decide, by decide, Or.inl (Eq.refl _), Or.inl (Eq.refl _)⟩ (by decide) (by rfl)
  ⟨h.1 100 (connectedWorld respOk) 0 0 plainConnect.1 plainConnect.2.1 plainConnect.2.2.1
      plainConnect.2.2.2 (Eq.refl _) (by decide)
      (option_eq_some_quad_all _ (0, zeroContext, deadWorld, 0) (by rfl)),
    (h.2.1 (by rfl) (by rfl)).1, by rfl⟩

/-- C15, as amended: the request `http_connect` formats is the one it
writes when the connection takes it, and it writes no other. Take a request
that is shorter than the 4095 bytes `s->buffer` holds and is put together from
well formed texts (path and host string without CR; headers of the
`URLContext` and custom headers in whole lines; authorization text without
`Range` header). When the offset is positive or `is_seek` is set, the resource is not
marked segment media, and neither the custom headers nor the headers of the
`URLContext` hold a `Range` header, the request has exactly one `Range`
header, the line `Range: bytes=<off>-` with `<off>` the session offset at
entry in decimal, placed after the `Accept` line; in every other case no
`Range` line is added and the request has the `Range` headers of the caller
only. -/
theorem http_connect_range_header (e : Env) (s : HTTPContext) (path hoststr auth : Str)
    (ht : RequestTexts e s path hoststr auth)
    (hfit : (http_request e s path hoststr auth).length < BUFFER_SIZE - 1)
    (hauth : header_count hdr_Range (request_auth e s path auth) = 0) :
    (∀ (fuel : Nat) (w : World) (nl : Int) (id : Nat) (ret : Int) (s2 : HTTPContext)
        (w2 : World) (nl2 : Int), s.hd = some id →
      0 ≤ (ffurl_write w id (cstr (http_request e s path hoststr auth))).1 →
      http_connect e fuel s w path hoststr auth nl = some (ret, s2, w2, nl2) →
      w2.log = w.log ++ [Ev.wrote id (cstr (http_request e s path hoststr auth))]) ∧
    ((s.off > 0 ∨ s.is_seek ≠ 0) ∧ s.h_is_segment_media = 0
        ∧ has_header s.headers hdr_Range = false
        ∧ has_header (url_headers s) hdr_Range = false →
      header_count hdr_Range (http_request e s path hoststr auth) = 1 ∧
      http_request e s path hoststr auth
        = request_line s path ++ (request_chunked s ++ (request_user_agent s
          ++ (url_headers s ++ (request_accept s
          ++ (str_Range_bytes ++ (fmtInt s.off ++ (str_dash_crlf
          ++ (request_connection s ++ (request_host s hoststr ++ (cstr s.headers
          ++ (request_auth e s path auth ++ str_crlf)))))))))))) ∧
    (¬ ((s.off > 0 ∨ s.is_seek ≠ 0) ∧ s.h_is_segment_media = 0
        ∧ has_header s.headers hdr_Range = false
        ∧ has_header (url_headers s) hdr_Range = false) →
      header_count hdr_Range (http_request e s path hoststr auth)
        = header_count hdr_Range (url_headers s) + header_count hdr_Range s.headers ∧
      http_request e s path hoststr auth
        = request_line s path ++ (request_chunked s ++ (request_user_agent s
          ++ (url_headers s ++ (request_accept s
          ++ (request_connection s ++ (request_host s hoststr ++ (cstr s.headers
          ++ (request_auth e s path auth ++ str_crlf))))))))) := by
  have hlog : ∀ (fuel : Nat) (w : World) (nl : Int) (id : Nat) (ret : Int) (s2 : HTTPContext)
      (w2 : World) (nl2 : Int), s.hd = some id →
      0 ≤ (ffurl_write w id (cstr (http_request e s path hoststr auth))).1 →
      http_connect e fuel s w path hoststr auth nl = some (ret, s2, w2, nl2) →
      w2.log = w.log ++ [Ev.wrote id (cstr (http_request e s path hoststr auth))] := by
    intro fuel w nl id ret s2 w2 nl2 hhd hwr h
    rcases http_connect_log e fuel s w path hoststr auth nl ret s2 w2 nl2 h with
      ⟨_, _, _, hbad⟩ | ⟨id2, hid2, _, hw⟩
    · rcases hbad with hbad | ⟨id2, hid2, hneg⟩
      · rw [hhd] at hbad; exact absurd hbad (by simp)
      · rw [hhd] at hid2
        simp only [Option.some.injEq] at hid2
        rw [← hid2] at hneg
        omega
    · rw [hhd] at hid2
      simp only [Option.some.injEq] at hid2
      rw [hid2]; exact hw
  have hreq := header_count_request hdr_Range isHeaderName_Range e s path hoststr auth
    ht hfit (request_line_ok s path ht.path_cr).2.2.2.2 (request_chunked_ok s).2.2.2
  have hcount := header_count_block _ isHeaderName_Range s hoststr ht.url_lines ht.host_cr
  have hcon : header_count hdr_Range (request_connection s) = 0 := by
    unfold request_connection
    split_ifs
    · exact header_count_connection_lines.2.2.1
    · exact header_count_connection_lines.2.2.2
    · exact header_count_nil _ isHeaderName_Range
  rw [(header_count_user_agent s).2, (header_count_accept s).2, hcon,
    (header_count_host s hoststr ht.host_cr).2] at hcount
  have huncut := http_request_uncut e s path hoststr auth hfit
  unfold request_block at huncut
  refine ⟨hlog, ?_, ?_⟩
  · intro hc
    have hr : request_range s = str_Range_bytes ++ fmtInt s.off ++ str_dash_crlf := by
      rw [request_range_eq s ht.url_lines, if_pos hc]
    refine ⟨?_, ?_⟩
    · rw [hreq, hauth, hcount, hr, (header_count_range_line s.off).2,
        (has_header_false_iff _ isHeaderName_Range _).mp hc.2.2.1,
        (has_header_false_iff _ isHeaderName_Range _).mp hc.2.2.2]
    · rw [huncut, hr]
      simp only [List.append_assoc]
  · intro hn
    have hr : request_range s = [] := by
      rw [request_range_eq s ht.url_lines, if_neg hn]
    refine ⟨?_, ?_⟩
    · rw [hreq, hauth, hcount, hr, header_count_nil _ isHeaderName_Range]
      omega
    · rw [huncut, hr]
      simp only [List.append_assoc, List.nil_append]

set_option maxRecDepth 100000 in
/-- C15 fails as stated. With a path of 4085 bytes and `is_seek` set the
request `http_connect` formats is cut at 4095 bytes, inside the request line,
and has no `Range` header, though the caller supplied none and the resource is
not segment media. The other conjuncts, for a session at offset 7, show what
else the count depends on: a header of the `URLContext` without its CRLF
swallows the `Range` line; a CR LF in the host string or in the path, a custom
header cut short before the authorization text, or an authorization text with
a `Range` header give a second `Range` header. -/
theorem range_header_lost :
    ((http_request demoEnv seekSession longPath ([104, 111, 115, 116] : Str) []).length = BUFFER_SIZE - 1 ∧
      header_count hdr_Range (http_request demoEnv seekSession longPath ([104, 111, 115, 116] : Str) []) = 0) ∧
    header_count hdr_Range (http_request demoEnv (gluedSession 7) [47] ([104, 111, 115, 116] : Str) []) = 0 ∧
    header_count hdr_Range
      (http_request demoEnv (sessAt 7) [47] ([104, 13, 10, 82, 97, 110, 103, 101, 58, 32, 120] : Str) []) = 2 ∧
    header_count hdr_Range
      (http_request demoEnv (sessAt 7) ([47, 13, 10, 82, 97, 110, 103, 101, 58, 32, 120] : Str) ([104, 111, 115, 116] : Str) []) = 2 ∧
    header_count hdr_Range (http_request (authEnv ([101, 58, 32, 122, 13, 10] : Str))
      { sessAt 7 with headers := ([88, 45, 66, 58, 32, 99, 13, 10, 82, 97, 110, 103] : Str) } [47] ([104, 111, 115, 116] : Str) []) = 2 ∧
    header_count hdr_Range
      (http_request (authEnv ([82, 97, 110, 103, 101, 58, 32, 122, 13, 10] : Str)) (sessAt 7) [47] ([104, 111, 115, 116] : Str) []) = 2 := by
  have hlen : BUFFER_SIZE - 1
      ≤ (str_GET ++ [32] ++ cstr longPath ++ [32, 72, 84, 84, 80, 47, 49, 46, 49]).length := by
    rw [longPath_ok.1, List.length_append, List.length_append, longPath_ok.2.1]
    decide
  have h13 : 13 ∉ cstr longPath := by rw [longPath_ok.1]; exact longPath_ok.2.2
  have hcut := header_count_cut_in_line demoEnv seekSession longPath ([104, 111, 115, 116] : Str) [] (by rfl) hlen h13
  exact ⟨⟨hcut.1, hcut.2.2⟩, by rfl, by rfl, by rfl, by rfl, by rfl⟩

set_option maxRecDepth 100000 in
/-- Witness of C15 as amended: the request for path `/` on a session at offset
100 without headers of its own is written as formatted and has the one `Range`
header `Range: bytes=100-`. -/
theorem http_connect_range_header_witness :
    rangeConnect.2.2.1.log = (connectedWorld respRange100).log
      ++ [Ev.wrote 0 (cstr (http_request demoEnv (sessAt 100) [47] ([104, 111, 115, 116] : Str) []))] ∧
    header_count hdr_Range (http_request demoEnv (sessAt 100) [47] ([104, 111, 115, 116] : Str) []) = 1 ∧
    http_request demoEnv (sessAt 100) [47] ([104, 111, 115, 116] : Str) []
      = ([71, 69, 84, 32, 47, 32, 72, 84, 84, 80, 47, 49, 46, 49, 13, 10] : Str) ++ ([85, 115, 101, 114, 45, 65, 103, 101, 110, 116, 58, 32]
          ++ IPAD_IDENT ++ str_crlf)
        ++ ([65, 99, 99, 101, 112, 116, 58, 32, 42, 47, 42, 13, 10, 82, 97, 110, 103, 101, 58, 32, 
    98, 121, 116, 101, 115, 61, 49, 48, 48, 45, 13, 10, 67, 111, 110, 110, 101, 99, 116, 
    105, 111, 110, 58, 32, 99, 108, 111, 115, 101, 13, 10, 72, 111, 115, 116, 58, 32, 
    104, 111, 115, 116, 13, 10, 13, 10] : Str) :=
  have h := http_connect_range_header demoEnv (sessAt 100) [47] ([104, 111, 115, 116] : Str) []
    ⟨by decide, by decide, Or.inl (Eq.refl _), Or.inl (Eq.refl _)⟩ (by decide) (by rfl)
  ⟨h.1 100 (connectedWorld respRange100) 0 0 rangeConnect.1 rangeConnect.2.1
      rangeConnect.2.2.1 rangeConnect.2.2.2 (Eq.refl _) (by decide)
      (option_eq_some_quad_all _ (0, zeroContext, deadWorld, 0) (by rfl)),
    (h.2.1 ⟨Or.inl (by decide), by rfl, by rfl, by rfl⟩).1, by rfl⟩

set_option maxRecDepth 100000 in
/-- Counterexample to C16: a fresh `http_open` of `http://host/video.ts`
with keep-alive enabled and no custom headers sends, as its first request, a
GET that carries `Range: bytes=0-`. -/
theorem http_open_first_request_has_range :
    (http_open demoEnv 100 zeroContext (freshWorld (fun _ => respond respOk)) demoUri
        AVIO_FLAG_READ).map (fun r => (r.1, (requestsWritten r.2.2).head?))
      = some (0, some ([71, 69, 84, 32, 47, 118, 105, 100, 101, 111, 46, 116, 115, 32, 72, 84, 84, 80, 47, 49, 
    46, 49, 13, 10, 85, 115, 101, 114, 45, 65, 103, 101, 110, 116, 58, 32, 65, 112, 112, 
    108, 101, 67, 111, 114, 101, 77, 101, 100, 105, 97, 47, 49, 46, 48, 46, 48, 46, 57, 
    65, 52, 48, 53, 32, 40, 105, 80, 97, 100, 59, 32, 85, 59, 32, 67, 80, 85, 32, 79, 83, 
    32, 53, 95, 48, 95, 49, 32, 108, 105, 107, 101, 32, 77, 97, 99, 32, 79, 83, 32, 88, 
    59, 32, 122, 104, 95, 99, 110, 41, 13, 10, 65, 99, 99, 101, 112, 116, 58, 32, 42, 47, 
    42, 13, 10, 82, 97, 110, 103, 101, 58, 32, 98, 121, 116, 101, 115, 61, 48, 45, 13, 
    10, 67, 111, 110, 110, 101, 99, 116, 105, 111, 110, 58, 32, 107, 101, 101, 112, 45, 
    97, 108, 105, 118, 101, 13, 10, 72, 111, 115, 116, 58, 32, 104, 111, 115, 116, 13, 
    10, 13, 10] : Str)) := by
  rfl

/-- C16, as amended: for a fresh `http_open` (offset 0, no custom headers, no
headers on the `URLContext`, not segment media, opened for reading) with
keep-alive enabled whose first connection attempt gets a connection that takes
the request, the first request sent is the GET of `http_open_request`: its
header block is the `User-Agent` and `Accept` lines, `Range: bytes=0-`,
`Connection: keep-alive` and the `Host` line, and the request is cut at the
4095 bytes `s->buffer` holds. -/
theorem http_open_first_request (e : Env) (fuel : Nat) (s : HTTPContext) (w : World)
    (uri : Str) (flags : Nat) (ret : Int) (s2 : HTTPContext) (w2 : World)
    (s1 : HTTPContext) (w1 : World) (id : Nat)
    (hka : e.enable_http_keepalive ≠ 0) (hhdr : cstr s.headers = [])
    (hurl : s.h_headers = none) (hmedia : s.h_is_segment_media = 0) (hoff : s.off = 0)
    (hget : hasFlag s.h_flags AVIO_FLAG_WRITE = false)
    (hlink : http_open_cnx_link e
      { http_open_init e s uri flags with latest_get_time_ms := 0 } (av_gettime w).2
        = (none, s1, w1))
    (hid : s1.hd = some id)
    (hwr : 0 ≤ (ffurl_write w1 id (cstr (http_open_request e s uri flags))).1)
    (h : http_open e fuel s w uri flags = some (ret, s2, w2)) :
    (∃ rest : List Str,
      requestsWritten w2
        = requestsWritten w ++ cstr (http_open_request e s uri flags) :: rest) ∧
    http_open_request e s uri flags
      = (str_GET ++ [32]
          ++ cstr (http_open_cnx_target e (http_open_init e s uri flags)).2.2.2.2
          ++ str_HTTP11_crlf
          ++ ([85, 115, 101, 114, 45, 65, 103, 101, 110, 116, 58, 32] ++ IPAD_IDENT ++ str_crlf
              ++ str_Accept_line ++ ([82, 97, 110, 103, 101, 58, 32, 98, 121, 116, 101, 115, 61, 48, 45, 13, 10] : Str) ++ str_Conn_keep_alive_line
              ++ (([72, 111, 115, 116, 58, 32] : Str) ++ cstr (http_open_cnx_target e (http_open_init e s uri flags)).2.2.1
                  ++ str_crlf))
          ++ (match e.ff_http_auth_create_response (http_open_init e s uri flags).auth_state
                (http_open_cnx_target e (http_open_init e s uri flags)).2.2.2.1
                (http_open_cnx_target e (http_open_init e s uri flags)).2.2.2.2 str_GET with
              | some a => cstr a
              | none => [])
          ++ str_crlf).take (BUFFER_SIZE - 1) := by
  constructor
  · obtain ⟨hl1, hl2, hl3, _⟩ := http_open_cnx_link_log e _ _ _ _ _ hlink
    have hreq : http_request e s1
        (http_open_cnx_target e (http_open_init e s uri flags)).2.2.2.2
        (http_open_cnx_target e (http_open_init e s uri flags)).2.2.1
        (http_open_cnx_target e (http_open_init e s uri flags)).2.2.2.1
        = http_open_request e s uri flags := by
      rw [hl3]
      rfl
    unfold http_open at h
    simp only at h
    split at h
    · simp at h
    · rename_i r sA wA hcnx
      split at h
      · simp at h
      · rename_i r2 sB wB hretry
        simp only [Option.some.injEq, Prod.mk.injEq] at h
        have hlast : w2.log = wB.log := by rw [← h.2.2]; rfl
        have hBA : LogExt wA wB := http_open_retry_logExt _ _ _ _ _ _ _ _ _ _ hretry
        unfold http_open_cnx at hcnx
        obtain ⟨n, hn⟩ : ∃ n, fuel = n + 1 := by
          cases fuel with
          | zero => simp [http_open_cnx_loop] at hcnx
          | succ n => exact ⟨n, Eq.refl _⟩
        have hpass : ∃ out : PassOut, http_open_cnx_pass e fuel
            { http_open_init e s uri flags with latest_get_time_ms := 0 } (av_gettime w).2 0 0
            = some out := by
          cases hp : http_open_cnx_pass e fuel
            { http_open_init e s uri flags with latest_get_time_ms := 0 } (av_gettime w).2 0 0
            with
          | none =>
            rw [hn] at hcnx
            rw [http_open_cnx_loop, ← hn, hp] at hcnx
            simp at hcnx
          | some out => exact ⟨out, Eq.refl _⟩
        obtain ⟨out, hp⟩ := hpass
        have hafter : LogExt (passWorld out) wA := by
          rw [hn] at hcnx hp
          exact http_open_cnx_loop_after_pass _ _ _ _ _ _ _ _ _ _ _ hcnx hp
        unfold http_open_cnx_pass at hp
        rw [hlink] at hp
        simp only at hp
        split at hp
        · simp at hp
        · rename_i rc sc wc lc hconn
          simp only [Option.some.injEq] at hp
          have hconn2 : http_connect e fuel s1 w1
              (http_open_cnx_target e (http_open_init e s uri flags)).2.2.2.2
              (http_open_cnx_target e (http_open_init e s uri flags)).2.2.1
              (http_open_cnx_target e (http_open_init e s uri flags)).2.2.2.1 0
              = some (rc, sc, wc, lc) := hconn
          have hcl := http_connect_log _ _ _ _ _ _ _ _ _ _ _ _ hconn2
          rw [hreq] at hcl
          rcases hcl with ⟨_, _, _, hbad⟩ | ⟨id2, hid2, _, hwlog⟩
          · rcases hbad with hbad | ⟨id2, hid2, hneg⟩
            · rw [hid] at hbad; simp at hbad
            · rw [hid] at hid2
              simp only [Option.some.injEq] at hid2
              rw [← hid2] at hneg
              omega
          · obtain ⟨l1, hl1'⟩ : LogExt wc wB := by
              refine logExt_trans ?_ (logExt_trans hafter hBA)
              rw [← hp]
              exact http_open_cnx_decide_logExt _ _ _ _ _ _
            refine ⟨requestsWritten { wc with log := l1 }, ?_⟩
            have e1 : requestsWritten w2 = requestsWritten wB := by
              unfold requestsWritten; rw [hlast]
            have e2 := requestsWritten_of_log wc wB l1 hl1'
            have e3 : requestsWritten wc
                = requestsWritten w1 ++ [cstr (http_open_request e s uri flags)] := by
              unfold requestsWritten
              rw [hwlog, List.filterMap_append]
              rfl
            have e4 : requestsWritten w1 = requestsWritten w := hl2
            rw [e1, e2, e3, e4]
            simp
  · unfold http_open_request http_request
    have hpost : hasFlag (http_open_init e s uri flags).h_flags AVIO_FLAG_WRITE = false := hget
    rw [http_open_request_headers e s uri flags _ hka hhdr hurl hmedia hoff]
    have key := take_append_take (1024 * 4 - 1)
      (str_GET ++ [32] ++ cstr (http_open_cnx_target e (http_open_init e s uri flags)).2.2.2.2
        ++ str_HTTP11_crlf)
      ([85, 115, 101, 114, 45, 65, 103, 101, 110, 116, 58, 32] ++ IPAD_IDENT ++ str_crlf
        ++ str_Accept_line ++ ([82, 97, 110, 103, 101, 58, 32, 98, 121, 116, 101, 115, 61, 48, 45, 13, 10] : Str) ++ str_Conn_keep_alive_line
        ++ (([72, 111, 115, 116, 58, 32] : Str) ++ cstr (http_open_cnx_target e (http_open_init e s uri flags)).2.2.1
            ++ str_crlf))
      ((match e.ff_http_auth_create_response (http_open_init e s uri flags).auth_state
          (http_open_cnx_target e (http_open_init e s uri flags)).2.2.2.1
          (http_open_cnx_target e (http_open_init e s uri flags)).2.2.2.2 str_GET with
        | some a => cstr a
        | none => []) ++ str_crlf)
    simp only [hpost, Bool.false_eq_true, if_false, false_and, List.append_nil,
      List.append_assoc] at key ⊢
    exact key

set_option maxRecDepth 100000 in
/-- Witness of C16 as amended: `http_open` of `http://host/video.ts` on a
peer that answers with a 200. -/
theorem http_open_first_request_witness :
    (requestsWritten okOpened.2.2).head?
      = some (cstr (http_open_request demoEnv zeroContext demoUri AVIO_FLAG_READ)) := by
  obtain ⟨rest, h⟩ := (http_open_first_request demoEnv 100 zeroContext okWorld demoUri
    AVIO_FLAG_READ okOpened.1 okOpened.2.1 okOpened.2.2 okFirstLink.2.1 okFirstLink.2.2 0
    (by decide) (Eq.refl _) (Eq.refl _) (Eq.refl _) (Eq.refl _) (by decide)
    (prod_eq_of_fst okFirstLink none (by rfl)) (by rfl) (by decide)
    (option_eq_some_triple _ (0, zeroContext, deadWorld) (by rfl))).1
  rw [h]
  rfl

set_option maxRecDepth 100000 in
/-- Counterexample to C12: after a response with `Content-Length: 0` that is
followed by three more bytes, the session is at offset 0 with total size 0, and
`http_read` returns 3, delivers the three bytes from its buffer and moves the
offset to 3. -/
theorem http_read_delivers_past_end :
    openThenRead respEmptyPlus = some (0, 0, 3, ([97, 98, 99] : Str), 3) := by
  rfl

/-- C12, as amended: with the total size known and the offset at or past
it, `http_read` returns 0, delivers nothing, leaves the session as it is and
touches no connection, when the total size is positive and the offset equals
it, or else when the cancellation signal is not set, the session is not in
chunked mode and the read buffer is empty. -/
theorem http_read_at_end (e : Env) (fuel : Nat) (s : HTTPContext) (w : World) (size : Int)
    (hfs : 0 ≤ s.filesize) (hoff : s.filesize ≤ s.off) (hfuel : 1 ≤ fuel)
    (h : (0 < s.filesize ∧ s.off = s.filesize) ∨
      ((url_interrupt_cb w).1 = false ∧ s.chunksize < 0 ∧ s.buf = [])) :
    ∃ w2 : World, http_read e fuel s w size = some (0, [], s, w2) ∧ w2.links = w.links ∧
      w2.log = w.log := by
  by_cases c : s.filesize > 0 ∧ s.off = s.filesize
  · refine ⟨w, ?_, Eq.refl _, Eq.refl _⟩
    unfold http_read
    rw [if_pos c]
  · rcases h with h | ⟨hi, hc, hb⟩
    · exact absurd h c
    · obtain ⟨n, hn⟩ : ∃ n, fuel = n + 1 := ⟨fuel - 1, by omega⟩
      refine ⟨(url_interrupt_cb w).2, ?_, Eq.refl _, Eq.refl _⟩
      unfold http_read
      rw [if_neg c]
      conv => lhs; arg 1; rw [hn]
      unfold http_read_loop
      have hchunk : http_read_chunk fuel s (url_interrupt_cb w).2 size
          = some (none, s, (url_interrupt_cb w).2, size) := by
        unfold http_read_chunk
        rw [if_neg (by omega)]
      have hfetch : http_read_fetch s (url_interrupt_cb w).2 size = Fetch.eof := by
        unfold http_read_fetch
        rw [if_neg (by rw [hb]; simp), if_pos ⟨hfs, hoff⟩]
      simp only [hi, Bool.false_eq_true, if_false, hchunk, hfetch]

/-- Witness of C12 as amended: a session at the end of its five bytes, and
one with an empty body. -/
theorem http_read_at_end_witness :
    (∃ w2 : World, http_read demoEnv 10 { zeroContext with filesize := 5, off := 5 }
      deadWorld 100 = some (0, [], { zeroContext with filesize := 5, off := 5 }, w2)
      ∧ w2.links = deadWorld.links ∧ w2.log = deadWorld.log) ∧
    (∃ w2 : World, http_read demoEnv 10 { zeroContext with chunksize := -1 }
      deadWorld 100 = some (0, [], { zeroContext with chunksize := -1 }, w2)
      ∧ w2.links = deadWorld.links ∧ w2.log = deadWorld.log) :=
  ⟨http_read_at_end demoEnv 10 { zeroContext with filesize := 5, off := 5 } deadWorld 100
      (by decide) (by decide) (by decide) (Or.inl ⟨by decide, Eq.refl _⟩),
   http_read_at_end demoEnv 10 { zeroContext with chunksize := -1 } deadWorld 100
      (by decide) (by decide) (by decide) (Or.inr ⟨Eq.refl _, by decide, Eq.refl _⟩)⟩

set_option maxRecDepth 100000 in
/-- Counterexample to C11: after a response with `Content-Length: 5` that is
followed by ten bytes, the session is at offset 0 with total size 5, and an
`http_read` of up to 100 bytes returns 10, delivers all ten bytes and moves the
offset to 10, past the total size. -/
theorem http_read_offset_past_size :
    openThenRead respFivePlus = some (5, 0, 10, ([104, 101, 108, 108, 111, 119, 111, 114, 108, 100] : Str), 10) := by
  rfl

/-- C11, as amended: with the total size known and the offset not past it,
an `http_read` that is not in chunked mode, asks for no more than the remaining
length and sends no new request keeps the total size known and unchanged and
leaves the offset not past it, whatever the transport delivers: the offset stays, or advances by the
count returned, which is at most the size asked for. -/
theorem http_read_offset_bound (e : Env) (fuel : Nat) (s : HTTPContext) (w : World)
    (size r : Int) (bytes : Str) (s2 : HTTPContext) (w2 : World)
    (h : http_read e fuel s w size = some (r, bytes, s2, w2))
    (hfs : 0 ≤ s.filesize) (hoff : s.off ≤ s.filesize) (hc : s.chunksize < 0)
    (hsize : size ≤ s.filesize - s.off)
    (hq : requestsWritten w2 = requestsWritten w) :
    0 ≤ s2.filesize ∧ s2.filesize = s.filesize ∧ s2.off ≤ s2.filesize ∧
      (s2.off = s.off ∨ (0 < r ∧ r ≤ size ∧ s2.off = s.off + r)) := by
  have key : s2.filesize = s.filesize ∧
      (s2.off = s.off ∨ (0 < r ∧ r ≤ size ∧ s2.off = s.off + r)) := by
    unfold http_read at h
    by_cases c : s.filesize > 0 ∧ s.off = s.filesize
    · rw [if_pos c] at h
      simp only [Option.some.injEq, Prod.mk.injEq] at h
      rw [← h.2.2.1]
      exact ⟨Eq.refl _, Or.inl (Eq.refl _)⟩
    · rw [if_neg c] at h
      exact (http_read_loop_bound _ _ _ _ _ _ _ _ _ _ _ h).2 hc (by rw [hq])
  refine ⟨by omega, key.1, ?_, key.2⟩
  rcases key.2 with h1 | h1 <;> omega

set_option maxRecDepth 100000 in
/-- Witness of C11 as amended: a read of up to five bytes on the session
opened on the response that announces five bytes and sends ten. -/
theorem http_read_offset_bound_witness :
    0 ≤ fiveRead.2.2.1.filesize ∧ fiveRead.2.2.1.filesize = fiveOpened.2.1.filesize ∧
      fiveRead.2.2.1.off ≤ fiveRead.2.2.1.filesize ∧
      (fiveRead.2.2.1.off = fiveOpened.2.1.off ∨
        (0 < fiveRead.1 ∧ fiveRead.1 ≤ 5 ∧ fiveRead.2.2.1.off = fiveOpened.2.1.off + fiveRead.1)) :=
  http_read_offset_bound demoEnv 100 fiveOpened.2.1 fiveOpened.2.2 5 fiveRead.1 fiveRead.2.1
    fiveRead.2.2.1 fiveRead.2.2.2
    (option_eq_some_quad_all _ (0, [], zeroContext, deadWorld) (by rfl))
    (by decide) (by decide) (by decide) (by decide) (by rfl)

/-- C13: let `blocks` be non-empty blocks, each of a length an `int` holds.
The bytes a session in chunked mode sends when `http_write` is called on each
block in turn and the session is then closed (which sends the footer `0`, CR
LF, CR LF) are fed, split in any way, to a session in chunked mode with
`chunksize` 0, no total size and nothing to skip, that is not cancelled and
whose clock does not jump. Then `http_read`, called with any positive sizes,
as long as it returns a positive count, delivers the concatenation of the
blocks, and the call after that returns 0. -/
theorem http_write_read_round_trip (e : Env) (fuel n : Nat) (sw : HTTPContext) (ww : World)
    (idw : Nat) (lw : Link) (sr : HTTPContext) (wr : World) (size : Nat → Int)
    (blocks : List Str)
    (hblocks : ∀ b ∈ blocks, b ≠ [] ∧ b.length < 2 ^ 31)
    (hwhd : sw.hd = some idw) (hwl : ww.links.get? idw = some lw) (hwf : lw.wfail = false)
    (hwc : sw.chunksize ≠ -1) (hwflag : hasFlag sw.flags AVIO_FLAG_WRITE = true)
    (hfeed : Feeds sr wr (chunked_upload sw ww blocks)) (hcalm : Calm wr)
    (hrc : sr.chunksize = 0) (hrf : sr.filesize < 0) (hrs : sr.do_readseek_size ≤ 0)
    (hsize : ∀ k, 0 < size k) (hfuel : 10 ≤ fuel) (hn : blocks.flatten.length < n) :
    ∃ (s2 : HTTPContext) (w2 : World),
      http_read_all n e fuel sr wr size = some (0, blocks.flatten, s2, w2) := by
  rw [chunked_upload_eq sw ww idw lw blocks hwhd hwl hwf hwc hwflag hblocks] at hfeed
  have hdec : Decoding sr wr [] blocks :=
    ⟨by rw [hrc]; rfl, hrf, hrs, hcalm, by norm_num, hblocks, ⟨[], Or.inl (Eq.refl _), hfeed⟩⟩
  obtain ⟨s2, w2, h⟩ := http_read_all_decoding n e fuel sr wr size [] blocks hdec hsize hfuel
    (by simpa using hn)
  exact ⟨s2, w2, by simpa using h⟩
set_option maxRecDepth 100000 in
/-- Witness of C13: the blocks `hello` and `wor`, read back three bytes at a
time from a connection that delivers the upload in two pieces. -/
theorem http_write_read_round_trip_witness :
    ∃ (s2 : HTTPContext) (w2 : World),
      http_read_all 9 demoEnv 10 downloadSession downloadWorld (fun _ => 3)
        = some (0, demoBlocks.flatten, s2, w2) :=
  http_write_read_round_trip demoEnv 10 9 uploadSession uploadWorld 0 uploadLink
    downloadSession downloadWorld (fun _ => 3) demoBlocks (by decide) (Eq.refl _) (Eq.refl _)
    (Eq.refl _) (by decide) (by decide)
    ⟨0, { uploadLink with rd :=
        [RdEv.data ((chunked_upload uploadSession uploadWorld demoBlocks).take 4),
         RdEv.data ((chunked_upload uploadSession uploadWorld demoBlocks).drop 4)] },
      Eq.refl _, Eq.refl _,
      allData_cons _ _ (by decide) (allData_cons _ _ (by decide) allData_nil), by rfl⟩
    ⟨fun _ => Eq.refl _, fun _ => (by decide : (0 : Int) ≤ 0 + 10000000)⟩ (Eq.refl _)
    (by decide) (by decide) (fun _ => (by decide : (0 : Int) < 3)) (by decide) (by decide)

/-- C23: `http_seek` with `whence = AVSEEK_SIZE` returns the total size the
session records (which is -1 when it is unknown), whatever the session, the
offset argument and the state of the world are; the session and the world are
the same afterwards, so nothing is read, written, opened, closed or polled. -/
theorem http_seek_size_query (e : Env) (fuel : Nat) (s : HTTPContext) (w : World) (off : Int) :
    http_seek e fuel s w off AVSEEK_SIZE = some (s.filesize, s, w) := by
  unfold http_seek
  rw [if_pos (Eq.refl _)]

/-- C28: when the `http_open_cnx` that `http_reopen_cnx` calls fails,
`http_reopen_cnx` returns -1 with the session offset as it was before the call.
If the previous connection was retained as a fallback (`max_connects > 1` and
a connection was held), the session has that connection, its chunk size and
its unread buffered bytes again, and `max_connects` is 1; otherwise it is left
without connection, with an empty read buffer and `chunksize = -1`. -/
theorem http_reopen_cnx_failure (e : Env) (fuel : Nat) (s : HTTPContext) (w : World)
    (off r1 : Int) (s1 : HTTPContext) (w1 : World)
    (hopen : http_open_cnx e fuel (http_reopen_cnx_session s off) (http_reopen_cnx_world s w)
      = some (r1, s1, w1))
    (hfail : r1 < 0) :
    ∃ s2 : HTTPContext, http_reopen_cnx e fuel s w off = some (-1, s2, w1) ∧ s2.off = s.off ∧
      ((s.max_connects > 1 ∧ s.hd.isSome) →
        s2.hd = s.hd ∧ s2.chunksize = s.chunksize ∧ s2.buf = s.buf ∧ s2.max_connects = 1) ∧
      (¬ (s.max_connects > 1 ∧ s.hd.isSome) →
        s2.hd = none ∧ s2.buf = [] ∧ s2.chunksize = -1) :=
  http_reopen_cnx_failed e fuel s w off r1 s1 w1 hopen hfail

set_option maxRecDepth 100000 in
/-- Witness of C28: a reconnect at offset 7 that is refused, on a session at
offset 3 that holds connection 0 and no fallback. -/
theorem http_reopen_cnx_failure_witness :
    ∃ s2 : HTTPContext,
      http_reopen_cnx demoEnv 10 { sessOn0 with buf := ([97, 98] : Str), chunksize := 5, off := 3 }
        uploadWorld 7 = some (-1, s2, refusedReopen.2.2) ∧
      s2.off = 3 ∧ s2.hd = none ∧ s2.buf = [] ∧ s2.chunksize = -1 := by
  obtain ⟨s2, h, ho, _, hn⟩ := http_reopen_cnx_failure demoEnv 10
    { sessOn0 with buf := ([97, 98] : Str), chunksize := 5, off := 3 } uploadWorld 7
    refusedReopen.1 refusedReopen.2.1 refusedReopen.2.2
    (option_eq_some_triple _ (0, zeroContext, deadWorld) (by rfl)) (by decide)
  exact ⟨s2, h, ho, hn (by decide)⟩

/-- C27: `http_open` calls `http_open_cnx` at most `max(1, R)` times, `R`
being the configured retry ceiling; every call after the first is made with
`is_seek = 0` and `canseek = 0`; and whenever `http_open` returns, the session
has `is_seek = 0`. -/
theorem http_open_attempts (e : Env) (fuel : Nat) (s : HTTPContext) (w : World) (uri : Str)
    (flags : Nat) :
    ((http_open_calls e fuel s w uri flags).length : Int) ≤ max 1 e.config_rettry ∧
    (∀ c ∈ (http_open_calls e fuel s w uri flags).tail, c.is_seek = 0 ∧ c.canseek = 0) ∧
    (∀ (r : Int) (s2 : HTTPContext) (w2 : World),
      http_open e fuel s w uri flags = some (r, s2, w2) → s2.is_seek = 0) := by
  refine ⟨?_, ?_, ?_⟩
  · unfold http_open_calls
    cases ho : http_open_cnx e fuel (http_open_init e s uri flags) (av_gettime w).2 with
    | none =>
      simp only [List.length_cons, List.length_nil]
      omega
    | some p =>
      obtain ⟨r, s1, w1⟩ := p
      simp only [List.length_cons]
      have := http_open_retry_calls_length fuel e fuel s1 w1 r 0
      omega
  · unfold http_open_calls
    cases ho : http_open_cnx e fuel (http_open_init e s uri flags) (av_gettime w).2 with
    | none =>
      intro c hc
      simp at hc
    | some p =>
      obtain ⟨r, s1, w1⟩ := p
      intro c hc
      exact http_open_retry_calls_flags fuel e fuel s1 w1 r 0 c hc
  · intro r s2 w2 h
    unfold http_open at h
    simp only at h
    split at h
    · simp at h
    · split at h
      · simp at h
      · simp only [Option.some.injEq, Prod.mk.injEq] at h
        rw [← h.2.1]

/-- C30: in every session state reachable from `http_open` or `shttp_open`
through the entry points of the handler, `max_connects = 1`. Consequently, in
every call of `http_reopen_cnx` that `http_read` or `http_seek` makes from such
a state, the session has `max_connects = 1`, the connection it holds is closed
before the new `http_open_cnx` runs, and when that `http_open_cnx` fails the
fallback branch is not taken: the session is left without connection, with an
empty buffer and `chunksize = -1`. -/
theorem max_connects_one (e : Env) (s : HTTPContext) (hs : Reachable e s) :
    s.max_connects = 1 ∧
    ∀ (fuel : Nat) (w : World) (size off whence : Int),
      ∀ c ∈ http_read_reopen_calls e fuel s w size ++ http_seek_reopen_calls e fuel s w off whence,
        c.1.max_connects = 1 ∧
        (∀ id : Nat, c.1.hd = some id →
          http_reopen_cnx_world c.1 c.2 = tcppool_close_tcplink c.2 id) ∧
        (∀ (tgt r : Int) (s2 : HTTPContext) (w2 : World),
          http_reopen_cnx e fuel c.1 c.2 tgt = some (r, s2, w2) →
          ∃ (r1 : Int) (s1 : HTTPContext) (w1 : World),
            http_open_cnx e fuel (http_reopen_cnx_session c.1 tgt) (http_reopen_cnx_world c.1 c.2)
              = some (r1, s1, w1) ∧
            (r1 < 0 → r = -1 ∧ s2.hd = none ∧ s2.buf = [] ∧ s2.chunksize = -1 ∧ w2 = w1)) := by
  have hm := reachable_max e s hs
  refine ⟨hm, fun fuel w size off whence c hc => ?_⟩
  have hc1 : c.1.max_connects = 1 := by
    rcases List.mem_append.mp hc with h | h
    · exact http_read_reopen_calls_max e fuel s w size hm c h
    · exact http_seek_reopen_calls_max e fuel s w off whence hm c h
  exact ⟨hc1, fun id hid => http_reopen_cnx_world_single c.1 c.2 id hc1 hid,
    fun tgt r s2 w2 h => http_reopen_cnx_single e fuel c.1 c.2 tgt r s2 w2 hc1 h⟩
set_option maxRecDepth 100000 in
/-- Witness of C30: the session `http_open` leaves in `vanishingWorld` is
reachable and has `max_connects = 1`, and so have the sessions of the four
calls of `http_reopen_cnx` that a seek to offset 2 makes from it. -/
theorem max_connects_one_witness :
    Reachable demoEnv rangeOpened.2.1 ∧ rangeOpened.2.1.max_connects = 1 ∧
    (http_seek_reopen_calls demoEnv 100 rangeOpened.2.1 rangeOpened.2.2 2 SEEK_SET).length = 4 ∧
    ∀ c ∈ http_seek_reopen_calls demoEnv 100 rangeOpened.2.1 rangeOpened.2.2 2 SEEK_SET,
      c.1.max_connects = 1 :=
  have hr : Reachable demoEnv rangeOpened.2.1 :=
    Reachable.opened 100 zeroContext vanishingWorld demoUri AVIO_FLAG_READ rangeOpened.1
      rangeOpened.2.1 rangeOpened.2.2
      (option_eq_some_triple _ (0, zeroContext, deadWorld) (by rfl))
  ⟨hr, (max_connects_one demoEnv rangeOpened.2.1 hr).1, by rfl,
    fun c hc => ((max_connects_one demoEnv rangeOpened.2.1 hr).2 100 rangeOpened.2.2 0 2 SEEK_SET c
      (List.mem_append_right _ hc)).1⟩

set_option maxRecDepth 100000 in
/-- C22, as the code behaves: on a session opened on a 3000000000-byte
resource whose server honours ranges, `http_reopen_cnx` to offset 2147483648
reconnects successfully (status 206, session offset 2147483648, connection 1)
and returns -2147483648, not the offset; `http_seek` to that offset therefore
calls `http_reopen_cnx` four times and opens four connections after the first,
where a seek to offset 2147483647 calls it once. -/
theorem http_reopen_cnx_narrows :
    (http_reopen_cnx demoEnv 100 { (bigOpened headBigHigh).2.1 with is_seek := 1 }
        (bigOpened headBigHigh).2.2 2147483648).map
      (fun r => (r.1, r.2.1.off, r.2.1.hd, r.2.1.http_code))
      = some (-2147483648, 2147483648, some 1, 206) ∧
    (http_seek_reopen_calls demoEnv 100 (bigOpened headBigHigh).2.1 (bigOpened headBigHigh).2.2
      2147483648 SEEK_SET).length = 4 ∧
    (http_seek demoEnv 100 (bigOpened headBigHigh).2.1 (bigOpened headBigHigh).2.2
        2147483648 SEEK_SET).map (fun r => (r.1, r.2.2.nopen)) = some (2147483648, 5) ∧
    (http_reopen_cnx demoEnv 100 { (bigOpened headBigLow).2.1 with is_seek := 1 }
        (bigOpened headBigLow).2.2 2147483647).map
      (fun r => (r.1, r.2.1.off, r.2.1.hd, r.2.1.http_code))
      = some (2147483647, 2147483647, some 1, 206) ∧
    (http_seek_reopen_calls demoEnv 100 (bigOpened headBigLow).2.1 (bigOpened headBigLow).2.2
      2147483647 SEEK_SET).length = 1 ∧
    (http_seek demoEnv 100 (bigOpened headBigLow).2.1 (bigOpened headBigLow).2.2
        2147483647 SEEK_SET).map (fun r => (r.1, r.2.2.nopen)) = some (2147483647, 2) :=
  ⟨by rfl, by rfl, by rfl, by rfl, by rfl, by rfl⟩

set_option maxRecDepth 100000 in
/-- C21 fails as stated: with the cancellation signal set, `http_open_cnx`
returns `AVERROR(EIO)`, the value it returns without cancellation when the
connection is refused; and `http_read` returns `AVERROR(EIO)`, the value it
returns without cancellation when every read on the connection fails with the
I/O error `EIO`. -/
theorem cancelled_not_distinct :
    (http_open_cnx demoEnv 100 openedSession (cancelled okWorld)).map (fun r => r.1)
      = some (AVERROR EIO) ∧
    (http_open_cnx demoEnv 100 openedSession deadWorld).map (fun r => r.1)
      = some (AVERROR EIO) ∧
    (http_read demoEnv 100 resetOpened.2.1 (cancelled resetOpened.2.2) 10).map (fun r => r.1)
      = some (AVERROR EIO) ∧
    (http_read demoEnv 100 resetOpened.2.1 resetOpened.2.2 10).map (fun r => r.1)
      = some (AVERROR EIO) :=
  ⟨by rfl, by rfl, by rfl, by rfl⟩

/-- C21, amended: when the cancellation signal is set, `http_open_cnx`
returns `AVERROR(EIO)`, and so does `http_read` unless the offset has reached a
known total size (it then returns 0 without looking at the signal); the session
is as it was (`http_open_cnx` has reset the stall clock). `AVERROR(EIO)` is also
what `http_open_cnx` returns, without cancellation, when no connection to the
peer can be used. -/
theorem cancelled_returns_eio (e : Env) (fuel : Nat) (s : HTTPContext) (w : World) (size : Int)
    (h : (url_interrupt_cb w).1 = true) :
    http_open_cnx e (fuel + 1) s w
      = some (AVERROR EIO, { s with latest_get_time_ms := 0 }, (url_interrupt_cb w).2) ∧
    (¬ (s.filesize > 0 ∧ s.off = s.filesize) →
      http_read e (fuel + 1) s w size = some (AVERROR EIO, [], s, (url_interrupt_cb w).2)) ∧
    ((s.filesize > 0 ∧ s.off = s.filesize) →
      http_read e (fuel + 1) s w size = some (0, [], s, w)) ∧
    (∀ w0 : World, DeadPeer w0 → ReadSession s →
      ∃ (s2 : HTTPContext) (w2 : World),
        http_open_cnx e (fuel + 1) s w0 = some (AVERROR EIO, s2, w2)) := by
  refine ⟨?_, ?_, ?_, ?_⟩
  · have hl : http_open_cnx_link e { s with latest_get_time_ms := 0 } w
        = (some (PassOut.done (AVERROR EIO) { s with latest_get_time_ms := 0 }
            (url_interrupt_cb w).2), { s with latest_get_time_ms := 0 },
            (url_interrupt_cb w).2) := by
      unfold http_open_cnx_link
      simp only [h, if_true]
    unfold http_open_cnx
    rw [http_open_cnx_loop]
    unfold http_open_cnx_pass
    rw [hl]
  · intro hn
    unfold http_read
    rw [if_neg hn, http_read_loop]
    simp only [h, if_true]
  · intro hp
    unfold http_read
    rw [if_pos hp]
  · intro w0 hw hs
    obtain ⟨s2, w2, ho, _⟩ := http_open_cnx_dead_size e (fuel + 1) s w0 hw hs (by omega)
    exact ⟨s2, w2, ho⟩

set_option maxRecDepth 100000 in
/-- Witness of C21 (amended): an open and a read under cancellation. -/
theorem cancelled_returns_eio_witness :
    (url_interrupt_cb (cancelled okWorld)).1 = true ∧
    http_open_cnx demoEnv 100 openedSession (cancelled okWorld)
      = some (AVERROR EIO, { openedSession with latest_get_time_ms := 0 },
          (url_interrupt_cb (cancelled okWorld)).2) ∧
    http_read demoEnv 100 openedSession (cancelled okWorld) 10
      = some (AVERROR EIO, [], openedSession, (url_interrupt_cb (cancelled okWorld)).2) :=
  ⟨by rfl,
   (cancelled_returns_eio demoEnv 99 openedSession (cancelled okWorld) 10 (by rfl)).1,
   (cancelled_returns_eio demoEnv 99 openedSession (cancelled okWorld) 10 (by rfl)).2.1
     (by decide)⟩

set_option maxRecDepth 100000 in
/-- C29, as the code behaves: two reads that would block, 300 seconds
apart, on a connection opened with the default maximum wait. With the monotonic
clock at 1000 seconds the first read records 1000000 ms and the second is
converted into a link failure (it calls `http_reopen_cnx` once). With the clock
at 2147484 seconds the millisecond count does not fit the `int` stall clock: the
first read records -2147483296, which the second read takes for an unset clock,
so the second read is not converted (it returns `AVERROR(EAGAIN)` and makes no
call of `http_reopen_cnx`). -/
theorem stall_clock_wraps :
    stallTwice 1000 = some (0, (AVERROR EAGAIN, 1000000), (AVERROR EAGAIN, 1)) ∧
    stallTwice 2147484 = some (0, (AVERROR EAGAIN, -2147483296), (AVERROR EAGAIN, 0)) :=
  ⟨by rfl, by rfl⟩

/-- C25, amended: in chunked mode (`0 ≤ chunksize`), every pass through the
body of `http_read`, from the label `retry` to a `return` or a `goto retry`,
on a `size` that is an `int`: a cancelled pass leaves the session as it is;
otherwise a chunk-size line is read only when the remainder is 0 (with a
positive remainder the chunk part leaves session and world untouched), and when
the remainder `s1.chunksize` after that part is not negative, the bytes the
pass takes from the buffer or the connection are at most that remainder, and
the remainder after the pass is the remainder minus the bytes taken, and not
negative. -/
theorem http_read_pass_chunk (e : Env) (fuel : Nat) (s : HTTPContext) (w : World)
    (size err_retry : Int) (hlo : -2 ^ 31 ≤ size) (hhi : size < 2 ^ 31)
    (hc : 0 ≤ s.chunksize) :
    ((url_interrupt_cb w).1 = true →
      stepSession (http_read_pass e fuel s w size err_retry) = some s) ∧
    ((url_interrupt_cb w).1 = false →
      ∀ (o : Option Int) (s1 : HTTPContext) (w1 : World) (size1 : Int),
        http_read_chunk fuel s (url_interrupt_cb w).2 size = some (o, s1, w1, size1) →
        (0 < s.chunksize → s1 = s ∧ w1 = (url_interrupt_cb w).2) ∧
        (0 ≤ s1.chunksize →
          (o ≠ none →
            (stepSession (http_read_pass e fuel s w size err_retry)).map (fun x => x.chunksize)
              = some s1.chunksize) ∧
          (o = none →
            fetchTaken (http_read_fetch s1 w1 size1) ≤ s1.chunksize ∧
            0 ≤ s1.chunksize - fetchTaken (http_read_fetch s1 w1 size1) ∧
            (stepSession (http_read_pass e fuel s w size err_retry)).map (fun x => x.chunksize)
              = some (s1.chunksize - fetchTaken (http_read_fetch s1 w1 size1))))) := by
  refine ⟨fun hi => ?_, fun hi o s1 w1 size1 hchunk => ?_⟩
  · unfold http_read_pass
    simp only [hi, if_true]
    rfl
  · obtain ⟨hA, hB, hC⟩ := http_read_chunk_cases fuel s _ size o s1 w1 size1 hc hchunk
    refine ⟨fun hp => (hA hp).2, fun hpos => ⟨fun ho => ?_, fun ho => ?_⟩⟩
    · unfold http_read_pass
      simp only [hi, Bool.false_eq_true, if_false, hchunk]
      cases o with
      | none => exact absurd (Eq.refl _) ho
      | some r => rfl
    · obtain ⟨hne, hsz⟩ := hB ho
      have hcp : 0 < s1.chunksize := lt_of_le_of_ne hpos (Ne.symm hne)
      have hm1 : -2 ^ 31 ≤ min size s1.chunksize := le_min hlo (by omega)
      have hm2 : min size s1.chunksize < 2 ^ 31 := lt_of_le_of_lt (min_le_left _ _) hhi
      have hsz1 : size1 = min size s1.chunksize := by rw [hsz]; exact wrap32_id _ hm1 hm2
      have hle : fetchTaken (http_read_fetch s1 w1 size1) ≤ s1.chunksize := by
        refine le_trans (fetchTaken_le s1 w1 size1) (max_le hpos ?_)
        rw [hsz1]; exact min_le_right _ _
      refine ⟨hle, by omega, ?_⟩
      unfold http_read_pass
      simp only [hi, Bool.false_eq_true, if_false, hchunk]
      rw [ho]
      simp only
      cases hf : http_read_fetch s1 w1 size1 with
      | eof => simp [stepSession, fetchTaken]
      | nohd =>
        simp only
        split_ifs <;> simp [stepSession, fetchTaken]
      | got len bytes s2 w2 =>
        simp only
        have h2 := http_read_fetch_chunk _ _ _ _ _ _ _ hf
        have h3 := http_read_account_chunk e s2 w2 len
        have h4 : (http_read_account e s2 w2 len).2.1.chunksize = s1.chunksize - max 0 len := by
          rw [h3, h2]
          by_cases hl : len > 0
          · rw [if_pos ⟨hl, hcp⟩, max_eq_right (le_of_lt hl)]
          · rw [if_neg (fun h => hl h.1), max_eq_left (not_lt.mp hl)]
            omega
        split_ifs <;> simp [stepSession, fetchTaken, h4]

set_option maxRecDepth 100000 in
/-- C25 fails as stated. A read in chunked mode with 5 bytes of the chunk
left whose connection fails, the peer refusing the reconnect, consumes nothing
and leaves `chunksize = -1`. A read with 3 bytes of the chunk left and 3 bytes
to skip consumes those 3, reads the next chunk-size line and consumes 3 bytes
of the next chunk, all in one call and without reconnecting. A chunk-size line
`-5` makes the remainder -5. -/
theorem chunk_accounting_breaks :
    (http_read demoEnv 100 { plainSession with chunksize := 5 } brokenWorld 10).map
      (fun r => (r.1, r.2.1, r.2.2.1.chunksize)) = some (-1000, [], -1) ∧
    (http_read demoEnv 100 chunk3skip brokenWorld 10).map
      (fun r => (r.1, r.2.1, r.2.2.1.chunksize, r.2.2.1.buf))
      = some (3, ([100, 101, 102] : Str), 1, ([103, 13, 10, 48, 13, 10] : Str)) ∧
    http_read_reopen_calls demoEnv 100 chunk3skip brokenWorld 10 = [] ∧
    (http_read_chunk 100 { plainSession with chunksize := 0, buf := ([45, 53, 13, 10, 104, 101, 108, 108, 111] : Str) }
      brokenWorld 10).map (fun r => (r.1, r.2.1.chunksize)) = some (none, -5) :=
  ⟨by rfl, by rfl, by rfl, by rfl⟩

set_option maxRecDepth 100000 in
/-- Witness of C25 (amended): a pass on `chunk5` asked for 10 bytes takes 5
bytes, which is the remainder, and leaves the remainder 0; it reads no
chunk-size line. -/
theorem http_read_pass_chunk_witness :
    (-2 ^ 31 ≤ (10 : Int) ∧ (10 : Int) < 2 ^ 31 ∧ 0 ≤ chunk5.chunksize) ∧
    fetchTaken (http_read_fetch chunk5 (url_interrupt_cb brokenWorld).2 5) = 5 ∧
    fetchTaken (http_read_fetch chunk5 (url_interrupt_cb brokenWorld).2 5) ≤ chunk5.chunksize ∧
    (stepSession (http_read_pass demoEnv 100 chunk5 brokenWorld 10 2)).map
      (fun x => x.chunksize)
      = some (chunk5.chunksize
          - fetchTaken (http_read_fetch chunk5 (url_interrupt_cb brokenWorld).2 5)) :=
  have h := ((http_read_pass_chunk demoEnv 100 chunk5 brokenWorld 10 2 (by decide) (by decide)
      (by decide)).2 (by rfl) none chunk5 (url_interrupt_cb brokenWorld).2 5 (by rfl)).2
      (by decide)
  ⟨⟨by decide, by decide, by decide⟩, by rfl, (h.2 (Eq.refl _)).1, (h.2 (Eq.refl _)).2.2⟩

set_option maxRecDepth 100000 in
/-- C26 fails as stated. In `redirectingWorld` the reply to the ninth
request is accepted by `http_connect` with status 302 and a `Location` header,
and the request is not issued again: the open ends with `AVERROR(EIO)` after
nine requests. In `challengingWorld` the reply to the first request is accepted
by `http_connect` with status 401 and no `Location` header, and the open
neither ends with success nor stops there: it ends with `AVERROR(EIO)` after
two requests. -/
theorem redirect_rule_breaks :
    (http_open_cnx_reply demoEnv 100 after8Redirects.1 after8Redirects.2 0).map
      (fun r => (r.1, r.2.1.http_code, r.2.2.2, requestsSent r.2.2.1)) = some (0, 302, 1, 9) ∧
    (http_open_cnx demoEnv 100 openedSession redirectingWorld).map
      (fun r => (r.1, requestsSent r.2.2)) = some (AVERROR EIO, 9) ∧
    (http_open_cnx_reply demoEnv 100 { openedSession with latest_get_time_ms := 0 }
      challengingWorld 0).map
      (fun r => (r.1, r.2.1.http_code, r.2.2.2, requestsSent r.2.2.1)) = some (0, 401, 0, 1) ∧
    (http_open_cnx demoEnv 100 openedSession challengingWorld).map
      (fun r => (r.1, requestsSent r.2.2)) = some (AVERROR EIO, 2) :=
  ⟨by rfl, by rfl, by rfl, by rfl⟩

/-- C26, amended: take a pass of `http_open_cnx` that starts with
`location_changed = 0` (the first pass, and every pass after a redirect was
followed) and `rd` redirects followed so far, and whose reply `http_connect`
accepts (`0 ≤ ret`), `lc` being `location_changed` afterwards, which is 1 when
a `Location` header was read in the reply. When the status is not 401: the
passes go on at the new location exactly when the status is 301, 302, 303 or
307, `lc = 1` and `rd < 8`; with such a status, `lc = 1` and `rd ≥ 8` the open
ends with `AVERROR(EIO)`; in every other case it ends with 0 in the session and
world the reply left, so without a further request. When the status is 401 the
pass ends in the retry with credentials or in the failure exit. -/
theorem http_open_cnx_redirect_rule (e : Env) (fuel : Nat) (s : HTTPContext) (w : World)
    (rd ret : Int) (s2 : HTTPContext) (w2 : World) (lc : Int) (n : Nat)
    (hreply : http_open_cnx_reply e fuel s w 0 = some (ret, s2, w2, lc))
    (hret : 0 ≤ ret) :
    (s2.http_code ≠ 401 →
      ((isRedirectCode s2.http_code ∧ lc = 1) → rd < MAX_REDIRECTS →
        http_open_cnx_pass e fuel s w 0 rd
          = some (PassOut.redo Redo.moved (follow_redirect s2 w2).1 (follow_redirect s2 w2).2
              0 (rd + 1)) ∧
        http_open_cnx_loop (n + 1) e fuel s w 0 rd
          = http_open_cnx_loop n e fuel (follow_redirect s2 w2).1 (follow_redirect s2 w2).2
              0 (rd + 1)) ∧
      ((isRedirectCode s2.http_code ∧ lc = 1) → MAX_REDIRECTS ≤ rd →
        http_open_cnx_loop (n + 1) e fuel s w 0 rd
          = some (AVERROR EIO, (http_close_and_keep s2 w2 0).2.1,
              (http_close_and_keep s2 w2 0).2.2)) ∧
      (¬ (isRedirectCode s2.http_code ∧ lc = 1) →
        http_open_cnx_loop (n + 1) e fuel s w 0 rd = some (0, s2, w2))) ∧
    (s2.http_code = 401 →
      http_open_cnx_pass e fuel s w 0 rd
          = some (PassOut.redo Redo.auth (http_close_and_keep s2 w2 0).2.1
              (http_close_and_keep s2 w2 0).2.2 lc rd) ∨
      http_open_cnx_pass e fuel s w 0 rd = some (http_open_cnx_fail s2 w2)) := by
  have hp := http_open_cnx_pass_of_reply e fuel s w 0 rd ret s2 w2 lc hreply
  refine ⟨fun hcode => ⟨fun hr hlt => ?_, fun hr hge => ?_, fun hn => ?_⟩, fun h401 => ?_⟩
  · have hd : http_open_cnx_decide s2 w2 ret s.auth_state.auth_type lc rd
        = PassOut.redo Redo.moved (follow_redirect s2 w2).1 (follow_redirect s2 w2).2
            0 (rd + 1) := by
      rw [hr.2, http_open_cnx_decide_redirect s2 w2 ret _ rd hret hr.1,
        if_neg (not_le.mpr hlt)]
    rw [hd] at hp
    refine ⟨hp, ?_⟩
    rw [http_open_cnx_loop, hp]
  · have hd : http_open_cnx_decide s2 w2 ret s.auth_state.auth_type lc rd
        = PassOut.done (AVERROR EIO) (http_close_and_keep s2 w2 0).2.1
            (http_close_and_keep s2 w2 0).2.2 := by
      rw [hr.2, http_open_cnx_decide_redirect s2 w2 ret _ rd hret hr.1, if_pos hge]
    rw [hd] at hp
    rw [http_open_cnx_loop, hp]
  · have hd : http_open_cnx_decide s2 w2 ret s.auth_state.auth_type lc rd
        = PassOut.done 0 s2 w2 := by
      unfold http_open_cnx_decide
      unfold isRedirectCode at hn
      rw [if_neg (not_lt.mpr hret), if_neg hcode, if_neg hn]
    rw [hd] at hp
    rw [http_open_cnx_loop, hp]
  · rw [hp]
    unfold http_open_cnx_decide
    rw [if_neg (not_lt.mpr hret), if_pos h401]
    split_ifs
    · exact Or.inl (Eq.refl _)
    · exact Or.inr (Eq.refl _)

set_option maxRecDepth 100000 in
/-- Witness of C26 (amended): the reply to the first request in
`twoRedirectsWorld` is a 302 with a `Location` header, and the open goes on at
the new location. -/
theorem http_open_cnx_redirect_rule_witness :
    (0 ≤ firstReply.1 ∧ firstReply.2.1.http_code = 302 ∧ firstReply.2.2.2 = 1) ∧
    http_open_cnx_loop (99 + 1) demoEnv 100 { openedSession with latest_get_time_ms := 0 }
        twoRedirectsWorld 0 0
      = http_open_cnx_loop 99 demoEnv 100 (follow_redirect firstReply.2.1 firstReply.2.2.1).1
          (follow_redirect firstReply.2.1 firstReply.2.2.1).2 0 (0 + 1) :=
  ⟨⟨by decide, by rfl, by rfl⟩,
   (((http_open_cnx_redirect_rule demoEnv 100 { openedSession with latest_get_time_ms := 0 }
      twoRedirectsWorld 0 firstReply.1 firstReply.2.1 firstReply.2.2.1 firstReply.2.2.2 99
      (option_eq_some_quad_all _ (0, zeroContext, deadWorld, 0) (by rfl)) (by decide)).1
      (by decide)).1 ⟨by decide, by rfl⟩ (by decide)).2⟩
end LibPlayer
